import Mathlib

/-!
# Serial-Over-Ethernet: frame codec and port handler

A shallow embedding of the frame codec of `SOEClient` (`soeclient.cpp`) and of the
TX side of `SOEPortHandler` (`soeporthandler.cpp`), with the properties of the
specification stated over it.

Conventions of the embedding:
* a byte (`char`) is a natural number below 256; a buffer is a `List Nat`;
* `unsigned int` values are natural numbers below `2^32`, and every subtraction or
  addition the source performs on them is reduced modulo `2^32` explicitly;
* a `std::map<unsigned int, T>` is an association list kept sorted by key.
-/

/-! ## Machine arithmetic and memory helpers -/

/-- Modulus of `unsigned int` arithmetic. -/
def UINT_MOD : Nat := 2 ^ 32

/-- Modulus of `unsigned long` arithmetic (LP64). -/
def ULONG_MOD : Nat := 2 ^ 64

/-- Subtraction `a - b` on `unsigned int`. -/
def sub32 (a b : Nat) : Nat := (a + UINT_MOD - b % UINT_MOD) % UINT_MOD

/-- Addition `a + b` on `unsigned int`. -/
def add32 (a b : Nat) : Nat := (a + b) % UINT_MOD

/-- The call `memcpy(dst + doff, src + soff, n)`: the new content of `dst`, or `none`
when the copy would leave either buffer. -/
def memcpy (dst : List Nat) (doff : Nat) (src : List Nat) (soff n : Nat) : Option (List Nat) :=
  if doff + n ≤ dst.length ∧ soff + n ≤ src.length then
    some (dst.take doff ++ (src.drop soff).take n ++ dst.drop (doff + n))
  else none

/-- The four big-endian bytes of a length, as the specification words them. -/
def be32 (L : Nat) : List Nat :=
  [L / 2 ^ 24 % 256, L / 2 ^ 16 % 256, L / 2 ^ 8 % 256, L % 256]

namespace SOEClient

/-! ## `SOEClient::sendFrame` -/

/-- The header byte `frameStart` of `sendFrame`, stored in a `char`. -/
def frameStart (opc length : Nat) : Nat :=
  ((opc &&& 0x7) ||| ((if length > 30 then 31 else length) <<< 3)) % 256

/-- The total length `frameLen` of the buffer of `sendFrame`. -/
def frameLen (length : Nat) : Nat := (if length > 30 then 5 else 1) + length

/-- The buffer `sendFrame` builds: zero-initialised, header byte, the extended length
when `length > 30`, then the payload copied behind the header. -/
def frameBuffer (opc : Nat) (payload : List Nat) (length : Nat) : Option (List Nat) :=
  let buffer := List.replicate (frameLen length) 0
  let buffer := buffer.set 0 (frameStart opc length)
  let buffer :=
    if length > 30 then
      let buffer := buffer.set 4 ((length >>> 0) &&& 0xFF)
      let buffer := buffer.set 3 ((length >>> 8) &&& 0xFF)
      let buffer := buffer.set 2 ((length >>> 16) &&& 0xFF)
      buffer.set 1 ((length >>> 24) &&& 0xFF)
    else buffer
  memcpy buffer (if length > 30 then 5 else 1) payload 0 length

/-- `SOEClient::sendFrame(opc, payload, length)`: the bytes handed to `socket->send`,
or `none` when the socket is closed (the function returns false before building a
frame) or a copy would leave a buffer. -/
def sendFrame (socket_open : Bool) (opc : Nat) (payload : List Nat) (length : Nat) :
    Option (List Nat) :=
  if !socket_open then none else frameBuffer opc payload length

/-! ## The receive loop of `SOEClient::handleClientRX` -/

/-- The frame state and receive buffer of `handleClientRX`: `op_code` is `-1` while no
frame is being received, `pckg_buf` is the payload buffer of `pckg_len` bytes
(`[]` for the null pointer), `rxbuf` the whole `char rxbuf[INET_RX_BUF]` array and
`received` the number of its bytes still to be processed. -/
structure RxState where
  op_code : Int
  pckg_buf : List Nat
  pckg_len : Nat
  pckg_recv : Nat
  rxbuf : List Nat
  received : Nat
deriving DecidableEq, Repr

/-- Why the receive loop was left (`break`), or why an iteration cannot be completed:
`outOfBounds n` is a `memcpy` of `n` bytes that leaves one of its buffers. -/
inductive RxStop where
  | receiveFailed
  | socketClosed
  | incompleteHeader
  | lengthMismatch
  | outOfBounds (count : Nat)
deriving DecidableEq, Repr

/-- Result of one iteration of the loop: the next state together with the frame
`(op_code, payload)` handed to the opcode switch, if the payload was complete. -/
inductive RxOutcome where
  | running (s : RxState) (frame : Option (Nat × List Nat))
  | stopped (why : RxStop)
deriving DecidableEq, Repr

/-- Header decoding (lines 113-136): the opcode and the payload length, or `none`
for an incomplete header. -/
def decodeHeader (rxbuf : List Nat) (received : Nat) : Option (Nat × Nat) :=
  if received < 1 then none
  else
    let op_code := rxbuf.getD 0 0 &&& 0x7
    let pckg_len := (rxbuf.getD 0 0 &&& 0xF8) >>> 3
    if pckg_len = 31 then
      if received < 5 then none
      else
        let pckg_len := 0
        let pckg_len := pckg_len ||| ((rxbuf.getD 4 0 &&& 0xFF) <<< 0)
        let pckg_len := pckg_len ||| ((rxbuf.getD 3 0 &&& 0xFF) <<< 8)
        let pckg_len := pckg_len ||| ((rxbuf.getD 2 0 &&& 0xFF) <<< 16)
        let pckg_len := pckg_len ||| ((rxbuf.getD 1 0 &&& 0xFF) <<< 24)
        some (op_code, pckg_len % UINT_MOD)
    else some (op_code, pckg_len)

/-- The branch `op_code == -1` after the header is decoded (lines 138-162): allocate
the payload buffer, copy the payload bytes received so far, move what remains to the
front of `rxbuf`. The fresh payload buffer is modelled zero-filled; the copy inside
`rxbuf` moves bytes towards the front, so it reads every byte before overwriting it. -/
def startPayload (s : RxState) (op_code pckg_len : Nat) : Except RxStop RxState :=
  let headerLen := if pckg_len > 30 then 5 else 1
  let rempcklen :=
    if pckg_len > sub32 s.received headerLen then sub32 s.received headerLen else pckg_len
  match memcpy (List.replicate pckg_len 0) 0 s.rxbuf (if pckg_len > 30 then 5 else 1)
      rempcklen with
  | none => .error (.outOfBounds rempcklen)
  | some pckg_buf =>
    let reminder := sub32 (sub32 s.received rempcklen) headerLen
    match (if reminder > 0 then memcpy s.rxbuf 0 s.rxbuf (rempcklen + headerLen) reminder
           else some s.rxbuf) with
    | none => .error (.outOfBounds reminder)
    | some rxbuf =>
      .ok { op_code := op_code, pckg_buf := pckg_buf, pckg_len := pckg_len,
            pckg_recv := rempcklen, rxbuf := rxbuf, received := reminder }

/-- The branch `op_code == -1` (lines 111-162): start a new frame from the bytes in
`rxbuf`. -/
def startFrame (s : RxState) : Except RxStop RxState :=
  match decodeHeader s.rxbuf s.received with
  | none => .error .incompleteHeader
  | some (op_code, pckg_len) => startPayload s op_code pckg_len

/-- The branch `op_code != -1` (lines 165-191): add the received bytes to the payload
of the frame being received. -/
def continueFrame (s : RxState) : Except RxStop RxState :=
  let newLen := add32 s.pckg_recv s.received
  if newLen > s.pckg_len ∨ newLen < s.pckg_recv then .error .lengthMismatch
  else
    let rempcklen :=
      if sub32 s.pckg_len s.pckg_recv > s.received then s.received
      else sub32 s.pckg_len s.pckg_recv
    match memcpy s.pckg_buf s.pckg_recv s.rxbuf 0 rempcklen with
    | none => .error (.outOfBounds rempcklen)
    | some pckg_buf =>
      let pckg_recv := add32 s.pckg_recv rempcklen
      let received := sub32 s.received rempcklen
      let reminder := sub32 received rempcklen
      match (if reminder > 0 then memcpy s.rxbuf 0 s.rxbuf rempcklen reminder
             else some s.rxbuf) with
      | none => .error (.outOfBounds reminder)
      | some rxbuf =>
        .ok { s with pckg_buf := pckg_buf, pckg_recv := pckg_recv, rxbuf := rxbuf,
                     received := reminder }

/-- The call `socket->receive(rxbuf, INET_RX_BUF, &received)` delivering `chunk`. -/
def receive (INET_RX_BUF : Nat) (chunk : List Nat) (s : RxState) : RxState :=
  let data := chunk.take INET_RX_BUF
  { s with rxbuf := data ++ s.rxbuf.drop data.length, received := data.length }

/-- One iteration of the `while` loop of `handleClientRX` (lines 99-417).
`recv` is what `socket->receive` delivers if it is called (`none`: it fails). The
opcode switch itself is not part of this function: a complete frame is returned
with the outcome, and the frame state is reset as after the switch. -/
def handleClientRX_iter (INET_RX_BUF : Nat) (socket_open : Bool) (recv : Option (List Nat))
    (s : RxState) : RxOutcome :=
  if !socket_open then .stopped .socketClosed
  else
    match (if s.received = 0 then recv.map (fun chunk => receive INET_RX_BUF chunk s)
           else some s) with
    | none => .stopped .receiveFailed
    | some s =>
      match (if s.op_code = -1 then startFrame s else continueFrame s) with
      | .error why => .stopped why
      | .ok s =>
        if s.pckg_recv ≥ s.pckg_len then
          .running { s with pckg_buf := [], pckg_recv := 0, pckg_len := 0, op_code := -1 }
            (some (s.op_code.toNat, s.pckg_buf))
        else .running s none

/-- The state `handleClientRX` sets up before its loop; `rxbuf` is the initial content
of the receive array. -/
def rxInit (rxbuf : List Nat) : RxState :=
  { op_code := -1, pckg_buf := [], pckg_len := 0, pckg_recv := 0, rxbuf := rxbuf, received := 0 }

/-- The loop of `handleClientRX` on an open socket that delivers `chunks` one per
`receive` call: the frames handed to the opcode switch, and the reason the loop was
left, if it was (`none`: the loop waits in `receive`, or the iteration budget is used up). -/
def handleClientRX_loop (INET_RX_BUF : Nat) :
    Nat → List (List Nat) → RxState → List (Nat × List Nat) × Option RxStop
  | 0, _, _ => ([], none)
  | fuel + 1, chunks, s =>
    if s.received = 0 ∧ chunks = [] then ([], none)
    else
      let recv := if s.received = 0 then chunks.head? else none
      let rest := if s.received = 0 then chunks.tail else chunks
      match handleClientRX_iter INET_RX_BUF true recv s with
      | .stopped why => ([], some why)
      | .running s1 frame =>
        let r := handleClientRX_loop INET_RX_BUF fuel rest s1
        (frame.toList ++ r.1, r.2)

/-- A canonically encoded frame, in the words of the specification: a header byte
carrying the payload length 0..30 followed by the payload, or a header byte carrying
31 followed by the four big-endian bytes of the payload length (31 or more) and the
payload. -/
def CanonicalFrame (b : List Nat) : Prop :=
  ∃ (h : Nat) (payload : List Nat), h < 256 ∧
    ((h / 8 = payload.length ∧ payload.length ≤ 30 ∧ b = h :: payload) ∨
     (h / 8 = 31 ∧ 31 ≤ payload.length ∧ payload.length < 2 ^ 32 ∧
        b = h :: (be32 payload.length ++ payload)))

end SOEClient

/-! ## `std::map<unsigned int, T>` -/

namespace StdMap

/-- The call `m.count(k)` as a truth value. -/
def count {α : Type} (m : List (Nat × α)) (k : Nat) : Bool := (m.lookup k).isSome

/-- The call `m.at(k)`; `none` stands for `std::out_of_range`. -/
def find {α : Type} (m : List (Nat × α)) (k : Nat) : Option α := m.lookup k

/-- The assignment `m[k] = v`: replaces the entry at `k` or inserts it in key order. -/
def insert {α : Type} (k : Nat) (v : α) : List (Nat × α) → List (Nat × α)
  | [] => [(k, v)]
  | (k1, v1) :: t =>
    if k < k1 then (k, v) :: (k1, v1) :: t
    else if k = k1 then (k, v) :: t
    else (k1, v1) :: insert k v t

/-- The call `m.erase(k)`. -/
def erase {α : Type} (k : Nat) (m : List (Nat × α)) : List (Nat × α) :=
  m.filter (fun p => p.1 != k)

/-- The call `m.size()`. -/
def size {α : Type} (m : List (Nat × α)) : Nat := m.length

end StdMap

/-! ## `SOEPortHandler` -/

/-- The limit `SERIAL_RX_STACK_LIMIT` of `soeimpl.hpp`. -/
def SERIAL_RX_STACK_LIMIT : Nat := 128

/-- An entry of the TX stack: `tx_entry`. -/
structure tx_entry where
  length : Nat
  payload : List Nat
deriving DecidableEq, Repr

/-- An entry of the RX stack: `rx_entry`; `time_to_resend` is a reading of the steady
clock in milliseconds. -/
structure rx_entry where
  length : Nat
  payload : List Nat
  time_to_resend : Nat
  rx_confirmed : Bool
deriving DecidableEq, Repr

/-- The data members of `SOEPortHandler`; `port_open` is what `port->isOpen()` returns. -/
structure SOEPortHandler where
  port_open : Bool
  next_txid : Nat
  tx_stack : List (Nat × tx_entry)
  next_free_rxid : Nat
  next_transmit_rxid : Nat
  last_transmitted_rxid : Nat
  rx_stack : List (Nat × rx_entry)
deriving DecidableEq, Repr

namespace SOEPortHandler

/-- The test of line 46 of `send`: the txid is "in the past" and is only confirmed. -/
def inThePast (s : SOEPortHandler) (txid : Nat) : Bool :=
  decide (txid < s.next_txid ∧ s.next_txid - txid < 0x7FFFFFFF)

/-- `SOEPortHandler::send(txid, buffer, length)`: the returned flag and the state
afterwards. The stored payload is the copy of the first `length` bytes of `buffer`. -/
def send (s : SOEPortHandler) (txid : Nat) (buffer : List Nat) (length : Nat) :
    Bool × SOEPortHandler :=
  if !s.port_open then (false, s)
  else if inThePast s txid then (true, s)
  else if StdMap.size s.tx_stack ≥ SERIAL_RX_STACK_LIMIT ∧ txid ≠ s.next_txid then (false, s)
  else
    let stackBuffer := buffer.take length
    (true, { s with tx_stack := StdMap.insert txid ⟨length, stackBuffer⟩ s.tx_stack })

/-- The drain loop of `handlePortTX` (lines 175-178) while the port stays open.
Every element of `driver` answers one `writeBytes` call: given the number of bytes
requested it tells the value returned. A returned value of at most the request means
that many bytes went to the device; a larger one (the driver reports a failure as
`(unsigned long)(-1)`) means none did. The result is what the device received, or
`none` when the answers run out while the loop is still running. -/
def writeLoop (payload : List Nat) (length : Nat) :
    List (Nat → Nat) → Nat → List Nat → Option (List Nat)
  | [], transmitted, out => if transmitted < length then none else some out
  | f :: driver, transmitted, out =>
    if transmitted < length then
      let requested := length - transmitted
      let ret := f requested
      writeLoop payload length driver ((transmitted + ret) % ULONG_MOD)
        (out ++ (if ret ≤ requested then (payload.drop transmitted).take ret else []))
    else some out

/-- What one iteration of the writer loop did to the outside: the bytes the serial
device received and the txid passed to `tx_confirm`. -/
structure TxWrite where
  txid : Nat
  entry : tx_entry
  bytes : List Nat
deriving DecidableEq, Repr

/-- One iteration of the `while` loop of `handlePortTX` (lines 156-188). With the port
closed the loop is left and the stack is cleared; without an entry at `next_txid` the
thread waits on `tx_waitc` and nothing changes; otherwise the entry is written,
confirmed, erased and `next_txid` is incremented. `none`: the drain loop has not
finished with the given driver answers. -/
def handlePortTX_iter (s : SOEPortHandler) (driver : List (Nat → Nat)) :
    Option (SOEPortHandler × Option TxWrite) :=
  if !s.port_open then some ({ s with tx_stack := [] }, none)
  else
    match StdMap.find s.tx_stack s.next_txid with
    | none => some (s, none)
    | some stackEntry =>
      match writeLoop stackEntry.payload stackEntry.length driver 0 [] with
      | none => none
      | some bytes =>
        some ({ s with tx_stack := StdMap.erase s.next_txid s.tx_stack,
                       next_txid := (s.next_txid + 1) % UINT_MOD },
              some { txid := s.next_txid, entry := stackEntry, bytes := bytes })

/-- The state `handlePortTX` and `handlePortRX` set up before their loops, on an open
port. -/
def init : SOEPortHandler :=
  { port_open := true, next_txid := 0, tx_stack := [], next_free_rxid := 0,
    next_transmit_rxid := 0, last_transmitted_rxid := 0, rx_stack := [] }

end SOEPortHandler

/-! ## The RX side of `SOEPortHandler` -/

/-- The capacity `SERIAL_RX_ENTRY_LEN` of an RX entry (`soeimpl.hpp`). -/
def SERIAL_RX_ENTRY_LEN : Nat := 1024

/-- The interval `INET_TX_REP_INTERVAL` in milliseconds (`soeimpl.hpp`). -/
def INET_TX_REP_INTERVAL : Nat := 100

namespace StdMap

/-- A write through the reference `m.at(k)`: the entry at `k`, if any, becomes `f` of it. -/
def update {α : Type} (k : Nat) (f : α → α) (m : List (Nat × α)) : List (Nat × α) :=
  m.map (fun p => if p.1 = k then (p.1, f p.2) else p)

/-- The keys of the map in iteration order. -/
def keys {α : Type} (m : List (Nat × α)) : List Nat := m.map Prod.fst

end StdMap

namespace SOEPortHandler

/-- What `read` hands to its caller through `rxid`, `buffer` and `length`. -/
structure ReadResult where
  rxid : Nat
  buffer : List Nat
  length : Nat
deriving DecidableEq, Repr

/-- The retransmission scan of `read` (lines 77-90): the loop
`for (id = ...; id < next_transmit_rxid; id++)` from `id` on, with at most `fuel`
iterations left. It stops at the first entry that is neither confirmed nor still
waiting for its resend time. -/
def scanResend (rx_stack : List (Nat × rx_entry)) (now hi : Nat) :
    Nat → Nat → Option (Nat × rx_entry)
  | 0, _ => none
  | fuel + 1, id =>
    if id < hi then
      match StdMap.find rx_stack id with
      | some stackEntry =>
        if stackEntry.rx_confirmed = true ∨ stackEntry.time_to_resend ≥ now then
          scanResend rx_stack now hi fuel (id + 1)
        else some (id, stackEntry)
      | none => scanResend rx_stack now hi fuel (id + 1)
    else none

/-- The assignment `stackEntry.time_to_resend = now + INET_TX_REP_INTERVAL`. -/
def setResend (now : Nat) (e : rx_entry) : rx_entry :=
  { e with time_to_resend := now + INET_TX_REP_INTERVAL }

/-- The assignment `stackEntry.rx_confirmed = true`. -/
def setConfirmed (e : rx_entry) : rx_entry :=
  { e with rx_confirmed := true }

/-- `SOEPortHandler::read(&rxid, &buffer, &length)` at the clock reading `now`:
`none` for a false return, otherwise the values handed out, and the state afterwards. -/
def read (s : SOEPortHandler) (now : Nat) : Option ReadResult × SOEPortHandler :=
  if !s.port_open then (none, s)
  else
    match scanResend s.rx_stack now s.next_transmit_rxid
        (s.next_transmit_rxid - s.last_transmitted_rxid) s.last_transmitted_rxid with
    | some (id, stackEntry) =>
      let stack := StdMap.update id (setResend now) s.rx_stack
      (some ⟨id, stackEntry.payload, stackEntry.length⟩, { s with rx_stack := stack })
    | none =>
      match StdMap.find s.rx_stack s.next_transmit_rxid with
      | some stackEntry =>
        if stackEntry.length > 0 then
          let next := (s.next_transmit_rxid + 1) % UINT_MOD
          let stack := StdMap.update s.next_transmit_rxid (setResend now) s.rx_stack
          let free := if s.next_free_rxid < next then next else s.next_free_rxid
          (some ⟨s.next_transmit_rxid, stackEntry.payload, stackEntry.length⟩,
           { s with next_transmit_rxid := next, rx_stack := stack, next_free_rxid := free })
        else (none, s)
      | none => (none, s)

/-- `SOEPortHandler::confirmReception(rxid)`. -/
def confirmReception (s : SOEPortHandler) (rxid : Nat) : SOEPortHandler :=
  if rxid ≥ s.next_free_rxid then s
  else
    match StdMap.find s.rx_stack rxid with
    | some _ => { s with rx_stack := StdMap.update rxid setConfirmed s.rx_stack }
    | none => s

/-- The loop `for (i = ...; i != rxid + 1; i++) rx_stack.erase(i)` of
`confirmTransmission` with `count` iterations left, `i` running on `unsigned int`. -/
def eraseLoop (rx_stack : List (Nat × rx_entry)) : Nat → Nat → List (Nat × rx_entry)
  | 0, _ => rx_stack
  | count + 1, i => eraseLoop (StdMap.erase i rx_stack) count ((i + 1) % UINT_MOD)

/-- `SOEPortHandler::confirmTransmission(rxid)`. The loop index starts at
`last_transmitted_rxid` and is incremented until it equals `rxid + 1` on
`unsigned int`, that is `(rxid + 1 - last_transmitted_rxid) mod 2^32` times. -/
def confirmTransmission (s : SOEPortHandler) (rxid : Nat) : SOEPortHandler :=
  if rxid > s.last_transmitted_rxid ∧ rxid - s.last_transmitted_rxid < 0x7FFFFFFF then s
  else
    let stack := eraseLoop s.rx_stack (sub32 (rxid + 1) s.last_transmitted_rxid)
      s.last_transmitted_rxid
    { s with rx_stack := stack, last_transmitted_rxid := (rxid + 1) % UINT_MOD }

/-! ### The serial reader loop `handlePortRX` -/

/-- Where the reader thread stands: at the top of its loop, waiting on `rx_waitc`
for room on the stack, inside `readBytesConsecutive` (with the key of the entry
`stackEntry` refers to and the number of bytes requested), or past its loop. -/
inductive ReaderPc where
  | top
  | waitRoom
  | reading (key requested : Nat)
  | exited
deriving DecidableEq, Repr

/-- The local variables of `handlePortRX`. -/
structure RxReader where
  receptionBuffer : List Nat
  inBuffer : Nat
  pc : ReaderPc
deriving DecidableEq, Repr

/-- The value of `SERIAL_RX_ENTRY_LEN - length` on `unsigned long`. -/
def capacity (length : Nat) : Nat :=
  (SERIAL_RX_ENTRY_LEN + ULONG_MOD - length % ULONG_MOD) % ULONG_MOD

/-- A fresh entry `{0UL, new char[SERIAL_RX_ENTRY_LEN] {0}, now, false}`. -/
def newEntry (now : Nat) : rx_entry :=
  { length := 0, payload := List.replicate SERIAL_RX_ENTRY_LEN 0, time_to_resend := now,
    rx_confirmed := false }

/-- The entry after `memcpy(payload + length, receptionBuffer, inBuffer)` and
`length += inBuffer`; `none` when the copy would leave a buffer. -/
def appendData (e : rx_entry) (receptionBuffer : List Nat) (inBuffer : Nat) :
    Option rx_entry :=
  match memcpy e.payload e.length receptionBuffer 0 inBuffer with
  | none => none
  | some payload =>
    some { e with payload := payload, length := (e.length + inBuffer) % ULONG_MOD }

/-- Lines 225-247 of `handlePortRX`, entered with the entry at `next_free_rxid` in
place: write the buffered bytes to it, then either redo the loop or release the
mutex and call `readBytesConsecutive`. `none`: a copy would leave a buffer. -/
def readerFill (s : SOEPortHandler) (r : RxReader) : Option (SOEPortHandler × RxReader) :=
  match StdMap.find s.rx_stack s.next_free_rxid with
  | none => none
  | some stackEntry =>
    if r.inBuffer > 0 then
      let entryCapacity := capacity stackEntry.length % UINT_MOD
      if entryCapacity < r.inBuffer then some (s, { r with pc := ReaderPc.top })
      else
        match appendData stackEntry r.receptionBuffer r.inBuffer with
        | none => none
        | some e =>
          let s1 := { s with rx_stack := StdMap.update s.next_free_rxid (fun _ => e) s.rx_stack }
          if e.length = SERIAL_RX_ENTRY_LEN then
            some (s1, { r with inBuffer := 0, pc := ReaderPc.top })
          else
            let pc := ReaderPc.reading s.next_free_rxid (capacity e.length)
            some (s1, { r with inBuffer := 0, pc := pc })
    else if stackEntry.length = SERIAL_RX_ENTRY_LEN then some (s, { r with pc := ReaderPc.top })
    else some (s, { r with pc := ReaderPc.reading s.next_free_rxid (capacity stackEntry.length) })

/-- The statement `rx_stack[++next_free_rxid] = {...}` followed by lines 225-247. -/
def readerNewEntry (now : Nat) (s : SOEPortHandler) (r : RxReader) :
    Option (SOEPortHandler × RxReader) :=
  let next := (s.next_free_rxid + 1) % UINT_MOD
  let stack := StdMap.insert next (newEntry now) s.rx_stack
  readerFill { s with rx_stack := stack, next_free_rxid := next } r

/-- The reader at the top of its loop (lines 206-247), up to the point where it
redoes the loop, blocks on `rx_waitc`, or calls `readBytesConsecutive`. With the port
closed the loop is left and the stack cleared. -/
def readerEnter (now : Nat) (s : SOEPortHandler) (r : RxReader) :
    Option (SOEPortHandler × RxReader) :=
  if !s.port_open then some ({ s with rx_stack := [] }, { r with pc := ReaderPc.exited })
  else
    match StdMap.find s.rx_stack s.next_free_rxid with
    | none =>
      let stack := StdMap.insert s.next_free_rxid (newEntry now) s.rx_stack
      readerFill { s with rx_stack := stack } r
    | some e =>
      if e.length ≥ SERIAL_RX_ENTRY_LEN ∨ r.inBuffer > SERIAL_RX_ENTRY_LEN - e.length then
        if StdMap.size s.rx_stack ≥ SERIAL_RX_STACK_LIMIT then
          some (s, { r with pc := ReaderPc.waitRoom })
        else readerNewEntry now s r
      else readerFill s r

/-- The reader leaving `rx_waitc.wait` (line 220): possible once the stack is below
its limit or the port is closed; it goes on with line 222. -/
def readerWake (now : Nat) (s : SOEPortHandler) (r : RxReader) :
    Option (SOEPortHandler × RxReader) :=
  if StdMap.size s.rx_stack < SERIAL_RX_STACK_LIMIT ∨ s.port_open = false then
    readerNewEntry now s r
  else none

/-- The reader after `readBytesConsecutive` has put `data` into `receptionBuffer` and
returned `ret` (lines 247-262). `key` is the key of the entry `stackEntry` refers
to; `none`: that entry is gone, or a copy would leave a buffer. -/
def readerReturn (data : List Nat) (ret key : Nat) (s : SOEPortHandler) (r : RxReader) :
    Option (SOEPortHandler × RxReader) :=
  let receptionBuffer := data ++ r.receptionBuffer.drop data.length
  let inBuffer := ret % UINT_MOD
  let r1 : RxReader := ⟨receptionBuffer, inBuffer, ReaderPc.top⟩
  if !StdMap.count s.rx_stack s.next_free_rxid then some (s, r1)
  else
    match StdMap.find s.rx_stack key with
    | none => none
    | some stackEntry =>
      if inBuffer > capacity stackEntry.length then some (s, r1)
      else
        match appendData stackEntry receptionBuffer inBuffer with
        | none => none
        | some e =>
          some ({ s with rx_stack := StdMap.update key (fun _ => e) s.rx_stack },
                { r1 with inBuffer := 0 })

/-- The locals of `handlePortRX` before its loop. -/
def readerInit : RxReader :=
  { receptionBuffer := List.replicate SERIAL_RX_ENTRY_LEN 0, inBuffer := 0, pc := ReaderPc.top }

/-- A step of an execution on the RX side: a step of the reader thread (entering an
iteration, waking from the wait for room, returning from `readBytesConsecutive` with
`data` and the return value `ret`), or a call of `read`, `confirmReception` or
`confirmTransmission` from the socket handler. -/
inductive RxAction where
  | readerEnter (now : Nat)
  | readerWake (now : Nat)
  | readerReturn (data : List Nat) (ret : Nat)
  | read (now : Nat)
  | confirmReception (rxid : Nat)
  | confirmTransmission (rxid : Nat)
deriving DecidableEq, Repr

/-- One step: the handler and the reader afterwards and what `read` returned, if the
step was a call of `read` that returned true. `none`: the reader is not at the point
where the step can happen, or the step uses memory outside a buffer. -/
def rxStep (s : SOEPortHandler) (r : RxReader) :
    RxAction → Option (SOEPortHandler × RxReader × Option ReadResult)
  | RxAction.readerEnter now =>
    match r.pc with
    | ReaderPc.top => (readerEnter now s r).map (fun p => (p.1, p.2, none))
    | _ => none
  | RxAction.readerWake now =>
    match r.pc with
    | ReaderPc.waitRoom => (readerWake now s r).map (fun p => (p.1, p.2, none))
    | _ => none
  | RxAction.readerReturn data ret =>
    match r.pc with
    | ReaderPc.reading key _ => (readerReturn data ret key s r).map (fun p => (p.1, p.2, none))
    | _ => none
  | RxAction.read now => some ((read s now).2, r, (read s now).1)
  | RxAction.confirmReception rxid => some (confirmReception s rxid, r, none)
  | RxAction.confirmTransmission rxid => some (confirmTransmission s rxid, r, none)

/-- Run the steps in order, collecting what the calls of `read` returned. Every step
has to pass `guard`, which names the executions a statement is about. -/
def rxRun (guard : SOEPortHandler → RxReader → RxAction → Bool) :
    List RxAction → SOEPortHandler → RxReader → List ReadResult →
    Option (SOEPortHandler × RxReader × List ReadResult)
  | [], s, r, log => some (s, r, log)
  | a :: rest, s, r, log =>
    if guard s r a then
      match rxStep s r a with
      | none => none
      | some (s1, r1, res) => rxRun guard rest s1 r1 (log ++ res.toList)
    else none

/-- The guard that admits every step. -/
def anyStep (_ : SOEPortHandler) (_ : RxReader) (_ : RxAction) : Bool := true

end SOEPortHandler

namespace SOEPortHandler

/-- An id that `read` may retransmit at the clock reading `now`, in the words of the
specification: it lies in `[last_transmitted_rxid, next_transmit_rxid)`, and its
entry is not confirmed and past its resend time. -/
def Eligible (s : SOEPortHandler) (now id : Nat) : Prop :=
  s.last_transmitted_rxid ≤ id ∧ id < s.next_transmit_rxid ∧
  ∃ e, StdMap.find s.rx_stack id = some e ∧ e.rx_confirmed = false ∧ e.time_to_resend < now

end SOEPortHandler

namespace SOEPortHandler

/-- An example state: entry 0 (two bytes) was transmitted with resend time 100 and is
not confirmed, entry 1 (one byte) has not been transmitted. -/
def stateResendDue : SOEPortHandler :=
  ⟨true, 0, [], 1, 1, 0,
    [(0, ⟨2, 7 :: 8 :: List.replicate 1022 0, 100, false⟩),
     (1, ⟨1, 9 :: List.replicate 1023 0, 0, false⟩)]⟩

/-- An example state: the reader has stored two bytes in entry 0, nothing was
transmitted yet. -/
def stateOneEntry : SOEPortHandler :=
  ⟨true, 0, [], 0, 0, 0, [(0, ⟨2, 7 :: 8 :: List.replicate 1022 0, 0, false⟩)]⟩

end SOEPortHandler

namespace SOEPortHandler

/-- An example execution: three times the reader stores one byte in a new entry and
`read` hands the entry to the network. -/
def sentThree : List RxAction :=
  [RxAction.readerEnter 0, RxAction.readerReturn [1] 1, RxAction.read 1,
   RxAction.readerEnter 2, RxAction.readerReturn [2] 1, RxAction.read 3,
   RxAction.readerEnter 4, RxAction.readerReturn [3] 1, RxAction.read 5]

/-- The state after `sentThree`: the entries 0, 1 and 2 are transmitted and wait for
their TX_CONFIRM. -/
def stateThreeSent : SOEPortHandler :=
  ⟨true, 0, [], 3, 3, 0,
    [(0, ⟨1, 1 :: List.replicate 1023 0, 101, false⟩),
     (1, ⟨1, 2 :: List.replicate 1023 0, 103, false⟩),
     (2, ⟨1, 3 :: List.replicate 1023 0, 105, false⟩)]⟩

/-- The state after `sentThree` and the calls `confirmTransmission(0)` and
`confirmTransmission(1)`: entry 2 still waits for its TX_CONFIRM. -/
def stateTwoAcked : SOEPortHandler :=
  ⟨true, 0, [], 3, 3, 2, [(2, ⟨1, 3 :: List.replicate 1023 0, 105, false⟩)]⟩

end SOEPortHandler

namespace SOEPortHandler

/-- What the reader may have done to the stack when it made sure that an entry
stands at `next_free_rxid`: nothing, a fresh entry at `next_free_rxid`, or a fresh
entry at the incremented `next_free_rxid`. -/
def Created (now : Nat) (s : SOEPortHandler) (m0 : List (Nat × rx_entry)) (free : Nat) : Prop :=
  (m0 = s.rx_stack ∧ free = s.next_free_rxid) ∨
  (StdMap.find s.rx_stack s.next_free_rxid = none ∧ free = s.next_free_rxid ∧
    m0 = StdMap.insert s.next_free_rxid (newEntry now) s.rx_stack) ∨
  (free = (s.next_free_rxid + 1) % UINT_MOD ∧
    m0 = StdMap.insert ((s.next_free_rxid + 1) % UINT_MOD) (newEntry now) s.rx_stack)

/-- What the reader may have done to the stack `m0` when it copied received bytes:
nothing, or the entry at some key got bytes appended. -/
def Appended (m0 m1 : List (Nat × rx_entry)) : Prop :=
  m1 = m0 ∨
  ∃ k e e1 buf n, StdMap.find m0 k = some e ∧ appendData e buf n = some e1 ∧
    m1 = StdMap.update k (fun _ => e1) m0

/-- The two states agree on every member but the RX stack and `next_free_rxid`. -/
def SameButRx (s s1 : SOEPortHandler) : Prop :=
  s1.port_open = s.port_open ∧ s1.next_txid = s.next_txid ∧ s1.tx_stack = s.tx_stack ∧
  s1.next_transmit_rxid = s.next_transmit_rxid ∧
  s1.last_transmitted_rxid = s.last_transmitted_rxid

/-- The effect of a reader step on the handler: only the RX stack and
`next_free_rxid` change, by the loop being left (stack cleared) or by a creation
followed by an append. -/
def ReaderEffect (now : Nat) (s s1 : SOEPortHandler) : Prop :=
  SameButRx s s1 ∧
  ((s.port_open = false ∧ s1.rx_stack = [] ∧ s1.next_free_rxid = s.next_free_rxid) ∨
   ∃ m0, Created now s m0 s1.next_free_rxid ∧ Appended m0 s1.rx_stack)

end SOEPortHandler

namespace SOEPortHandler

/-- The guard of the executions in which every `confirmTransmission` call names an
rxid that `read` has handed out: `rxid < next_transmit_rxid`. -/
def sentOnly (s : SOEPortHandler) (_ : RxReader) : RxAction → Bool
  | RxAction.confirmTransmission rxid => decide (rxid < s.next_transmit_rxid)
  | _ => true

/-- The guard of the executions in which every `confirmTransmission` call names an
rxid in `[last_transmitted_rxid, next_transmit_rxid)` and the reader is never taken
up again after it had to wait for room on the stack. -/
def orderly (s : SOEPortHandler) (_ : RxReader) : RxAction → Bool
  | RxAction.confirmTransmission rxid =>
    decide (s.last_transmitted_rxid ≤ rxid ∧ rxid < s.next_transmit_rxid)
  | RxAction.readerWake _ => false
  | _ => true

/-- The order of the three rxid counters, with a bound on `next_free_rxid`. -/
def OrdInv (s : SOEPortHandler) (n : Nat) : Prop :=
  s.last_transmitted_rxid ≤ s.next_transmit_rxid ∧
  s.next_transmit_rxid ≤ s.next_free_rxid ∧ s.next_free_rxid ≤ n

/-- The entry at `id`, if there is one, is confirmed, and `id` has been handed out. -/
def ConfirmedInv (id : Nat) (s : SOEPortHandler) (n : Nat) : Prop :=
  id < s.next_transmit_rxid ∧ s.next_transmit_rxid ≤ s.next_free_rxid ∧
  s.next_free_rxid ≤ n ∧
  ∀ e, StdMap.find s.rx_stack id = some e → e.rx_confirmed = true

/-- The keys of the RX stack lie in `[last_transmitted_rxid, next_free_rxid]` and
every id of `[last_transmitted_rxid, next_free_rxid)` is a key, on an open port. -/
def RangeInv (s : SOEPortHandler) (n : Nat) : Prop :=
  s.port_open = true ∧ OrdInv s n ∧
  (∀ k, StdMap.count s.rx_stack k = true →
    s.last_transmitted_rxid ≤ k ∧ k ≤ s.next_free_rxid) ∧
  (∀ k, s.last_transmitted_rxid ≤ k → k < s.next_free_rxid →
    StdMap.count s.rx_stack k = true)

end SOEPortHandler

namespace SOEPortHandler

/-- The locals of the reader after `sentThree`. -/
def readerAfterThree : RxReader := ⟨3 :: List.replicate 1023 0, 0, ReaderPc.top⟩

/-- What the three `read` calls of `sentThree` handed out. -/
def logThree : List ReadResult :=
  [⟨0, 1 :: List.replicate 1023 0, 1⟩, ⟨1, 2 :: List.replicate 1023 0, 1⟩,
   ⟨2, 3 :: List.replicate 1023 0, 1⟩]

/-- The state after `sentThree` and the call `confirmTransmission(0)`. -/
def stateOneAcked : SOEPortHandler :=
  ⟨true, 0, [], 3, 3, 1,
    [(1, ⟨1, 2 :: List.replicate 1023 0, 103, false⟩),
     (2, ⟨1, 3 :: List.replicate 1023 0, 105, false⟩)]⟩

end SOEPortHandler

namespace SOEPortHandler

/-- An example execution: the reader stores one byte in entry 0, `read` hands the
entry out and the RX_CONFIRM for it arrives. -/
def confirmedOne : List RxAction :=
  [RxAction.readerEnter 0, RxAction.readerReturn [1] 1, RxAction.read 1,
   RxAction.confirmReception 0]

/-- The state after `confirmedOne`. -/
def stateConfirmed : SOEPortHandler :=
  ⟨true, 0, [], 1, 1, 0, [(0, ⟨1, 1 :: List.replicate 1023 0, 101, true⟩)]⟩

/-- The locals of the reader after `confirmedOne`. -/
def readerAfterOne : RxReader := ⟨1 :: List.replicate 1023 0, 0, ReaderPc.top⟩

/-- An example continuation of `confirmedOne`: `read` is called long after the resend
time of entry 0, a second entry is received and transmitted, and retransmitted. -/
def laterReads : List RxAction :=
  [RxAction.read 1000, RxAction.readerEnter 1001, RxAction.readerReturn [2] 1,
   RxAction.read 2000, RxAction.read 3000]

/-- The state after `confirmedOne` and `laterReads`. -/
def stateLater : SOEPortHandler :=
  ⟨true, 0, [], 2, 2, 0,
    [(0, ⟨1, 1 :: List.replicate 1023 0, 101, true⟩),
     (1, ⟨1, 2 :: List.replicate 1023 0, 3100, false⟩)]⟩

/-- What the calls of `read` in `laterReads` handed out. -/
def logLater : List ReadResult :=
  [⟨1, 2 :: List.replicate 1023 0, 1⟩, ⟨1, 2 :: List.replicate 1023 0, 1⟩]

end SOEPortHandler

namespace SOEPortHandler

/-- One round of an execution in which no TX_CONFIRM arrives: the reader stores one
byte in a new entry and `read` hands the entry to the network. -/
def floodRound : List RxAction :=
  [RxAction.readerEnter 0, RxAction.readerReturn [7] 1, RxAction.read 0]

/-- The execution of `n` rounds `floodRound`. -/
def flood (n : Nat) : List RxAction := (List.replicate n floodRound).flatten

/-- The states between the rounds of `flood`: the reader is at the top of its loop
with an empty buffer, every entry is transmitted, and `next_free_rxid`, which counts
the entries, has no entry. -/
def FloodInv (s : SOEPortHandler) (r : RxReader) : Prop :=
  s.port_open = true ∧ r.pc = ReaderPc.top ∧ r.inBuffer = 0 ∧
  r.receptionBuffer.length = SERIAL_RX_ENTRY_LEN ∧
  s.next_transmit_rxid = s.next_free_rxid ∧
  (∀ k, s.next_free_rxid ≤ k → StdMap.find s.rx_stack k = none) ∧
  s.next_free_rxid = StdMap.size s.rx_stack

end SOEPortHandler

namespace SOEPortHandler

/-- The bytes the RX stack holds: the first `length` bytes of each entry's payload,
the entries taken in the iteration order of the map (ascending rxid). -/
def contents (m : List (Nat × rx_entry)) : List Nat :=
  (m.map (fun p => p.2.payload.take p.2.length)).flatten

/-- The bytes still pending in the scratch buffer `receptionBuffer`. -/
def pending (r : RxReader) : List Nat := r.receptionBuffer.take r.inBuffer

/-- All bytes `readBytesConsecutive` returned in an execution, in order. -/
def driverBytes : List RxAction → List Nat
  | [] => []
  | RxAction.readerReturn data _ :: rest => data ++ driverBytes rest
  | _ :: rest => driverBytes rest

/-- The guard of the executions of the reader on a stack that stays below its limit:
the reader enters an iteration only with fewer than `SERIAL_RX_STACK_LIMIT` entries
on the stack, `readBytesConsecutive` returns the number of bytes it stored, at most
the number requested; `read` and `confirmReception` may be called in between. -/
def receiving (s : SOEPortHandler) (r : RxReader) : RxAction → Bool
  | RxAction.readerEnter _ => decide (StdMap.size s.rx_stack < SERIAL_RX_STACK_LIMIT)
  | RxAction.readerReturn data ret =>
    match r.pc with
    | ReaderPc.reading _ requested => decide (ret = data.length ∧ ret ≤ requested)
    | _ => false
  | RxAction.read _ => true
  | RxAction.confirmReception _ => true
  | _ => false

/-- An entry with a payload buffer of `SERIAL_RX_ENTRY_LEN` bytes, not overfull. -/
def EntryOk (e : rx_entry) : Prop :=
  e.payload.length = SERIAL_RX_ENTRY_LEN ∧ e.length ≤ SERIAL_RX_ENTRY_LEN

/-- The stack lists its entries by strictly ascending key, no key is above `free`,
and every entry is `EntryOk`. -/
def StackOk (m : List (Nat × rx_entry)) (free : Nat) : Prop :=
  (StdMap.keys m).Pairwise (fun a b => a < b) ∧ ∀ p ∈ m, p.1 ≤ free ∧ EntryOk p.2

/-- The scratch buffer has `SERIAL_RX_ENTRY_LEN` bytes, of which at most all are
pending. -/
def BufferOk (r : RxReader) : Prop :=
  r.receptionBuffer.length = SERIAL_RX_ENTRY_LEN ∧ r.inBuffer ≤ SERIAL_RX_ENTRY_LEN

/-- Where the reader may stand in a `receiving` execution: at the top of its loop, or
in `readBytesConsecutive` with nothing pending, at most `SERIAL_RX_ENTRY_LEN` bytes
requested, and `stackEntry` being the entry at `next_free_rxid` if there is one. -/
def PcOk (s : SOEPortHandler) (r : RxReader) : Prop :=
  match r.pc with
  | ReaderPc.top => True
  | ReaderPc.reading key requested =>
    r.inBuffer = 0 ∧ requested ≤ SERIAL_RX_ENTRY_LEN ∧
    (StdMap.find s.rx_stack s.next_free_rxid = none ∨ key = s.next_free_rxid)
  | _ => False

/-- The invariant of `receiving` executions: no serial byte is lost or reordered. -/
def ConservInv (past : List RxAction) (s : SOEPortHandler) (r : RxReader) : Prop :=
  s.port_open = true ∧ StackOk s.rx_stack s.next_free_rxid ∧ BufferOk r ∧ PcOk s r ∧
  contents s.rx_stack ++ pending r = driverBytes past

end SOEPortHandler

namespace SOEPortHandler

/-- An example execution: the reader stores two bytes in entry 0 and asks the driver
for more; `read` transmits entry 0 meanwhile; the byte the driver then returns, and
one more, go to the new entry 1. -/
def interleaved : List RxAction :=
  [RxAction.readerEnter 0, RxAction.readerReturn [1, 2] 2, RxAction.readerEnter 1,
   RxAction.read 2, RxAction.readerReturn [3] 1, RxAction.readerEnter 3,
   RxAction.readerReturn [4] 1]

/-- The state after `interleaved`. -/
def stateInterleaved : SOEPortHandler :=
  ⟨true, 0, [], 1, 1, 0,
    [(0, ⟨2, 1 :: 2 :: List.replicate 1022 0, 102, false⟩),
     (1, ⟨2, 3 :: 4 :: List.replicate 1022 0, 3, false⟩)]⟩

/-- The locals of the reader after `interleaved`. -/
def readerInterleaved : RxReader := ⟨4 :: 2 :: List.replicate 1022 0, 0, ReaderPc.top⟩

end SOEPortHandler

/-! ## The opcode switch of `SOEClient::handleClientRX` and the frames it sends -/

/-- Opcode `OPC_ERROR` of `soeimpl.hpp`. -/
def OPC_ERROR : Nat := 0x0

/-- Opcode `OPC_OPEN` of `soeimpl.hpp`. -/
def OPC_OPEN : Nat := 0x1

/-- Opcode `OPC_OPENED` of `soeimpl.hpp`. -/
def OPC_OPENED : Nat := 0x2

/-- Opcode `OPC_CLOSE` of `soeimpl.hpp`. -/
def OPC_CLOSE : Nat := 0x3

/-- Opcode `OPC_CLOSED` of `soeimpl.hpp`. -/
def OPC_CLOSED : Nat := 0x4

/-- Opcode `OPC_STREAM` of `soeimpl.hpp`. -/
def OPC_STREAM : Nat := 0x5

/-- Opcode `OPC_TX_CONFIRM` of `soeimpl.hpp`. -/
def OPC_TX_CONFIRM : Nat := 0x6

/-- Opcode `OPC_RX_CONFIRM` of `soeimpl.hpp`. -/
def OPC_RX_CONFIRM : Nat := 0x7

/-- The two big-endian bytes of a length, as the specification words them. -/
def be16 (L : Nat) : List Nat := [L / 2 ^ 8 % 256, L % 256]

namespace SOEClient

/-- The bytes of a string literal of the source, without the terminating NUL. -/
def literal (s : String) : List Nat := s.toList.map Char.toNat

/-- The C string that starts at the beginning of `buffer`: the bytes before the first
NUL, which is what `strlen` and `string(const char*)` see. -/
def cstring (buffer : List Nat) : List Nat := buffer.takeWhile (fun b => b != 0)

/-- A frame handed to `socket->send` by `sendFrame`: the opcode and payload it was
built from, and the bytes of the buffer. -/
structure SentFrame where
  opc : Nat
  payload : List Nat
  bytes : List Nat
deriving DecidableEq, Repr

/-- The socket as the handler sees it during the handling of one frame: `is_open` is
what `socket->isOpen()` returns, `results` are the values the coming `socket->send`
calls return (true once the list is used up), `sent` are the frames handed to
`socket->send` so far. -/
structure Socket where
  is_open : Bool
  results : List Bool
  sent : List SentFrame
deriving DecidableEq, Repr

/-- A read or copy that leaves a buffer: `count` bytes at `offset`. -/
inductive Fault where
  | outOfBounds (offset count : Nat)
deriving DecidableEq, Repr

/-- Equality of results that may be a fault is decidable. -/
instance decEqExcept {ε α : Type} [DecidableEq ε] [DecidableEq α] : DecidableEq (Except ε α)
  | .ok x, .ok y => if h : x = y then isTrue (congrArg Except.ok h)
      else isFalse (fun h1 => h (Except.ok.inj h1))
  | .error x, .error y => if h : x = y then isTrue (congrArg Except.error h)
      else isFalse (fun h1 => h (Except.error.inj h1))
  | .ok _, .error _ => isFalse (fun h => Except.noConfusion h)
  | .error _, .ok _ => isFalse (fun h => Except.noConfusion h)

/-- `SOEClient::sendFrame(opc, payload, length)` on a socket: the returned flag and
the socket afterwards. -/
def transmitFrame (sock : Socket) (opc : Nat) (payload : List Nat) (length : Nat) :
    Except Fault (Bool × Socket) :=
  if !sock.is_open then .ok (false, sock)
  else
    match frameBuffer opc payload length with
    | none => .error (.outOfBounds 0 length)
    | some bytes =>
      .ok (sock.results.headD true,
           ⟨sock.is_open, sock.results.tail, sock.sent ++ [⟨opc, payload.take length, bytes⟩]⟩)

/-- The payload buffer and `payloadLen` that `sendError(port, msg)` builds (lines
474-497); `port` is `none` for `NULL`. -/
def errorPayload (port : Option (List Nat)) (msg : List Nat) : Except Fault (List Nat × Nat) :=
  let portLen := match port with
    | some p => p.length % UINT_MOD
    | none => 0
  let msgLen := msg.length % UINT_MOD
  let portLen := if portLen > 0xFFFF then 0xFFFF else portLen
  let msgLen := if msgLen > 0xFFFF then 0xFFFF else msgLen
  let payloadLen := (if portLen > 0 then 2 + portLen else 0) + (if msgLen > 0 then 2 + msgLen else 0)
  let buffer := List.replicate payloadLen 0
  let named : Except Fault (List Nat × Nat) :=
    if portLen > 0 then
      let buffer := buffer.set 0 ((portLen >>> 8) &&& 0xFF)
      let buffer := buffer.set 1 ((portLen >>> 0) &&& 0xFF)
      match memcpy buffer 2 (port.getD []) 0 portLen with
      | none => .error (.outOfBounds 2 portLen)
      | some buffer => .ok (buffer, portLen + 2)
    else .ok (buffer, portLen)
  match named with
  | .error f => .error f
  | .ok (buffer, portLen) =>
    if msgLen > 0 then
      let buffer := buffer.set (0 + portLen) ((msgLen >>> 8) &&& 0xFF)
      let buffer := buffer.set (1 + portLen) ((msgLen >>> 0) &&& 0xFF)
      match memcpy buffer (2 + portLen) msg 0 msgLen with
      | none => .error (.outOfBounds (2 + portLen) msgLen)
      | some buffer => .ok (buffer, payloadLen)
    else .ok (buffer, payloadLen)

/-- `SOEClient::sendError(port, msg)`: the socket afterwards. The result of
`sendFrame` is ignored. -/
def sendError (sock : Socket) (port : Option (List Nat)) (msg : List Nat) :
    Except Fault Socket :=
  if !sock.is_open then .ok sock
  else
    match errorPayload port msg with
    | .error f => .error f
    | .ok (buffer, payloadLen) =>
      match transmitFrame sock OPC_ERROR buffer payloadLen with
      | .error f => .error f
      | .ok r => .ok r.2

/-- The payload buffer and `payloadLen` that `sendClaimStatus` builds (lines 509-520). -/
def claimPayload (portName : List Nat) : Except Fault (List Nat × Nat) :=
  let portLen := portName.length % UINT_MOD
  let portLen := if portLen > 0xFFFF then 0xFFFF else portLen
  let payloadLen := 2 + portLen
  let buffer := List.replicate payloadLen 0
  let buffer := buffer.set 0 ((portLen >>> 8) &&& 0xFF)
  let buffer := buffer.set 1 ((portLen >>> 0) &&& 0xFF)
  match memcpy buffer 2 portName 0 portLen with
  | none => .error (.outOfBounds 2 portLen)
  | some buffer => .ok (buffer, payloadLen)

/-- `SOEClient::sendClaimStatus(claimed, portName)`: the returned flag and the socket
afterwards. -/
def sendClaimStatus (sock : Socket) (claimed : Bool) (portName : List Nat) :
    Except Fault (Bool × Socket) :=
  if !sock.is_open then .ok (false, sock)
  else
    match claimPayload portName with
    | .error f => .error f
    | .ok (buffer, payloadLen) =>
      transmitFrame sock (if claimed then OPC_OPENED else OPC_CLOSED) buffer payloadLen

/-- The lookup `ports.at(name)`; `none` stands for `std::out_of_range`. -/
def portsAt {α : Type} (ports : List (List Nat × α)) (name : List Nat) : Option α :=
  ports.lookup name

/-- The call `ports.erase(name)`. -/
def portsErase {α : Type} (ports : List (List Nat × α)) (name : List Nat) :
    List (List Nat × α) :=
  ports.filter (fun p => p.1 != name)

/-- The assignment `ports[name] = handler`: replaces the entry at `name` or inserts it
in the (lexicographic) key order of `std::map<string, T>`. -/
def portsSet {α : Type} (name : List Nat) (handler : α) :
    List (List Nat × α) → List (List Nat × α)
  | [] => [(name, handler)]
  | (k1, v1) :: t =>
    if name < k1 then (name, handler) :: (k1, v1) :: t
    else if name = k1 then (name, handler) :: t
    else (k1, v1) :: portsSet name handler t

/-- A write through the pointer `ports.at(name)`: the handler at `name`, if any,
becomes `handler`. -/
def portsWrite {α : Type} (name : List Nat) (handler : α) (ports : List (List Nat × α)) :
    List (List Nat × α) :=
  ports.map (fun p => if p.1 = name then (p.1, handler) else p)

/-- Modelled from the spec: the class `SOEPort` of the registry
`std::map<string, SOEPort*> ports`, whose declaration `soeimpl.h` is missing. The
specification has the socket handler call `isOpen`, `send` and `confirmReception` of
the port handler, so a registered port is a `SOEPortHandler`. The structure is the
socket handler during the handling of a frame: its socket and its port registry. -/
structure Client where
  socket : Socket
  ports : List (List Nat × SOEPortHandler)
deriving DecidableEq, Repr

/-! ### Reading the fields of a payload -/

/-- The read `pckg_buf[i]`. -/
def readByte (pckg_buf : List Nat) (i : Nat) : Except Fault Nat :=
  match pckg_buf.get? i with
  | some b => .ok b
  | none => .error (.outOfBounds i 1)

/-- The `unsigned short` read as `(pckg_buf[off] & 0xFF) << 8 | (pckg_buf[off+1] &
0xFF) << 0`. -/
def readU16 (pckg_buf : List Nat) (off : Nat) : Except Fault Nat :=
  match readByte pckg_buf off, readByte pckg_buf (off + 1) with
  | .ok b0, .ok b1 => .ok ((((b0 &&& 0xFF) <<< 8) ||| ((b1 &&& 0xFF) <<< 0)) % 65536)
  | .error f, _ => .error f
  | _, .error f => .error f

/-- The `unsigned int` read as the four bytes at `off`, most significant first. -/
def readU32 (pckg_buf : List Nat) (off : Nat) : Except Fault Nat :=
  match readByte pckg_buf off, readByte pckg_buf (off + 1), readByte pckg_buf (off + 2),
      readByte pckg_buf (off + 3) with
  | .ok b0, .ok b1, .ok b2, .ok b3 =>
    .ok ((((b0 &&& 0xFF) <<< 24) ||| ((b1 &&& 0xFF) <<< 16) ||| ((b2 &&& 0xFF) <<< 8) |||
          ((b3 &&& 0xFF) <<< 0)) % UINT_MOD)
  | .error f, _, _, _ => .error f
  | _, .error f, _, _ => .error f
  | _, _, .error f, _ => .error f
  | _, _, _, .error f => .error f

/-- The statements `char portName[portStrLen + 1] = {0}; memcpy(portName, pckg_buf +
off, portStrLen);`: the C string in `portName`. -/
def readName (pckg_buf : List Nat) (off portStrLen : Nat) : Except Fault (List Nat) :=
  match memcpy (List.replicate (portStrLen + 1) 0) 0 pckg_buf off portStrLen with
  | none => .error (.outOfBounds off portStrLen)
  | some portName => .ok (cstring portName)

end SOEClient

namespace SOEClient

/-- Case `OPC_OPEN` of the switch (lines 197-247). `openPort` tells whether the
serial driver opens the named port at the given baud rate; the new port handler
starts in the state its threads set up. -/
def caseOpen (openPort : List Nat → Nat → Bool) (c : Client) (pckg_buf : List Nat)
    (pckg_len pckg_recv : Nat) : Except Fault Client :=
  if pckg_len < 6 then
    (sendError c.socket none (literal "received incomplete OPEN control frame")).map
      (fun sock => ⟨sock, c.ports⟩)
  else
    match readU32 pckg_buf 0, readU16 pckg_buf 4 with
    | .error f, _ => .error f
    | _, .error f => .error f
    | .ok portBaud, .ok portStrLen =>
      if portStrLen > pckg_recv then
        (sendError c.socket none (literal "received invalid OPEN payload")).map
          (fun sock => ⟨sock, c.ports⟩)
      else
        match readName pckg_buf 6 portStrLen with
        | .error f => .error f
        | .ok portName =>
          if !openPort portName portBaud then
            (sendError c.socket (some portName) (literal "failed to claim port")).map
              (fun sock => ⟨sock, c.ports⟩)
          else
            let ports := portsSet portName SOEPortHandler.init c.ports
            match sendClaimStatus c.socket true portName with
            | .error f => .error f
            | .ok (true, sock) => .ok ⟨sock, ports⟩
            | .ok (false, sock) =>
              (sendError sock (some portName)
                (literal "failed to complete OPENED confirmation, close port")).map
                (fun sock => ⟨sock, portsErase ports portName⟩)

/-- Case `OPC_CLOSE` of the switch (lines 248-289). -/
def caseClose (c : Client) (pckg_buf : List Nat) (pckg_len pckg_recv : Nat) :
    Except Fault Client :=
  if pckg_len < 2 then
    (sendError c.socket none (literal "received incomplete CLOSE control frame")).map
      (fun sock => ⟨sock, c.ports⟩)
  else
    match readU16 pckg_buf 0 with
    | .error f => .error f
    | .ok portStrLen =>
      if portStrLen > pckg_recv then
        (sendError c.socket none (literal "received invalid CLOSE payload")).map
          (fun sock => ⟨sock, c.ports⟩)
      else
        match readName pckg_buf 2 portStrLen with
        | .error f => .error f
        | .ok portName =>
          match portsAt c.ports portName with
          | none =>
            (sendError c.socket (some portName) (literal "port not claimed")).map
              (fun sock => ⟨sock, c.ports⟩)
          | some _ =>
            let ports := portsErase c.ports portName
            match sendClaimStatus c.socket false portName with
            | .error f => .error f
            | .ok (true, sock) => .ok ⟨sock, ports⟩
            | .ok (false, sock) =>
              (sendError sock (some portName)
                (literal "failed to transmit CLOSE confirmation")).map
                (fun sock => ⟨sock, ports⟩)

/-- Case `OPC_STREAM` of the switch (lines 290-355). `send` copies `payloadLen`
bytes from `pckg_buf + 6 + portStrLen`, which is a fault when they are not there. -/
def caseStream (c : Client) (pckg_buf : List Nat) (pckg_len pckg_recv : Nat) :
    Except Fault Client :=
  if pckg_len < 6 then
    (sendError c.socket none (literal "received incomplete STREAM control frame")).map
      (fun sock => ⟨sock, c.ports⟩)
  else
    match readU16 pckg_buf 0 with
    | .error f => .error f
    | .ok portStrLen =>
      if portStrLen > pckg_recv then
        (sendError c.socket none (literal "received invalid STREAM payload")).map
          (fun sock => ⟨sock, c.ports⟩)
      else
        match readName pckg_buf 2 portStrLen, readU32 pckg_buf (2 + portStrLen) with
        | .error f, _ => .error f
        | _, .error f => .error f
        | .ok portName, .ok txid =>
          match portsAt c.ports portName with
          | none =>
            (sendError c.socket (some portName) (literal "port not claimed")).map
              (fun sock => ⟨sock, c.ports⟩)
          | some portHandler =>
            if !portHandler.port_open then
              match sendError c.socket (some portName) (literal "port is already closed") with
              | .error f => .error f
              | .ok sock =>
                (sendClaimStatus sock false portName).map
                  (fun r => ⟨r.2, portsErase c.ports portName⟩)
            else
              let payloadLen := sub32 (sub32 pckg_recv 6) portStrLen
              if 6 + portStrLen + payloadLen > pckg_buf.length then
                .error (.outOfBounds (6 + portStrLen) payloadLen)
              else
                let r := SOEPortHandler.send portHandler txid (pckg_buf.drop (6 + portStrLen))
                  payloadLen
                let ports := portsWrite portName r.2 c.ports
                if !r.1 then
                  (sendError c.socket (some portName) (literal "invalid transmission data")).map
                    (fun sock => ⟨sock, ports⟩)
                else .ok ⟨c.socket, ports⟩

/-- Case `OPC_RX_CONFIRM` of the switch (lines 356-403). -/
def caseRxConfirm (c : Client) (pckg_buf : List Nat) (pckg_len pckg_recv : Nat) :
    Except Fault Client :=
  if pckg_len < 6 then
    (sendError c.socket none (literal "received incomplete RX_CONFIRM control frame")).map
      (fun sock => ⟨sock, c.ports⟩)
  else
    match readU16 pckg_buf 0 with
    | .error f => .error f
    | .ok portStrLen =>
      if portStrLen > pckg_recv then
        (sendError c.socket none (literal "received invalid RX_CONFIRM payload")).map
          (fun sock => ⟨sock, c.ports⟩)
      else
        match readName pckg_buf 2 portStrLen, readU32 pckg_buf (2 + portStrLen) with
        | .error f, _ => .error f
        | _, .error f => .error f
        | .ok portName, .ok rxid =>
          match portsAt c.ports portName with
          | none =>
            (sendError c.socket (some portName) (literal "port not claimed")).map
              (fun sock => ⟨sock, c.ports⟩)
          | some portHandler =>
            .ok ⟨c.socket,
              portsWrite portName (SOEPortHandler.confirmReception portHandler rxid) c.ports⟩

/-- The `switch (this->op_code)` of `handleClientRX` (lines 196-406) on a frame whose
payload is complete: the client afterwards. Every `break` in it leaves the switch
only; the loop goes on with the reset of the frame state. -/
def dispatch (openPort : List Nat → Nat → Bool) (c : Client) (op_code : Nat)
    (pckg_buf : List Nat) (pckg_len pckg_recv : Nat) : Except Fault Client :=
  if op_code = OPC_OPEN then caseOpen openPort c pckg_buf pckg_len pckg_recv
  else if op_code = OPC_CLOSE then caseClose c pckg_buf pckg_len pckg_recv
  else if op_code = OPC_STREAM then caseStream c pckg_buf pckg_len pckg_recv
  else if op_code = OPC_RX_CONFIRM then caseRxConfirm c pckg_buf pckg_len pckg_recv
  else
    (sendError c.socket none (literal "received invalid control frame")).map
      (fun sock => ⟨sock, c.ports⟩)

/-- The frames a client has sent that carry the opcode `opc`. -/
def sentWith (opc : Nat) (c : Client) : List SentFrame :=
  c.socket.sent.filter (fun f => f.opc = opc)

end SOEClient

namespace SOEClient

/-- Result of one iteration of the loop of `handleClientRX` with its opcode switch. -/
inductive BodyOutcome where
  | running (s : RxState) (c : Client)
  | stopped (why : RxStop)
  | fault (f : Fault)
deriving DecidableEq, Repr

/-- One iteration of the `while` loop of `handleClientRX` (lines 99-417) with the
opcode switch. When the switch is reached, `pckg_buf` holds `pckg_len` bytes and
`pckg_recv` equals `pckg_len`, so both are the length of the payload. -/
def handleClientRX_body (INET_RX_BUF : Nat) (openPort : List Nat → Nat → Bool)
    (recv : Option (List Nat)) (s : RxState) (c : Client) : BodyOutcome :=
  match handleClientRX_iter INET_RX_BUF c.socket.is_open recv s with
  | .stopped why => .stopped why
  | .running s1 none => .running s1 c
  | .running s1 (some (op_code, pckg_buf)) =>
    match dispatch openPort c op_code pckg_buf pckg_buf.length pckg_buf.length with
    | .error f => .fault f
    | .ok c1 => .running s1 c1

/-- An example client: an open socket on which nothing was sent, and the port `A`
claimed with a fresh handler. -/
def clientA : Client := ⟨⟨true, [], []⟩, [([65], SOEPortHandler.init)]⟩

/-- An example client: the port `A` is claimed and its handler has transmitted the
entries 0, 1 and 2, which wait for their TX_CONFIRM. -/
def clientSent : Client := ⟨⟨true, [], []⟩, [([65], SOEPortHandler.stateThreeSent)]⟩

/-- An example handler: an open port whose writer waits for txid 0 while the TX stack
holds the 128 entries with the txids 1 to 128. -/
def handlerFull : SOEPortHandler :=
  ⟨true, 0, (List.range 128).map (fun k => (k + 1, ⟨1, [k]⟩)), 0, 0, 0, []⟩

/-- An example client: the port `A` is claimed with the handler `handlerFull`. -/
def clientFull : Client := ⟨⟨true, [], []⟩, [([65], handlerFull)]⟩

/-- A serial driver that opens no port. -/
def noPort : List Nat → Nat → Bool := fun _ _ => false

/-- The ERROR frame the `default` case of the switch sends: its payload is the
message `received invalid control frame` behind its length. -/
def invalidFrameError : SentFrame :=
  ⟨OPC_ERROR, be16 30 ++ literal "received invalid control frame",
    0xF8 :: (be32 32 ++ (be16 30 ++ literal "received invalid control frame"))⟩

end SOEClient

namespace SOEClient

/-- The frame `sendError(port, msg)` hands to an open socket, if building it stays
inside its buffers. -/
def errorFrame (port : Option (List Nat)) (msg : List Nat) : Option SentFrame :=
  match errorPayload port msg with
  | .error _ => none
  | .ok (buffer, payloadLen) =>
    (frameBuffer OPC_ERROR buffer payloadLen).map
      (fun bytes => ⟨OPC_ERROR, buffer.take payloadLen, bytes⟩)

/-- The frame `sendClaimStatus(claimed, portName)` hands to an open socket, if
building it stays inside its buffers. -/
def claimFrame (claimed : Bool) (portName : List Nat) : Option SentFrame :=
  match claimPayload portName with
  | .error _ => none
  | .ok (buffer, payloadLen) =>
    (frameBuffer (if claimed then OPC_OPENED else OPC_CLOSED) buffer payloadLen).map
      (fun bytes => ⟨if claimed then OPC_OPENED else OPC_CLOSED, buffer.take payloadLen, bytes⟩)

end SOEClient

/-! ## Mutex ownership along the loops of the port handler -/

namespace SOEPortHandler

/-- What a loop of the port handler does with its stack mutex and the serial port, in
program order: `acquire` is the constructor of `unique_lock` or `lock.lock()`,
`release` is `lock.unlock()` or the destructor of an owning `unique_lock` (end of
scope, `continue`), `waitEnter` and `waitLeave` are the release and the
re-acquisition inside `condition_variable::wait`, `serialIO` is a call of `writeBytes`
or `readBytesConsecutive`, `callback` a call of `tx_confirm` or `new_data`. -/
inductive SyncEvent where
  | acquire
  | release
  | waitEnter
  | waitLeave
  | serialIO
  | callback
deriving DecidableEq, Repr

/-- The events of one iteration of the loop of `handlePortTX` (lines 156-188) along
the path on which the entry at `next_txid` was missing at line 160 (`waited`), the
port was still open after the wait at line 166 (`openAfterWait`) and the drain loop
called `writeBytes` `writes` times. -/
def handlePortTX_sync (waited openAfterWait : Bool) (writes : Nat) : List SyncEvent :=
  [SyncEvent.acquire] ++
  (if waited then [SyncEvent.waitEnter, SyncEvent.waitLeave] else []) ++
  (if waited && !openAfterWait then [SyncEvent.release]
   else
     [SyncEvent.release] ++ List.replicate writes SyncEvent.serialIO ++
     [SyncEvent.callback, SyncEvent.acquire, SyncEvent.release])

/-- The events of one iteration of the loop of `handlePortRX` (lines 206-270) along
the path on which the reader waited for room at line 220 (`waitedRoom`), left the
block by a `continue` of line 230 or 243 (`redoBefore`), or else called
`readBytesConsecutive` and then left the block by a `continue` of line 251 or 256
(`redoAfter`) or through its end and called `new_data`. -/
def handlePortRX_sync (waitedRoom redoBefore redoAfter : Bool) : List SyncEvent :=
  [SyncEvent.acquire] ++
  (if waitedRoom then [SyncEvent.waitEnter, SyncEvent.waitLeave] else []) ++
  (if redoBefore then [SyncEvent.release]
   else
     [SyncEvent.release, SyncEvent.serialIO, SyncEvent.acquire] ++
     (if redoAfter then [SyncEvent.release] else [SyncEvent.release, SyncEvent.callback]))

/-- Follow the events from the ownership `held` of the mutex: `none` when the thread
locks a mutex it holds, unlocks or waits on one it does not hold, or performs serial
I/O while it holds the mutex; otherwise the ownership at the end. -/
def ioUnlocked : Bool → List SyncEvent → Option Bool
  | held, [] => some held
  | false, SyncEvent.acquire :: rest => ioUnlocked true rest
  | true, SyncEvent.release :: rest => ioUnlocked false rest
  | true, SyncEvent.waitEnter :: rest => ioUnlocked false rest
  | false, SyncEvent.waitLeave :: rest => ioUnlocked true rest
  | false, SyncEvent.serialIO :: rest => ioUnlocked false rest
  | held, SyncEvent.callback :: rest => ioUnlocked held rest
  | _, _ => none

end SOEPortHandler

/-! ## Repeated `read` calls -/

namespace SOEPortHandler

/-- The results of `n` successive calls of `read` at the clock reading `now`, with no
other operation in between (`none` for a false return), and the state afterwards. -/
def readRepeat (now : Nat) : Nat → SOEPortHandler → List (Option ReadResult) × SOEPortHandler
  | 0, s => ([], s)
  | n + 1, s =>
    let first := read s now
    let rest := readRepeat now n first.2
    (first.1 :: rest.1, rest.2)

end SOEPortHandler

/-! ## The Linux serial driver: baud rates -/

/-- The speed constants `B0` to `B38400` that `serial_port.cpp` takes from
`<termios.h>`; the header is not part of the sources, so their values are
parameters. -/
structure SpeedConstants where
  B0 : Nat
  B50 : Nat
  B75 : Nat
  B110 : Nat
  B134 : Nat
  B150 : Nat
  B200 : Nat
  B300 : Nat
  B600 : Nat
  B1200 : Nat
  B1800 : Nat
  B2400 : Nat
  B4800 : Nat
  B9600 : Nat
  B19200 : Nat
  B38400 : Nat
deriving DecidableEq, Repr

/-- The line speeds of `struct termios`, the part of it the baud functions use. -/
structure termios where
  c_ispeed : Nat
  c_ospeed : Nat
deriving DecidableEq, Repr

/-- The data members of the Linux `SerialPort` that the baud functions use. -/
structure SerialPort where
  comPortHandle : Int
  comPortState : termios
deriving DecidableEq, Repr

namespace SerialPort

/-- The constants as a list, in the order of the `case` labels. The labels of a
`switch` are distinct, so the list has no duplicates wherever the code compiles. -/
def speeds (c : SpeedConstants) : List Nat :=
  [c.B0, c.B50, c.B75, c.B110, c.B134, c.B150, c.B200, c.B300, c.B600, c.B1200, c.B1800,
   c.B2400, c.B4800, c.B9600, c.B19200, c.B38400]

/-- The baud rates that have a `case` in `setBaud`. -/
def supported : List Int :=
  [0, 50, 75, 110, 134, 150, 200, 300, 600, 1200, 1800, 2400, 4800, 9600, 19200, 38400]

/-- The `switch (baud)` of `setBaud` (lines 72-93): the value of `baudSelection`. -/
def baudSelection (c : SpeedConstants) (baud : Int) : Nat :=
  if baud = 0 then c.B0
  else if baud = 50 then c.B50
  else if baud = 75 then c.B75
  else if baud = 110 then c.B110
  else if baud = 134 then c.B134
  else if baud = 150 then c.B150
  else if baud = 200 then c.B200
  else if baud = 300 then c.B300
  else if baud = 600 then c.B600
  else if baud = 1200 then c.B1200
  else if baud = 1800 then c.B1800
  else if baud = 2400 then c.B2400
  else if baud = 4800 then c.B4800
  else if baud = 9600 then c.B9600
  else if baud = 19200 then c.B19200
  else if baud = 38400 then c.B38400
  else c.B9600

/-- The `switch (cfgetospeed(&comPortState))` of `getBaud` (lines 111-132): the value
of `baud`. -/
def baudOf (c : SpeedConstants) (speed : Nat) : Int :=
  if speed = c.B0 then 0
  else if speed = c.B50 then 50
  else if speed = c.B75 then 75
  else if speed = c.B110 then 110
  else if speed = c.B134 then 134
  else if speed = c.B150 then 150
  else if speed = c.B200 then 200
  else if speed = c.B300 then 300
  else if speed = c.B600 then 600
  else if speed = c.B1200 then 1200
  else if speed = c.B1800 then 1800
  else if speed = c.B2400 then 2400
  else if speed = c.B4800 then 4800
  else if speed = c.B9600 then 9600
  else if speed = c.B19200 then 19200
  else if speed = c.B38400 then 38400
  else -1

/-- `SerialPort::setBaud(baud)` (lines 63-100): the object and the settings of the
terminal afterwards. `tty` are the settings the terminal has; `tcgetattr` copies them
to `comPortState` and `tcsetattr` copies `comPortState` to the terminal, each when
the call succeeds (`getOk`, `setOk`); `cfsetspeed` stores both speeds. -/
def setBaud (c : SpeedConstants) (getOk setOk : Bool) (p : SerialPort) (tty : termios)
    (baud : Int) : SerialPort × termios :=
  if p.comPortHandle < 0 then (p, tty)
  else if !getOk then (p, tty)
  else
    let baudSelection := baudSelection c baud
    let comPortState : termios := ⟨baudSelection, baudSelection⟩
    (⟨p.comPortHandle, comPortState⟩, if setOk then comPortState else tty)

/-- `SerialPort::getBaud()` (lines 102-135): the value returned and the object
afterwards; `cfgetospeed` reads the output speed. -/
def getBaud (c : SpeedConstants) (getOk : Bool) (p : SerialPort) (tty : termios) :
    Int × SerialPort :=
  if p.comPortHandle < 0 then (-1, p)
  else if !getOk then (-1, p)
  else (baudOf c tty.c_ospeed, ⟨p.comPortHandle, tty⟩)

/-- The values the constants have in the Linux headers (`B0` = 0 to `B38400` = 15). -/
def linuxSpeeds : SpeedConstants := ⟨0, 1, 2, 3, 4, 5, 6, 7, 8, 9, 10, 11, 12, 13, 14, 15⟩

end SerialPort

/-! ## Example executions on the TX side -/

namespace SOEPortHandler

end SOEPortHandler

namespace SOEPortHandler

/-- An entry `read` can still hand out at the clock reading `now`: its key is not
below `next_transmit_rxid`, or it lies in the range of the retransmission scan and
the entry is neither confirmed nor waiting for its resend time. -/
def unsentOrDue (now : Nat) (s : SOEPortHandler) (p : Nat × rx_entry) : Bool :=
  decide (s.next_transmit_rxid ≤ p.1) ||
  (decide (s.last_transmitted_rxid ≤ p.1 ∧ p.1 < s.next_transmit_rxid) &&
    !p.2.rx_confirmed && decide (p.2.time_to_resend < now))

/-- The number of entries of the RX stack that are `unsentOrDue`. -/
def readsLeft (now : Nat) (s : SOEPortHandler) : Nat :=
  s.rx_stack.countP (unsentOrDue now s)

/-- The id was handed out and is not due at `now`: it is below `next_transmit_rxid`
and the entry at it, if any, has a resend time of `now` or later. -/
def NotDue (now : Nat) (s : SOEPortHandler) (id : Nat) : Prop :=
  id < s.next_transmit_rxid ∧
  ∀ e, StdMap.find s.rx_stack id = some e → e.time_to_resend ≥ now

end SOEPortHandler

/-! ## Where the serial reader writes -/

namespace SOEPortHandler

/-- The steps that can be taken in a state when the serial driver keeps to its
request: the reader thread takes the step that is next for it (`rx_waitc.wait`
returns only when its condition holds) and `readBytesConsecutive` stores and returns
at most the number of bytes requested; `read`, `confirmReception` and
`confirmTransmission` can be called at any time with any argument. -/
def enabled (s : SOEPortHandler) (r : RxReader) : RxAction → Bool
  | RxAction.readerEnter _ => decide (r.pc = ReaderPc.top)
  | RxAction.readerWake _ =>
    decide (r.pc = ReaderPc.waitRoom ∧
      (StdMap.size s.rx_stack < SERIAL_RX_STACK_LIMIT ∨ s.port_open = false))
  | RxAction.readerReturn data ret =>
    match r.pc with
    | ReaderPc.reading _ requested => decide (data.length ≤ requested ∧ ret ≤ requested)
    | _ => false
  | _ => true

/-- The handler `s1` is `s` with, at most, bytes appended to the entry at `k`. -/
def Touched (s s1 : SOEPortHandler) (k : Nat) : Prop :=
  s1 = s ∨
  ∃ e e1 buf n, StdMap.find s.rx_stack k = some e ∧ appendData e buf n = some e1 ∧
    s1 = ⟨s.port_open, s.next_txid, s.tx_stack, s.next_free_rxid, s.next_transmit_rxid,
      s.last_transmitted_rxid, StdMap.update k (fun _ => e1) s.rx_stack⟩

/-- The handler `s0` is `s` after the reader made sure that an entry stands at
`next_free_rxid`: unchanged, with a fresh entry at `next_free_rxid` where none was, or
with a fresh entry at the incremented `next_free_rxid`. -/
def Made (now : Nat) (s s0 : SOEPortHandler) : Prop :=
  s0 = s ∨
  (StdMap.find s.rx_stack s.next_free_rxid = none ∧
    s0 = ⟨s.port_open, s.next_txid, s.tx_stack, s.next_free_rxid, s.next_transmit_rxid,
      s.last_transmitted_rxid, StdMap.insert s.next_free_rxid (newEntry now) s.rx_stack⟩) ∨
  s0 = ⟨s.port_open, s.next_txid, s.tx_stack, (s.next_free_rxid + 1) % UINT_MOD,
    s.next_transmit_rxid, s.last_transmitted_rxid,
    StdMap.insert ((s.next_free_rxid + 1) % UINT_MOD) (newEntry now) s.rx_stack⟩

/-- No key of the RX stack is above `next_free_rxid`, `next_transmit_rxid` is not
above `next_free_rxid`, which is at most `n`, and while the reader is inside
`readBytesConsecutive` its reference `stackEntry` is the entry at `next_free_rxid`
unless there is no entry at `next_free_rxid`. -/
def KeysInv (s : SOEPortHandler) (r : RxReader) (n : Nat) : Prop :=
  (∀ p ∈ s.rx_stack, p.1 ≤ s.next_free_rxid) ∧
  s.next_transmit_rxid ≤ s.next_free_rxid ∧ s.next_free_rxid ≤ n ∧
  match r.pc with
  | ReaderPc.reading key _ =>
    StdMap.find s.rx_stack s.next_free_rxid = none ∨ key = s.next_free_rxid
  | _ => True

/-- Every entry of the RX stack has a payload buffer of `SERIAL_RX_ENTRY_LEN` bytes
and a length within it, the scratch buffer of the reader has `SERIAL_RX_ENTRY_LEN`
bytes with at most all of them pending, and the reader asks the driver for at most
`SERIAL_RX_ENTRY_LEN` bytes. -/
def SafeInv (s : SOEPortHandler) (r : RxReader) : Prop :=
  (∀ p ∈ s.rx_stack, EntryOk p.2) ∧ BufferOk r ∧
  match r.pc with
  | ReaderPc.reading _ requested => requested ≤ SERIAL_RX_ENTRY_LEN
  | _ => True

end SOEPortHandler

namespace SOEPortHandler

/-- An example execution: the reader stores two bytes in entry 0 and asks the driver
for more. -/
def beforeRead : List RxAction :=
  [RxAction.readerEnter 0, RxAction.readerReturn [1, 2] 2, RxAction.readerEnter 1]

/-- The state after `beforeRead`. -/
def stateBeforeRead : SOEPortHandler :=
  ⟨true, 0, [], 0, 0, 0, [(0, ⟨2, 1 :: 2 :: List.replicate 1022 0, 0, false⟩)]⟩

/-- The locals of the reader after `beforeRead`: it is inside
`readBytesConsecutive` with 1022 bytes requested for entry 0. -/
def readerBeforeRead : RxReader :=
  ⟨1 :: 2 :: List.replicate 1022 0, 0, ReaderPc.reading 0 1022⟩

/-- What `read` hands out in `stateBeforeRead`: entry 0 with its two bytes. -/
def firstSent : ReadResult := ⟨0, 1 :: 2 :: List.replicate 1022 0, 2⟩

/-- An example continuation after `read` has handed out entry 0: the driver returns
one byte and then another, which go to entry 1, and `read` is called again when
entry 0 is due for retransmission. -/
def afterRead : List RxAction :=
  [RxAction.readerReturn [3] 1, RxAction.readerEnter 3, RxAction.readerReturn [4] 1,
   RxAction.read 500]

/-- The state after `beforeRead`, the call of `read` at the clock reading 2 and
`afterRead`. -/
def stateResent : SOEPortHandler :=
  ⟨true, 0, [], 1, 1, 0,
    [(0, ⟨2, 1 :: 2 :: List.replicate 1022 0, 600, false⟩),
     (1, ⟨2, 3 :: 4 :: List.replicate 1022 0, 3, false⟩)]⟩

end SOEPortHandler

/-! ### Executions up to the wrap of the rxid counters -/

namespace SOEPortHandler

/-- One round of an execution in which every TX_CONFIRM arrives at once: the reader
stores one byte in a new entry, `read` hands the entry `k` to the network and the
transmission of `k` is confirmed. -/
def drainRound (k : Nat) : List RxAction :=
  [RxAction.readerEnter 0, RxAction.readerReturn [7] 1, RxAction.read 0,
   RxAction.confirmTransmission k]

/-- The rounds `drainRound a`, ..., `drainRound (a + n - 1)`, in this order. -/
def drainFrom (a : Nat) : Nat → List RxAction
  | 0 => []
  | n + 1 => drainFrom a n ++ drainRound (a + n)

/-- The handler of an open port between the rounds: the three rxid counters are `n`
and the RX stack is empty. -/
def drained (n : Nat) : SOEPortHandler := ⟨true, 0, [], n, n, n, []⟩

/-- The reader between the rounds, at the top of its loop. -/
def readerDrained : RxReader := ⟨7 :: List.replicate 1023 0, 0, ReaderPc.top⟩

end SOEPortHandler

namespace SOEPortHandler

/-- The reader stores the byte 01 in the entry at `next_free_rxid`. -/
def storeOne : List RxAction := [RxAction.readerEnter 0, RxAction.readerReturn [1] 1]

/-- The state after `storeOne` from `drained 4294967295`: the byte stands in the
entry with the last rxid before the wrap. -/
def stateLastId : SOEPortHandler :=
  ⟨true, 0, [], 4294967295, 4294967295, 4294967295,
    [(4294967295, ⟨1, 1 :: List.replicate 1023 0, 0, false⟩)]⟩

/-- The state after `read` at the clock reading 0 in `stateLastId`:
`next_transmit_rxid` has wrapped to 0 and `next_free_rxid` is where it was. -/
def stateLastSent : SOEPortHandler :=
  ⟨true, 0, [], 4294967295, 0, 4294967295,
    [(4294967295, ⟨1, 1 :: List.replicate 1023 0, 100, false⟩)]⟩

/-- The reader stores the byte 02 in the entry at `next_free_rxid`. -/
def storeTwo : List RxAction := [RxAction.readerEnter 1, RxAction.readerReturn [2] 1]

/-- The state after `storeTwo` from `stateLastSent`. -/
def stateLastGrown : SOEPortHandler :=
  ⟨true, 0, [], 4294967295, 0, 4294967295,
    [(4294967295, ⟨2, 1 :: 2 :: List.replicate 1022 0, 100, false⟩)]⟩

end SOEPortHandler

namespace SOEPortHandler

/-- An execution around the wrap of `next_free_rxid`, started with the counters at
`0xFFFFFFFD`: two TX_CONFIRM frames for rxids that were not handed out move
`last_transmitted_rxid` to `0xFFFFFFFF`; the reader fills the entries `0xFFFFFFFD`,
`0xFFFFFFFE` and `0xFFFFFFFF` with 1024 bytes each and calls `readBytesConsecutive`
for the new entry 0; `read` hands out `0xFFFFFFFD`; a TX_CONFIRM for rxid 0 arrives. -/
def wrapErase : List RxAction :=
  [RxAction.confirmTransmission 4294967293, RxAction.confirmTransmission 4294967294,
   RxAction.readerEnter 0, RxAction.readerReturn (List.replicate 1024 7) 1024,
   RxAction.readerEnter 0, RxAction.readerReturn (List.replicate 1024 7) 1024,
   RxAction.readerEnter 0, RxAction.readerReturn (List.replicate 1024 7) 1024,
   RxAction.readerEnter 0, RxAction.read 0, RxAction.confirmTransmission 0]

/-- The state after `wrapErase`: `next_free_rxid` is `0xFFFFFFFE`, where an entry
stands, and the entry 0 is erased. -/
def stateErased : SOEPortHandler :=
  ⟨true, 0, [], 4294967294, 4294967294, 1,
    [(4294967293, ⟨1024, List.replicate 1024 7, 100, false⟩),
     (4294967294, ⟨1024, List.replicate 1024 7, 0, false⟩)]⟩

/-- The reader after `wrapErase`: inside `readBytesConsecutive`, with `stackEntry`
referring to the entry 0. -/
def readerStale : RxReader := ⟨List.replicate 1024 7, 0, ReaderPc.reading 0 1024⟩

end SOEPortHandler

namespace SOEPortHandler

/-- An execution around the wrap of the rxid counters, started with the counters at
`0xFFFFFFFE`: two TX_CONFIRM frames for rxids that were not handed out move
`last_transmitted_rxid` to 0; the reader fills the entries `0xFFFFFFFE` and
`0xFFFFFFFF` with 1024 bytes each and stores the byte 05 in the new entry 0. -/
def wrapUnsent : List RxAction :=
  [RxAction.confirmTransmission 4294967294, RxAction.confirmTransmission 4294967295,
   RxAction.readerEnter 0, RxAction.readerReturn (List.replicate 1024 7) 1024,
   RxAction.readerEnter 0, RxAction.readerReturn (List.replicate 1024 7) 1024,
   RxAction.readerEnter 0, RxAction.readerReturn [5] 1]

/-- The state after `wrapUnsent`: three entries wait for their first transmission,
`next_free_rxid` and `last_transmitted_rxid` have wrapped to 0 and
`next_transmit_rxid` is `0xFFFFFFFE`. -/
def stateAcrossWrap : SOEPortHandler :=
  ⟨true, 0, [], 0, 4294967294, 0,
    [(0, ⟨1, 5 :: List.replicate 1023 0, 0, false⟩),
     (4294967294, ⟨1024, List.replicate 1024 7, 0, false⟩),
     (4294967295, ⟨1024, List.replicate 1024 7, 0, false⟩)]⟩

end SOEPortHandler

namespace SOEPortHandler

/-- The guard of the executions before the rxid counters wrap: every step is taken
in a state in which `next_free_rxid` is below its last value `2^32 - 1`. -/
def beforeWrap (s : SOEPortHandler) (_ : RxReader) (_ : RxAction) : Bool :=
  decide (s.next_free_rxid + 1 < UINT_MOD)

/-- An execution across the wrap of the rxid counters, started with the counters at
`0xFFFFFFFF`: the reader fills the entry `0xFFFFFFFF` with 1024 bytes and stores
the byte 05 in the new entry 0; `read` is called twice. -/
def wrapReuse : List RxAction :=
  [RxAction.readerEnter 0, RxAction.readerReturn (List.replicate 1024 7) 1024,
   RxAction.readerEnter 0, RxAction.readerReturn [5] 1, RxAction.read 0, RxAction.read 0]

/-- The state after `wrapReuse`. -/
def stateReused : SOEPortHandler :=
  ⟨true, 0, [], 1, 1, 4294967295,
    [(0, ⟨1, 5 :: List.replicate 1023 0, 100, false⟩),
     (4294967295, ⟨1024, List.replicate 1024 7, 100, false⟩)]⟩

/-- What the two calls of `read` in `wrapReuse` hand out. -/
def logReused : List ReadResult :=
  [⟨4294967295, List.replicate 1024 7, 1024⟩, ⟨0, 5 :: List.replicate 1023 0, 1⟩]

end SOEPortHandler

namespace SOEPortHandler

/-- The RX stack after `n` rounds of `flood`: the entries `0`, ..., `n - 1`, one
byte each, all handed out at the clock reading 0. -/
def floodStack (n : Nat) : List (Nat × rx_entry) :=
  (List.range n).map (fun k => (k, ⟨1, 7 :: List.replicate 1023 0, 100, false⟩))

/-- The handler after `n` rounds of `flood`. -/
def flooded (n : Nat) : SOEPortHandler := ⟨true, 0, [], n, n, 0, floodStack n⟩

/-- An execution in which the reader has to wait for room: the reader fills the
entry at `next_free_rxid` with 1024 bytes and finds the stack at its limit; while it
waits, `read` hands out the full entry and a TX_CONFIRM for rxid 0 makes room; the
reader wakes up and stores the byte 09 in the entry it creates. -/
def waitForRoom : List RxAction :=
  [RxAction.readerEnter 0, RxAction.readerReturn (List.replicate 1024 7) 1024,
   RxAction.readerEnter 0, RxAction.read 0, RxAction.confirmTransmission 0,
   RxAction.readerWake 0, RxAction.readerReturn [9] 1]

/-- The state after `waitForRoom` from `flooded 127`: the entries 1 to 127 are
handed out, the byte 09 stands in the entry 129 and there is no entry 128. -/
def stateSkipped : SOEPortHandler :=
  ⟨true, 0, [], 129, 128, 1,
    (List.range' 1 126).map (fun k => (k, ⟨1, 7 :: List.replicate 1023 0, 100, false⟩))
      ++ [(127, ⟨1024, List.replicate 1024 7, 100, false⟩),
          (129, ⟨1, 9 :: List.replicate 1023 0, 0, false⟩)]⟩

end SOEPortHandler

/-! ## Properties

Helper lemmas come first in each part; the theorem of a claim carries the claim's
number in its comment. -/

/-! ### Bit fields of the frame header -/

theorem or_shift3_eq (a m : Nat) : (a &&& 0x7) ||| (m <<< 3) = 8 * m + a % 8 := by
  have h1 : a &&& 0x7 = a % 8 := Nat.and_pow_two_sub_one_eq_mod a 3
  have h2 : a % 8 < 2 ^ 3 := Nat.mod_lt _ (by norm_num)
  have h3 := Nat.mul_add_lt_is_or h2 m
  rw [h1, Nat.or_comm, Nat.shiftLeft_eq, Nat.mul_comm m (2 ^ 3), ← h3]

theorem and_ff_eq (a : Nat) : a &&& 0xFF = a % 256 :=
  Nat.and_pow_two_sub_one_eq_mod a 8

namespace SOEClient

theorem frameStart_eq (opc length : Nat) :
    frameStart opc length = (opc &&& 0x7) ||| (min length 31 <<< 3) := by
  have hm : (if length > 30 then 31 else length) = min length 31 := by
    split <;> omega
  unfold frameStart
  rw [hm, or_shift3_eq]
  have : min length 31 ≤ 31 := Nat.min_le_right _ _
  omega


theorem memcpy_tail (dst src : List Nat) (off : Nat) (h : dst.length = off + src.length) :
    memcpy dst off src 0 src.length = some (dst.take off ++ src) := by
  simp [memcpy, h]

theorem frameBuffer_short (opc : Nat) (payload : List Nat) (h : payload.length ≤ 30) :
    frameBuffer opc payload payload.length = some (frameStart opc payload.length :: payload) := by
  have h30 : ¬ payload.length > 30 := by omega
  simp only [frameBuffer, frameLen, h30, if_false]
  rw [memcpy_tail _ _ _ (by simp)]
  simp [Nat.add_comm 1, List.replicate_succ]

theorem frameBuffer_long (opc : Nat) (payload : List Nat) (h : 30 < payload.length) :
    frameBuffer opc payload payload.length =
      some (frameStart opc payload.length :: (be32 payload.length ++ payload)) := by
  have h30 : payload.length > 30 := h
  simp only [frameBuffer, frameLen, h30, if_true]
  rw [memcpy_tail _ _ _ (by simp)]
  simp [Nat.add_comm 5, List.replicate_succ, be32, and_ff_eq, Nat.shiftRight_eq_div_pow]

end SOEClient

theorem byte_len_field (h : Nat) (hh : h < 256) : (h &&& 0xF8) >>> 3 = h / 8 := by
  have e1 : (h &&& 0xF8) >>> 3 = (h &&& 0xF8) / 2 / 2 / 2 := by
    rw [Nat.shiftRight_eq_div_pow]
    omega
  have e2 : (0xF8 : Nat) / 2 / 2 / 2 = 2 ^ 5 - 1 := by decide
  rw [e1, Nat.and_div_two, Nat.and_div_two, Nat.and_div_two, e2,
    Nat.and_pow_two_sub_one_eq_mod]
  omega

theorem or_shiftLeft_of_lt (a b i : Nat) (h : a < 2 ^ i) : a ||| (b <<< i) = 2 ^ i * b + a := by
  rw [Nat.mul_add_lt_is_or h b, Nat.or_comm, Nat.shiftLeft_eq, Nat.mul_comm]

theorem decode_be32 (L : Nat) (hL : L < 2 ^ 32) :
    ((((0 ||| ((L % 256 &&& 0xFF) <<< 0)) ||| ((L / 2 ^ 8 % 256 &&& 0xFF) <<< 8)) |||
      ((L / 2 ^ 16 % 256 &&& 0xFF) <<< 16)) ||| ((L / 2 ^ 24 % 256 &&& 0xFF) <<< 24)) % UINT_MOD = L := by
  simp only [and_ff_eq, Nat.mod_mod, Nat.zero_or, Nat.shiftLeft_zero]
  have h0 : L % 256 < 2 ^ 8 := Nat.mod_lt _ (by norm_num)
  rw [or_shiftLeft_of_lt _ _ 8 h0]
  have h1 : 2 ^ 8 * (L / 2 ^ 8 % 256) + L % 256 < 2 ^ 16 := by omega
  rw [or_shiftLeft_of_lt _ _ 16 h1]
  have h2 : 2 ^ 16 * (L / 2 ^ 16 % 256) + (2 ^ 8 * (L / 2 ^ 8 % 256) + L % 256) < 2 ^ 24 := by omega
  rw [or_shiftLeft_of_lt _ _ 24 h2]
  unfold UINT_MOD
  omega

namespace SOEClient

theorem frameStart_field (h L : Nat) (hL : h / 8 = min L 31) :
    frameStart (h &&& 0x7) L = h := by
  rw [frameStart_eq, or_shift3_eq]
  have h1 : h &&& 0x7 = h % 8 := Nat.and_pow_two_sub_one_eq_mod h 3
  rw [h1, ← hL]
  omega

theorem decodeHeader_short (h : Nat) (rest : List Nat) (n : Nat) (hh : h < 256)
    (h31 : h / 8 ≠ 31) :
    decodeHeader (h :: rest) (n + 1) = some (h &&& 0x7, h / 8) := by
  simp [decodeHeader, byte_len_field h hh, h31]

theorem decodeHeader_long (h L : Nat) (rest : List Nat) (n : Nat) (hh : h < 256)
    (h31 : h / 8 = 31) (hL : L < 2 ^ 32) :
    decodeHeader (h :: (be32 L ++ rest)) (n + 5) = some (h &&& 0x7, L) := by
  have := decode_be32 L hL
  simp only [Nat.zero_or] at this
  simp [decodeHeader, byte_len_field h hh, h31, be32]
  simpa using this

theorem startPayload_short (s : RxState) (h opc : Nat) (payload tl : List Nat)
    (h30 : payload.length ≤ 30) (hrx : s.rxbuf = h :: (payload ++ tl))
    (hrecv : s.received = payload.length + 1) :
    startPayload s opc payload.length =
      .ok { op_code := (opc : Int), pckg_buf := payload, pckg_len := payload.length,
            pckg_recv := payload.length, rxbuf := s.rxbuf, received := 0 } := by
  have hn : ¬ payload.length > 30 := by omega
  have e1 : sub32 (payload.length + 1) 1 = payload.length := by
    unfold sub32 UINT_MOD; omega
  have e2 : sub32 (sub32 (payload.length + 1) payload.length) 1 = 0 := by
    unfold sub32 UINT_MOD; omega
  have hc : 1 + payload.length ≤ payload.length + tl.length + 1 := by omega
  simp only [startPayload, hn, if_false, hrecv, e1, e2, lt_irrefl, gt_iff_lt, hrx]
  simp [memcpy, hc]

theorem startPayload_long (s : RxState) (h opc L : Nat) (payload tl : List Nat)
    (h31 : 30 < payload.length) (hlen : payload.length + 5 < 2 ^ 32)
    (hrx : s.rxbuf = h :: (be32 L ++ (payload ++ tl)))
    (hrecv : s.received = payload.length + 5) :
    startPayload s opc payload.length =
      .ok { op_code := (opc : Int), pckg_buf := payload, pckg_len := payload.length,
            pckg_recv := payload.length, rxbuf := s.rxbuf, received := 0 } := by
  have hn : payload.length > 30 := h31
  have e1 : sub32 (payload.length + 5) 5 = payload.length := by
    unfold sub32 UINT_MOD; omega
  have e2 : sub32 (sub32 (payload.length + 5) payload.length) 5 = 0 := by
    unfold sub32 UINT_MOD; omega
  have hc : 5 + payload.length ≤ payload.length + tl.length + 1 + 1 + 1 + 1 + 1 := by omega
  simp only [startPayload, hn, if_true, hrecv, e1, e2, lt_irrefl, gt_iff_lt, hrx, if_false]
  simp [memcpy, be32, hc]


theorem iter_fresh (B : Nat) (b rxbuf : List Nat) (hfit : b.length ≤ B) :
    handleClientRX_iter B true (some b) (rxInit rxbuf) =
      match startFrame { rxInit rxbuf with rxbuf := b ++ rxbuf.drop b.length,
                                           received := b.length } with
      | .error why => .stopped why
      | .ok s =>
        if s.pckg_recv ≥ s.pckg_len then
          .running { s with pckg_buf := [], pckg_recv := 0, pckg_len := 0, op_code := -1 }
            (some (s.op_code.toNat, s.pckg_buf))
        else .running s none := by
  simp [handleClientRX_iter, rxInit, receive, List.take_of_length_le hfit, Nat.min_eq_right hfit]

/-- C1: a canonically encoded frame that arrives in one receive is decoded by the
receive loop into an opcode and a payload which `sendFrame` encodes back into the
same bytes; nothing is left over in the receive buffer. -/
theorem decode_encode_roundtrip (INET_RX_BUF : Nat) (b rxbuf : List Nat)
    (hcanon : CanonicalFrame b) (hfit : b.length ≤ INET_RX_BUF)
    (hB : INET_RX_BUF < 2 ^ 32) :
    ∃ s opc payload,
      handleClientRX_iter INET_RX_BUF true (some b) (rxInit rxbuf)
        = .running s (some (opc, payload)) ∧
      s.received = 0 ∧ s.op_code = -1 ∧
      sendFrame true opc payload payload.length = some b := by
  obtain ⟨h, payload, hh, hcase⟩ := hcanon
  rcases hcase with ⟨hlen, h30, rfl⟩ | ⟨hlen, h31, hL, rfl⟩
  · have h31 : h / 8 ≠ 31 := by omega
    rw [iter_fresh _ _ _ hfit]
    simp only [startFrame, rxInit, List.length_cons, List.cons_append,
      decodeHeader_short h _ _ hh h31, hlen]
    rw [startPayload_short _ h _ payload (rxbuf.drop (payload.length + 1)) h30 rfl rfl]
    refine ⟨⟨-1, [], 0, 0, h :: (payload ++ rxbuf.drop (payload.length + 1)), 0⟩,
      h &&& 0x7, payload, ?_, rfl, rfl, ?_⟩
    · simp
    · simp only [sendFrame, Bool.not_true, Bool.false_eq_true, if_false]
      rw [frameBuffer_short _ _ h30, frameStart_field h _ (by omega)]
  · have e5 : (h :: (be32 payload.length ++ payload)).length = payload.length + 5 := by
      simp [be32]
    rw [iter_fresh _ _ _ hfit]
    simp only [startFrame, rxInit, e5, List.cons_append, List.append_assoc,
      decodeHeader_long h payload.length _ _ hh hlen hL]
    rw [startPayload_long _ h _ payload.length payload (rxbuf.drop (payload.length + 5))
      (by omega) (by omega) rfl rfl]
    refine ⟨⟨-1, [], 0, 0,
      h :: (be32 payload.length ++ (payload ++ rxbuf.drop (payload.length + 5))), 0⟩,
      h &&& 0x7, payload, ?_, rfl, rfl, ?_⟩
    · simp
    · simp only [sendFrame, Bool.not_true, Bool.false_eq_true, if_false]
      rw [frameBuffer_long _ _ (by omega), frameStart_field h _ (by omega)]


/-- C1, at payload lengths 0, 30 and 31: the three boundary frames are decoded and
encoded back byte for byte. -/
theorem decode_encode_roundtrip_witness :
    (∃ s opc payload,
      handleClientRX_iter 64 true (some [0x05]) (rxInit (List.replicate 64 0))
        = .running s (some (opc, payload)) ∧
      s.received = 0 ∧ s.op_code = -1 ∧
      sendFrame true opc payload payload.length = some [0x05]) ∧
    (∃ s opc payload,
      handleClientRX_iter 64 true (some (0xF5 :: List.replicate 30 7)) (rxInit (List.replicate 64 0))
        = .running s (some (opc, payload)) ∧
      s.received = 0 ∧ s.op_code = -1 ∧
      sendFrame true opc payload payload.length = some (0xF5 :: List.replicate 30 7)) ∧
    (∃ s opc payload,
      handleClientRX_iter 64 true (some (0xFD :: (be32 (List.replicate 31 7).length ++ List.replicate 31 7)))
          (rxInit (List.replicate 64 0))
        = .running s (some (opc, payload)) ∧
      s.received = 0 ∧ s.op_code = -1 ∧
      sendFrame true opc payload payload.length
        = some (0xFD :: (be32 (List.replicate 31 7).length ++ List.replicate 31 7))) :=
  ⟨decode_encode_roundtrip 64 [0x05] _
      ⟨0x05, [], by decide, Or.inl ⟨by decide, by decide, rfl⟩⟩ (by decide) (by decide),
   decode_encode_roundtrip 64 (0xF5 :: List.replicate 30 7) _
      ⟨0xF5, List.replicate 30 7, by decide, Or.inl ⟨by decide, by decide, rfl⟩⟩
      (by decide) (by decide),
   decode_encode_roundtrip 64 (0xFD :: (be32 (List.replicate 31 7).length ++ List.replicate 31 7)) _
      ⟨0xFD, List.replicate 31 7, by decide, Or.inr ⟨by decide, by decide, by decide, rfl⟩⟩
      (by decide) (by decide)⟩

/-- C3 (defect in the code): the frame `1D 01 02 03` (opcode 5, payload `01 02 03`)
is handed to the opcode switch when it arrives in one receive, but when it arrives
as `1D 01` and `02 03` the second iteration computes `reminder = 0 - 2` on
`unsigned int`, so 4294967294 bytes are counted as left over and the copy of that
many bytes leaves `rxbuf`; and when the second receive also carries the first byte
of the next frame the loop is left with a frame error. -/
theorem split_payload_not_reassembled :
    handleClientRX_loop 16 10 [[0x1D, 1, 2, 3]] (rxInit (List.replicate 16 0))
      = ([(5, [1, 2, 3])], none) ∧
    handleClientRX_loop 16 10 [[0x1D, 1], [2, 3]] (rxInit (List.replicate 16 0))
      = ([], some (RxStop.outOfBounds 4294967294)) ∧
    handleClientRX_loop 16 10 [[0x1D, 1], [2, 3, 0x05]] (rxInit (List.replicate 16 0))
      = ([], some RxStop.lengthMismatch) := by
  decide

/-- C4 (defect in the code): the input `FD 00 00 00 02 AA BB` has the length value 31
in its first byte and the extended length 2. The decoder takes the payload from
offset 1 (`00 00`) instead of offset 5 (`AA BB`) and keeps the four bytes
`00 02 AA BB` as the start of a next frame. -/
theorem extended_length_payload_offset :
    decodeHeader [0xFD, 0, 0, 0, 2, 0xAA, 0xBB] 7 = some (5, 2) ∧
    ([0xFD, 0, 0, 0, 2, 0xAA, 0xBB].drop 5).take 2 = [0xAA, 0xBB] ∧
    handleClientRX_iter 16 true (some [0xFD, 0, 0, 0, 2, 0xAA, 0xBB])
        (rxInit (List.replicate 16 0)) =
      .running { op_code := -1, pckg_buf := [], pckg_len := 0, pckg_recv := 0,
                 rxbuf := [0, 2, 0xAA, 0xBB, 2, 0xAA, 0xBB, 0, 0, 0, 0, 0, 0, 0, 0, 0],
                 received := 4 }
        (some (5, [0, 0])) := by
  decide

end SOEClient

/-! ### The TX stack and `SOEPortHandler::send` -/

namespace StdMap

theorem find_insert_self {α : Type} (k : Nat) (v : α) (m : List (Nat × α)) :
    find (insert k v m) k = some v := by
  induction m with
  | nil => simp [insert, find, List.lookup]
  | cons p t ih =>
    obtain ⟨k1, v1⟩ := p
    unfold insert
    by_cases h1 : k < k1
    · simp [h1, find, List.lookup]
    · by_cases h2 : k = k1
      · simp [h2, find, List.lookup]
      · have : (k == k1) = false := by simpa using h2
        simp only [h1, h2, if_false, find, List.lookup, this]
        exact ih

theorem find_insert_ne {α : Type} (k j : Nat) (v : α) (m : List (Nat × α)) (hne : j ≠ k) :
    find (insert k v m) j = find m j := by
  have hjk : (j == k) = false := by simpa using hne
  induction m with
  | nil => simp [insert, find, List.lookup, hjk]
  | cons p t ih =>
    obtain ⟨k1, v1⟩ := p
    unfold insert
    by_cases h1 : k < k1
    · simp [h1, find, List.lookup, hjk]
    · by_cases h2 : k = k1
      · subst h2
        simp [find, List.lookup, hjk]
      · simp only [h1, h2, if_false, find, List.lookup]
        cases hj : (j == k1)
        · exact ih
        · rfl

theorem erase_cons_self {α : Type} (k : Nat) (v : α) (t : List (Nat × α)) :
    erase k ((k, v) :: t) = erase k t := by
  simp [erase]

theorem erase_cons_ne {α : Type} (k k1 : Nat) (v : α) (t : List (Nat × α)) (h : k1 ≠ k) :
    erase k ((k1, v) :: t) = (k1, v) :: erase k t := by
  simp [erase, h]

theorem find_cons {α : Type} (j k1 : Nat) (v : α) (t : List (Nat × α)) :
    find ((k1, v) :: t) j = if j = k1 then some v else find t j := by
  by_cases h : j = k1
  · simp [find, List.lookup, h]
  · have : (j == k1) = false := by simpa using h
    simp [find, List.lookup, h, this]

theorem find_erase_self {α : Type} (k : Nat) (m : List (Nat × α)) :
    find (erase k m) k = none := by
  induction m with
  | nil => simp [erase, find, List.lookup]
  | cons p t ih =>
    obtain ⟨k1, v1⟩ := p
    by_cases h : k1 = k
    · subst h
      rw [erase_cons_self]
      exact ih
    · rw [erase_cons_ne _ _ _ _ h, find_cons, if_neg (Ne.symm h)]
      exact ih

theorem find_erase_ne {α : Type} (k j : Nat) (m : List (Nat × α)) (hne : j ≠ k) :
    find (erase k m) j = find m j := by
  induction m with
  | nil => simp [erase, find, List.lookup]
  | cons p t ih =>
    obtain ⟨k1, v1⟩ := p
    by_cases h : k1 = k
    · subst h
      rw [erase_cons_self, find_cons, if_neg hne]
      exact ih
    · rw [erase_cons_ne _ _ _ _ h, find_cons, find_cons, ih]

end StdMap

namespace SOEPortHandler

theorem send_closed (s : SOEPortHandler) (txid : Nat) (buffer : List Nat) (length : Nat)
    (h : s.port_open = false) : send s txid buffer length = (false, s) := by
  simp [send, h]

theorem send_past (s : SOEPortHandler) (txid : Nat) (buffer : List Nat) (length : Nat)
    (h : s.port_open = true) (hp : inThePast s txid = true) :
    send s txid buffer length = (true, s) := by
  simp [send, h, hp]

theorem send_full (s : SOEPortHandler) (txid : Nat) (buffer : List Nat) (length : Nat)
    (h : s.port_open = true) (hp : inThePast s txid = false)
    (hfull : StdMap.size s.tx_stack ≥ SERIAL_RX_STACK_LIMIT ∧ txid ≠ s.next_txid) :
    send s txid buffer length = (false, s) := by
  simp only [send, h, hp, Bool.not_true, Bool.false_eq_true, if_false]
  rw [if_pos hfull]

theorem send_store (s : SOEPortHandler) (txid : Nat) (buffer : List Nat) (length : Nat)
    (h : s.port_open = true) (hp : inThePast s txid = false)
    (hroom : ¬ (StdMap.size s.tx_stack ≥ SERIAL_RX_STACK_LIMIT ∧ txid ≠ s.next_txid)) :
    send s txid buffer length =
      (true, { s with tx_stack := StdMap.insert txid ⟨length, buffer.take length⟩ s.tx_stack }) := by
  simp only [send, h, hp, Bool.not_true, Bool.false_eq_true, if_false]
  rw [if_neg hroom]

theorem send_false_unchanged (s : SOEPortHandler) (txid : Nat) (buffer : List Nat)
    (length : Nat) :
    (send s txid buffer length).1 = false → (send s txid buffer length).2 = s := by
  cases hopen : s.port_open
  · rw [send_closed s txid buffer length hopen]
    simp
  · cases hp : inThePast s txid
    · by_cases hfull : StdMap.size s.tx_stack ≥ SERIAL_RX_STACK_LIMIT ∧ txid ≠ s.next_txid
      · rw [send_full s txid buffer length hopen hp hfull]
        simp
      · rw [send_store s txid buffer length hopen hp hfull]
        simp
    · rw [send_past s txid buffer length hopen hp]
      simp

/-- C5 (defect in the code): with `next_txid = 5` after a wrap, the txid `0xFFFFFFFF`
is 6 behind `next_txid` modulo `2^32`, yet `send` stores its payload on the TX stack;
and with `next_txid = 0x7FFFFFFF` the txid 0, which is `2^31 - 1` behind, is stored
as well. In both cases `send` returns true and the stack has changed. -/
theorem send_modular_past_is_stored :
    sub32 5 0xFFFFFFFF = 6 ∧
    send { init with next_txid := 5 } 0xFFFFFFFF [1, 2, 3] 3 =
      (true, { init with next_txid := 5, tx_stack := [(0xFFFFFFFF, ⟨3, [1, 2, 3]⟩)] }) ∧
    sub32 0x7FFFFFFF 0 = 2 ^ 31 - 1 ∧
    send { init with next_txid := 0x7FFFFFFF } 0 [1, 2, 3] 3 =
      (true, { init with next_txid := 0x7FFFFFFF, tx_stack := [(0, ⟨3, [1, 2, 3]⟩)] }) := by
  decide

/-- C6: on an open port, a txid that is not in the past is stored when the TX stack
holds fewer than `SERIAL_RX_STACK_LIMIT` entries or the txid is `next_txid`: `send`
returns true, the stack maps the txid to the length and the copy of the first
`length` bytes of the buffer, every other key and every other member is unchanged. -/
theorem send_stores_entry (s : SOEPortHandler) (txid : Nat) (buffer : List Nat) (length : Nat)
    (hopen : s.port_open = true) (hpast : inThePast s txid = false)
    (hroom : StdMap.size s.tx_stack < SERIAL_RX_STACK_LIMIT ∨ txid = s.next_txid) :
    (send s txid buffer length).1 = true ∧
    StdMap.find (send s txid buffer length).2.tx_stack txid
      = some ⟨length, buffer.take length⟩ ∧
    (∀ k, k ≠ txid →
      StdMap.find (send s txid buffer length).2.tx_stack k = StdMap.find s.tx_stack k) ∧
    (send s txid buffer length).2.next_txid = s.next_txid ∧
    (send s txid buffer length).2
      = { s with tx_stack := (send s txid buffer length).2.tx_stack } := by
  have hr : ¬ (StdMap.size s.tx_stack ≥ SERIAL_RX_STACK_LIMIT ∧ txid ≠ s.next_txid) := by
    rintro ⟨h1, h2⟩
    rcases hroom with h | h
    · omega
    · exact h2 h
  rw [send_store s txid buffer length hopen hpast hr]
  refine ⟨rfl, ?_, ?_, rfl, rfl⟩
  · exact StdMap.find_insert_self _ _ _
  · intro k hk
    exact StdMap.find_insert_ne _ _ _ _ hk

/-- C6 for a keep-alive: an empty payload sent with txid 0 to the initial state
creates an entry of length 0. -/
theorem send_stores_entry_witness :
    (send init 0 [] 0).1 = true ∧
    StdMap.find (send init 0 [] 0).2.tx_stack 0 = some ⟨0, ([] : List Nat).take 0⟩ ∧
    (∀ k, k ≠ 0 →
      StdMap.find (send init 0 [] 0).2.tx_stack k = StdMap.find init.tx_stack k) ∧
    (send init 0 [] 0).2.next_txid = init.next_txid ∧
    (send init 0 [] 0).2 = { init with tx_stack := (send init 0 [] 0).2.tx_stack } :=
  send_stores_entry init 0 [] 0 (by decide) (by decide) (Or.inl (by decide))

/-- C7: `send` returns false exactly when the port is closed, or the txid is not in
the past, the TX stack holds at least `SERIAL_RX_STACK_LIMIT` entries and the txid is
not `next_txid`; and whenever it returns false the handler is unchanged. -/
theorem send_false_iff (s : SOEPortHandler) (txid : Nat) (buffer : List Nat) (length : Nat) :
    ((send s txid buffer length).1 = false ↔
      (s.port_open = false ∨
        (inThePast s txid = false ∧ StdMap.size s.tx_stack ≥ SERIAL_RX_STACK_LIMIT ∧
          txid ≠ s.next_txid))) ∧
    ((send s txid buffer length).1 = false → (send s txid buffer length).2 = s) := by
  cases hopen : s.port_open
  · rw [send_closed s txid buffer length hopen]
    simp
  · cases hp : inThePast s txid
    · by_cases hfull : StdMap.size s.tx_stack ≥ SERIAL_RX_STACK_LIMIT ∧ txid ≠ s.next_txid
      · rw [send_full s txid buffer length hopen hp hfull]
        simp [hfull.1, hfull.2]
      · rw [send_store s txid buffer length hopen hp hfull]
        simp only [Bool.true_eq_false, false_or, true_and, false_iff, false_implies, and_true]
        exact hfull
    · rw [send_past s txid buffer length hopen hp]
      simp

/-- C8 fails on the code: with `next_txid = 8`, `send` of the already used txid 7
returns true and leaves no entry at key 7, and `send` of the out-of-order txid 9
returns true and stores the payload. -/
theorem send_true_without_entry :
    (send { init with next_txid := 8 } 7 [1, 2, 3] 3).1 = true ∧
    StdMap.find (send { init with next_txid := 8 } 7 [1, 2, 3] 3).2.tx_stack 7 = none ∧
    (send { init with next_txid := 8 } 9 [1, 2, 3] 3).1 = true ∧
    StdMap.find (send { init with next_txid := 8 } 9 [1, 2, 3] 3).2.tx_stack 9
      = some ⟨3, [1, 2, 3]⟩ := by
  decide

/-- C8 as amended: whenever `send` returns true, either the txid is in the past
(`txid < next_txid` and `next_txid - txid < 0x7FFFFFFF`) and the payload was ignored,
the handler being unchanged, or the TX stack afterwards holds an entry at the txid
with that payload; on an open port a payload with a txid in the past is ignored and
`send` returns true; and whenever `send` returns false the payload was ignored. -/
theorem send_true_stored_or_past (s : SOEPortHandler) (txid : Nat) (buffer : List Nat)
    (length : Nat) :
    ((send s txid buffer length).1 = true →
      (inThePast s txid = true ∧ (send s txid buffer length).2 = s) ∨
      (inThePast s txid = false ∧
        StdMap.find (send s txid buffer length).2.tx_stack txid
          = some ⟨length, buffer.take length⟩)) ∧
    (s.port_open = true → inThePast s txid = true →
      send s txid buffer length = (true, s)) ∧
    ((send s txid buffer length).1 = false → (send s txid buffer length).2 = s) := by
  refine ⟨?_, send_past s txid buffer length, send_false_unchanged s txid buffer length⟩
  cases hopen : s.port_open
  · rw [send_closed s txid buffer length hopen]
    simp
  · cases hp : inThePast s txid
    · by_cases hfull : StdMap.size s.tx_stack ≥ SERIAL_RX_STACK_LIMIT ∧ txid ≠ s.next_txid
      · rw [send_full s txid buffer length hopen hp hfull]
        simp
      · rw [send_store s txid buffer length hopen hp hfull]
        intro _
        exact Or.inr ⟨rfl, StdMap.find_insert_self _ _ _⟩
    · rw [send_past s txid buffer length hopen hp]
      intro _
      exact Or.inl ⟨rfl, rfl⟩

/-- C8 as amended, at the already used txid 7 with `next_txid = 8`. -/
theorem send_true_stored_or_past_witness :
    (inThePast { init with next_txid := 8 } 7 = true ∧
        (send { init with next_txid := 8 } 7 [1, 2, 3] 3).2 = { init with next_txid := 8 }) ∨
      (inThePast { init with next_txid := 8 } 7 = false ∧
        StdMap.find (send { init with next_txid := 8 } 7 [1, 2, 3] 3).2.tx_stack 7
          = some ⟨3, [1, 2, 3].take 3⟩) :=
  (send_true_stored_or_past { init with next_txid := 8 } 7 [1, 2, 3] 3).1 (by decide)


/-! ### The serial writer loop -/

end SOEPortHandler

/-! ### The RX stack: `read`, `confirmReception`, `confirmTransmission` -/

set_option maxRecDepth 100000

namespace StdMap

theorem find_update {α : Type} (k j : Nat) (f : α → α) (m : List (Nat × α)) :
    find (update k f m) j = if j = k then (find m k).map f else find m j := by
  induction m with
  | nil => simp [update, find, List.lookup]
  | cons p t ih =>
    obtain ⟨k1, v1⟩ := p
    have hcons : update k f ((k1, v1) :: t)
        = (if k1 = k then (k1, f v1) else (k1, v1)) :: update k f t := by
      simp [update]
    rw [hcons]
    by_cases h1 : k1 = k
    · subst h1
      rw [if_pos rfl, find_cons, find_cons, ih]
      by_cases hj : j = k1
      · simp [hj]
      · simp [hj, find_cons]
    · rw [if_neg h1, find_cons, find_cons, ih]
      by_cases hj : j = k
      · subst hj
        have : ¬ j = k1 := fun h => h1 h.symm
        simp [this]
      · simp only [hj, if_false]
        rw [find_cons]

theorem find_update_self {α : Type} (k : Nat) (f : α → α) (m : List (Nat × α)) :
    find (update k f m) k = (find m k).map f := by
  rw [find_update, if_pos rfl]

theorem find_update_ne {α : Type} (k j : Nat) (f : α → α) (m : List (Nat × α)) (h : j ≠ k) :
    find (update k f m) j = find m j := by
  rw [find_update, if_neg h]

theorem keys_update {α : Type} (k : Nat) (f : α → α) (m : List (Nat × α)) :
    keys (update k f m) = keys m := by
  induction m with
  | nil => rfl
  | cons p t ih =>
    obtain ⟨k1, v1⟩ := p
    simp only [keys, update, List.map_cons] at ih ⊢
    rw [ih]
    by_cases h : k1 = k <;> simp [h]

theorem size_update {α : Type} (k : Nat) (f : α → α) (m : List (Nat × α)) :
    size (update k f m) = size m := by
  simp [size, update]

theorem update_update {α : Type} (k : Nat) (f : α → α) (m : List (Nat × α))
    (hf : ∀ a, f (f a) = f a) : update k f (update k f m) = update k f m := by
  induction m with
  | nil => rfl
  | cons p t ih =>
    obtain ⟨k1, v1⟩ := p
    simp only [update, List.map_cons] at ih ⊢
    rw [ih]
    by_cases h : k1 = k <;> simp [h, hf]

end StdMap

namespace SOEPortHandler

theorem scanResend_none (m : List (Nat × rx_entry)) (now hi : Nat) :
    ∀ (fuel id : Nat),
      (∀ i e1, id ≤ i → i < hi → StdMap.find m i = some e1 →
        e1.rx_confirmed = true ∨ e1.time_to_resend ≥ now) →
      scanResend m now hi fuel id = none := by
  intro fuel
  induction fuel with
  | zero => intro id _; rfl
  | succ n ih =>
    intro id h
    unfold scanResend
    by_cases hlt : id < hi
    · simp only [hlt, if_true]
      cases hf : StdMap.find m id with
      | none => exact ih (id + 1) (fun i e1 h1 h2 h3 => h i e1 (by omega) h2 h3)
      | some e =>
        have := h id e (Nat.le_refl _) hlt hf
        simp only [this, if_true]
        exact ih (id + 1) (fun i e1 h1 h2 h3 => h i e1 (by omega) h2 h3)
    · simp [hlt]

theorem scanResend_first (m : List (Nat × rx_entry)) (now hi j : Nat) (e : rx_entry)
    (hj : j < hi) (hfind : StdMap.find m j = some e)
    (hel : ¬ (e.rx_confirmed = true ∨ e.time_to_resend ≥ now)) :
    ∀ (fuel id : Nat), id ≤ j → hi - id ≤ fuel →
      (∀ i e1, id ≤ i → i < j → StdMap.find m i = some e1 →
        e1.rx_confirmed = true ∨ e1.time_to_resend ≥ now) →
      scanResend m now hi fuel id = some (j, e) := by
  intro fuel
  induction fuel with
  | zero => intro id h1 h2 _; omega
  | succ n ih =>
    intro id h1 h2 h
    unfold scanResend
    have hlt : id < hi := by omega
    simp only [hlt, if_true]
    by_cases hid : id = j
    · subst hid
      simp [hfind, hel]
    · have hidj : id < j := by omega
      cases hf : StdMap.find m id with
      | none => exact ih (id + 1) (by omega) (by omega) (fun i e1 a b c => h i e1 (by omega) b c)
      | some e0 =>
        have := h id e0 (Nat.le_refl _) hidj hf
        simp only [this, if_true]
        exact ih (id + 1) (by omega) (by omega) (fun i e1 a b c => h i e1 (by omega) b c)

theorem scanResend_some (m : List (Nat × rx_entry)) (now hi : Nat) :
    ∀ (fuel id j : Nat) (e : rx_entry), scanResend m now hi fuel id = some (j, e) →
      id ≤ j ∧ j < hi ∧ StdMap.find m j = some e ∧ e.rx_confirmed = false ∧
      e.time_to_resend < now := by
  intro fuel
  induction fuel with
  | zero => intro id j e h; simp [scanResend] at h
  | succ n ih =>
    intro id j e h
    unfold scanResend at h
    by_cases hlt : id < hi
    · simp only [hlt, if_true] at h
      cases hf : StdMap.find m id with
      | none =>
        simp only [hf] at h
        have := ih _ _ _ h
        exact ⟨by omega, this.2⟩
      | some e0 =>
        simp only [hf] at h
        by_cases hc : e0.rx_confirmed = true ∨ e0.time_to_resend ≥ now
        · simp only [hc, if_true] at h
          have := ih _ _ _ h
          exact ⟨by omega, this.2⟩
        · simp only [hc, if_false, Option.some.injEq, Prod.mk.injEq] at h
          obtain ⟨rfl, rfl⟩ := h
          have h1 : e0.rx_confirmed = false := by
            cases hb : e0.rx_confirmed
            · rfl
            · exact absurd (Or.inl hb) hc
          exact ⟨Nat.le_refl _, hlt, hf, h1, by omega⟩
    · simp [hlt] at h

theorem read_resend (s : SOEPortHandler) (now id : Nat) (e : rx_entry)
    (hopen : s.port_open = true)
    (hscan : scanResend s.rx_stack now s.next_transmit_rxid
      (s.next_transmit_rxid - s.last_transmitted_rxid) s.last_transmitted_rxid = some (id, e)) :
    read s now = (some ⟨id, e.payload, e.length⟩,
      { s with rx_stack := StdMap.update id (setResend now) s.rx_stack }) := by
  simp [read, hopen, hscan]

theorem read_fresh (s : SOEPortHandler) (now : Nat) (e : rx_entry)
    (hopen : s.port_open = true)
    (hscan : scanResend s.rx_stack now s.next_transmit_rxid
      (s.next_transmit_rxid - s.last_transmitted_rxid) s.last_transmitted_rxid = none)
    (hfind : StdMap.find s.rx_stack s.next_transmit_rxid = some e) (hlen : e.length > 0) :
    read s now = (some ⟨s.next_transmit_rxid, e.payload, e.length⟩,
      { s with next_transmit_rxid := (s.next_transmit_rxid + 1) % UINT_MOD,
               rx_stack := StdMap.update s.next_transmit_rxid (setResend now) s.rx_stack,
               next_free_rxid :=
                 if s.next_free_rxid < (s.next_transmit_rxid + 1) % UINT_MOD
                 then (s.next_transmit_rxid + 1) % UINT_MOD else s.next_free_rxid }) := by
  simp [read, hopen, hscan, hfind, hlen]

theorem read_nothing (s : SOEPortHandler) (now : Nat)
    (h : s.port_open = false ∨
      (scanResend s.rx_stack now s.next_transmit_rxid
        (s.next_transmit_rxid - s.last_transmitted_rxid) s.last_transmitted_rxid = none ∧
       (StdMap.find s.rx_stack s.next_transmit_rxid = none ∨
        ∃ e, StdMap.find s.rx_stack s.next_transmit_rxid = some e ∧ e.length = 0))) :
    read s now = (none, s) := by
  rcases h with h | ⟨h1, h2⟩
  · simp [read, h]
  · cases hopen : s.port_open
    · simp [read, hopen]
    · rcases h2 with h2 | ⟨e, h2, h3⟩
      · simp [read, hopen, h1, h2]
      · simp [read, hopen, h1, h2, h3]

theorem not_resendable_of_not_eligible (s : SOEPortHandler) (now : Nat)
    (h : ∀ j, ¬ Eligible s now j) :
    ∀ i e1, s.last_transmitted_rxid ≤ i → i < s.next_transmit_rxid →
      StdMap.find s.rx_stack i = some e1 →
      e1.rx_confirmed = true ∨ e1.time_to_resend ≥ now := by
  intro i e1 h1 h2 h3
  by_cases hc : e1.rx_confirmed = true
  · exact Or.inl hc
  · by_cases ht : e1.time_to_resend ≥ now
    · exact Or.inr ht
    · exfalso
      refine h i ⟨h1, h2, e1, h3, ?_, by omega⟩
      cases hb : e1.rx_confirmed
      · rfl
      · exact absurd hb hc

/-- C11: on an open port, if some id in `[last_transmitted_rxid, next_transmit_rxid)`
has an entry that is not confirmed and past its resend time, `read` returns the
lowest such id with that entry's payload and length, whatever entry stands at
`next_transmit_rxid`; it sets that entry's resend time to `now +
INET_TX_REP_INTERVAL` and changes no counter, no other entry and no key. -/
theorem read_returns_lowest_eligible (s : SOEPortHandler) (now id0 : Nat)
    (hopen : s.port_open = true) (hel : Eligible s now id0) :
    ∃ id e, id ≤ id0 ∧ Eligible s now id ∧ (∀ j, j < id → ¬ Eligible s now j) ∧
      StdMap.find s.rx_stack id = some e ∧
      (read s now).1 = some ⟨id, e.payload, e.length⟩ ∧
      (read s now).2 = { s with rx_stack := (read s now).2.rx_stack } ∧
      StdMap.find (read s now).2.rx_stack id
        = some { e with time_to_resend := now + INET_TX_REP_INTERVAL } ∧
      (∀ j, j ≠ id → StdMap.find (read s now).2.rx_stack j = StdMap.find s.rx_stack j) ∧
      StdMap.keys (read s now).2.rx_stack = StdMap.keys s.rx_stack := by
  classical
  have hex : ∃ n, Eligible s now n := ⟨id0, hel⟩
  have hmin := Nat.find_spec hex
  have hle : Nat.find hex ≤ id0 := Nat.find_min' hex hel
  have hlow : ∀ j, j < Nat.find hex → ¬ Eligible s now j := fun j hj => Nat.find_min hex hj
  obtain ⟨h1, h2, e, h3, h4, h5⟩ := hmin
  have hscan := scanResend_first s.rx_stack now s.next_transmit_rxid (Nat.find hex) e h2 h3
    (by simp [h4]; omega)
    (s.next_transmit_rxid - s.last_transmitted_rxid) s.last_transmitted_rxid h1
    (Nat.le_refl _)
    (by
      intro i e1 a b c
      by_cases hc : e1.rx_confirmed = true
      · exact Or.inl hc
      · by_cases ht : e1.time_to_resend ≥ now
        · exact Or.inr ht
        · exfalso
          refine hlow i b ⟨a, by omega, e1, c, ?_, by omega⟩
          cases hb : e1.rx_confirmed
          · rfl
          · exact absurd hb hc)
  refine ⟨Nat.find hex, e, hle, ⟨h1, h2, e, h3, h4, h5⟩, hlow, h3, ?_⟩
  rw [read_resend s now _ e hopen hscan]
  refine ⟨rfl, rfl, ?_, ?_, ?_⟩
  · simp [StdMap.find_update_self, h3, setResend]
  · intro j hj
    exact StdMap.find_update_ne _ _ _ _ hj
  · exact StdMap.keys_update _ _ _

/-- C12: on an open port with no id eligible for retransmission and an entry of
nonzero length at `next_transmit_rxid`, `read` returns that id with the entry's
payload and length, increments `next_transmit_rxid` (on `unsigned int`), sets the
entry's resend time to `now + INET_TX_REP_INTERVAL`, makes `next_free_rxid` the
maximum of its old value and the new `next_transmit_rxid`, and leaves the keys of the
RX stack and `last_transmitted_rxid` unchanged. -/
theorem read_transmits_new_data (s : SOEPortHandler) (now : Nat) (e : rx_entry)
    (hopen : s.port_open = true) (hnone : ∀ j, ¬ Eligible s now j)
    (hfind : StdMap.find s.rx_stack s.next_transmit_rxid = some e) (hlen : e.length > 0) :
    (read s now).1 = some ⟨s.next_transmit_rxid, e.payload, e.length⟩ ∧
    (read s now).2.next_transmit_rxid = (s.next_transmit_rxid + 1) % 2 ^ 32 ∧
    (s.next_transmit_rxid + 1 < 2 ^ 32 →
      (read s now).2.next_transmit_rxid = s.next_transmit_rxid + 1) ∧
    StdMap.find (read s now).2.rx_stack s.next_transmit_rxid
      = some { e with time_to_resend := now + INET_TX_REP_INTERVAL } ∧
    (∀ j, j ≠ s.next_transmit_rxid →
      StdMap.find (read s now).2.rx_stack j = StdMap.find s.rx_stack j) ∧
    (read s now).2.next_free_rxid
      = max s.next_free_rxid (read s now).2.next_transmit_rxid ∧
    StdMap.keys (read s now).2.rx_stack = StdMap.keys s.rx_stack ∧
    (read s now).2.last_transmitted_rxid = s.last_transmitted_rxid := by
  have hscan := scanResend_none s.rx_stack now s.next_transmit_rxid
    (s.next_transmit_rxid - s.last_transmitted_rxid) s.last_transmitted_rxid
    (not_resendable_of_not_eligible s now hnone)
  rw [read_fresh s now e hopen hscan hfind hlen]
  refine ⟨rfl, rfl, ?_, ?_, ?_, ?_, ?_, rfl⟩
  · intro h
    exact Nat.mod_eq_of_lt h
  · simp [StdMap.find_update_self, hfind, setResend]
  · intro j hj
    exact StdMap.find_update_ne _ _ _ _ hj
  · show (if s.next_free_rxid < (s.next_transmit_rxid + 1) % UINT_MOD
        then (s.next_transmit_rxid + 1) % UINT_MOD else s.next_free_rxid)
      = max s.next_free_rxid ((s.next_transmit_rxid + 1) % UINT_MOD)
    split <;> omega
  · exact StdMap.keys_update _ _ _

end SOEPortHandler

namespace SOEPortHandler

/-- C11 with a retransmission due and new data waiting: entry 0 was transmitted and
is past its resend time at `now = 500`, entry 1 is new; `read` returns rxid 0. -/
theorem read_returns_lowest_eligible_witness :
    Eligible stateResendDue 500 0 ∧
    ∃ id e, id ≤ 0 ∧ Eligible stateResendDue 500 id ∧
      (∀ j, j < id → ¬ Eligible stateResendDue 500 j) ∧
      StdMap.find stateResendDue.rx_stack id = some e ∧
      (read stateResendDue 500).1 = some ⟨id, e.payload, e.length⟩ ∧
      (read stateResendDue 500).2
        = { stateResendDue with rx_stack := (read stateResendDue 500).2.rx_stack } ∧
      StdMap.find (read stateResendDue 500).2.rx_stack id
        = some { e with time_to_resend := 500 + INET_TX_REP_INTERVAL } ∧
      (∀ j, j ≠ id → StdMap.find (read stateResendDue 500).2.rx_stack j
        = StdMap.find stateResendDue.rx_stack j) ∧
      StdMap.keys (read stateResendDue 500).2.rx_stack = StdMap.keys stateResendDue.rx_stack :=
  have hel : Eligible stateResendDue 500 0 :=
    ⟨by decide, by decide, ⟨2, 7 :: 8 :: List.replicate 1022 0, 100, false⟩, rfl, rfl,
      by decide⟩
  ⟨hel, read_returns_lowest_eligible stateResendDue 500 0 rfl hel⟩

/-- C12 at the state after the reader stored two bytes in entry 0: `read` hands out
rxid 0 and moves both `next_transmit_rxid` and `next_free_rxid` to 1. -/
theorem read_transmits_new_data_witness :
    (read stateOneEntry 5).1 = some ⟨0, 7 :: 8 :: List.replicate 1022 0, 2⟩ ∧
    (read stateOneEntry 5).2.next_transmit_rxid = 1 ∧
    (read stateOneEntry 5).2.next_free_rxid = max 0 (read stateOneEntry 5).2.next_transmit_rxid :=
  have h := read_transmits_new_data stateOneEntry 5
    ⟨2, 7 :: 8 :: List.replicate 1022 0, 0, false⟩ rfl
    (fun j hj => absurd hj.2.1 (Nat.not_lt_zero j)) rfl (by decide)
  ⟨h.1, h.2.2.1 (by decide), h.2.2.2.2.2.1⟩

theorem confirmReception_stored (s : SOEPortHandler) (rxid : Nat) (e : rx_entry)
    (h1 : rxid < s.next_free_rxid) (h2 : StdMap.find s.rx_stack rxid = some e) :
    confirmReception s rxid
      = { s with rx_stack := StdMap.update rxid setConfirmed s.rx_stack } := by
  have : ¬ rxid ≥ s.next_free_rxid := by omega
  simp [confirmReception, this, h2]

theorem confirmReception_ignored (s : SOEPortHandler) (rxid : Nat)
    (h : rxid ≥ s.next_free_rxid ∨ StdMap.find s.rx_stack rxid = none) :
    confirmReception s rxid = s := by
  unfold confirmReception
  by_cases h1 : rxid ≥ s.next_free_rxid
  · simp [h1]
  · rcases h with h | h
    · exact absurd h h1
    · simp [h1, h]

theorem setConfirmed_idem (e : rx_entry) : setConfirmed (setConfirmed e) = setConfirmed e := rfl

/-- C15: `confirmReception(rxid)` changes nothing when `rxid ≥ next_free_rxid` or the
RX stack has no entry at `rxid`; otherwise it sets `rx_confirmed` on that entry and
changes nothing else: not the entry's length, payload or resend time, no other
entry, no key, no counter; and a second call with the same rxid changes nothing. -/
theorem confirmReception_effect (s : SOEPortHandler) (rxid : Nat) :
    ((rxid ≥ s.next_free_rxid ∨ StdMap.find s.rx_stack rxid = none) →
      confirmReception s rxid = s) ∧
    (∀ e, rxid < s.next_free_rxid → StdMap.find s.rx_stack rxid = some e →
      StdMap.find (confirmReception s rxid).rx_stack rxid
        = some { e with rx_confirmed := true } ∧
      (∀ j, j ≠ rxid →
        StdMap.find (confirmReception s rxid).rx_stack j = StdMap.find s.rx_stack j) ∧
      StdMap.keys (confirmReception s rxid).rx_stack = StdMap.keys s.rx_stack ∧
      confirmReception s rxid = { s with rx_stack := (confirmReception s rxid).rx_stack }) ∧
    confirmReception (confirmReception s rxid) rxid = confirmReception s rxid := by
  refine ⟨confirmReception_ignored s rxid, ?_, ?_⟩
  · intro e h1 h2
    rw [confirmReception_stored s rxid e h1 h2]
    refine ⟨?_, ?_, StdMap.keys_update _ _ _, rfl⟩
    · simp [StdMap.find_update_self, h2, setConfirmed]
    · intro j hj
      exact StdMap.find_update_ne _ _ _ _ hj
  · by_cases h1 : rxid ≥ s.next_free_rxid
    · rw [confirmReception_ignored s rxid (Or.inl h1), confirmReception_ignored s rxid (Or.inl h1)]
    · cases h2 : StdMap.find s.rx_stack rxid with
      | none =>
        rw [confirmReception_ignored s rxid (Or.inr h2),
          confirmReception_ignored s rxid (Or.inr h2)]
      | some e =>
        rw [confirmReception_stored s rxid e (by omega) h2]
        rw [confirmReception_stored _ rxid (setConfirmed e) (by simpa using h1)
          (by simp [StdMap.find_update_self, h2])]
        simp [StdMap.update_update _ _ _ setConfirmed_idem]

/-- C15 at the state with the entries 0, 1 and 2 transmitted: `confirmReception(1)`
sets the flag of entry 1, `confirmReception(7)` changes nothing, and a second
`confirmReception(1)` changes nothing. -/
theorem confirmReception_effect_witness :
    StdMap.find (confirmReception stateThreeSent 1).rx_stack 1
      = some ⟨1, 2 :: List.replicate 1023 0, 103, true⟩ ∧
    StdMap.keys (confirmReception stateThreeSent 1).rx_stack = [0, 1, 2] ∧
    confirmReception (confirmReception stateThreeSent 1) 1
      = confirmReception stateThreeSent 1 :=
  have h := confirmReception_effect stateThreeSent 1
  have h1 := h.2.1 ⟨1, 2 :: List.replicate 1023 0, 103, false⟩ (by decide) rfl
  ⟨h1.1, h1.2.2.1, h.2.2⟩

end SOEPortHandler

namespace SOEPortHandler

theorem eraseLoop_eq_filter (n : Nat) :
    ∀ (m : List (Nat × rx_entry)) (i : Nat), n ≤ UINT_MOD → i < UINT_MOD →
      eraseLoop m n i
        = m.filter (fun p => !(decide (p.1 < UINT_MOD ∧ sub32 p.1 i < n))) := by
  induction n with
  | zero =>
    intro m i _ _
    simp [eraseLoop]
  | succ n ih =>
    intro m i hn hi
    have hi1 : (i + 1) % UINT_MOD < UINT_MOD := Nat.mod_lt _ (by decide)
    rw [eraseLoop, ih _ _ (by omega) hi1, StdMap.erase, List.filter_filter]
    apply List.filter_congr
    intro p _
    have hM : UINT_MOD = 4294967296 := rfl
    have key : ((UINT_MOD ≤ p.1 ∨ n ≤ sub32 p.1 ((i + 1) % UINT_MOD)) ∧ ¬ p.1 = i) ↔
        (UINT_MOD ≤ p.1 ∨ n + 1 ≤ sub32 p.1 i) := by
      unfold sub32
      rw [hM] at hi hn ⊢
      omega
    rw [Bool.eq_iff_iff]
    simp
    exact key

theorem confirmTransmission_ignored (s : SOEPortHandler) (rxid : Nat)
    (h : rxid > s.last_transmitted_rxid ∧ rxid - s.last_transmitted_rxid < 0x7FFFFFFF) :
    confirmTransmission s rxid = s := by
  simp only [confirmTransmission]
  rw [if_pos h]

theorem confirmTransmission_erases (s : SOEPortHandler) (rxid : Nat)
    (h : ¬ (rxid > s.last_transmitted_rxid ∧ rxid - s.last_transmitted_rxid < 0x7FFFFFFF))
    (hlast : s.last_transmitted_rxid < UINT_MOD) :
    confirmTransmission s rxid =
      { s with rx_stack := s.rx_stack.filter (fun p => !(decide (p.1 < UINT_MOD ∧
                 sub32 p.1 s.last_transmitted_rxid < sub32 (rxid + 1) s.last_transmitted_rxid))),
               last_transmitted_rxid := (rxid + 1) % UINT_MOD } := by
  simp only [confirmTransmission]
  rw [if_neg h, eraseLoop_eq_filter _ _ _ _ hlast]
  unfold sub32
  exact Nat.le_of_lt (Nat.mod_lt _ (by decide))

/-- C13 (defect in the code): after three entries were transmitted
(`last_transmitted_rxid = 0`, keys 0, 1, 2), the call `confirmTransmission(1)`, whose
rxid is 1 ahead of `last_transmitted_rxid`, changes nothing: the keys 0 and 1 stay
on the RX stack and `last_transmitted_rxid` stays 0. -/
theorem confirmTransmission_ahead_is_ignored :
    (rxRun anyStep sentThree init readerInit []).map (fun x => x.1) = some stateThreeSent ∧
    sub32 1 stateThreeSent.last_transmitted_rxid = 1 ∧
    confirmTransmission stateThreeSent 1 = stateThreeSent ∧
    StdMap.keys (confirmTransmission stateThreeSent 1).rx_stack = [0, 1, 2] ∧
    (confirmTransmission stateThreeSent 1).last_transmitted_rxid = 0 := by
  decide

/-- C14 (defect in the code): after `confirmTransmission(0)` and
`confirmTransmission(1)` (`last_transmitted_rxid = 2`, entry 2 waiting), the call
`confirmTransmission(0)` with an rxid before `last_transmitted_rxid` is not ignored:
its loop runs from 2 over the wrap to 0, erases entry 2 and sets
`last_transmitted_rxid` back to 1. -/
theorem confirmTransmission_past_erases_all :
    (rxRun anyStep (sentThree ++ [RxAction.confirmTransmission 0, RxAction.confirmTransmission 1])
      init readerInit []).map (fun x => x.1) = some stateTwoAcked ∧
    confirmTransmission stateTwoAcked 0 = ⟨true, 0, [], 3, 3, 1, []⟩ := by
  refine ⟨by decide, ?_⟩
  rw [confirmTransmission_erases stateTwoAcked 0 (by decide) (by decide)]
  decide

end SOEPortHandler

/-! ### The serial reader loop and executions on the RX side -/

namespace SOEPortHandler

theorem SameButRx.refl (s : SOEPortHandler) : SameButRx s s := ⟨rfl, rfl, rfl, rfl, rfl⟩

theorem readerFill_effect (s : SOEPortHandler) (r : RxReader) (s1 : SOEPortHandler)
    (r1 : RxReader) (h : readerFill s r = some (s1, r1)) :
    SameButRx s s1 ∧ s1.next_free_rxid = s.next_free_rxid ∧
      Appended s.rx_stack s1.rx_stack := by
  unfold readerFill at h
  cases hf : StdMap.find s.rx_stack s.next_free_rxid with
  | none => simp [hf] at h
  | some e =>
    simp only [hf] at h
    by_cases hb : r.inBuffer > 0
    · simp only [hb, if_true] at h
      by_cases hc : capacity e.length % UINT_MOD < r.inBuffer
      · simp only [hc, if_true, Option.some.injEq, Prod.mk.injEq] at h
        obtain ⟨rfl, _⟩ := h
        exact ⟨SameButRx.refl _, rfl, Or.inl rfl⟩
      · simp only [hc, if_false] at h
        cases ha : appendData e r.receptionBuffer r.inBuffer with
        | none => simp [ha] at h
        | some e1 =>
          simp only [ha] at h
          have hs : s1 = ⟨s.port_open, s.next_txid, s.tx_stack, s.next_free_rxid,
              s.next_transmit_rxid, s.last_transmitted_rxid,
              StdMap.update s.next_free_rxid (fun _ => e1) s.rx_stack⟩ := by
            by_cases hl : e1.length = SERIAL_RX_ENTRY_LEN
            · simp only [hl, if_true, Option.some.injEq, Prod.mk.injEq] at h
              exact h.1.symm
            · simp only [hl, if_false, Option.some.injEq, Prod.mk.injEq] at h
              exact h.1.symm
          subst hs
          exact ⟨⟨rfl, rfl, rfl, rfl, rfl⟩, rfl, Or.inr ⟨_, e, e1, _, _, hf, ha, rfl⟩⟩
    · simp only [hb, if_false] at h
      by_cases hl : e.length = SERIAL_RX_ENTRY_LEN
      · simp only [hl, if_true, Option.some.injEq, Prod.mk.injEq] at h
        obtain ⟨rfl, _⟩ := h
        exact ⟨SameButRx.refl _, rfl, Or.inl rfl⟩
      · simp only [hl, if_false, Option.some.injEq, Prod.mk.injEq] at h
        obtain ⟨rfl, _⟩ := h
        exact ⟨SameButRx.refl _, rfl, Or.inl rfl⟩

theorem readerNewEntry_effect (now : Nat) (s : SOEPortHandler) (r : RxReader)
    (s1 : SOEPortHandler) (r1 : RxReader) (h : readerNewEntry now s r = some (s1, r1)) :
    ReaderEffect now s s1 := by
  unfold readerNewEntry at h
  obtain ⟨h1, h2, h3⟩ := readerFill_effect _ _ _ _ h
  exact ⟨h1, Or.inr ⟨_, Or.inr (Or.inr ⟨h2, rfl⟩), h3⟩⟩

theorem readerEnter_effect (now : Nat) (s : SOEPortHandler) (r : RxReader)
    (s1 : SOEPortHandler) (r1 : RxReader) (h : readerEnter now s r = some (s1, r1)) :
    ReaderEffect now s s1 := by
  unfold readerEnter at h
  by_cases hopen : s.port_open = true
  · simp only [hopen, Bool.not_true, Bool.false_eq_true, if_false] at h
    cases hf : StdMap.find s.rx_stack s.next_free_rxid with
    | none =>
      simp only [hf] at h
      obtain ⟨⟨a, b, c, d, e⟩, h2, h3⟩ := readerFill_effect _ _ _ _ h
      exact ⟨⟨a.trans hopen.symm, b, c, d, e⟩, Or.inr ⟨_, Or.inr (Or.inl ⟨hf, h2, rfl⟩), h3⟩⟩
    | some e =>
      simp only [hf] at h
      by_cases hfull : e.length ≥ SERIAL_RX_ENTRY_LEN ∨
          r.inBuffer > SERIAL_RX_ENTRY_LEN - e.length
      · simp only [hfull, if_true] at h
        by_cases hlim : StdMap.size s.rx_stack ≥ SERIAL_RX_STACK_LIMIT
        · simp only [hlim, if_true, Option.some.injEq, Prod.mk.injEq] at h
          obtain ⟨rfl, _⟩ := h
          exact ⟨SameButRx.refl _, Or.inr ⟨_, Or.inl ⟨rfl, rfl⟩, Or.inl rfl⟩⟩
        · simp only [hlim, if_false] at h
          exact readerNewEntry_effect now s r s1 r1 h
      · simp only [hfull, if_false] at h
        obtain ⟨h1, h2, h3⟩ := readerFill_effect _ _ _ _ h
        exact ⟨h1, Or.inr ⟨_, Or.inl ⟨rfl, h2⟩, h3⟩⟩
  · have hclosed : s.port_open = false := by simpa using hopen
    simp only [hclosed, Bool.not_false, if_true, Option.some.injEq, Prod.mk.injEq] at h
    obtain ⟨rfl, _⟩ := h
    exact ⟨⟨hclosed.symm, rfl, rfl, rfl, rfl⟩, Or.inl ⟨hclosed, rfl, rfl⟩⟩

theorem readerWake_effect (now : Nat) (s : SOEPortHandler) (r : RxReader)
    (s1 : SOEPortHandler) (r1 : RxReader) (h : readerWake now s r = some (s1, r1)) :
    ReaderEffect now s s1 := by
  unfold readerWake at h
  by_cases hc : StdMap.size s.rx_stack < SERIAL_RX_STACK_LIMIT ∨ s.port_open = false
  · simp only [hc, if_true] at h
    exact readerNewEntry_effect now s r s1 r1 h
  · simp [hc] at h

theorem readerReturn_effect (now : Nat) (data : List Nat) (ret key : Nat) (s : SOEPortHandler)
    (r : RxReader) (s1 : SOEPortHandler) (r1 : RxReader)
    (h : readerReturn data ret key s r = some (s1, r1)) :
    ReaderEffect now s s1 := by
  unfold readerReturn at h
  by_cases hc : StdMap.count s.rx_stack s.next_free_rxid = true
  · simp only [hc, Bool.not_true, Bool.false_eq_true, if_false] at h
    cases hf : StdMap.find s.rx_stack key with
    | none => simp [hf] at h
    | some e =>
      simp only [hf] at h
      by_cases hcap : ret % UINT_MOD > capacity e.length
      · simp only [hcap, if_true, Option.some.injEq, Prod.mk.injEq] at h
        obtain ⟨rfl, _⟩ := h
        exact ⟨SameButRx.refl _, Or.inr ⟨_, Or.inl ⟨rfl, rfl⟩, Or.inl rfl⟩⟩
      · simp only [hcap, if_false] at h
        cases ha : appendData e (data ++ List.drop data.length r.receptionBuffer)
            (ret % UINT_MOD) with
        | none => simp [ha] at h
        | some e1 =>
          simp only [ha, Option.some.injEq, Prod.mk.injEq] at h
          obtain ⟨rfl, _⟩ := h
          exact ⟨⟨rfl, rfl, rfl, rfl, rfl⟩,
            Or.inr ⟨_, Or.inl ⟨rfl, rfl⟩, Or.inr ⟨_, e, e1, _, _, hf, ha, rfl⟩⟩⟩
  · simp only [hc, Bool.not_false, if_true, Option.some.injEq, Prod.mk.injEq] at h
    obtain ⟨rfl, _⟩ := h
    exact ⟨SameButRx.refl _, Or.inr ⟨_, Or.inl ⟨rfl, rfl⟩, Or.inl rfl⟩⟩

end SOEPortHandler

namespace StdMap

theorem find_filter {α : Type} (P : Nat → Bool) (m : List (Nat × α)) (k : Nat) :
    find (m.filter (fun p => P p.1)) k = if P k = true then find m k else none := by
  induction m with
  | nil => simp [find, List.lookup]
  | cons p t ih =>
    obtain ⟨k1, v1⟩ := p
    by_cases hp : P k1 = true
    · rw [List.filter_cons_of_pos (by simpa using hp), find_cons, find_cons, ih]
      by_cases hk : k = k1
      · subst hk
        simp [hp]
      · simp [hk]
    · rw [List.filter_cons_of_neg (by simpa using hp), ih, find_cons]
      by_cases hk : k = k1
      · subst hk
        simp [hp]
      · simp [hk]

theorem find_erase_some {α : Type} (i k : Nat) (e : α) (m : List (Nat × α))
    (h : find (erase i m) k = some e) : find m k = some e := by
  by_cases hk : k = i
  · subst hk
    rw [find_erase_self] at h
    cases h
  · rwa [find_erase_ne _ _ _ hk] at h

end StdMap

namespace SOEPortHandler

theorem find_eraseLoop_some (n : Nat) :
    ∀ (m : List (Nat × rx_entry)) (i k : Nat) (e : rx_entry),
      StdMap.find (eraseLoop m n i) k = some e → StdMap.find m k = some e := by
  induction n with
  | zero => intro m i k e h; exact h
  | succ n ih =>
    intro m i k e h
    rw [eraseLoop] at h
    exact StdMap.find_erase_some _ _ _ _ (ih _ _ _ _ h)

theorem appendData_flags (e e1 : rx_entry) (buf : List Nat) (n : Nat)
    (h : appendData e buf n = some e1) :
    e1.rx_confirmed = e.rx_confirmed ∧ e1.time_to_resend = e.time_to_resend := by
  unfold appendData at h
  cases hm : memcpy e.payload e.length buf 0 n with
  | none => simp [hm] at h
  | some p =>
    simp only [hm, Option.some.injEq] at h
    subst h
    exact ⟨rfl, rfl⟩

theorem read_cases (s : SOEPortHandler) (now : Nat) :
    read s now = (none, s) ∨
    (∃ j e, scanResend s.rx_stack now s.next_transmit_rxid
        (s.next_transmit_rxid - s.last_transmitted_rxid) s.last_transmitted_rxid = some (j, e) ∧
      s.port_open = true ∧
      read s now = (some ⟨j, e.payload, e.length⟩,
        ⟨s.port_open, s.next_txid, s.tx_stack, s.next_free_rxid, s.next_transmit_rxid,
          s.last_transmitted_rxid, StdMap.update j (setResend now) s.rx_stack⟩)) ∨
    (∃ e, StdMap.find s.rx_stack s.next_transmit_rxid = some e ∧ e.length > 0 ∧
      s.port_open = true ∧
      scanResend s.rx_stack now s.next_transmit_rxid
        (s.next_transmit_rxid - s.last_transmitted_rxid) s.last_transmitted_rxid = none ∧
      read s now = (some ⟨s.next_transmit_rxid, e.payload, e.length⟩,
        ⟨s.port_open, s.next_txid, s.tx_stack,
          if s.next_free_rxid < (s.next_transmit_rxid + 1) % UINT_MOD
          then (s.next_transmit_rxid + 1) % UINT_MOD else s.next_free_rxid,
          (s.next_transmit_rxid + 1) % UINT_MOD, s.last_transmitted_rxid,
          StdMap.update s.next_transmit_rxid (setResend now) s.rx_stack⟩)) := by
  by_cases hopen : s.port_open = true
  · cases hscan : scanResend s.rx_stack now s.next_transmit_rxid
        (s.next_transmit_rxid - s.last_transmitted_rxid) s.last_transmitted_rxid with
    | some p =>
      obtain ⟨j, e⟩ := p
      exact Or.inr (Or.inl ⟨j, e, rfl, hopen, read_resend s now j e hopen hscan⟩)
    | none =>
      cases hf : StdMap.find s.rx_stack s.next_transmit_rxid with
      | none => exact Or.inl (read_nothing s now (Or.inr ⟨hscan, Or.inl hf⟩))
      | some e =>
        by_cases hl : e.length > 0
        · exact Or.inr (Or.inr ⟨e, rfl, hl, hopen, rfl, read_fresh s now e hopen hscan hf hl⟩)
        · exact Or.inl (read_nothing s now (Or.inr ⟨hscan, Or.inr ⟨e, hf, by omega⟩⟩))
  · exact Or.inl (read_nothing s now (Or.inl (by simpa using hopen)))

theorem confirmReception_cases (s : SOEPortHandler) (rxid : Nat) :
    confirmReception s rxid = s ∨
    confirmReception s rxid = ⟨s.port_open, s.next_txid, s.tx_stack, s.next_free_rxid,
      s.next_transmit_rxid, s.last_transmitted_rxid,
      StdMap.update rxid setConfirmed s.rx_stack⟩ := by
  by_cases h1 : rxid ≥ s.next_free_rxid
  · exact Or.inl (confirmReception_ignored s rxid (Or.inl h1))
  · cases h2 : StdMap.find s.rx_stack rxid with
    | none => exact Or.inl (confirmReception_ignored s rxid (Or.inr h2))
    | some e => exact Or.inr (confirmReception_stored s rxid e (by omega) h2)

theorem confirmTransmission_cases (s : SOEPortHandler) (rxid : Nat) :
    (rxid > s.last_transmitted_rxid ∧ rxid - s.last_transmitted_rxid < 0x7FFFFFFF ∧
      confirmTransmission s rxid = s) ∨
    (¬ (rxid > s.last_transmitted_rxid ∧ rxid - s.last_transmitted_rxid < 0x7FFFFFFF) ∧
      confirmTransmission s rxid = ⟨s.port_open, s.next_txid, s.tx_stack, s.next_free_rxid,
        s.next_transmit_rxid, (rxid + 1) % UINT_MOD,
        eraseLoop s.rx_stack (sub32 (rxid + 1) s.last_transmitted_rxid)
          s.last_transmitted_rxid⟩) := by
  by_cases h : rxid > s.last_transmitted_rxid ∧ rxid - s.last_transmitted_rxid < 0x7FFFFFFF
  · exact Or.inl ⟨h.1, h.2, confirmTransmission_ignored s rxid h⟩
  · refine Or.inr ⟨h, ?_⟩
    simp only [confirmTransmission]
    rw [if_neg h]

theorem rxStep_reader (s : SOEPortHandler) (r : RxReader) (a : RxAction)
    (s1 : SOEPortHandler) (r1 : RxReader) (res : Option ReadResult)
    (h : rxStep s r a = some (s1, r1, res))
    (ha : (∃ now, a = RxAction.readerEnter now) ∨ (∃ now, a = RxAction.readerWake now) ∨
      (∃ data ret, a = RxAction.readerReturn data ret)) :
    res = none ∧ ∃ now, ReaderEffect now s s1 := by
  rcases ha with ⟨now, rfl⟩ | ⟨now, rfl⟩ | ⟨data, ret, rfl⟩
  · simp only [rxStep] at h
    cases hpc : r.pc <;> simp only [hpc] at h <;> first | cases h | skip
    cases hr : readerEnter now s r with
    | none => simp [hr] at h
    | some p =>
      obtain ⟨p1, p2⟩ := p
      simp only [hr, Option.map_some', Option.some.injEq, Prod.mk.injEq] at h
      obtain ⟨rfl, rfl, rfl⟩ := h
      exact ⟨rfl, now, readerEnter_effect now s r p1 p2 hr⟩
  · simp only [rxStep] at h
    cases hpc : r.pc <;> simp only [hpc] at h <;> first | cases h | skip
    cases hr : readerWake now s r with
    | none => simp [hr] at h
    | some p =>
      obtain ⟨p1, p2⟩ := p
      simp only [hr, Option.map_some', Option.some.injEq, Prod.mk.injEq] at h
      obtain ⟨rfl, rfl, rfl⟩ := h
      exact ⟨rfl, now, readerWake_effect now s r p1 p2 hr⟩
  · simp only [rxStep] at h
    cases hpc : r.pc <;> simp only [hpc] at h <;> first | cases h | skip
    rename_i key req
    cases hr : readerReturn data ret key s r with
    | none => simp [hr] at h
    | some p =>
      obtain ⟨p1, p2⟩ := p
      simp only [hr, Option.map_some', Option.some.injEq, Prod.mk.injEq] at h
      obtain ⟨rfl, rfl, rfl⟩ := h
      exact ⟨rfl, 0, readerReturn_effect 0 data ret key s r p1 p2 hr⟩

end SOEPortHandler

namespace SOEPortHandler

theorem rxRun_invariant (g : SOEPortHandler → RxReader → RxAction → Bool)
    (Inv : List RxAction → SOEPortHandler → RxReader → List ReadResult → Prop) (bound : Nat)
    (hstep : ∀ past s r log a s1 r1 res, Inv past s r log → past.length < bound →
      g s r a = true → rxStep s r a = some (s1, r1, res) →
      Inv (past ++ [a]) s1 r1 (log ++ res.toList)) :
    ∀ (acts past : List RxAction) (s : SOEPortHandler) (r : RxReader) (log : List ReadResult)
      (s2 : SOEPortHandler) (r2 : RxReader) (log2 : List ReadResult),
      Inv past s r log → past.length + acts.length ≤ bound →
      rxRun g acts s r log = some (s2, r2, log2) → Inv (past ++ acts) s2 r2 log2 := by
  intro acts
  induction acts with
  | nil =>
    intro past s r log s2 r2 log2 hinv _ hrun
    simp only [rxRun, Option.some.injEq, Prod.mk.injEq] at hrun
    obtain ⟨rfl, rfl, rfl⟩ := hrun
    simpa using hinv
  | cons a rest ih =>
    intro past s r log s2 r2 log2 hinv hlen hrun
    simp only [List.length_cons] at hlen
    simp only [rxRun] at hrun
    by_cases hg : g s r a = true
    · simp only [hg, if_true] at hrun
      cases hs : rxStep s r a with
      | none => simp [hs] at hrun
      | some x =>
        obtain ⟨s1, r1, res⟩ := x
        simp only [hs] at hrun
        have h1 := hstep past s r log a s1 r1 res hinv (by omega) hg hs
        have h2 := ih (past ++ [a]) s1 r1 (log ++ res.toList) s2 r2 log2 h1
          (by simp only [List.length_append, List.length_singleton]; omega) hrun
        simpa using h2
    · simp [hg] at hrun

theorem ReaderEffect.counters {now : Nat} {s s1 : SOEPortHandler}
    (h : ReaderEffect now s s1) (hn : s.next_free_rxid + 1 < UINT_MOD) :
    s1.last_transmitted_rxid = s.last_transmitted_rxid ∧
    s1.next_transmit_rxid = s.next_transmit_rxid ∧ s1.port_open = s.port_open ∧
    (s1.next_free_rxid = s.next_free_rxid ∨ s1.next_free_rxid = s.next_free_rxid + 1) := by
  obtain ⟨⟨h1, _, _, h4, h5⟩, h6⟩ := h
  refine ⟨h5, h4, h1, ?_⟩
  rcases h6 with ⟨_, _, h⟩ | ⟨m0, hc, _⟩
  · exact Or.inl h
  · rcases hc with ⟨_, h⟩ | ⟨_, h, _⟩ | ⟨h, _⟩
    · exact Or.inl h
    · exact Or.inl h
    · right
      rw [h, Nat.mod_eq_of_lt hn]

theorem OrdInv_step (s : SOEPortHandler) (r : RxReader) (a : RxAction) (s1 : SOEPortHandler)
    (r1 : RxReader) (res : Option ReadResult) (n : Nat)
    (hinv : OrdInv s n) (hn : n + 1 < UINT_MOD) (hg : sentOnly s r a = true)
    (h : rxStep s r a = some (s1, r1, res)) : OrdInv s1 (n + 1) := by
  obtain ⟨i1, i2, i3⟩ := hinv
  have hM : UINT_MOD = 4294967296 := rfl
  have reader : ∀ now, ReaderEffect now s s1 → OrdInv s1 (n + 1) := by
    intro now he
    obtain ⟨c1, c2, _, c4⟩ := he.counters (by omega)
    refine ⟨by omega, ?_, ?_⟩ <;> rcases c4 with c4 | c4 <;> omega
  cases a with
  | readerEnter now =>
    obtain ⟨_, now1, he⟩ := rxStep_reader s r _ s1 r1 res h (Or.inl ⟨now, rfl⟩)
    exact reader now1 he
  | readerWake now =>
    obtain ⟨_, now1, he⟩ := rxStep_reader s r _ s1 r1 res h (Or.inr (Or.inl ⟨now, rfl⟩))
    exact reader now1 he
  | readerReturn data ret =>
    obtain ⟨_, now1, he⟩ := rxStep_reader s r _ s1 r1 res h (Or.inr (Or.inr ⟨data, ret, rfl⟩))
    exact reader now1 he
  | read now =>
    simp only [rxStep, Option.some.injEq, Prod.mk.injEq] at h
    obtain ⟨rfl, _, _⟩ := h
    rcases read_cases s now with hr | ⟨j, e, _, _, hr⟩ | ⟨e, _, _, _, _, hr⟩
    · rw [hr]; exact ⟨i1, i2, Nat.le_succ_of_le i3⟩
    · rw [hr]; exact ⟨i1, i2, Nat.le_succ_of_le i3⟩
    · rw [hr]
      have e1 : (s.next_transmit_rxid + 1) % UINT_MOD = s.next_transmit_rxid + 1 :=
        Nat.mod_eq_of_lt (by omega)
      refine ⟨?_, ?_, ?_⟩
      · show s.last_transmitted_rxid ≤ (s.next_transmit_rxid + 1) % UINT_MOD
        omega
      · show (s.next_transmit_rxid + 1) % UINT_MOD ≤
          (if s.next_free_rxid < (s.next_transmit_rxid + 1) % UINT_MOD
           then (s.next_transmit_rxid + 1) % UINT_MOD else s.next_free_rxid)
        split <;> omega
      · show (if s.next_free_rxid < (s.next_transmit_rxid + 1) % UINT_MOD
           then (s.next_transmit_rxid + 1) % UINT_MOD else s.next_free_rxid) ≤ n + 1
        split <;> omega
  | confirmReception rxid =>
    simp only [rxStep, Option.some.injEq, Prod.mk.injEq] at h
    obtain ⟨rfl, _, _⟩ := h
    rcases confirmReception_cases s rxid with hr | hr
    · rw [hr]; exact ⟨i1, i2, Nat.le_succ_of_le i3⟩
    · rw [hr]; exact ⟨i1, i2, Nat.le_succ_of_le i3⟩
  | confirmTransmission rxid =>
    simp only [rxStep, Option.some.injEq, Prod.mk.injEq] at h
    obtain ⟨rfl, _, _⟩ := h
    have hsent : rxid < s.next_transmit_rxid := by simpa [sentOnly] using hg
    rcases confirmTransmission_cases s rxid with ⟨_, _, hr⟩ | ⟨_, hr⟩
    · rw [hr]; exact ⟨i1, i2, Nat.le_succ_of_le i3⟩
    · rw [hr]
      refine ⟨?_, i2, Nat.le_succ_of_le i3⟩
      show (rxid + 1) % UINT_MOD ≤ s.next_transmit_rxid
      rw [Nat.mod_eq_of_lt (by omega)]
      omega

/-- C17 (defect in the code): in the initial state the call `confirmTransmission(0)`,
for an rxid that was never handed out, sets `last_transmitted_rxid` to 1 while
`next_transmit_rxid` is 0, so `last_transmitted_rxid` is `2^32 - 1` ahead of
`next_transmit_rxid` modulo `2^32`. -/
theorem counters_order_broken_by_unsent_ack :
    (rxRun anyStep [RxAction.confirmTransmission 0] init readerInit []).map
      (fun x => (x.1.last_transmitted_rxid, x.1.next_transmit_rxid,
        sub32 x.1.next_transmit_rxid x.1.last_transmitted_rxid))
      = some (1, 0, 2 ^ 32 - 1) ∧
    ¬ (2 ^ 32 - 1 < 2 ^ 31) := by
  decide

/-- The order of the counters while every confirmed rxid has been handed out: in every
state reached from the initial state by fewer than `2^31` steps of the reader and
calls of `read`, `confirmReception` (any argument) and `confirmTransmission` (for
rxids that `read` has handed out, `rxid < next_transmit_rxid`), `last_transmitted_rxid
≤ next_transmit_rxid ≤ next_free_rxid` holds, as numbers and under the
modular-difference ordering. -/
theorem counters_ordered (acts : List RxAction) (s : SOEPortHandler) (r : RxReader)
    (log : List ReadResult) (hrun : rxRun sentOnly acts init readerInit [] = some (s, r, log))
    (hlen : acts.length < 2 ^ 31) :
    s.last_transmitted_rxid ≤ s.next_transmit_rxid ∧
    s.next_transmit_rxid ≤ s.next_free_rxid ∧
    sub32 s.next_transmit_rxid s.last_transmitted_rxid < 2 ^ 31 ∧
    sub32 s.next_free_rxid s.next_transmit_rxid < 2 ^ 31 := by
  have h := rxRun_invariant sentOnly (fun past s _ _ => OrdInv s past.length) (2 ^ 31)
    (fun past s r log a s1 r1 res hinv hb hg hs => by
      have := OrdInv_step s r a s1 r1 res past.length hinv
        (by have hM : UINT_MOD = 4294967296 := rfl; omega) hg hs
      simpa using this)
    acts [] init readerInit [] s r log ⟨Nat.le_refl _, Nat.le_refl _, Nat.le_refl _⟩
    (by simp only [List.length_nil]; omega) hrun
  simp only [List.nil_append] at h
  obtain ⟨h1, h2, h3⟩ := h
  refine ⟨h1, h2, ?_, ?_⟩ <;> (unfold sub32 UINT_MOD; omega)

/-- The order of the counters on the execution that transmits three entries and
confirms the transmission of the first. -/
theorem counters_ordered_witness :
    rxRun sentOnly (sentThree ++ [RxAction.confirmTransmission 0]) init readerInit []
      = some (stateOneAcked, readerAfterThree, logThree) ∧
    stateOneAcked.last_transmitted_rxid ≤ stateOneAcked.next_transmit_rxid ∧
    stateOneAcked.next_transmit_rxid ≤ stateOneAcked.next_free_rxid ∧
    sub32 stateOneAcked.next_transmit_rxid stateOneAcked.last_transmitted_rxid < 2 ^ 31 ∧
    sub32 stateOneAcked.next_free_rxid stateOneAcked.next_transmit_rxid < 2 ^ 31 :=
  ⟨by decide,
   counters_ordered (sentThree ++ [RxAction.confirmTransmission 0]) stateOneAcked
     readerAfterThree logThree (by decide) (by decide)⟩

end SOEPortHandler

namespace SOEPortHandler

theorem Created.find_other {now : Nat} {s : SOEPortHandler} {m0 : List (Nat × rx_entry)}
    {free k : Nat} (h : Created now s m0 free) (h1 : k ≠ s.next_free_rxid)
    (h2 : k ≠ (s.next_free_rxid + 1) % UINT_MOD) :
    StdMap.find m0 k = StdMap.find s.rx_stack k := by
  rcases h with ⟨rfl, _⟩ | ⟨_, _, rfl⟩ | ⟨_, rfl⟩
  · rfl
  · exact StdMap.find_insert_ne _ _ _ _ h1
  · exact StdMap.find_insert_ne _ _ _ _ h2

theorem Appended.confirmed {m0 m1 : List (Nat × rx_entry)} (h : Appended m0 m1) (k : Nat)
    (hk : ∀ e, StdMap.find m0 k = some e → e.rx_confirmed = true) :
    ∀ e, StdMap.find m1 k = some e → e.rx_confirmed = true := by
  rcases h with rfl | ⟨j, e0, e1, buf, n, hf, ha, rfl⟩
  · exact hk
  · intro e he
    rw [StdMap.find_update] at he
    by_cases hj : k = j
    · subst hj
      simp only [if_true, hf, Option.map_some', Option.some.injEq] at he
      subst he
      rw [(appendData_flags e0 e1 buf n ha).1]
      exact hk e0 hf
    · rw [if_neg hj] at he
      exact hk e he

theorem Appended.isSome {m0 m1 : List (Nat × rx_entry)} (h : Appended m0 m1) (k : Nat) :
    (StdMap.find m1 k).isSome = (StdMap.find m0 k).isSome := by
  rcases h with rfl | ⟨j, e0, e1, buf, n, hf, ha, rfl⟩
  · rfl
  · rw [StdMap.find_update]
    by_cases hj : k = j
    · subst hj
      simp [hf]
    · rw [if_neg hj]

theorem ConfirmedInv_step (id : Nat) (s : SOEPortHandler) (r : RxReader) (a : RxAction)
    (s1 : SOEPortHandler) (r1 : RxReader) (res : Option ReadResult) (n : Nat)
    (hinv : ConfirmedInv id s n) (hn : n + 1 < UINT_MOD)
    (h : rxStep s r a = some (s1, r1, res)) :
    ConfirmedInv id s1 (n + 1) ∧ ∀ x, res = some x → x.rxid ≠ id := by
  obtain ⟨i1, i2, i3, i4⟩ := hinv
  have reader : ∀ now, ReaderEffect now s s1 → ConfirmedInv id s1 (n + 1) := by
    intro now he
    obtain ⟨c1, c2, _, c4⟩ := he.counters (by omega)
    refine ⟨by omega, by rcases c4 with c4 | c4 <;> omega,
      by rcases c4 with c4 | c4 <;> omega, ?_⟩
    rcases he.2 with ⟨_, hnil, _⟩ | ⟨m0, hc, ha⟩
    · intro e he1
      rw [hnil] at he1
      simp [StdMap.find] at he1
    · apply ha.confirmed
      intro e he1
      rw [hc.find_other (by omega) (by rw [Nat.mod_eq_of_lt (by omega)]; omega)] at he1
      exact i4 e he1
  cases a with
  | readerEnter now =>
    obtain ⟨hres, now1, he⟩ := rxStep_reader s r _ s1 r1 res h (Or.inl ⟨now, rfl⟩)
    exact ⟨reader now1 he, by intro x hx; rw [hres] at hx; cases hx⟩
  | readerWake now =>
    obtain ⟨hres, now1, he⟩ := rxStep_reader s r _ s1 r1 res h (Or.inr (Or.inl ⟨now, rfl⟩))
    exact ⟨reader now1 he, by intro x hx; rw [hres] at hx; cases hx⟩
  | readerReturn data ret =>
    obtain ⟨hres, now1, he⟩ :=
      rxStep_reader s r _ s1 r1 res h (Or.inr (Or.inr ⟨data, ret, rfl⟩))
    exact ⟨reader now1 he, by intro x hx; rw [hres] at hx; cases hx⟩
  | read now =>
    simp only [rxStep, Option.some.injEq, Prod.mk.injEq] at h
    obtain ⟨rfl, _, rfl⟩ := h
    rcases read_cases s now with hr | ⟨j, e, hscan, _, hr⟩ | ⟨e, hf, _, _, _, hr⟩
    · rw [hr]
      exact ⟨⟨i1, i2, Nat.le_succ_of_le i3, i4⟩, by intro x hx; cases hx⟩
    · rw [hr]
      obtain ⟨_, _, hfj, hcj, _⟩ := scanResend_some _ _ _ _ _ _ _ hscan
      have hne : id ≠ j := by
        intro hij
        subst hij
        have := i4 e hfj
        rw [hcj] at this
        cases this
      refine ⟨⟨i1, i2, Nat.le_succ_of_le i3, ?_⟩, ?_⟩
      · intro e1 he1
        have he2 : StdMap.find (StdMap.update j (setResend now) s.rx_stack) id = some e1 := he1
        rw [StdMap.find_update_ne _ _ _ _ hne] at he2
        exact i4 e1 he2
      · intro x hx
        simp only [Option.some.injEq] at hx
        subst hx
        exact fun hx => hne hx.symm
    · rw [hr]
      have e1 : (s.next_transmit_rxid + 1) % UINT_MOD = s.next_transmit_rxid + 1 :=
        Nat.mod_eq_of_lt (by omega)
      refine ⟨⟨?_, ?_, ?_, ?_⟩, ?_⟩
      · show id < (s.next_transmit_rxid + 1) % UINT_MOD
        omega
      · show (s.next_transmit_rxid + 1) % UINT_MOD ≤
          (if s.next_free_rxid < (s.next_transmit_rxid + 1) % UINT_MOD
           then (s.next_transmit_rxid + 1) % UINT_MOD else s.next_free_rxid)
        split <;> omega
      · show (if s.next_free_rxid < (s.next_transmit_rxid + 1) % UINT_MOD
           then (s.next_transmit_rxid + 1) % UINT_MOD else s.next_free_rxid) ≤ n + 1
        split <;> omega
      · intro e1 he1
        have he2 : StdMap.find (StdMap.update s.next_transmit_rxid (setResend now) s.rx_stack)
            id = some e1 := he1
        rw [StdMap.find_update_ne _ _ _ _ (by omega)] at he2
        exact i4 e1 he2
      · intro x hx
        simp only [Option.some.injEq] at hx
        subst hx
        show s.next_transmit_rxid ≠ id
        omega
  | confirmReception rxid =>
    simp only [rxStep, Option.some.injEq, Prod.mk.injEq] at h
    obtain ⟨rfl, _, rfl⟩ := h
    refine ⟨?_, by intro x hx; cases hx⟩
    rcases confirmReception_cases s rxid with hr | hr
    · rw [hr]; exact ⟨i1, i2, Nat.le_succ_of_le i3, i4⟩
    · rw [hr]
      refine ⟨i1, i2, Nat.le_succ_of_le i3, ?_⟩
      intro e1 he1
      have he2 : StdMap.find (StdMap.update rxid setConfirmed s.rx_stack) id = some e1 := he1
      rw [StdMap.find_update] at he2
      by_cases hj : id = rxid
      · rw [if_pos hj] at he2
        cases hf : StdMap.find s.rx_stack rxid with
        | none => simp [hf] at he2
        | some e0 =>
          simp only [hf, Option.map_some', Option.some.injEq] at he2
          subst he2
          rfl
      · rw [if_neg hj] at he2
        exact i4 e1 he2
  | confirmTransmission rxid =>
    simp only [rxStep, Option.some.injEq, Prod.mk.injEq] at h
    obtain ⟨rfl, _, rfl⟩ := h
    refine ⟨?_, by intro x hx; cases hx⟩
    rcases confirmTransmission_cases s rxid with ⟨_, _, hr⟩ | ⟨_, hr⟩
    · rw [hr]; exact ⟨i1, i2, Nat.le_succ_of_le i3, i4⟩
    · rw [hr]
      refine ⟨i1, i2, Nat.le_succ_of_le i3, ?_⟩
      intro e1 he1
      exact i4 e1 (find_eraseLoop_some _ _ _ _ _ he1)

theorem free_bound_step (s : SOEPortHandler) (r : RxReader) (a : RxAction)
    (s1 : SOEPortHandler) (r1 : RxReader) (res : Option ReadResult) (n : Nat)
    (hinv : s.next_transmit_rxid ≤ s.next_free_rxid ∧ s.next_free_rxid ≤ n)
    (hn : n + 1 < UINT_MOD) (hs : rxStep s r a = some (s1, r1, res)) :
    s1.next_transmit_rxid ≤ s1.next_free_rxid ∧ s1.next_free_rxid ≤ n + 1 := by
  have hM : UINT_MOD = 4294967296 := rfl
  cases a with
  | readerEnter now =>
    obtain ⟨_, now1, he⟩ := rxStep_reader s r _ s1 r1 res hs (Or.inl ⟨now, rfl⟩)
    obtain ⟨_, c2, _, c4⟩ := he.counters (by omega)
    rcases c4 with c4 | c4 <;> omega
  | readerWake now =>
    obtain ⟨_, now1, he⟩ := rxStep_reader s r _ s1 r1 res hs (Or.inr (Or.inl ⟨now, rfl⟩))
    obtain ⟨_, c2, _, c4⟩ := he.counters (by omega)
    rcases c4 with c4 | c4 <;> omega
  | readerReturn data ret =>
    obtain ⟨_, now1, he⟩ :=
      rxStep_reader s r _ s1 r1 res hs (Or.inr (Or.inr ⟨data, ret, rfl⟩))
    obtain ⟨_, c2, _, c4⟩ := he.counters (by omega)
    rcases c4 with c4 | c4 <;> omega
  | read now =>
    simp only [rxStep, Option.some.injEq, Prod.mk.injEq] at hs
    obtain ⟨rfl, _, _⟩ := hs
    rcases read_cases s now with hr | ⟨j, e, _, _, hr⟩ | ⟨e, _, _, _, _, hr⟩
    · rw [hr]; exact ⟨hinv.1, Nat.le_succ_of_le hinv.2⟩
    · rw [hr]; exact ⟨hinv.1, Nat.le_succ_of_le hinv.2⟩
    · rw [hr]
      have e1 : (s.next_transmit_rxid + 1) % UINT_MOD = s.next_transmit_rxid + 1 :=
        Nat.mod_eq_of_lt (by omega)
      constructor
      · show (s.next_transmit_rxid + 1) % UINT_MOD ≤
          (if s.next_free_rxid < (s.next_transmit_rxid + 1) % UINT_MOD
           then (s.next_transmit_rxid + 1) % UINT_MOD else s.next_free_rxid)
        split <;> omega
      · show (if s.next_free_rxid < (s.next_transmit_rxid + 1) % UINT_MOD
           then (s.next_transmit_rxid + 1) % UINT_MOD else s.next_free_rxid)
          ≤ n + 1
        split <;> omega
  | confirmReception rxid =>
    simp only [rxStep, Option.some.injEq, Prod.mk.injEq] at hs
    obtain ⟨rfl, _, _⟩ := hs
    rcases confirmReception_cases s rxid with hr | hr
    · rw [hr]; exact ⟨hinv.1, Nat.le_succ_of_le hinv.2⟩
    · rw [hr]; exact ⟨hinv.1, Nat.le_succ_of_le hinv.2⟩
  | confirmTransmission rxid =>
    simp only [rxStep, Option.some.injEq, Prod.mk.injEq] at hs
    obtain ⟨rfl, _, _⟩ := hs
    rcases confirmTransmission_cases s rxid with ⟨_, _, hr⟩ | ⟨_, hr⟩
    · rw [hr]; exact ⟨hinv.1, Nat.le_succ_of_le hinv.2⟩
    · rw [hr]; exact ⟨hinv.1, Nat.le_succ_of_le hinv.2⟩

theorem init_next_free_le (g : SOEPortHandler → RxReader → RxAction → Bool)
    (acts : List RxAction) (s : SOEPortHandler) (r : RxReader) (log : List ReadResult)
    (hrun : rxRun g acts init readerInit [] = some (s, r, log))
    (hlen : acts.length < UINT_MOD) :
    s.next_transmit_rxid ≤ s.next_free_rxid ∧ s.next_free_rxid ≤ acts.length := by
  have h := rxRun_invariant g
    (fun past s _ _ => s.next_transmit_rxid ≤ s.next_free_rxid ∧ s.next_free_rxid ≤ past.length)
    (UINT_MOD - 1)
    (fun past s r log a s1 r1 res hinv hb _ hs => by
      simp only [List.length_append, List.length_singleton]
      exact free_bound_step s r a s1 r1 res _ hinv (by omega) hs)
    acts [] init readerInit [] s r log ⟨Nat.le_refl _, Nat.le_refl _⟩
    (by simp only [List.length_nil]; omega) hrun
  simpa using h

/-- A confirmed entry in short executions: take any state reached from the initial
state in which an entry `id` that `read` has handed out (`id < next_transmit_rxid`) is
confirmed. In every continuation by reader steps and calls of `read` (at any clock
readings), `confirmReception` and `confirmTransmission`, no call of `read` returns
`id`, as long as the whole execution has fewer than `2^32 - 1` steps. -/
theorem confirmed_entry_never_resent (acts1 acts2 : List RxAction) (id : Nat) (e : rx_entry)
    (s : SOEPortHandler) (r : RxReader) (log1 : List ReadResult)
    (s2 : SOEPortHandler) (r2 : RxReader) (log2 : List ReadResult)
    (hrun1 : rxRun anyStep acts1 init readerInit [] = some (s, r, log1))
    (hsent : id < s.next_transmit_rxid)
    (hfind : StdMap.find s.rx_stack id = some e) (hconf : e.rx_confirmed = true)
    (hrun2 : rxRun anyStep acts2 s r [] = some (s2, r2, log2))
    (hlen : acts1.length + acts2.length < 2 ^ 32 - 1) :
    ∀ res ∈ log2, res.rxid ≠ id := by
  have hM : UINT_MOD = 4294967296 := rfl
  obtain ⟨h1, h2⟩ := init_next_free_le anyStep acts1 s r log1 hrun1 (by omega)
  have h := rxRun_invariant anyStep
    (fun past s _ log => ConfirmedInv id s (acts1.length + past.length) ∧
      ∀ res ∈ log, res.rxid ≠ id)
    acts2.length
    (fun past s r log a s1 r1 res hinv hb _ hs => by
      obtain ⟨k1, k2⟩ := ConfirmedInv_step id s r a s1 r1 res _ hinv.1 (by omega) hs
      refine ⟨by simpa [Nat.add_assoc] using k1, ?_⟩
      intro x hx
      rw [List.mem_append] at hx
      rcases hx with hx | hx
      · exact hinv.2 x hx
      · cases res with
        | none => simp at hx
        | some y =>
          simp only [Option.toList, List.mem_singleton] at hx
          subst hx
          exact k2 x rfl)
    acts2 [] s r [] s2 r2 log2
    ⟨⟨hsent, h1, by simpa using h2, fun e1 he1 => by
        rw [hfind] at he1
        cases he1
        exact hconf⟩, by simp⟩
    (by simp) hrun2
  exact h.2

end SOEPortHandler

namespace SOEPortHandler

/-- An execution with a confirmed entry: entry 0 is transmitted and confirmed; `read`
is then called at the clock readings 1000, 2000 and 3000, far past the resend time 101
of entry 0, and hands out entry 1 twice but never entry 0. -/
theorem confirmed_entry_never_resent_witness :
    rxRun anyStep confirmedOne init readerInit []
      = some (stateConfirmed, readerAfterOne, [⟨0, 1 :: List.replicate 1023 0, 1⟩]) ∧
    rxRun anyStep laterReads stateConfirmed readerAfterOne []
      = some (stateLater, ⟨2 :: List.replicate 1023 0, 0, ReaderPc.top⟩, logLater) ∧
    ∀ res ∈ logLater, res.rxid ≠ 0 :=
  ⟨by decide, by decide,
   confirmed_entry_never_resent confirmedOne laterReads 0
     ⟨1, 1 :: List.replicate 1023 0, 101, true⟩ stateConfirmed readerAfterOne
     [⟨0, 1 :: List.replicate 1023 0, 1⟩] stateLater
     ⟨2 :: List.replicate 1023 0, 0, ReaderPc.top⟩ logLater
     (by decide) (by decide) (by decide) rfl (by decide) (by decide)⟩

end SOEPortHandler

namespace SOEPortHandler

theorem count_eq_isSome {α : Type} (m : List (Nat × α)) (k : Nat) :
    StdMap.count m k = (StdMap.find m k).isSome := rfl

theorem Appended.count {m0 m1 : List (Nat × rx_entry)} (h : Appended m0 m1) (k : Nat) :
    StdMap.count m1 k = StdMap.count m0 k := by
  rw [count_eq_isSome, count_eq_isSome]
  exact h.isSome k

theorem count_insert {α : Type} (m : List (Nat × α)) (k j : Nat) (v : α) :
    StdMap.count (StdMap.insert k v m) j = (decide (j = k) || StdMap.count m j) := by
  rw [count_eq_isSome, count_eq_isSome]
  by_cases h : j = k
  · subst h
    rw [StdMap.find_insert_self]
    simp
  · rw [StdMap.find_insert_ne _ _ _ _ h]
    simp [h]

theorem count_update {α : Type} (m : List (Nat × α)) (k j : Nat) (f : α → α) :
    StdMap.count (StdMap.update k f m) j = StdMap.count m j := by
  rw [count_eq_isSome, count_eq_isSome, StdMap.find_update]
  by_cases h : j = k
  · rw [if_pos h]
    subst h
    cases StdMap.find m j <;> rfl
  · rw [if_neg h]

/-- What `readerEnter` does to the stack of an open port: a new entry at the
incremented `next_free_rxid` only when the old one has an entry. -/
theorem readerEnter_open (now : Nat) (s : SOEPortHandler) (r : RxReader)
    (s1 : SOEPortHandler) (r1 : RxReader) (h : readerEnter now s r = some (s1, r1))
    (hopen : s.port_open = true) :
    SameButRx s s1 ∧ ∃ m0, Appended m0 s1.rx_stack ∧
      ((m0 = s.rx_stack ∧ s1.next_free_rxid = s.next_free_rxid) ∨
       (StdMap.count s.rx_stack s.next_free_rxid = false ∧
         s1.next_free_rxid = s.next_free_rxid ∧
         m0 = StdMap.insert s.next_free_rxid (newEntry now) s.rx_stack) ∨
       (StdMap.count s.rx_stack s.next_free_rxid = true ∧
         s1.next_free_rxid = (s.next_free_rxid + 1) % UINT_MOD ∧
         m0 = StdMap.insert ((s.next_free_rxid + 1) % UINT_MOD) (newEntry now) s.rx_stack)) := by
  unfold readerEnter at h
  simp only [hopen, Bool.not_true, Bool.false_eq_true, if_false] at h
  cases hf : StdMap.find s.rx_stack s.next_free_rxid with
  | none =>
    simp only [hf] at h
    obtain ⟨⟨a, b, c, d, e⟩, h2, h3⟩ := readerFill_effect _ _ _ _ h
    refine ⟨⟨a.trans hopen.symm, b, c, d, e⟩, _, h3, Or.inr (Or.inl ⟨?_, h2, rfl⟩)⟩
    rw [count_eq_isSome, hf]
    rfl
  | some e =>
    simp only [hf] at h
    by_cases hfull : e.length ≥ SERIAL_RX_ENTRY_LEN ∨
        r.inBuffer > SERIAL_RX_ENTRY_LEN - e.length
    · simp only [hfull, if_true] at h
      by_cases hlim : StdMap.size s.rx_stack ≥ SERIAL_RX_STACK_LIMIT
      · simp only [hlim, if_true, Option.some.injEq, Prod.mk.injEq] at h
        obtain ⟨rfl, _⟩ := h
        exact ⟨SameButRx.refl _, _, Or.inl rfl, Or.inl ⟨rfl, rfl⟩⟩
      · simp only [hlim, if_false] at h
        unfold readerNewEntry at h
        obtain ⟨h1, h2, h3⟩ := readerFill_effect _ _ _ _ h
        refine ⟨h1, _, h3, Or.inr (Or.inr ⟨?_, h2, rfl⟩)⟩
        rw [count_eq_isSome, hf]
        rfl
    · simp only [hfull, if_false] at h
      obtain ⟨h1, h2, h3⟩ := readerFill_effect _ _ _ _ h
      exact ⟨h1, _, h3, Or.inl ⟨rfl, h2⟩⟩

/-- What `readerReturn` does to the stack: bytes are appended to an entry or nothing. -/
theorem readerReturn_appends (data : List Nat) (ret key : Nat) (s : SOEPortHandler)
    (r : RxReader) (s1 : SOEPortHandler) (r1 : RxReader)
    (h : readerReturn data ret key s r = some (s1, r1)) :
    SameButRx s s1 ∧ s1.next_free_rxid = s.next_free_rxid ∧
      Appended s.rx_stack s1.rx_stack := by
  unfold readerReturn at h
  by_cases hc : StdMap.count s.rx_stack s.next_free_rxid = true
  · simp only [hc, Bool.not_true, Bool.false_eq_true, if_false] at h
    cases hf : StdMap.find s.rx_stack key with
    | none => simp [hf] at h
    | some e =>
      simp only [hf] at h
      by_cases hcap : ret % UINT_MOD > capacity e.length
      · simp only [hcap, if_true, Option.some.injEq, Prod.mk.injEq] at h
        obtain ⟨rfl, _⟩ := h
        exact ⟨SameButRx.refl _, rfl, Or.inl rfl⟩
      · simp only [hcap, if_false] at h
        cases ha : appendData e (data ++ List.drop data.length r.receptionBuffer)
            (ret % UINT_MOD) with
        | none => simp [ha] at h
        | some e1 =>
          simp only [ha, Option.some.injEq, Prod.mk.injEq] at h
          obtain ⟨rfl, _⟩ := h
          exact ⟨⟨rfl, rfl, rfl, rfl, rfl⟩, rfl, Or.inr ⟨_, e, e1, _, _, hf, ha, rfl⟩⟩
  · simp only [hc, Bool.not_false, if_true, Option.some.injEq, Prod.mk.injEq] at h
    obtain ⟨rfl, _⟩ := h
    exact ⟨SameButRx.refl _, rfl, Or.inl rfl⟩

theorem RangeInv_step (s : SOEPortHandler) (r : RxReader) (a : RxAction) (s1 : SOEPortHandler)
    (r1 : RxReader) (res : Option ReadResult) (n : Nat)
    (hinv : RangeInv s n) (hn : n + 1 < UINT_MOD) (hg : orderly s r a = true)
    (h : rxStep s r a = some (s1, r1, res)) : RangeInv s1 (n + 1) := by
  obtain ⟨hopen, ⟨i1, i2, i3⟩, hk, hc⟩ := hinv
  have hM : UINT_MOD = 4294967296 := rfl
  cases a with
  | readerEnter now =>
    simp only [rxStep] at h
    cases hpc : r.pc <;> simp only [hpc] at h <;> first | cases h | skip
    cases hr : readerEnter now s r with
    | none => simp [hr] at h
    | some p =>
      obtain ⟨p1, p2⟩ := p
      simp only [hr, Option.map_some', Option.some.injEq, Prod.mk.injEq] at h
      obtain ⟨rfl, _, _⟩ := h
      obtain ⟨⟨a1, _, _, a4, a5⟩, m0, happ, hcr⟩ := readerEnter_open now s r _ _ hr hopen
      have e1 : (s.next_free_rxid + 1) % UINT_MOD = s.next_free_rxid + 1 :=
        Nat.mod_eq_of_lt (by omega)
      rcases hcr with ⟨rfl, hfree⟩ | ⟨hnone, hfree, rfl⟩ | ⟨hsome, hfree, rfl⟩
      · refine ⟨a1.trans hopen, ⟨by omega, by omega, by omega⟩, ?_, ?_⟩
        · intro k hk1
          rw [happ.count] at hk1
          have := hk k hk1
          omega
        · intro k h1 h2
          rw [happ.count]
          exact hc k (by omega) (by omega)
      · refine ⟨a1.trans hopen, ⟨by omega, by omega, by omega⟩, ?_, ?_⟩
        · intro k hk1
          rw [happ.count, count_insert] at hk1
          by_cases hkf : k = s.next_free_rxid
          · omega
          · simp only [hkf, decide_False, Bool.false_or] at hk1
            have := hk k hk1
            omega
        · intro k h1 h2
          rw [happ.count, count_insert, hc k (by omega) (by omega)]
          simp
      · rw [e1] at hfree
        refine ⟨a1.trans hopen, ⟨by omega, by omega, by omega⟩, ?_, ?_⟩
        · intro k hk1
          rw [happ.count, e1, count_insert] at hk1
          by_cases hkf : k = s.next_free_rxid + 1
          · omega
          · simp only [hkf, decide_False, Bool.false_or] at hk1
            have := hk k hk1
            omega
        · intro k h1 h2
          rw [happ.count, e1, count_insert]
          by_cases hkf : k = s.next_free_rxid
          · rw [hkf, hsome]; simp
          · rw [hc k (by omega) (by omega)]; simp
  | readerWake now => simp [orderly] at hg
  | readerReturn data ret =>
    simp only [rxStep] at h
    cases hpc : r.pc <;> simp only [hpc] at h <;> first | cases h | skip
    rename_i key req
    cases hr : readerReturn data ret key s r with
    | none => simp [hr] at h
    | some p =>
      obtain ⟨p1, p2⟩ := p
      simp only [hr, Option.map_some', Option.some.injEq, Prod.mk.injEq] at h
      obtain ⟨rfl, _, _⟩ := h
      obtain ⟨⟨a1, _, _, a4, a5⟩, hfree, happ⟩ := readerReturn_appends data ret key s r _ _ hr
      refine ⟨a1.trans hopen, ⟨by omega, by omega, by omega⟩, ?_, ?_⟩
      · intro k hk1
        rw [happ.count] at hk1
        have := hk k hk1
        omega
      · intro k h1 h2
        rw [happ.count]
        exact hc k (by omega) (by omega)
  | read now =>
    simp only [rxStep, Option.some.injEq, Prod.mk.injEq] at h
    obtain ⟨rfl, _, _⟩ := h
    rcases read_cases s now with hr | ⟨j, e, _, _, hr⟩ | ⟨e, hf, _, _, _, hr⟩
    · rw [hr]
      exact ⟨hopen, ⟨i1, i2, Nat.le_succ_of_le i3⟩, hk, hc⟩
    · rw [hr]
      refine ⟨hopen, ⟨i1, i2, Nat.le_succ_of_le i3⟩, ?_, ?_⟩
      · intro k hk1
        have hk2 : StdMap.count (StdMap.update j (setResend now) s.rx_stack) k = true := hk1
        rw [count_update] at hk2
        exact hk k hk2
      · intro k h1 h2
        show StdMap.count (StdMap.update j (setResend now) s.rx_stack) k = true
        rw [count_update]
        exact hc k h1 h2
    · rw [hr]
      have e1 : (s.next_transmit_rxid + 1) % UINT_MOD = s.next_transmit_rxid + 1 :=
        Nat.mod_eq_of_lt (by omega)
      have hfree : (if s.next_free_rxid < (s.next_transmit_rxid + 1) % UINT_MOD
          then (s.next_transmit_rxid + 1) % UINT_MOD else s.next_free_rxid)
          = (if s.next_free_rxid = s.next_transmit_rxid then s.next_free_rxid + 1
             else s.next_free_rxid) := by
        rw [e1]
        split <;> split <;> omega
      have hsome : StdMap.count s.rx_stack s.next_transmit_rxid = true := by
        rw [count_eq_isSome, hf]; rfl
      refine ⟨hopen, ⟨?_, ?_, ?_⟩, ?_, ?_⟩
      · show s.last_transmitted_rxid ≤ (s.next_transmit_rxid + 1) % UINT_MOD
        omega
      · show (s.next_transmit_rxid + 1) % UINT_MOD ≤
          (if s.next_free_rxid < (s.next_transmit_rxid + 1) % UINT_MOD
           then (s.next_transmit_rxid + 1) % UINT_MOD else s.next_free_rxid)
        rw [hfree, e1]
        split <;> omega
      · show (if s.next_free_rxid < (s.next_transmit_rxid + 1) % UINT_MOD
           then (s.next_transmit_rxid + 1) % UINT_MOD else s.next_free_rxid) ≤ n + 1
        rw [hfree]
        split <;> omega
      · intro k hk1
        have hk2 : StdMap.count (StdMap.update s.next_transmit_rxid (setResend now)
            s.rx_stack) k = true := hk1
        rw [count_update] at hk2
        have := hk k hk2
        show s.last_transmitted_rxid ≤ k ∧ k ≤
          (if s.next_free_rxid < (s.next_transmit_rxid + 1) % UINT_MOD
           then (s.next_transmit_rxid + 1) % UINT_MOD else s.next_free_rxid)
        rw [hfree]
        split <;> omega
      · intro k h1 h2
        show StdMap.count (StdMap.update s.next_transmit_rxid (setResend now)
            s.rx_stack) k = true
        rw [count_update]
        have h3 : k < (if s.next_free_rxid = s.next_transmit_rxid then s.next_free_rxid + 1
             else s.next_free_rxid) := by rw [← hfree]; exact h2
        by_cases hkn : k = s.next_transmit_rxid
        · rw [hkn]; exact hsome
        · apply hc k h1
          split at h3 <;> omega
  | confirmReception rxid =>
    simp only [rxStep, Option.some.injEq, Prod.mk.injEq] at h
    obtain ⟨rfl, _, _⟩ := h
    rcases confirmReception_cases s rxid with hr | hr
    · rw [hr]; exact ⟨hopen, ⟨i1, i2, Nat.le_succ_of_le i3⟩, hk, hc⟩
    · rw [hr]
      refine ⟨hopen, ⟨i1, i2, Nat.le_succ_of_le i3⟩, ?_, ?_⟩
      · intro k hk1
        have hk2 : StdMap.count (StdMap.update rxid setConfirmed s.rx_stack) k = true := hk1
        rw [count_update] at hk2
        exact hk k hk2
      · intro k h1 h2
        show StdMap.count (StdMap.update rxid setConfirmed s.rx_stack) k = true
        rw [count_update]
        exact hc k h1 h2
  | confirmTransmission rxid =>
    simp only [orderly, decide_eq_true_eq] at hg
    simp only [rxStep, Option.some.injEq, Prod.mk.injEq] at h
    obtain ⟨rfl, _, _⟩ := h
    by_cases hfut : rxid > s.last_transmitted_rxid ∧
        rxid - s.last_transmitted_rxid < 0x7FFFFFFF
    · rw [confirmTransmission_ignored s rxid hfut]
      exact ⟨hopen, ⟨i1, i2, Nat.le_succ_of_le i3⟩, hk, hc⟩
    · rw [confirmTransmission_erases s rxid hfut (by omega)]
      have e1 : (rxid + 1) % UINT_MOD = rxid + 1 := Nat.mod_eq_of_lt (by omega)
      have e2 : sub32 (rxid + 1) s.last_transmitted_rxid = rxid + 1 - s.last_transmitted_rxid := by
        unfold sub32
        rw [hM]
        omega
      have e3 : ∀ k, s.last_transmitted_rxid ≤ k → k ≤ s.next_free_rxid →
          sub32 k s.last_transmitted_rxid = k - s.last_transmitted_rxid := by
        intro k h1 h2
        unfold sub32
        rw [hM]
        omega
      have hcount : ∀ k, StdMap.count (s.rx_stack.filter (fun p => !(decide (p.1 < UINT_MOD ∧
          sub32 p.1 s.last_transmitted_rxid < sub32 (rxid + 1) s.last_transmitted_rxid)))) k
          = (!(decide (k < UINT_MOD ∧ sub32 k s.last_transmitted_rxid
                < sub32 (rxid + 1) s.last_transmitted_rxid)) && StdMap.count s.rx_stack k) := by
        intro k
        rw [count_eq_isSome, count_eq_isSome,
          StdMap.find_filter (fun j => !(decide (j < UINT_MOD ∧
            sub32 j s.last_transmitted_rxid < sub32 (rxid + 1) s.last_transmitted_rxid)))]
        split <;> rename_i hp
        · rw [hp]; simp
        · have : (!(decide (k < UINT_MOD ∧ sub32 k s.last_transmitted_rxid
                < sub32 (rxid + 1) s.last_transmitted_rxid))) = false := by
            simpa using hp
          rw [this]; simp
      refine ⟨hopen, ⟨?_, i2, Nat.le_succ_of_le i3⟩, ?_, ?_⟩
      · show (rxid + 1) % UINT_MOD ≤ s.next_transmit_rxid
        omega
      · intro k hk1
        have hk2 := (hcount k).symm.trans hk1
        simp only [Bool.and_eq_true, Bool.not_eq_true', decide_eq_false_iff_not] at hk2
        obtain ⟨hk3, hk4⟩ := hk2
        obtain ⟨hk5, hk6⟩ := hk k hk4
        rw [e2, e3 k hk5 hk6] at hk3
        show (rxid + 1) % UINT_MOD ≤ k ∧ k ≤ s.next_free_rxid
        omega
      · intro k h1 h2
        have h3 : rxid + 1 ≤ k := by
          have : (rxid + 1) % UINT_MOD ≤ k := h1
          omega
        have h4 : k < s.next_free_rxid := h2
        refine (hcount k).trans ?_
        rw [hc k (by omega) h4, e2, e3 k (by omega) (by omega)]
        simp only [Bool.and_true, Bool.not_eq_true', decide_eq_false_iff_not]
        omega

/-- The rxid `next_free_rxid` need not be a key: after the reader's first iteration
stored one byte in entry 0 and `read` handed entry 0 to the network, `next_free_rxid`
is 1 and `last_transmitted_rxid` is 0, but the RX stack has the key 0 only: 1 is not a
key. -/
theorem next_free_rxid_not_a_key_after_read :
    (rxRun anyStep [RxAction.readerEnter 0, RxAction.readerReturn [7] 1, RxAction.read 1]
      init readerInit []).map
      (fun x => (StdMap.keys x.1.rx_stack, x.1.last_transmitted_rxid, x.1.next_free_rxid,
        StdMap.count x.1.rx_stack x.1.next_free_rxid))
      = some ([0], 0, 1, false) := by
  decide

/-- The keys while the reader never has to wait for room: in every state reached from
the initial state of an open port by fewer than `2^32 - 1` steps, namely reader steps
in which the reader is not taken up again after it waited for room, calls of `read`
and `confirmReception`, and calls `confirmTransmission(rxid)` with
`last_transmitted_rxid ≤ rxid < next_transmit_rxid`, every key of the RX stack lies in
`[last_transmitted_rxid, next_free_rxid]` and every id of `[last_transmitted_rxid,
next_free_rxid)` is a key. -/
theorem keys_contiguous (acts : List RxAction) (s : SOEPortHandler) (r : RxReader)
    (log : List ReadResult) (hrun : rxRun orderly acts init readerInit [] = some (s, r, log))
    (hlen : acts.length < 2 ^ 32 - 1) :
    ∀ k, (StdMap.count s.rx_stack k = true →
        s.last_transmitted_rxid ≤ k ∧ k ≤ s.next_free_rxid) ∧
      (s.last_transmitted_rxid ≤ k → k < s.next_free_rxid →
        StdMap.count s.rx_stack k = true) := by
  have hM : UINT_MOD = 4294967296 := rfl
  have h := rxRun_invariant orderly (fun past s _ _ => RangeInv s past.length)
    (2 ^ 32 - 2)
    (fun past s r log a s1 r1 res hinv hb hg hs => by
      simp only [List.length_append, List.length_singleton]
      exact RangeInv_step s r a s1 r1 res _ hinv (by omega) hg hs)
    acts [] init readerInit [] s r log
    ⟨rfl, ⟨Nat.le_refl _, Nat.le_refl _, Nat.le_refl _⟩,
      fun k hk => by simp [init, StdMap.count] at hk,
      fun k h1 h2 => by simp [init] at h2⟩
    (by simp only [List.length_nil]; omega) hrun
  obtain ⟨_, _, h3, h4⟩ := h
  exact fun k => ⟨h3 k, h4 k⟩

/-- The keys on the execution that transmits three entries and confirms the
transmission of the first: the keys are 1 and 2, with `last_transmitted_rxid = 1` and
`next_free_rxid = 3`. -/
theorem keys_contiguous_witness :
    rxRun orderly (sentThree ++ [RxAction.confirmTransmission 0]) init readerInit []
      = some (stateOneAcked, readerAfterThree, logThree) ∧
    ∀ k, (StdMap.count stateOneAcked.rx_stack k = true →
        stateOneAcked.last_transmitted_rxid ≤ k ∧ k ≤ stateOneAcked.next_free_rxid) ∧
      (stateOneAcked.last_transmitted_rxid ≤ k → k < stateOneAcked.next_free_rxid →
        StdMap.count stateOneAcked.rx_stack k = true) :=
  ⟨by decide,
   keys_contiguous (sentThree ++ [RxAction.confirmTransmission 0]) stateOneAcked
     readerAfterThree logThree (by decide) (by decide)⟩

end SOEPortHandler

namespace SOEPortHandler

theorem rxRun_append (g : SOEPortHandler → RxReader → RxAction → Bool)
    (a b : List RxAction) :
    ∀ (s : SOEPortHandler) (r : RxReader) (log : List ReadResult),
      rxRun g (a ++ b) s r log
        = (rxRun g a s r log).bind (fun x => rxRun g b x.1 x.2.1 x.2.2) := by
  induction a with
  | nil => intro s r log; rfl
  | cons x t ih =>
    intro s r log
    simp only [List.cons_append, rxRun]
    by_cases hg : g s r x = true
    · simp only [hg, if_true]
      cases hs : rxStep s r x with
      | none => rfl
      | some y =>
        obtain ⟨s1, r1, res⟩ := y
        exact ih s1 r1 _
    · simp [hg]

theorem size_insert_new {α : Type} (k : Nat) (v : α) (m : List (Nat × α))
    (h : StdMap.find m k = none) : StdMap.size (StdMap.insert k v m) = StdMap.size m + 1 := by
  induction m with
  | nil => rfl
  | cons p t ih =>
    obtain ⟨k1, v1⟩ := p
    rw [StdMap.find_cons] at h
    unfold StdMap.insert
    by_cases h1 : k < k1
    · simp [h1, StdMap.size]
    · by_cases h2 : k = k1
      · simp [h2] at h
      · simp only [h1, h2, if_false] at h ⊢
        simp only [StdMap.size, List.length_cons] at ih ⊢
        rw [ih h]

theorem scanResend_now_zero (m : List (Nat × rx_entry)) (hi : Nat) :
    ∀ fuel id, scanResend m 0 hi fuel id = none := by
  intro fuel
  induction fuel with
  | zero => intro id; rfl
  | succ n ih =>
    intro id
    unfold scanResend
    split
    · split
      · simp [ih]
      · exact ih _
    · rfl

end SOEPortHandler

namespace SOEPortHandler

theorem flood_enter (s : SOEPortHandler) (r : RxReader) (h : FloodInv s r) :
    rxStep s r (RxAction.readerEnter 0)
      = some (⟨s.port_open, s.next_txid, s.tx_stack, s.next_free_rxid, s.next_transmit_rxid,
                s.last_transmitted_rxid,
                StdMap.insert s.next_free_rxid (newEntry 0) s.rx_stack⟩,
              ⟨r.receptionBuffer, r.inBuffer, ReaderPc.reading s.next_free_rxid 1024⟩,
              none) := by
  obtain ⟨hopen, hpc, hin, hlen, hnt, hnone, hsize⟩ := h
  have hf := hnone s.next_free_rxid (Nat.le_refl _)
  have hcap : capacity 0 = 1024 := by decide
  simp [rxStep, hpc, readerEnter, hopen, hf, readerFill, StdMap.find_insert_self, hin,
    newEntry, SERIAL_RX_ENTRY_LEN, hcap]

end SOEPortHandler

namespace SOEPortHandler

theorem flood_return (s : SOEPortHandler) (r : RxReader)
    (hpc : r.pc = ReaderPc.reading s.next_free_rxid 1024)
    (hf : StdMap.find s.rx_stack s.next_free_rxid = some (newEntry 0)) :
    rxStep s r (RxAction.readerReturn [7] 1)
      = some (⟨s.port_open, s.next_txid, s.tx_stack, s.next_free_rxid, s.next_transmit_rxid,
                s.last_transmitted_rxid,
                StdMap.update s.next_free_rxid
                  (fun _ => ⟨1, 7 :: List.replicate 1023 0, 0, false⟩) s.rx_stack⟩,
              ⟨7 :: r.receptionBuffer.drop 1, 0, ReaderPc.top⟩, none) := by
  have hcap : capacity 0 = 1024 := by decide
  have hc : StdMap.count s.rx_stack s.next_free_rxid = true := by
    rw [count_eq_isSome, hf]; rfl
  have h1 : (1 : Nat) % UINT_MOD = 1 := by decide
  have h2 : (0 + 1) % ULONG_MOD = 1 := by decide
  have hgt : ¬ (1 > 1024) := by decide
  have hbuf : [7] ++ List.drop [7].length r.receptionBuffer
      = 7 :: List.drop 1 r.receptionBuffer := rfl
  have hm : memcpy (List.replicate SERIAL_RX_ENTRY_LEN 0) 0
      (7 :: r.receptionBuffer.drop 1) 0 1 = some (7 :: List.replicate 1023 0) := by
    have : (List.replicate SERIAL_RX_ENTRY_LEN 0 : List Nat) = 0 :: List.replicate 1023 0 := rfl
    rw [this]
    simp [memcpy]
  simp only [rxStep, hpc, readerReturn, hc, Bool.not_true, Bool.false_eq_true, if_false, hf,
    newEntry, hcap, h1, h2, hgt, appendData, hbuf, hm, Option.map_some']

theorem flood_read (s : SOEPortHandler) (e : rx_entry) (hopen : s.port_open = true)
    (hf : StdMap.find s.rx_stack s.next_transmit_rxid = some e) (hl : e.length > 0)
    (hnt : s.next_transmit_rxid = s.next_free_rxid) (hn : s.next_free_rxid + 1 < UINT_MOD)
    (r : RxReader) :
    rxStep s r (RxAction.read 0)
      = some (⟨s.port_open, s.next_txid, s.tx_stack, s.next_free_rxid + 1,
                s.next_free_rxid + 1, s.last_transmitted_rxid,
                StdMap.update s.next_free_rxid (setResend 0) s.rx_stack⟩,
              r, some ⟨s.next_free_rxid, e.payload, e.length⟩) := by
  have e1 : (s.next_free_rxid + 1) % UINT_MOD = s.next_free_rxid + 1 := Nat.mod_eq_of_lt hn
  rw [hnt] at hf
  simp [rxStep, read, hopen, scanResend_now_zero, hnt, hf, hl, e1]

end SOEPortHandler

namespace SOEPortHandler

theorem flood_round (s : SOEPortHandler) (r : RxReader) (log : List ReadResult)
    (h : FloodInv s r) (hn : s.next_free_rxid + 1 < UINT_MOD) :
    ∃ s1 r1 log1, rxRun anyStep floodRound s r log = some (s1, r1, log1) ∧ FloodInv s1 r1 ∧
      StdMap.size s1.rx_stack = StdMap.size s.rx_stack + 1 := by
  have hA := flood_enter s r h
  obtain ⟨hopen, hpc, hin, hlen, hnt, hnone, hsize⟩ := h
  have hf := hnone s.next_free_rxid (Nat.le_refl _)
  have hB := flood_return
    ⟨s.port_open, s.next_txid, s.tx_stack, s.next_free_rxid, s.next_transmit_rxid,
      s.last_transmitted_rxid, StdMap.insert s.next_free_rxid (newEntry 0) s.rx_stack⟩
    ⟨r.receptionBuffer, r.inBuffer, ReaderPc.reading s.next_free_rxid 1024⟩ rfl
    (StdMap.find_insert_self _ _ _)
  have hfind : StdMap.find (StdMap.update s.next_free_rxid
      (fun _ => (⟨1, 7 :: List.replicate 1023 0, 0, false⟩ : rx_entry))
      (StdMap.insert s.next_free_rxid (newEntry 0) s.rx_stack)) s.next_transmit_rxid
      = some ⟨1, 7 :: List.replicate 1023 0, 0, false⟩ := by
    rw [hnt, StdMap.find_update_self, StdMap.find_insert_self]
    rfl
  have hC := flood_read
    ⟨s.port_open, s.next_txid, s.tx_stack, s.next_free_rxid, s.next_transmit_rxid,
      s.last_transmitted_rxid,
      StdMap.update s.next_free_rxid (fun _ => ⟨1, 7 :: List.replicate 1023 0, 0, false⟩)
        (StdMap.insert s.next_free_rxid (newEntry 0) s.rx_stack)⟩
    ⟨1, 7 :: List.replicate 1023 0, 0, false⟩ hopen hfind
    (Nat.succ_pos 0) hnt hn ⟨7 :: r.receptionBuffer.drop 1, 0, ReaderPc.top⟩
  dsimp only at hB hC
  refine ⟨⟨s.port_open, s.next_txid, s.tx_stack, s.next_free_rxid + 1, s.next_free_rxid + 1,
      s.last_transmitted_rxid,
      StdMap.update s.next_free_rxid (setResend 0)
        (StdMap.update s.next_free_rxid
          (fun _ => ⟨1, 7 :: List.replicate 1023 0, 0, false⟩)
          (StdMap.insert s.next_free_rxid (newEntry 0) s.rx_stack))⟩,
    ⟨7 :: r.receptionBuffer.drop 1, 0, ReaderPc.top⟩,
    log ++ [⟨s.next_free_rxid, 7 :: List.replicate 1023 0, 1⟩], ?_, ?_, ?_⟩
  · simp only [floodRound, rxRun, anyStep, if_true, hA, hB, hC, Option.toList,
      List.append_nil]
  · refine ⟨hopen, rfl, rfl, ?_, rfl, ?_, ?_⟩
    · show (7 :: r.receptionBuffer.drop 1).length = SERIAL_RX_ENTRY_LEN
      rw [List.length_cons, List.length_drop, hlen]
      rfl
    · intro k hk
      have hk1 : s.next_free_rxid + 1 ≤ k := hk
      show StdMap.find (StdMap.update s.next_free_rxid _ (StdMap.update s.next_free_rxid _
        (StdMap.insert s.next_free_rxid _ s.rx_stack))) k = none
      rw [StdMap.find_update_ne _ _ _ _ (by omega), StdMap.find_update_ne _ _ _ _ (by omega),
        StdMap.find_insert_ne _ _ _ _ (by omega)]
      exact hnone k (by omega)
    · show s.next_free_rxid + 1 = StdMap.size (StdMap.update s.next_free_rxid _
        (StdMap.update s.next_free_rxid _ (StdMap.insert s.next_free_rxid _ s.rx_stack)))
      rw [StdMap.size_update, StdMap.size_update, size_insert_new _ _ _ hf, hsize]
  · show StdMap.size (StdMap.update s.next_free_rxid _
        (StdMap.update s.next_free_rxid _ (StdMap.insert s.next_free_rxid _ s.rx_stack))) = _
    rw [StdMap.size_update, StdMap.size_update, size_insert_new _ _ _ hf]

theorem flood_run (n : Nat) :
    ∀ (s : SOEPortHandler) (r : RxReader) (log : List ReadResult), FloodInv s r →
      s.next_free_rxid + n < UINT_MOD →
      ∃ s1 r1 log1, rxRun anyStep (flood n) s r log = some (s1, r1, log1) ∧ FloodInv s1 r1 ∧
        StdMap.size s1.rx_stack = StdMap.size s.rx_stack + n := by
  induction n with
  | zero =>
    intro s r log h _
    exact ⟨s, r, log, rfl, h, rfl⟩
  | succ n ih =>
    intro s r log h hn
    obtain ⟨s1, r1, log1, h1, h2, h3⟩ := flood_round s r log h (by omega)
    have hfree : s1.next_free_rxid = s.next_free_rxid + 1 := by
      rw [h2.2.2.2.2.2.2, h3, h.2.2.2.2.2.2]
    obtain ⟨s2, r2, log2, k1, k2, k3⟩ := ih s1 r1 log1 h2 (by omega)
    refine ⟨s2, r2, log2, ?_, k2, by omega⟩
    have : flood (n + 1) = floodRound ++ flood n := by
      simp [flood, List.replicate_succ]
    rw [this, rxRun_append, h1]
    exact k1

theorem FloodInv_init : FloodInv init readerInit :=
  ⟨rfl, rfl, rfl, by simp [readerInit], rfl, fun _ _ => rfl, rfl⟩

/-- C19 (defect in the code): from the initial state of an open port, 128 rounds in
which the reader stores one byte in a new entry and `read` hands the entry to the
network, with no TX_CONFIRM arriving, end with `SERIAL_RX_STACK_LIMIT` entries on the
RX stack and none at `next_free_rxid`. The next iteration of the reader creates the
missing entry without waiting for room: the stack of the open port then holds
`SERIAL_RX_STACK_LIMIT + 1` entries. -/
theorem reader_exceeds_stack_limit :
    ∃ s r log, rxRun anyStep (flood 128) init readerInit [] = some (s, r, log) ∧
      s.port_open = true ∧ StdMap.size s.rx_stack = SERIAL_RX_STACK_LIMIT ∧
      ∃ s1 r1, rxStep s r (RxAction.readerEnter 0) = some (s1, r1, none) ∧
        s1.port_open = true ∧ r1.pc ≠ ReaderPc.waitRoom ∧
        StdMap.size s1.rx_stack = SERIAL_RX_STACK_LIMIT + 1 := by
  obtain ⟨s, r, log, h1, h2, h3⟩ := flood_run 128 init readerInit [] FloodInv_init (by decide)
  have h4 : StdMap.size s.rx_stack = SERIAL_RX_STACK_LIMIT := h3
  refine ⟨s, r, log, h1, h2.1, h4, _, _, flood_enter s r h2, h2.1, ?_, ?_⟩
  · intro hw
    cases hw
  · show StdMap.size (StdMap.insert s.next_free_rxid (newEntry 0) s.rx_stack) = _
    rw [size_insert_new _ _ _ (h2.2.2.2.2.2.1 _ (Nat.le_refl _)), h4]

end SOEPortHandler

/-! ### Conservation of the serial bytes -/

namespace StdMap

theorem insert_last {α : Type} (k : Nat) (v : α) (m : List (Nat × α))
    (h : ∀ p ∈ m, p.1 < k) : insert k v m = m ++ [(k, v)] := by
  induction m with
  | nil => rfl
  | cons p t ih =>
    obtain ⟨k1, v1⟩ := p
    have h1 : k1 < k := h (k1, v1) (List.mem_cons_self _ _)
    unfold insert
    rw [if_neg (by omega), if_neg (by omega), ih (fun p hp => h p (List.mem_cons_of_mem _ hp))]
    rfl

theorem find_none_of_lt {α : Type} (k : Nat) (m : List (Nat × α))
    (h : ∀ p ∈ m, p.1 < k) : find m k = none := by
  induction m with
  | nil => rfl
  | cons p t ih =>
    obtain ⟨k1, v1⟩ := p
    have h1 : k1 < k := h (k1, v1) (List.mem_cons_self _ _)
    rw [find_cons, if_neg (by omega)]
    exact ih (fun p hp => h p (List.mem_cons_of_mem _ hp))

theorem ne_of_find_none {α : Type} (k : Nat) (m : List (Nat × α))
    (h : find m k = none) : ∀ p ∈ m, p.1 ≠ k := by
  induction m with
  | nil => intro p hp; cases hp
  | cons q t ih =>
    obtain ⟨k1, v1⟩ := q
    rw [find_cons] at h
    by_cases hk : k = k1
    · rw [if_pos hk] at h
      cases h
    · rw [if_neg hk] at h
      intro p hp
      rcases List.mem_cons.mp hp with rfl | hp
      · exact fun h1 => hk h1.symm
      · exact ih h p hp

theorem update_last {α : Type} (k : Nat) (f : α → α) (e : α) (m : List (Nat × α))
    (h : ∀ p ∈ m, p.1 < k) : update k f (m ++ [(k, e)]) = m ++ [(k, f e)] := by
  unfold update
  rw [List.map_append]
  congr 1
  · conv_rhs => rw [← List.map_id m]
    apply List.map_congr_left
    intro p hp
    have := h p hp
    rw [if_neg (by omega)]
    rfl
  · simp

theorem split_last {α : Type} (k : Nat) (e : α) (m : List (Nat × α))
    (hs : (keys m).Pairwise (fun a b => a < b)) (hle : ∀ p ∈ m, p.1 ≤ k)
    (hf : find m k = some e) :
    ∃ front, m = front ++ [(k, e)] ∧ ∀ p ∈ front, p.1 < k := by
  induction m with
  | nil => cases hf
  | cons q t ih =>
    obtain ⟨k1, v1⟩ := q
    simp only [keys, List.map_cons, List.pairwise_cons] at hs
    obtain ⟨hs1, hs2⟩ := hs
    rw [find_cons] at hf
    by_cases hk : k = k1
    · rw [if_pos hk] at hf
      cases hf
      subst hk
      cases t with
      | nil => exact ⟨[], rfl, fun p hp => by cases hp⟩
      | cons q2 t2 =>
        have h1 := hs1 q2.1 (by simp)
        have h2 := hle q2 (by simp)
        omega
    · rw [if_neg hk] at hf
      obtain ⟨front, hfr, hlt⟩ := ih hs2 (fun p hp => hle p (List.mem_cons_of_mem _ hp)) hf
      refine ⟨(k1, v1) :: front, by rw [hfr]; rfl, ?_⟩
      intro p hp
      rcases List.mem_cons.mp hp with rfl | hp
      · have := hle (k1, v1) (List.mem_cons_self _ _)
        have hk2 : k1 ≠ k := fun h => hk h.symm
        show k1 < k
        have h3 : k1 ≤ k := this
        omega
      · exact hlt p hp

theorem mem_update {α : Type} (k : Nat) (f : α → α) (m : List (Nat × α)) (p : Nat × α)
    (h : p ∈ update k f m) : ∃ q ∈ m, p.1 = q.1 ∧ (p.2 = q.2 ∨ p.2 = f q.2) := by
  unfold update at h
  obtain ⟨q, hq, rfl⟩ := List.mem_map.mp h
  refine ⟨q, hq, ?_⟩
  by_cases hk : q.1 = k
  · rw [if_pos hk]
    exact ⟨rfl, Or.inr rfl⟩
  · rw [if_neg hk]
    exact ⟨rfl, Or.inl rfl⟩

end StdMap

namespace SOEPortHandler

theorem capacity_eq (l : Nat) (h : l ≤ SERIAL_RX_ENTRY_LEN) :
    capacity l = SERIAL_RX_ENTRY_LEN - l := by
  have hU : ULONG_MOD = 18446744073709551616 := rfl
  have hL : SERIAL_RX_ENTRY_LEN = 1024 := rfl
  unfold capacity
  rw [hU]
  omega

theorem contents_append (a b : List (Nat × rx_entry)) :
    contents (a ++ b) = contents a ++ contents b := by
  simp [contents]

theorem contents_single (k : Nat) (e : rx_entry) :
    contents [(k, e)] = e.payload.take e.length := by
  simp [contents]

theorem contents_update_same (k : Nat) (f : rx_entry → rx_entry) (m : List (Nat × rx_entry))
    (hf : ∀ e, (f e).payload = e.payload ∧ (f e).length = e.length) :
    contents (StdMap.update k f m) = contents m := by
  unfold contents StdMap.update
  rw [List.map_map]
  congr 1
  apply List.map_congr_left
  intro p _
  simp only [Function.comp]
  by_cases hk : p.1 = k
  · rw [if_pos hk]
    show (f p.2).payload.take (f p.2).length = _
    rw [(hf p.2).1, (hf p.2).2]
  · rw [if_neg hk]

theorem StackOk.mono {m : List (Nat × rx_entry)} {free free1 : Nat} (h : StackOk m free)
    (hle : free ≤ free1) : StackOk m free1 :=
  ⟨h.1, fun p hp => ⟨Nat.le_trans (h.2 p hp).1 hle, (h.2 p hp).2⟩⟩

theorem StackOk.append_new {m : List (Nat × rx_entry)} {free k : Nat} {e : rx_entry}
    (h : StackOk m free) (hlt : ∀ p ∈ m, p.1 < k) (he : EntryOk e) :
    StackOk (m ++ [(k, e)]) k := by
  constructor
  · simp only [StdMap.keys, List.map_append, List.map_cons, List.map_nil]
    rw [List.pairwise_append]
    refine ⟨h.1, List.pairwise_singleton _ _, ?_⟩
    intro a ha b hb
    obtain ⟨p, hp, rfl⟩ := List.mem_map.mp ha
    rw [List.mem_singleton] at hb
    subst hb
    exact hlt p hp
  · intro p hp
    rcases List.mem_append.mp hp with hp | hp
    · exact ⟨Nat.le_of_lt (hlt p hp), (h.2 p hp).2⟩
    · rw [List.mem_singleton] at hp
      subst hp
      exact ⟨Nat.le_refl _, he⟩

theorem StackOk.update_same {m : List (Nat × rx_entry)} {free : Nat} (h : StackOk m free)
    (k : Nat) (f : rx_entry → rx_entry) (hf : ∀ e, EntryOk e → EntryOk (f e)) :
    StackOk (StdMap.update k f m) free := by
  constructor
  · rw [StdMap.keys_update]
    exact h.1
  · intro p hp
    obtain ⟨q, hq, h1, h2⟩ := StdMap.mem_update k f m p hp
    obtain ⟨h3, h4⟩ := h.2 q hq
    refine ⟨by rw [h1]; exact h3, ?_⟩
    rcases h2 with h2 | h2
    · rw [h2]; exact h4
    · rw [h2]; exact hf _ h4

theorem newEntry_ok (now : Nat) : EntryOk (newEntry now) :=
  ⟨by simp [newEntry], Nat.zero_le _⟩

theorem appendData_spec (e e1 : rx_entry) (buf : List Nat) (n : Nat)
    (h : appendData e buf n = some e1) (he : EntryOk e) :
    EntryOk e1 ∧ e1.length = e.length + n ∧
      e1.payload.take e1.length = e.payload.take e.length ++ buf.take n := by
  obtain ⟨he1, he2⟩ := he
  have hU : ULONG_MOD = 18446744073709551616 := rfl
  have hL : SERIAL_RX_ENTRY_LEN = 1024 := rfl
  unfold appendData memcpy at h
  by_cases hc : e.length + n ≤ e.payload.length ∧ 0 + n ≤ buf.length
  · rw [if_pos hc] at h
    simp only [Option.some.injEq] at h
    subst h
    have hlen : (e.length + n) % ULONG_MOD = e.length + n := by
      rw [hU]
      omega
    have hA : (List.take e.length e.payload ++ List.take n (List.drop 0 buf)).length
        = e.length + n := by
      rw [List.length_append, List.length_take, List.length_take, List.drop_zero]
      omega
    refine ⟨⟨?_, ?_⟩, hlen, ?_⟩
    · show (List.take e.length e.payload ++ List.take n (List.drop 0 buf)
        ++ List.drop (e.length + n) e.payload).length = SERIAL_RX_ENTRY_LEN
      rw [List.length_append, hA, List.length_drop]
      omega
    · show (e.length + n) % ULONG_MOD ≤ SERIAL_RX_ENTRY_LEN
      rw [hlen]
      omega
    · show List.take ((e.length + n) % ULONG_MOD)
        (List.take e.length e.payload ++ List.take n (List.drop 0 buf)
          ++ List.drop (e.length + n) e.payload) = _
      rw [hlen, List.take_left' hA, List.drop_zero]
  · rw [if_neg hc] at h
    cases h

end SOEPortHandler

namespace SOEPortHandler

/-- Appending `n` bytes of `buf` to the entry at the greatest key `k` appends them to
the contents of the stack. -/
theorem append_conserves (m : List (Nat × rx_entry)) (k : Nat) (e e1 : rx_entry)
    (buf : List Nat) (n : Nat) (hs : StackOk m k) (hf : StdMap.find m k = some e)
    (ha : appendData e buf n = some e1) :
    StackOk (StdMap.update k (fun _ => e1) m) k ∧
    contents (StdMap.update k (fun _ => e1) m) = contents m ++ buf.take n ∧
    e1.length ≤ SERIAL_RX_ENTRY_LEN := by
  obtain ⟨front, hm, hlt⟩ := StdMap.split_last k e m hs.1 (fun p hp => (hs.2 p hp).1) hf
  have he : EntryOk e := (hs.2 (k, e) (by rw [hm]; simp)).2
  obtain ⟨h1, _, h3⟩ := appendData_spec e e1 buf n ha he
  have hfront : StackOk front k := by
    refine ⟨?_, fun p hp => hs.2 p (by rw [hm]; exact List.mem_append_left _ hp)⟩
    have := hs.1
    rw [hm] at this
    simp only [StdMap.keys, List.map_append] at this
    exact (List.pairwise_append.mp this).1
  rw [hm, StdMap.update_last k _ e front hlt]
  refine ⟨hfront.append_new hlt h1, ?_, h1.2⟩
  rw [contents_append, contents_append, contents_single, contents_single, h3,
    List.append_assoc]

theorem fill_conserves (s : SOEPortHandler) (r : RxReader) (s1 : SOEPortHandler)
    (r1 : RxReader) (h : readerFill s r = some (s1, r1))
    (hs : StackOk s.rx_stack s.next_free_rxid) (hb : BufferOk r) :
    s1.port_open = s.port_open ∧ s1.next_free_rxid = s.next_free_rxid ∧
    StackOk s1.rx_stack s1.next_free_rxid ∧ BufferOk r1 ∧ PcOk s1 r1 ∧
    contents s1.rx_stack ++ pending r1 = contents s.rx_stack ++ pending r := by
  unfold readerFill at h
  cases hf : StdMap.find s.rx_stack s.next_free_rxid with
  | none => simp [hf] at h
  | some e =>
    simp only [hf] at h
    obtain ⟨front, hm, _⟩ := StdMap.split_last _ e _ hs.1 (fun p hp => (hs.2 p hp).1) hf
    have he : EntryOk e := (hs.2 (s.next_free_rxid, e) (by rw [hm]; simp)).2
    by_cases hpos : r.inBuffer > 0
    · simp only [hpos, if_true] at h
      by_cases hc : capacity e.length % UINT_MOD < r.inBuffer
      · simp only [hc, if_true, Option.some.injEq, Prod.mk.injEq] at h
        obtain ⟨rfl, rfl⟩ := h
        exact ⟨rfl, rfl, hs, hb, trivial, rfl⟩
      · simp only [hc, if_false] at h
        cases ha : appendData e r.receptionBuffer r.inBuffer with
        | none => simp [ha] at h
        | some e1 =>
          simp only [ha] at h
          obtain ⟨k1, k2, k3⟩ := append_conserves _ _ e e1 _ _ hs hf ha
          have hcap : capacity e1.length ≤ SERIAL_RX_ENTRY_LEN := by
            rw [capacity_eq _ k3]
            exact Nat.sub_le _ _
          by_cases hl : e1.length = SERIAL_RX_ENTRY_LEN
          · simp only [hl, if_true, Option.some.injEq, Prod.mk.injEq] at h
            obtain ⟨rfl, rfl⟩ := h
            refine ⟨rfl, rfl, k1, ⟨hb.1, Nat.zero_le _⟩, trivial, ?_⟩
            dsimp only [pending]
            rw [k2, List.take_zero, List.append_nil]
          · simp only [hl, if_false, Option.some.injEq, Prod.mk.injEq] at h
            obtain ⟨rfl, rfl⟩ := h
            refine ⟨rfl, rfl, k1, ⟨hb.1, Nat.zero_le _⟩, ⟨rfl, hcap, Or.inr rfl⟩, ?_⟩
            dsimp only [pending]
            rw [k2, List.take_zero, List.append_nil]
    · simp only [hpos, if_false] at h
      have hzero : r.inBuffer = 0 := by omega
      have hcap : capacity e.length ≤ SERIAL_RX_ENTRY_LEN := by
        rw [capacity_eq _ he.2]
        exact Nat.sub_le _ _
      by_cases hl : e.length = SERIAL_RX_ENTRY_LEN
      · simp only [hl, if_true, Option.some.injEq, Prod.mk.injEq] at h
        obtain ⟨rfl, rfl⟩ := h
        exact ⟨rfl, rfl, hs, hb, trivial, rfl⟩
      · simp only [hl, if_false, Option.some.injEq, Prod.mk.injEq] at h
        obtain ⟨rfl, rfl⟩ := h
        exact ⟨rfl, rfl, hs, hb, ⟨hzero, hcap, Or.inr rfl⟩, rfl⟩

/-- A fresh entry above all keys adds no byte to the contents of the stack. -/
theorem insert_conserves (m : List (Nat × rx_entry)) (free k now : Nat) (hs : StackOk m free)
    (hlt : ∀ p ∈ m, p.1 < k) :
    StackOk (StdMap.insert k (newEntry now) m) k ∧
    contents (StdMap.insert k (newEntry now) m) = contents m := by
  rw [StdMap.insert_last k _ m hlt]
  refine ⟨hs.append_new hlt (newEntry_ok now), ?_⟩
  rw [contents_append, contents_single]
  simp [newEntry]

theorem enter_conserves (now : Nat) (s : SOEPortHandler) (r : RxReader) (s1 : SOEPortHandler)
    (r1 : RxReader) (h : readerEnter now s r = some (s1, r1)) (hopen : s.port_open = true)
    (hlim : StdMap.size s.rx_stack < SERIAL_RX_STACK_LIMIT)
    (hfree : s.next_free_rxid + 1 < UINT_MOD)
    (hs : StackOk s.rx_stack s.next_free_rxid) (hb : BufferOk r) :
    s1.port_open = true ∧ s1.next_free_rxid ≤ s.next_free_rxid + 1 ∧
    StackOk s1.rx_stack s1.next_free_rxid ∧ BufferOk r1 ∧ PcOk s1 r1 ∧
    contents s1.rx_stack ++ pending r1 = contents s.rx_stack ++ pending r := by
  unfold readerEnter at h
  simp only [hopen, Bool.not_true, Bool.false_eq_true, if_false] at h
  cases hf : StdMap.find s.rx_stack s.next_free_rxid with
  | none =>
    simp only [hf] at h
    have hlt : ∀ p ∈ s.rx_stack, p.1 < s.next_free_rxid := by
      intro p hp
      have h1 := (hs.2 p hp).1
      have h2 := StdMap.ne_of_find_none _ _ hf p hp
      omega
    obtain ⟨k1, k2⟩ := insert_conserves _ _ s.next_free_rxid now hs hlt
    obtain ⟨a1, a2, a3, a4, a5, a6⟩ := fill_conserves _ _ _ _ h k1 hb
    refine ⟨a1, ?_, a3, a4, a5, ?_⟩
    · rw [a2]
      exact Nat.le_succ _
    · rw [a6]
      show contents (StdMap.insert _ _ _) ++ _ = _
      rw [k2]
  | some e =>
    simp only [hf] at h
    by_cases hfull : e.length ≥ SERIAL_RX_ENTRY_LEN ∨
        r.inBuffer > SERIAL_RX_ENTRY_LEN - e.length
    · simp only [hfull, if_true] at h
      have hnl : ¬ StdMap.size s.rx_stack ≥ SERIAL_RX_STACK_LIMIT := by omega
      simp only [hnl, if_false] at h
      unfold readerNewEntry at h
      have e1 : (s.next_free_rxid + 1) % UINT_MOD = s.next_free_rxid + 1 :=
        Nat.mod_eq_of_lt hfree
      rw [e1] at h
      have hlt : ∀ p ∈ s.rx_stack, p.1 < s.next_free_rxid + 1 := by
        intro p hp
        have h1 := (hs.2 p hp).1
        omega
      obtain ⟨k1, k2⟩ := insert_conserves _ _ (s.next_free_rxid + 1) now hs hlt
      obtain ⟨a1, a2, a3, a4, a5, a6⟩ := fill_conserves _ _ _ _ h k1 hb
      refine ⟨a1.trans hopen, ?_, a3, a4, a5, ?_⟩
      · rw [a2]
      · rw [a6]
        show contents (StdMap.insert _ _ _) ++ _ = _
        rw [k2]
    · simp only [hfull, if_false] at h
      obtain ⟨a1, a2, a3, a4, a5, a6⟩ := fill_conserves _ _ _ _ h hs hb
      exact ⟨a1.trans hopen, by rw [a2]; exact Nat.le_succ _, a3, a4, a5, a6⟩

end SOEPortHandler

namespace SOEPortHandler

theorem return_conserves (data : List Nat) (ret key requested : Nat) (s : SOEPortHandler)
    (r : RxReader) (s1 : SOEPortHandler) (r1 : RxReader)
    (h : readerReturn data ret key s r = some (s1, r1))
    (hret : ret = data.length) (hreq : ret ≤ requested)
    (hle : requested ≤ SERIAL_RX_ENTRY_LEN)
    (hkey : StdMap.find s.rx_stack s.next_free_rxid = none ∨ key = s.next_free_rxid)
    (hs : StackOk s.rx_stack s.next_free_rxid) (hb : BufferOk r) :
    s1.port_open = s.port_open ∧ s1.next_free_rxid = s.next_free_rxid ∧
    StackOk s1.rx_stack s1.next_free_rxid ∧ BufferOk r1 ∧ r1.pc = ReaderPc.top ∧
    contents s1.rx_stack ++ pending r1 = contents s.rx_stack ++ data := by
  have hL : SERIAL_RX_ENTRY_LEN = 1024 := rfl
  have hM : UINT_MOD = 4294967296 := rfl
  have hmod : ret % UINT_MOD = ret := Nat.mod_eq_of_lt (by omega)
  have hlen : (data ++ List.drop data.length r.receptionBuffer).length
      = SERIAL_RX_ENTRY_LEN := by
    rw [List.length_append, List.length_drop, hb.1]
    omega
  have htake : List.take ret (data ++ List.drop data.length r.receptionBuffer) = data :=
    List.take_left' hret.symm
  unfold readerReturn at h
  rw [hmod] at h
  by_cases hc : StdMap.count s.rx_stack s.next_free_rxid = true
  · simp only [hc, Bool.not_true, Bool.false_eq_true, if_false] at h
    have hk : key = s.next_free_rxid := by
      rcases hkey with hkey | hkey
      · rw [count_eq_isSome, hkey] at hc
        cases hc
      · exact hkey
    subst hk
    cases hf : StdMap.find s.rx_stack s.next_free_rxid with
    | none => simp [hf] at h
    | some e =>
      simp only [hf] at h
      by_cases hcap : ret > capacity e.length
      · simp only [hcap, if_true, Option.some.injEq, Prod.mk.injEq] at h
        obtain ⟨rfl, rfl⟩ := h
        refine ⟨rfl, rfl, hs, ⟨hlen, by show ret ≤ SERIAL_RX_ENTRY_LEN; omega⟩, rfl, ?_⟩
        dsimp only [pending]
        rw [htake]
      · simp only [hcap, if_false] at h
        cases ha : appendData e (data ++ List.drop data.length r.receptionBuffer) ret with
        | none => simp [ha] at h
        | some e1 =>
          simp only [ha, Option.some.injEq, Prod.mk.injEq] at h
          obtain ⟨rfl, rfl⟩ := h
          obtain ⟨k1, k2, _⟩ := append_conserves _ _ e e1 _ _ hs hf ha
          refine ⟨rfl, rfl, k1, ⟨hlen, Nat.zero_le _⟩, rfl, ?_⟩
          dsimp only [pending]
          rw [k2, htake, List.take_zero, List.append_nil]
  · simp only [hc, Bool.not_false, if_true, Option.some.injEq, Prod.mk.injEq] at h
    obtain ⟨rfl, rfl⟩ := h
    refine ⟨rfl, rfl, hs, ⟨hlen, by show ret ≤ SERIAL_RX_ENTRY_LEN; omega⟩, rfl, ?_⟩
    dsimp only [pending]
    rw [htake]

/-- A write to the bookkeeping members of one entry, with `next_free_rxid` kept or
raised, changes neither the bytes on the stack nor what the reader relies on. -/
theorem touch_conserves (m : List (Nat × rx_entry)) (free free1 j : Nat)
    (f : rx_entry → rx_entry) (r : RxReader) (s s1 : SOEPortHandler)
    (hf : ∀ e, (f e).payload = e.payload ∧ (f e).length = e.length)
    (hm : s.rx_stack = m) (hfree : s.next_free_rxid = free)
    (hm1 : s1.rx_stack = StdMap.update j f m) (hfree1 : s1.next_free_rxid = free1)
    (hle : free ≤ free1) (hs : StackOk m free) (hpc : PcOk s r) :
    StackOk s1.rx_stack s1.next_free_rxid ∧ PcOk s1 r ∧
      contents s1.rx_stack = contents s.rx_stack := by
  have hok : StackOk (StdMap.update j f m) free := hs.update_same j f (by
    intro e he
    exact ⟨by rw [(hf e).1]; exact he.1, by rw [(hf e).2]; exact he.2⟩)
  refine ⟨by rw [hm1, hfree1]; exact hok.mono hle, ?_,
    by rw [hm1, hm]; exact contents_update_same j f m hf⟩
  unfold PcOk at hpc ⊢
  cases hr : r.pc with
  | top => trivial
  | waitRoom => simp only [hr] at hpc
  | exited => simp only [hr] at hpc
  | reading key requested =>
    simp only [hr] at hpc ⊢
    obtain ⟨h1, h2, h3⟩ := hpc
    refine ⟨h1, h2, ?_⟩
    rw [hm1, hfree1]
    rw [hm, hfree] at h3
    by_cases heq : free1 = free
    · rw [heq]
      rcases h3 with h3 | h3
      · left
        rw [StdMap.find_update]
        by_cases hj : free = j
        · rw [if_pos hj, ← hj, h3]
          rfl
        · rw [if_neg hj]
          exact h3
      · exact Or.inr h3
    · left
      apply StdMap.find_none_of_lt
      intro p hp
      have := (hok.2 p hp).1
      omega

theorem setResend_same (now : Nat) (e : rx_entry) :
    (setResend now e).payload = e.payload ∧ (setResend now e).length = e.length := ⟨rfl, rfl⟩

theorem setConfirmed_same (e : rx_entry) :
    (setConfirmed e).payload = e.payload ∧ (setConfirmed e).length = e.length := ⟨rfl, rfl⟩

theorem driverBytes_append (a b : List RxAction) :
    driverBytes (a ++ b) = driverBytes a ++ driverBytes b := by
  induction a with
  | nil => rfl
  | cons x t ih =>
    cases x <;> simp [driverBytes, ih]

theorem ConservInv_step (past : List RxAction) (s : SOEPortHandler) (r : RxReader)
    (a : RxAction) (s1 : SOEPortHandler) (r1 : RxReader) (res : Option ReadResult)
    (hinv : ConservInv past s r) (hn : s.next_free_rxid + 1 < UINT_MOD)
    (hg : receiving s r a = true) (h : rxStep s r a = some (s1, r1, res)) :
    ConservInv (past ++ [a]) s1 r1 := by
  obtain ⟨hopen, hs, hb, hpc, hcons⟩ := hinv
  cases a with
  | readerEnter now =>
    simp only [receiving, decide_eq_true_eq] at hg
    simp only [rxStep] at h
    cases hr : r.pc <;> simp only [hr] at h <;> first | cases h | skip
    cases he : readerEnter now s r with
    | none => simp [he] at h
    | some p =>
      obtain ⟨p1, p2⟩ := p
      simp only [he, Option.map_some', Option.some.injEq, Prod.mk.injEq] at h
      obtain ⟨rfl, rfl, _⟩ := h
      obtain ⟨a1, _, a3, a4, a5, a6⟩ :=
        enter_conserves now s r _ _ he hopen hg hn hs hb
      refine ⟨a1, a3, a4, a5, ?_⟩
      rw [a6, hcons, driverBytes_append]
      simp [driverBytes]
  | readerWake now => simp [receiving] at hg
  | readerReturn data ret =>
    simp only [rxStep] at h
    cases hr : r.pc <;> simp only [hr] at h <;> first | cases h | skip
    rename_i key requested
    simp only [receiving, hr, decide_eq_true_eq] at hg
    unfold PcOk at hpc
    simp only [hr] at hpc
    obtain ⟨q1, q2, q3⟩ := hpc
    cases he : readerReturn data ret key s r with
    | none => simp [he] at h
    | some p =>
      obtain ⟨p1, p2⟩ := p
      simp only [he, Option.map_some', Option.some.injEq, Prod.mk.injEq] at h
      obtain ⟨rfl, rfl, _⟩ := h
      obtain ⟨a1, _, a3, a4, a5, a6⟩ :=
        return_conserves data ret key requested s r _ _ he hg.1 hg.2 q2 q3 hs hb
      refine ⟨a1.trans hopen, a3, a4, ?_, ?_⟩
      · unfold PcOk
        rw [a5]
        trivial
      · have hp : pending r = [] := by
          unfold pending
          rw [q1, List.take_zero]
        rw [hp, List.append_nil] at hcons
        rw [a6, hcons, driverBytes_append]
        simp [driverBytes]
  | read now =>
    simp only [rxStep, Option.some.injEq, Prod.mk.injEq] at h
    obtain ⟨rfl, rfl, _⟩ := h
    have hd : driverBytes (past ++ [RxAction.read now]) = driverBytes past := by
      rw [driverBytes_append]
      simp [driverBytes]
    rw [ConservInv, hd]
    rcases read_cases s now with hr | ⟨j, e, _, _, hr⟩ | ⟨e, _, _, _, _, hr⟩
    · rw [hr]
      exact ⟨hopen, hs, hb, hpc, hcons⟩
    · rw [hr]
      obtain ⟨k1, k2, k3⟩ := touch_conserves s.rx_stack s.next_free_rxid s.next_free_rxid j
        (setResend now) r s
        ⟨s.port_open, s.next_txid, s.tx_stack, s.next_free_rxid, s.next_transmit_rxid,
          s.last_transmitted_rxid, StdMap.update j (setResend now) s.rx_stack⟩
        (setResend_same now) rfl rfl rfl rfl (Nat.le_refl _) hs hpc
      exact ⟨hopen, k1, hb, k2, by rw [k3]; exact hcons⟩
    · rw [hr]
      have hfr : s.next_free_rxid ≤
          (if s.next_free_rxid < (s.next_transmit_rxid + 1) % UINT_MOD
           then (s.next_transmit_rxid + 1) % UINT_MOD else s.next_free_rxid) := by
        split <;> omega
      obtain ⟨k1, k2, k3⟩ := touch_conserves s.rx_stack s.next_free_rxid _
        s.next_transmit_rxid (setResend now) r s
        ⟨s.port_open, s.next_txid, s.tx_stack,
          if s.next_free_rxid < (s.next_transmit_rxid + 1) % UINT_MOD
          then (s.next_transmit_rxid + 1) % UINT_MOD else s.next_free_rxid,
          (s.next_transmit_rxid + 1) % UINT_MOD, s.last_transmitted_rxid,
          StdMap.update s.next_transmit_rxid (setResend now) s.rx_stack⟩
        (setResend_same now) rfl rfl rfl rfl hfr hs hpc
      exact ⟨hopen, k1, hb, k2, by rw [k3]; exact hcons⟩
  | confirmReception rxid =>
    simp only [rxStep, Option.some.injEq, Prod.mk.injEq] at h
    obtain ⟨rfl, rfl, _⟩ := h
    have hd : driverBytes (past ++ [RxAction.confirmReception rxid]) = driverBytes past := by
      rw [driverBytes_append]
      simp [driverBytes]
    rw [ConservInv, hd]
    rcases confirmReception_cases s rxid with hr | hr
    · rw [hr]
      exact ⟨hopen, hs, hb, hpc, hcons⟩
    · rw [hr]
      obtain ⟨k1, k2, k3⟩ := touch_conserves s.rx_stack s.next_free_rxid s.next_free_rxid rxid
        setConfirmed r s
        ⟨s.port_open, s.next_txid, s.tx_stack, s.next_free_rxid, s.next_transmit_rxid,
          s.last_transmitted_rxid, StdMap.update rxid setConfirmed s.rx_stack⟩
        setConfirmed_same rfl rfl rfl rfl (Nat.le_refl _) hs hpc
      exact ⟨hopen, k1, hb, k2, by rw [k3]; exact hcons⟩
  | confirmTransmission rxid => simp [receiving] at hg

end SOEPortHandler

namespace SOEPortHandler

theorem ConservInv_init : ConservInv [] init readerInit := by
  refine ⟨rfl, ⟨List.Pairwise.nil, fun p hp => by cases hp⟩, ⟨by simp [readerInit], ?_⟩,
    ?_, rfl⟩
  · exact Nat.zero_le _
  · unfold PcOk
    simp [readerInit]

/-- C20: in every execution from the initial state of an open port that consists of
reader iterations entered with fewer than `SERIAL_RX_STACK_LIMIT` entries on the
stack, in which `readBytesConsecutive` returns the number of bytes it stored, at
most the number requested, with calls of `read` and `confirmReception` at any point
in between, and that has fewer than `2^32 - 1` steps: the RX stack lists its
entries by strictly ascending rxid, and the first `length` bytes of the payloads in
that order, followed by the bytes pending in the scratch buffer, are exactly the
bytes the driver returned, in order. -/
theorem serial_bytes_conserved (acts : List RxAction) (s : SOEPortHandler) (r : RxReader)
    (log : List ReadResult)
    (hrun : rxRun receiving acts init readerInit [] = some (s, r, log))
    (hlen : acts.length < 2 ^ 32 - 1) :
    (StdMap.keys s.rx_stack).Pairwise (fun a b => a < b) ∧
    contents s.rx_stack ++ pending r = driverBytes acts := by
  have hM : UINT_MOD = 4294967296 := rfl
  have h := rxRun_invariant receiving
    (fun past s r _ => ConservInv past s r ∧
      (s.next_transmit_rxid ≤ s.next_free_rxid ∧ s.next_free_rxid ≤ past.length))
    (2 ^ 32 - 2)
    (fun past s r log a s1 r1 res hinv hb hg hs => by
      refine ⟨ConservInv_step past s r a s1 r1 res hinv.1 (by omega) hg hs, ?_⟩
      simp only [List.length_append, List.length_singleton]
      exact free_bound_step s r a s1 r1 res _ hinv.2 (by omega) hs)
    acts [] init readerInit [] s r log
    ⟨ConservInv_init, Nat.le_refl _, Nat.le_refl _⟩
    (by simp only [List.length_nil]; omega) hrun
  rw [List.nil_append] at h
  exact ⟨h.1.2.1.1, h.1.2.2.2.2⟩

/-- C20 on an execution in which `read` transmits the accumulating entry 0 while the
reader waits in `readBytesConsecutive`: the bytes 1, 2 stay in entry 0 and the
bytes 3, 4 the driver returns afterwards go to entry 1. -/
theorem serial_bytes_conserved_witness :
    rxRun receiving interleaved init readerInit []
      = some (stateInterleaved, readerInterleaved,
          [⟨0, 1 :: 2 :: List.replicate 1022 0, 2⟩]) ∧
    driverBytes interleaved = [1, 2, 3, 4] ∧
    (StdMap.keys stateInterleaved.rx_stack).Pairwise (fun a b => a < b) ∧
    contents stateInterleaved.rx_stack ++ pending readerInterleaved
      = driverBytes interleaved :=
  ⟨by decide, by decide,
   serial_bytes_conserved interleaved stateInterleaved readerInterleaved
     [⟨0, 1 :: 2 :: List.replicate 1022 0, 2⟩] (by decide) (by decide)⟩

end SOEPortHandler

/-! ### The opcode switch -/

namespace SOEPortHandler

/-- C21 (defect in the code): the writer holds the entry `01 02 03` at txid 0 of an
open port and the first `writeBytes` call returns `(unsigned long)(-1)`, the value
the Linux driver returns for a failed write. The drain loop adds it to
`transmitted`, which becomes `2^64 - 1`, and ends: `tx_confirm(0)` is called and the
entry erased although the device received nothing. When the failure follows a
write of two bytes, `transmitted` goes back to 1 and byte `02` is written twice. -/
theorem tx_confirm_after_failed_write :
    handlePortTX_iter ⟨true, 0, [(0, ⟨3, [1, 2, 3]⟩)], 0, 0, 0, []⟩ [fun _ => ULONG_MOD - 1]
      = some (⟨true, 1, [], 0, 0, 0, []⟩, some ⟨0, ⟨3, [1, 2, 3]⟩, []⟩) ∧
    handlePortTX_iter ⟨true, 0, [(0, ⟨3, [1, 2, 3]⟩)], 0, 0, 0, []⟩
        [fun _ => 2, fun _ => ULONG_MOD - 1, fun n => n]
      = some (⟨true, 1, [], 0, 0, 0, []⟩, some ⟨0, ⟨3, [1, 2, 3]⟩, [1, 2, 2, 3]⟩) := by
  decide

end SOEPortHandler

namespace SOEClient

/-- C22 (defect in the code): the STREAM frames `A, txid 0, "HI"` and `A, txid 0,
empty` for the claimed, open port `A` put their payload on the TX stack of the
handler, and the switch sends nothing: no RX_CONFIRM. When `send` returns false (TX
stack full, txid 200 out of order) the switch sends one ERROR frame and no
RX_CONFIRM. -/
theorem stream_sends_no_rx_confirm :
    dispatch noPort clientA OPC_STREAM [0, 1, 65, 0, 0, 0, 0, 72, 73] 9 9
      = .ok ⟨⟨true, [], []⟩, [([65], ⟨true, 0, [(0, ⟨2, [72, 73]⟩)], 0, 0, 0, []⟩)]⟩ ∧
    dispatch noPort clientA OPC_STREAM [0, 1, 65, 0, 0, 0, 0] 7 7
      = .ok ⟨⟨true, [], []⟩, [([65], ⟨true, 0, [(0, ⟨0, []⟩)], 0, 0, 0, []⟩)]⟩ ∧
    (SOEPortHandler.send handlerFull 200 [72, 73] 2).1 = false ∧
    (dispatch noPort clientFull OPC_STREAM [0, 1, 65, 0, 0, 0, 200, 72, 73] 9 9).map
        (fun c => (c.socket.sent.map (fun f => (f.opc, f.payload)), c.ports))
      = .ok ([(OPC_ERROR, be16 1 ++ [65] ++ be16 25 ++ literal "invalid transmission data")],
             clientFull.ports) := by
  decide

/-- C23 (defect in the code): the switch has no case for `OPC_ERROR`. An ERROR frame,
with a name and a message or with an empty payload, falls to the `default` case and
is answered with an ERROR frame; the port registry and its handlers stay as they
were. -/
theorem error_frame_is_answered :
    dispatch noPort clientA OPC_ERROR [0, 1, 65, 0, 2, 72, 73] 7 7
      = .ok ⟨⟨true, [], [invalidFrameError]⟩, clientA.ports⟩ ∧
    dispatch noPort clientA OPC_ERROR [] 0 0
      = .ok ⟨⟨true, [], [invalidFrameError]⟩, clientA.ports⟩ ∧
    sendFrame true OPC_ERROR invalidFrameError.payload invalidFrameError.payload.length
      = some invalidFrameError.bytes := by
  decide

/-- C24 (defect in the code): the switch has no case for `OPC_TX_CONFIRM` either. The
frame TX_CONFIRM(`A`, 0) for the claimed port `A`, whose handler waits for the
TX_CONFIRM of the rxids 0, 1 and 2, falls to the `default` case: the handler is unchanged (`confirmTransmission` is not called, the
RX stack keeps the keys 0, 1, 2) and an ERROR frame is sent. -/
theorem tx_confirm_frame_not_routed :
    dispatch noPort clientSent OPC_TX_CONFIRM [0, 1, 65, 0, 0, 0, 0] 7 7
      = .ok ⟨⟨true, [], [invalidFrameError]⟩, clientSent.ports⟩ ∧
    (portsAt clientSent.ports [65]).map (fun h => StdMap.keys h.rx_stack) = some [0, 1, 2] ∧
    StdMap.keys (SOEPortHandler.confirmTransmission SOEPortHandler.stateThreeSent 0).rx_stack
      = [1, 2] := by
  decide

/-- C30 (defect in the code): the length checks compare `portStrLen` with `pckg_recv`
alone, without the 2 or 6 bytes of the fixed fields. The STREAM payload `00 05 41 42
43 44` (name length 5, four bytes behind it) passes both checks and the name is
copied from 5 bytes at offset 2 of a 6-byte payload; the STREAM payload `00 01 41 00
00 00` for the claimed port `A` passes and the id is read at the offsets 3 to 6,
while the data length `6 - 6 - 1` wraps to `2^32 - 1`; the same holds for the
RX_CONFIRM, CLOSE and OPEN payloads below. None is answered with ERROR. -/
theorem name_length_check_misses_fixed_fields :
    dispatch noPort clientA OPC_STREAM [0, 5, 65, 66, 67, 68] 6 6
      = .error (.outOfBounds 2 5) ∧
    dispatch noPort clientA OPC_STREAM [0, 1, 65, 0, 0, 0] 6 6
      = .error (.outOfBounds 6 1) ∧
    sub32 (sub32 6 6) 1 = 2 ^ 32 - 1 ∧
    dispatch noPort clientA OPC_RX_CONFIRM [0, 1, 65, 0, 0, 0] 6 6
      = .error (.outOfBounds 6 1) ∧
    dispatch noPort clientA OPC_CLOSE [0, 2, 65] 3 3
      = .error (.outOfBounds 2 2) ∧
    dispatch noPort clientA OPC_OPEN [0, 0, 37, 128, 0, 3, 65] 7 7
      = .error (.outOfBounds 6 3) := by
  decide

end SOEClient

/-! ### Frames that arrive together -/

namespace SOEClient

theorem startPayload_front (s : RxState) (hdr payload tl : List Nat) (opc k : Nat)
    (hhdr : hdr.length = if payload.length > 30 then 5 else 1)
    (hrx : s.rxbuf = hdr ++ (payload ++ tl))
    (hrecv : s.received = hdr.length + payload.length + k) (hk : k ≤ tl.length)
    (hlen : hdr.length + payload.length + k < 2 ^ 32) :
    startPayload s opc payload.length =
      .ok { op_code := (opc : Int), pckg_buf := payload, pckg_len := payload.length,
            pckg_recv := payload.length,
            rxbuf := if k > 0 then tl.take k ++ s.rxbuf.drop k else s.rxbuf,
            received := k } := by
  have hM : UINT_MOD = 4294967296 := rfl
  have e1 : sub32 (hdr.length + payload.length + k) hdr.length = payload.length + k := by
    unfold sub32
    rw [hM]
    omega
  have e2 : sub32 (sub32 (hdr.length + payload.length + k) payload.length) hdr.length = k := by
    unfold sub32
    rw [hM]
    omega
  have hgt : ¬ payload.length > payload.length + k := by omega
  have m1 : memcpy (List.replicate payload.length 0) 0 (hdr ++ (payload ++ tl)) hdr.length
      payload.length = some payload := by
    unfold memcpy
    rw [if_pos (by simp)]
    simp
  have m2 : memcpy (hdr ++ (payload ++ tl)) 0 (hdr ++ (payload ++ tl))
      (payload.length + hdr.length) k
      = some (tl.take k ++ (hdr ++ (payload ++ tl)).drop k) := by
    unfold memcpy
    rw [if_pos (by simp; omega)]
    have : List.drop (payload.length + hdr.length) (hdr ++ (payload ++ tl)) = tl := by
      rw [Nat.add_comm, ← List.drop_drop]
      simp
    rw [this]
    simp
  unfold startPayload
  simp only [← hhdr, hrecv, e1, e2, hgt, if_false, hrx, m1, m2]
  by_cases hk0 : k > 0
  · simp only [hk0, if_true]
  · simp only [hk0, if_false]

end SOEClient

namespace SOEClient

/-- A frame whose header byte `h` and payload are canonically encoded stands at the
front of the receive buffer, followed by `k` more received bytes: the iteration
hands the frame to the switch, without calling `receive`, and moves the `k` bytes to
the front. -/
theorem iter_front (B : Nat) (s : RxState) (h : Nat) (hdr payload tl : List Nat) (k : Nat)
    (recv : Option (List Nat)) (hh : h < 256)
    (hcase : (h / 8 = payload.length ∧ payload.length ≤ 30 ∧ hdr = [h]) ∨
      (h / 8 = 31 ∧ 31 ≤ payload.length ∧ hdr = h :: be32 payload.length))
    (hop : s.op_code = -1) (hrx : s.rxbuf = hdr ++ (payload ++ tl))
    (hrecv : s.received = hdr.length + payload.length + k) (hk : k ≤ tl.length)
    (hlen : hdr.length + payload.length + k < 2 ^ 32) :
    handleClientRX_iter B true recv s =
      .running ⟨-1, [], 0, 0, if k > 0 then tl.take k ++ s.rxbuf.drop k else s.rxbuf, k⟩
        (some (h &&& 0x7, payload)) := by
  have hpos : hdr.length ≥ 1 := by
    rcases hcase with ⟨_, _, rfl⟩ | ⟨_, _, rfl⟩ <;> simp
  have hne : ¬ s.received = 0 := by omega
  have hhdr : hdr.length = if payload.length > 30 then 5 else 1 := by
    rcases hcase with ⟨_, h30, rfl⟩ | ⟨_, h31, rfl⟩
    · rw [if_neg (by omega)]; rfl
    · rw [if_pos (by omega)]; simp [be32]
  have hdec : decodeHeader s.rxbuf s.received = some (h &&& 0x7, payload.length) := by
    rcases hcase with ⟨hl, h30, rfl⟩ | ⟨hl, h31, rfl⟩
    · have h31 : h / 8 ≠ 31 := by omega
      have := decodeHeader_short h (payload ++ tl) (payload.length + k) hh h31
      rw [hrx, hrecv, ← hl]
      simpa [Nat.add_comm, Nat.add_left_comm, hl] using this
    · have := decodeHeader_long h payload.length (payload ++ tl) (payload.length + k) hh hl
        (by simp [be32] at hlen; omega)
      rw [hrx, hrecv]
      simpa [be32, Nat.add_comm, Nat.add_left_comm] using this
  have hsp := startPayload_front s hdr payload tl (h &&& 0x7) k hhdr hrx hrecv hk hlen
  simp only [handleClientRX_iter, Bool.not_true, Bool.false_eq_true, if_false, hne, hop,
    if_true, startFrame, hdec, hsp, ge_iff_le, Nat.le_refl]
  simp

end SOEClient

namespace SOEClient

theorem sendFrame_canonical (op : Nat) (p b : List Nat) (hop : op < 8)
    (hb : sendFrame true op p p.length = some b) :
    ∃ h hdr, h < 256 ∧ h &&& 0x7 = op ∧
      ((h / 8 = p.length ∧ p.length ≤ 30 ∧ hdr = [h]) ∨
       (h / 8 = 31 ∧ 31 ≤ p.length ∧ hdr = h :: be32 p.length)) ∧
      b = hdr ++ p := by
  have hfs : frameStart op p.length = 8 * min p.length 31 + op := by
    rw [frameStart_eq, or_shift3_eq, Nat.mod_eq_of_lt hop]
  have hmin : min p.length 31 ≤ 31 := Nat.min_le_right _ _
  have hand : frameStart op p.length &&& 0x7 = op := by
    rw [Nat.and_pow_two_sub_one_eq_mod _ 3, hfs]
    omega
  simp only [sendFrame, Bool.not_true, Bool.false_eq_true, if_false] at hb
  by_cases h30 : p.length ≤ 30
  · rw [frameBuffer_short _ _ h30] at hb
    cases hb
    refine ⟨frameStart op p.length, [frameStart op p.length], by rw [hfs]; omega, hand,
      Or.inl ⟨?_, h30, rfl⟩, rfl⟩
    rw [hfs, Nat.min_eq_left (by omega)]
    omega
  · rw [frameBuffer_long _ _ (by omega)] at hb
    cases hb
    refine ⟨frameStart op p.length, frameStart op p.length :: be32 p.length,
      by rw [hfs]; omega, hand, Or.inr ⟨?_, by omega, rfl⟩, by simp⟩
    rw [hfs, Nat.min_eq_right (by omega)]
    omega

theorem iter_receive (B : Nat) (chunk rxbuf : List Nat) (hfit : chunk.length ≤ B)
    (hne : chunk.length ≠ 0) :
    handleClientRX_iter B true (some chunk) (rxInit rxbuf) =
      handleClientRX_iter B true none
        ⟨-1, [], 0, 0, chunk ++ rxbuf.drop chunk.length, chunk.length⟩ := by
  simp [handleClientRX_iter, rxInit, receive, List.take_of_length_le hfit,
    Nat.min_eq_right hfit, hne]

/-- C29: two frames that `sendFrame` built arrive in one receive and fit the receive
buffer. The first iteration hands the first frame with its opcode and payload to the
switch and leaves the bytes of the second frame at the front of the buffer as the
bytes still to be processed; the next iteration hands the second frame with its
opcode and payload to the switch whatever `receive` would deliver, since it is not
called; nothing is left over. -/
theorem frames_in_one_receive (B : Nat) (rxbuf b1 b2 p1 p2 : List Nat) (op1 op2 : Nat)
    (hop1 : op1 < 8) (hop2 : op2 < 8)
    (hb1 : sendFrame true op1 p1 p1.length = some b1)
    (hb2 : sendFrame true op2 p2 p2.length = some b2)
    (hfit : b1.length + b2.length ≤ B) (hB : B < 2 ^ 32) :
    ∃ s1 s2,
      handleClientRX_iter B true (some (b1 ++ b2)) (rxInit rxbuf)
        = .running s1 (some (op1, p1)) ∧
      s1.op_code = -1 ∧ s1.received = b2.length ∧ s1.rxbuf.take b2.length = b2 ∧
      (∀ recv, handleClientRX_iter B true recv s1 = .running s2 (some (op2, p2))) ∧
      s2.op_code = -1 ∧ s2.received = 0 ∧
      handleClientRX_loop B 2 [b1 ++ b2] (rxInit rxbuf) = ([(op1, p1), (op2, p2)], none) := by
  obtain ⟨h1, hdr1, hh1, ha1, hc1, rfl⟩ := sendFrame_canonical op1 p1 b1 hop1 hb1
  obtain ⟨h2, hdr2, hh2, ha2, hc2, rfl⟩ := sendFrame_canonical op2 p2 b2 hop2 hb2
  have hpos2 : (hdr2 ++ p2).length > 0 := by
    rcases hc2 with ⟨_, _, rfl⟩ | ⟨_, _, rfl⟩ <;> simp
  simp only [List.length_append] at hfit hpos2
  have hl : (hdr1 ++ p1 ++ (hdr2 ++ p2)).length ≤ B := by
    simp only [List.length_append]
    omega
  -- the first iteration
  have it1 := iter_front B
    ⟨-1, [], 0, 0, (hdr1 ++ p1 ++ (hdr2 ++ p2))
      ++ rxbuf.drop (hdr1 ++ p1 ++ (hdr2 ++ p2)).length, (hdr1 ++ p1 ++ (hdr2 ++ p2)).length⟩
    h1 hdr1 p1 ((hdr2 ++ p2) ++ rxbuf.drop (hdr1 ++ p1 ++ (hdr2 ++ p2)).length)
    (hdr2 ++ p2).length none hh1 hc1 rfl (by simp)
    (by simp only [List.length_append]) (by simp)
    (by simp only [List.length_append]; omega)
  have hk : (hdr2 ++ p2).length > 0 := by
    simp only [List.length_append]
    omega
  rw [if_pos hk, ha1] at it1
  have hfirst : handleClientRX_iter B true (some (hdr1 ++ p1 ++ (hdr2 ++ p2))) (rxInit rxbuf)
      = _ := (iter_receive B _ rxbuf hl (by simp only [List.length_append]; omega)).trans it1
  -- the second iteration
  have htake : List.take (hdr2 ++ p2).length
      (hdr2 ++ p2 ++ rxbuf.drop (hdr1 ++ p1 ++ (hdr2 ++ p2)).length) = hdr2 ++ p2 :=
    List.take_left' rfl
  have it2 : ∀ recv, _ := fun recv => iter_front B
    ⟨-1, [], 0, 0,
      List.take (hdr2 ++ p2).length
          (hdr2 ++ p2 ++ rxbuf.drop (hdr1 ++ p1 ++ (hdr2 ++ p2)).length) ++
        List.drop (hdr2 ++ p2).length
          ((hdr1 ++ p1 ++ (hdr2 ++ p2)) ++ rxbuf.drop (hdr1 ++ p1 ++ (hdr2 ++ p2)).length),
      (hdr2 ++ p2).length⟩
    h2 hdr2 p2 (List.drop (hdr2 ++ p2).length
          ((hdr1 ++ p1 ++ (hdr2 ++ p2)) ++ rxbuf.drop (hdr1 ++ p1 ++ (hdr2 ++ p2)).length))
    0 recv hh2 hc2 rfl (by rw [htake]; simp) (by simp only [List.length_append]; omega)
    (Nat.zero_le _) (by omega)
  simp only [gt_iff_lt, Nat.lt_irrefl, if_false, ha2] at it2
  refine ⟨_, _, hfirst, rfl, rfl, by rw [htake]; exact List.take_left' rfl, it2, rfl, rfl, ?_⟩
  have hloop0 : ∀ (chunks : List (List Nat)) (s : RxState),
      handleClientRX_loop B 0 chunks s = ([], none) := fun _ _ => rfl
  have hne2 : ¬ (hdr2 ++ p2).length = 0 := by
    simp only [List.length_append]
    omega
  rw [handleClientRX_loop]
  simp only [rxInit, List.cons_ne_nil, and_false, if_false, if_true, List.head?_cons,
    List.tail_cons]
  have hfirst1 := hfirst
  simp only [rxInit] at hfirst1
  rw [hfirst1]
  simp only [Option.toList]
  rw [handleClientRX_loop]
  simp only [hne2, false_and, if_false, it2 none, hloop0, Option.toList, List.append_nil]
  rfl

end SOEClient

/-! ### Frames the switch answers with -/

namespace SOEClient

theorem sendError_open (sock : Socket) (port : Option (List Nat)) (msg : List Nat)
    (f : SentFrame) (hopen : sock.is_open = true) (hf : errorFrame port msg = some f) :
    sendError sock port msg = .ok ⟨true, sock.results.tail, sock.sent ++ [f]⟩ := by
  unfold errorFrame at hf
  unfold sendError
  rw [hopen]
  cases hp : errorPayload port msg with
  | error e => rw [hp] at hf; cases hf
  | ok p =>
    obtain ⟨buffer, payloadLen⟩ := p
    rw [hp] at hf
    simp only at hf
    cases hb : frameBuffer OPC_ERROR buffer payloadLen with
    | none => rw [hb] at hf; cases hf
    | some bytes =>
      rw [hb] at hf
      simp only [Option.map_some', Option.some.injEq] at hf
      subst hf
      simp [transmitFrame, hopen, hb]

theorem sendClaimStatus_open (sock : Socket) (claimed : Bool) (portName : List Nat)
    (f : SentFrame) (hopen : sock.is_open = true) (hf : claimFrame claimed portName = some f) :
    sendClaimStatus sock claimed portName
      = .ok (sock.results.headD true, ⟨true, sock.results.tail, sock.sent ++ [f]⟩) := by
  unfold claimFrame at hf
  unfold sendClaimStatus
  rw [hopen]
  cases hp : claimPayload portName with
  | error e => rw [hp] at hf; cases hf
  | ok p =>
    obtain ⟨buffer, payloadLen⟩ := p
    rw [hp] at hf
    simp only at hf
    cases hb : frameBuffer (if claimed then OPC_OPENED else OPC_CLOSED) buffer payloadLen with
    | none => rw [hb] at hf; cases hf
    | some bytes =>
      rw [hb] at hf
      simp only [Option.map_some', Option.some.injEq] at hf
      subst hf
      simp [transmitFrame, hopen, hb]

theorem field_write (pre data : List Nat) (a b r off : Nat) (hoff : off = pre.length) :
    memcpy (((pre ++ List.replicate (2 + data.length + r) 0).set (0 + off) a).set (1 + off) b)
        (2 + off) data 0 data.length
      = some (pre ++ (a :: b :: data) ++ List.replicate r 0) := by
  subst hoff
  have e : List.replicate (2 + data.length + r) 0
      = (0 : Nat) :: 0 :: List.replicate (data.length + r) 0 := by
    rw [show 2 + data.length + r = (data.length + r) + 1 + 1 by omega]
    rfl
  rw [e]
  have s1 : (pre ++ (0 : Nat) :: 0 :: List.replicate (data.length + r) 0).set (0 + pre.length) a
      = pre ++ a :: 0 :: List.replicate (data.length + r) 0 := by
    simp [List.set_append]
  rw [s1]
  have s2 : (pre ++ a :: 0 :: List.replicate (data.length + r) 0).set (1 + pre.length) b
      = pre ++ a :: b :: List.replicate (data.length + r) 0 := by
    simp [List.set_append, Nat.add_comm 1]
  rw [s2]
  unfold memcpy
  rw [if_pos (by simp; omega)]
  have t : List.take (2 + pre.length) (pre ++ a :: b :: List.replicate (data.length + r) 0)
      = pre ++ [a, b] := by
    rw [Nat.add_comm, List.take_append]
    rfl
  have d : List.drop (2 + pre.length + data.length)
      (pre ++ a :: b :: List.replicate (data.length + r) 0) = List.replicate r 0 := by
    rw [show 2 + pre.length + data.length = pre.length + (data.length + 2) by omega,
      List.drop_append]
    simp
  rw [t, d]
  simp

theorem be16_bytes (n : Nat) :
    [(n >>> 8) &&& 0xFF, (n >>> 0) &&& 0xFF] = be16 n := by
  simp [be16, and_ff_eq, Nat.shiftRight_eq_div_pow]

end SOEClient

namespace SOEClient

theorem errorPayload_none (msg : List Nat) (h1 : 0 < msg.length) (h2 : msg.length ≤ 0xFFFF) :
    errorPayload none msg = .ok (be16 msg.length ++ msg, 2 + msg.length) := by
  have hM : UINT_MOD = 4294967296 := rfl
  have hm : msg.length % UINT_MOD = msg.length := Nat.mod_eq_of_lt (by omega)
  have hc : ¬ msg.length > 0xFFFF := by omega
  have fw := field_write [] msg ((msg.length >>> 8) &&& 0xFF) ((msg.length >>> 0) &&& 0xFF) 0 0 rfl
  simp only [List.nil_append, Nat.add_zero, List.replicate_zero, List.append_nil] at fw
  have hc1 : ¬ 65535 < msg.length := by omega
  unfold errorPayload
  simp only [hm, hc1, if_false, gt_iff_lt, Nat.lt_irrefl, Nat.not_lt_zero, h1, if_true,
    Nat.zero_add, Nat.add_zero, fw]
  rw [← be16_bytes]
  rfl

theorem errorPayload_named (name msg : List Nat) (hn1 : 0 < name.length)
    (hn2 : name.length ≤ 0xFFFF) (h1 : 0 < msg.length) (h2 : msg.length ≤ 0xFFFF) :
    errorPayload (some name) msg
      = .ok (be16 name.length ++ name ++ (be16 msg.length ++ msg),
             2 + name.length + (2 + msg.length)) := by
  have hM : UINT_MOD = 4294967296 := rfl
  have hm : msg.length % UINT_MOD = msg.length := Nat.mod_eq_of_lt (by omega)
  have hn : name.length % UINT_MOD = name.length := Nat.mod_eq_of_lt (by omega)
  have hc : ¬ msg.length > 0xFFFF := by omega
  have hcn : ¬ name.length > 0xFFFF := by omega
  have fw1 := field_write [] name ((name.length >>> 8) &&& 0xFF) ((name.length >>> 0) &&& 0xFF)
    (2 + msg.length) 0 rfl
  simp only [List.nil_append, Nat.add_zero] at fw1
  have fw2 := field_write
    (((name.length >>> 8) &&& 0xFF) :: ((name.length >>> 0) &&& 0xFF) :: name) msg
    ((msg.length >>> 8) &&& 0xFF) ((msg.length >>> 0) &&& 0xFF) 0 (name.length + 2)
    (by simp)
  simp only [Nat.add_zero, List.replicate_zero, List.append_nil] at fw2
  have hc1 : ¬ 65535 < msg.length := by omega
  have hcn1 : ¬ 65535 < name.length := by omega
  unfold errorPayload
  simp only [hm, hn, hc1, hcn1, if_false, gt_iff_lt, h1, hn1, if_true,
    Option.getD_some, fw1, fw2]
  rw [← be16_bytes, ← be16_bytes]
  simp only [List.cons_append, List.nil_append, List.append_assoc]

theorem claimPayload_layout (name : List Nat) (hn2 : name.length ≤ 0xFFFF) :
    claimPayload name = .ok (be16 name.length ++ name, 2 + name.length) := by
  have hM : UINT_MOD = 4294967296 := rfl
  have hn : name.length % UINT_MOD = name.length := Nat.mod_eq_of_lt (by omega)
  have hcn : ¬ name.length > 0xFFFF := by omega
  have fw1 := field_write [] name ((name.length >>> 8) &&& 0xFF) ((name.length >>> 0) &&& 0xFF)
    0 0 rfl
  simp only [List.nil_append, Nat.add_zero, List.replicate_zero, List.append_nil] at fw1
  have hcn1 : ¬ 65535 < name.length := by omega
  unfold claimPayload
  simp only [hn, hcn1, gt_iff_lt, if_false, fw1]
  rw [← be16_bytes]
  rfl

end SOEClient

namespace SOEClient

theorem frame_of_payload (opc : Nat) (payload : List Nat) (len : Nat)
    (hlen : len = payload.length) :
    ∃ bytes, frameBuffer opc payload len = some bytes ∧
      sendFrame true opc payload payload.length = some bytes := by
  subst hlen
  simp only [sendFrame, Bool.not_true, Bool.false_eq_true, if_false]
  by_cases h30 : payload.length ≤ 30
  · exact ⟨_, frameBuffer_short _ _ h30, frameBuffer_short _ _ h30⟩
  · exact ⟨_, frameBuffer_long _ _ (by omega), frameBuffer_long _ _ (by omega)⟩

theorem errorFrame_none (msg : List Nat) (h1 : 0 < msg.length) (h2 : msg.length ≤ 0xFFFF) :
    ∃ bytes, errorFrame none msg = some ⟨OPC_ERROR, be16 msg.length ++ msg, bytes⟩ ∧
      sendFrame true OPC_ERROR (be16 msg.length ++ msg) (be16 msg.length ++ msg).length
        = some bytes := by
  obtain ⟨bytes, hb1, hb2⟩ := frame_of_payload OPC_ERROR (be16 msg.length ++ msg)
    (2 + msg.length) (by simp [be16]; omega)
  refine ⟨bytes, ?_, hb2⟩
  unfold errorFrame
  rw [errorPayload_none msg h1 h2]
  simp only [hb1, Option.map_some', Option.some.injEq, SentFrame.mk.injEq, true_and, and_true]
  exact List.take_of_length_le (by simp [be16]; omega)

theorem errorFrame_named (name msg : List Nat) (hn1 : 0 < name.length)
    (hn2 : name.length ≤ 0xFFFF) (h1 : 0 < msg.length) (h2 : msg.length ≤ 0xFFFF) :
    ∃ bytes, errorFrame (some name) msg
        = some ⟨OPC_ERROR, be16 name.length ++ name ++ (be16 msg.length ++ msg), bytes⟩ ∧
      sendFrame true OPC_ERROR (be16 name.length ++ name ++ (be16 msg.length ++ msg))
        (be16 name.length ++ name ++ (be16 msg.length ++ msg)).length = some bytes := by
  obtain ⟨bytes, hb1, hb2⟩ := frame_of_payload OPC_ERROR
    (be16 name.length ++ name ++ (be16 msg.length ++ msg))
    (2 + name.length + (2 + msg.length)) (by simp [be16]; omega)
  refine ⟨bytes, ?_, hb2⟩
  unfold errorFrame
  rw [errorPayload_named name msg hn1 hn2 h1 h2]
  simp only [hb1, Option.map_some', Option.some.injEq, SentFrame.mk.injEq, true_and, and_true]
  exact List.take_of_length_le (by simp [be16]; omega)

theorem claimFrame_layout (claimed : Bool) (name : List Nat) (hn2 : name.length ≤ 0xFFFF) :
    ∃ bytes, claimFrame claimed name
        = some ⟨if claimed then OPC_OPENED else OPC_CLOSED, be16 name.length ++ name, bytes⟩ ∧
      sendFrame true (if claimed then OPC_OPENED else OPC_CLOSED) (be16 name.length ++ name)
        (be16 name.length ++ name).length = some bytes := by
  obtain ⟨bytes, hb1, hb2⟩ := frame_of_payload (if claimed then OPC_OPENED else OPC_CLOSED)
    (be16 name.length ++ name) (2 + name.length) (by simp [be16]; omega)
  refine ⟨bytes, ?_, hb2⟩
  unfold claimFrame
  rw [claimPayload_layout name hn2]
  simp only [hb1, Option.map_some', Option.some.injEq, SentFrame.mk.injEq, true_and, and_true]
  exact List.take_of_length_le (by simp [be16]; omega)

theorem iter_single (B : Nat) (rxbuf b p : List Nat) (op : Nat) (hop : op < 8)
    (hb : sendFrame true op p p.length = some b) (hfit : b.length ≤ B) (hB : B < 2 ^ 32) :
    handleClientRX_iter B true (some b) (rxInit rxbuf)
      = .running (rxInit (b ++ rxbuf.drop b.length)) (some (op, p)) := by
  obtain ⟨h, hdr, hh, ha, hc, rfl⟩ := sendFrame_canonical op p b hop hb
  have hpos : (hdr ++ p).length ≠ 0 := by
    rcases hc with ⟨_, _, rfl⟩ | ⟨_, _, rfl⟩ <;> simp
  have it := iter_front B
    ⟨-1, [], 0, 0, (hdr ++ p) ++ rxbuf.drop (hdr ++ p).length, (hdr ++ p).length⟩
    h hdr p (rxbuf.drop (hdr ++ p).length) 0 none hh hc rfl (by simp) (by simp)
    (Nat.zero_le _) (by simp only [List.length_append] at hfit; omega)
  rw [iter_receive B _ rxbuf hfit hpos, it, ha]
  rfl

theorem dispatch_short (openPort : List Nat → Nat → Bool) (c : Client) (op : Nat)
    (payload : List Nat)
    (hshort : ((op = OPC_OPEN ∨ op = OPC_STREAM ∨ op = OPC_RX_CONFIRM) ∧ payload.length < 6) ∨
      (op = OPC_CLOSE ∧ payload.length < 2)) :
    ∃ msg, 0 < msg.length ∧ msg.length ≤ 0xFFFF ∧
      dispatch openPort c op payload payload.length payload.length
        = (sendError c.socket none msg).map (fun sock => ⟨sock, c.ports⟩) := by
  rcases hshort with ⟨rfl | rfl | rfl, h6⟩ | ⟨rfl, h2⟩
  · exact ⟨literal "received incomplete OPEN control frame", by decide, by decide,
      by simp [dispatch, caseOpen, h6]⟩
  · exact ⟨literal "received incomplete STREAM control frame", by decide, by decide,
      by simp [dispatch, caseStream, h6, OPC_STREAM, OPC_OPEN, OPC_CLOSE]⟩
  · exact ⟨literal "received incomplete RX_CONFIRM control frame", by decide, by decide,
      by simp [dispatch, caseRxConfirm, h6, OPC_STREAM, OPC_OPEN, OPC_CLOSE, OPC_RX_CONFIRM]⟩
  · exact ⟨literal "received incomplete CLOSE control frame", by decide, by decide,
      by simp [dispatch, caseClose, h2, OPC_OPEN, OPC_CLOSE]⟩

end SOEClient

namespace SOEClient

/-- C25: a frame OPEN, STREAM or RX_CONFIRM with a payload of fewer than 6 bytes, or
CLOSE with fewer than 2, arrives on an open socket. The iteration of the receive
loop hands exactly one frame to the socket: an ERROR frame whose payload is a
non-empty message behind its length, without a port name; the port registry is
unchanged; the loop is not left and the frame state is the initial one, so that the
next frame to arrive is handed to the switch with its opcode and payload. -/
theorem malformed_frame_answered (B : Nat) (openPort : List Nat → Nat → Bool) (c : Client)
    (rxbuf b payload : List Nat) (op : Nat) (hopen : c.socket.is_open = true)
    (hshort : ((op = OPC_OPEN ∨ op = OPC_STREAM ∨ op = OPC_RX_CONFIRM) ∧ payload.length < 6) ∨
      (op = OPC_CLOSE ∧ payload.length < 2))
    (hb : sendFrame true op payload payload.length = some b) (hfit : b.length ≤ B)
    (hB : B < 2 ^ 32) :
    ∃ msg bytes, msg ≠ [] ∧
      errorPayload none msg = .ok (be16 msg.length ++ msg, 2 + msg.length) ∧
      sendFrame true OPC_ERROR (be16 msg.length ++ msg) (be16 msg.length ++ msg).length
        = some bytes ∧
      dispatch openPort c op payload payload.length payload.length
        = .ok ⟨⟨true, c.socket.results.tail,
                c.socket.sent ++ [⟨OPC_ERROR, be16 msg.length ++ msg, bytes⟩]⟩, c.ports⟩ ∧
      handleClientRX_body B openPort (some b) (rxInit rxbuf) c
        = .running (rxInit (b ++ rxbuf.drop b.length))
            ⟨⟨true, c.socket.results.tail,
               c.socket.sent ++ [⟨OPC_ERROR, be16 msg.length ++ msg, bytes⟩]⟩, c.ports⟩ ∧
      ∀ op2 p2 b2, op2 < 8 → sendFrame true op2 p2 p2.length = some b2 → b2.length ≤ B →
        handleClientRX_iter B true (some b2) (rxInit (b ++ rxbuf.drop b.length))
          = .running (rxInit (b2 ++ (b ++ rxbuf.drop b.length).drop b2.length))
              (some (op2, p2)) := by
  have hop : op < 8 := by
    rcases hshort with ⟨rfl | rfl | rfl, _⟩ | ⟨rfl, _⟩ <;> decide
  obtain ⟨msg, hm1, hm2, hd⟩ := dispatch_short openPort c op payload hshort
  obtain ⟨bytes, hf, hs⟩ := errorFrame_none msg hm1 hm2
  refine ⟨msg, bytes, ?_, errorPayload_none msg hm1 hm2, hs, ?_, ?_, ?_⟩
  · intro h
    rw [h] at hm1
    cases hm1
  · simp only [hd, sendError_open c.socket none msg _ hopen hf]
    rfl
  · unfold handleClientRX_body
    rw [hopen, iter_single B rxbuf b payload op hop hb hfit hB]
    simp only [hd, sendError_open c.socket none msg _ hopen hf]
    rfl
  · intro op2 p2 b2 hop2 hb2 hfit2
    exact iter_single B _ b2 p2 op2 hop2 hb2 hfit2 hB

/-- C25 at the STREAM frame `1D 00 01 41` (payload of 3 bytes) on the client with the
port `A` claimed. -/
theorem malformed_frame_answered_witness :
    ∃ msg bytes, msg ≠ [] ∧
      errorPayload none msg = .ok (be16 msg.length ++ msg, 2 + msg.length) ∧
      sendFrame true OPC_ERROR (be16 msg.length ++ msg) (be16 msg.length ++ msg).length
        = some bytes ∧
      dispatch noPort clientA OPC_STREAM [0, 1, 65] 3 3
        = .ok ⟨⟨true, [], [⟨OPC_ERROR, be16 msg.length ++ msg, bytes⟩]⟩, clientA.ports⟩ ∧
      handleClientRX_body 64 noPort (some [0x1D, 0, 1, 65]) (rxInit (List.replicate 64 0))
          clientA
        = .running (rxInit ([0x1D, 0, 1, 65] ++ (List.replicate 64 0).drop 4))
            ⟨⟨true, [], [⟨OPC_ERROR, be16 msg.length ++ msg, bytes⟩]⟩, clientA.ports⟩ ∧
      ∀ op2 p2 b2, op2 < 8 → sendFrame true op2 p2 p2.length = some b2 → b2.length ≤ 64 →
        handleClientRX_iter 64 true (some b2)
            (rxInit ([0x1D, 0, 1, 65] ++ (List.replicate 64 0).drop 4))
          = .running
              (rxInit (b2 ++ ([0x1D, 0, 1, 65] ++ (List.replicate 64 0).drop 4).drop b2.length))
              (some (op2, p2)) :=
  malformed_frame_answered 64 noPort clientA (List.replicate 64 0) [0x1D, 0, 1, 65] [0, 1, 65]
    OPC_STREAM rfl (Or.inl ⟨Or.inr (Or.inl rfl), by decide⟩) (by decide) (by decide) (by decide)

/-- C29 at the frames `1D 01 02 03` (opcode 5, payload `01 02 03`) and `0F 09`
(opcode 7, payload `09`) arriving in one receive of 6 bytes. -/
theorem frames_in_one_receive_witness :
    ∃ s1 s2,
      handleClientRX_iter 64 true (some ([0x1D, 1, 2, 3] ++ [0x0F, 9]))
          (rxInit (List.replicate 64 0))
        = .running s1 (some (5, [1, 2, 3])) ∧
      s1.op_code = -1 ∧ s1.received = [0x0F, 9].length ∧
      s1.rxbuf.take [0x0F, 9].length = [0x0F, 9] ∧
      (∀ recv, handleClientRX_iter 64 true recv s1 = .running s2 (some (7, [9]))) ∧
      s2.op_code = -1 ∧ s2.received = 0 ∧
      handleClientRX_loop 64 2 [[0x1D, 1, 2, 3] ++ [0x0F, 9]] (rxInit (List.replicate 64 0))
        = ([(5, [1, 2, 3]), (7, [9])], none) :=
  frames_in_one_receive 64 (List.replicate 64 0) [0x1D, 1, 2, 3] [0x0F, 9] [1, 2, 3] [9] 5 7
    (by decide) (by decide) (by decide) (by decide) (by decide) (by decide)

end SOEClient

/-! ### Reading the fields of a payload -/

namespace SOEClient

theorem readByte_at (pre rest : List Nat) (x off : Nat) (hoff : off = pre.length) :
    readByte (pre ++ x :: rest) off = .ok x := by
  subst hoff
  have h : (pre ++ x :: rest).get? pre.length = some x := by
    induction pre with
    | nil => rfl
    | cons a t ih => simpa using ih
  unfold readByte
  rw [h]

theorem decode_be16 (n : Nat) (hn : n < 65536) :
    ((((n / 2 ^ 8 % 256) &&& 0xFF) <<< 8) ||| (((n % 256) &&& 0xFF) <<< 0)) % 65536 = n := by
  simp only [and_ff_eq, Nat.mod_mod, Nat.shiftLeft_zero]
  have h0 : n % 256 < 2 ^ 8 := Nat.mod_lt _ (by norm_num)
  rw [Nat.or_comm, or_shiftLeft_of_lt _ _ 8 h0]
  omega

theorem readU16_at (pre rest : List Nat) (n off : Nat) (hn : n < 65536)
    (hoff : off = pre.length) : readU16 (pre ++ (be16 n ++ rest)) off = .ok n := by
  have b0 := readByte_at pre ((n % 256) :: rest) (n / 2 ^ 8 % 256) off hoff
  have b1 := readByte_at (pre ++ [n / 2 ^ 8 % 256]) rest (n % 256) (off + 1) (by simp [hoff])
  simp only [List.append_assoc, List.singleton_append] at b1
  unfold readU16
  simp only [be16, List.cons_append, List.nil_append, b0, b1]
  rw [decode_be16 n hn]

theorem cstring_terminated (name rest : List Nat) (hnul : ∀ x ∈ name, x ≠ 0) :
    cstring (name ++ 0 :: rest) = name := by
  induction name with
  | nil => simp [cstring]
  | cons x t ih =>
    have hx : x ≠ 0 := hnul x (List.mem_cons_self _ _)
    have ht := ih (fun y hy => hnul y (List.mem_cons_of_mem _ hy))
    have hb : (x != 0) = true := by simpa using hx
    unfold cstring at ht ⊢
    simp [List.takeWhile, hb, ht]

theorem readName_at (pre name rest : List Nat) (off : Nat) (hnul : ∀ x ∈ name, x ≠ 0)
    (hoff : off = pre.length) :
    readName (pre ++ (name ++ rest)) off name.length = .ok name := by
  subst hoff
  unfold readName memcpy
  rw [if_pos (by simp)]
  simp only [List.take_zero, List.nil_append, List.drop_left, Nat.zero_add,
    List.take_left' rfl]
  have : List.drop name.length (List.replicate (name.length + 1) 0) = [(0 : Nat)] := by
    simp
  rw [this, cstring_terminated name [] hnul]

end SOEClient

namespace SOEClient

theorem portsAt_erase_self {α : Type} (ports : List (List Nat × α)) (name : List Nat) :
    portsAt (portsErase ports name) name = none := by
  induction ports with
  | nil => rfl
  | cons p t ih =>
    obtain ⟨k, v⟩ := p
    unfold portsAt portsErase at ih ⊢
    by_cases hk : k = name
    · subst hk
      simpa [List.filter] using ih
    · have hb : (k != name) = true := by simpa using hk
      have hb2 : (name == k) = false := by
        simp only [beq_eq_false_iff_ne, ne_eq]
        exact fun h => hk h.symm
      simp only [List.filter, hb, List.lookup, hb2]
      exact ih

theorem errorPayload_unnamed (msg : List Nat) :
    errorPayload (some []) msg = errorPayload none msg := by
  unfold errorPayload
  simp

theorem errorFrame_some (name msg : List Nat) (hn2 : name.length ≤ 0xFFFF)
    (h1 : 0 < msg.length) (h2 : msg.length ≤ 0xFFFF) :
    ∃ bytes, errorFrame (some name) msg
      = some ⟨OPC_ERROR,
          (if name = [] then [] else be16 name.length ++ name) ++ (be16 msg.length ++ msg),
          bytes⟩ := by
  by_cases hne : name = []
  · subst hne
    obtain ⟨bytes, hf, _⟩ := errorFrame_none msg h1 h2
    refine ⟨bytes, ?_⟩
    unfold errorFrame at hf ⊢
    rw [errorPayload_unnamed]
    simpa using hf
  · obtain ⟨bytes, hf, _⟩ := errorFrame_named name msg (List.length_pos.mpr hne) hn2 h1 h2
    exact ⟨bytes, by simpa [hne] using hf⟩

/-- C26 (fails as stated): the port `A` is claimed and the socket refuses the next
frame. CLOSE(`A`) removes the entry and the switch hands two frames to the socket:
CLOSED(`A`) and, since sending it failed, an ERROR frame. On CLOSE with the empty
name, which is not claimed, the ERROR frame has no name field: its payload is the
message `port not claimed` behind its length. -/
theorem close_answer_not_sent :
    (dispatch noPort ⟨⟨true, [false], []⟩, clientA.ports⟩ OPC_CLOSE [0, 1, 65] 3 3).map
        (fun c => (c.socket.sent.map (fun f => (f.opc, f.payload)), c.ports))
      = .ok ([(OPC_CLOSED, be16 1 ++ [65]),
              (OPC_ERROR, be16 1 ++ [65] ++
                (be16 37 ++ literal "failed to transmit CLOSE confirmation"))], []) ∧
    (dispatch noPort clientA OPC_CLOSE [0, 0] 2 2).map
        (fun c => (c.socket.sent.map (fun f => (f.opc, f.payload)), c.ports))
      = .ok ([(OPC_ERROR, be16 16 ++ literal "port not claimed")], clientA.ports) := by
  decide

/-- C26 (amended): a CLOSE frame whose payload is the length of `name` and `name` (at
most 65535 bytes, none of them NUL) arrives on an open socket. If `name` is in the
registry, the switch removes the entry and hands CLOSED with the name to the socket;
when the socket accepts it, that is the only frame, and when the socket refuses it,
one ERROR frame with the name and the message `failed to transmit CLOSE
confirmation` follows. If `name` is not in the registry, the registry is unchanged
and the switch hands one frame to the socket: ERROR with the message `port not
claimed`, behind the name when the name is not empty. -/
theorem close_frame_handled (openPort : List Nat → Nat → Bool) (c : Client) (name : List Nat)
    (hopen : c.socket.is_open = true) (hn : name.length ≤ 0xFFFF)
    (hnul : ∀ x ∈ name, x ≠ 0) :
    (∀ h, portsAt c.ports name = some h →
      portsAt (portsErase c.ports name) name = none ∧
      ∃ bytes,
        (c.socket.results.headD true = true →
          dispatch openPort c OPC_CLOSE (be16 name.length ++ name)
              (be16 name.length ++ name).length (be16 name.length ++ name).length
            = .ok ⟨⟨true, c.socket.results.tail,
                    c.socket.sent ++ [⟨OPC_CLOSED, be16 name.length ++ name, bytes⟩]⟩,
                   portsErase c.ports name⟩) ∧
        (c.socket.results.headD true = false →
          ∃ bytes2,
            dispatch openPort c OPC_CLOSE (be16 name.length ++ name)
                (be16 name.length ++ name).length (be16 name.length ++ name).length
              = .ok ⟨⟨true, c.socket.results.tail.tail,
                      c.socket.sent ++ [⟨OPC_CLOSED, be16 name.length ++ name, bytes⟩] ++
                        [⟨OPC_ERROR,
                          (if name = [] then [] else be16 name.length ++ name) ++
                            (be16 37 ++ literal "failed to transmit CLOSE confirmation"),
                          bytes2⟩]⟩,
                     portsErase c.ports name⟩)) ∧
    (portsAt c.ports name = none →
      ∃ bytes,
        dispatch openPort c OPC_CLOSE (be16 name.length ++ name)
            (be16 name.length ++ name).length (be16 name.length ++ name).length
          = .ok ⟨⟨true, c.socket.results.tail,
                  c.socket.sent ++
                    [⟨OPC_ERROR,
                      (if name = [] then [] else be16 name.length ++ name) ++
                        (be16 16 ++ literal "port not claimed"),
                      bytes⟩]⟩,
                 c.ports⟩) := by
  have hlen : (be16 name.length ++ name).length = 2 + name.length := by
    simp [be16]; omega
  have h2 : ¬ 2 + name.length < 2 := by omega
  have hgt : ¬ name.length > 2 + name.length := by omega
  have ru := readU16_at [] name name.length 0 (by omega) rfl
  have rn := readName_at (be16 name.length) name [] 2 hnul (by simp [be16])
  simp only [List.nil_append, List.append_nil] at ru rn
  have hd : dispatch openPort c OPC_CLOSE (be16 name.length ++ name)
      (be16 name.length ++ name).length (be16 name.length ++ name).length
      = match portsAt c.ports name with
        | none =>
          (sendError c.socket (some name) (literal "port not claimed")).map
            (fun sock => ⟨sock, c.ports⟩)
        | some _ =>
          match sendClaimStatus c.socket false name with
          | .error f => .error f
          | .ok (true, sock) => .ok ⟨sock, portsErase c.ports name⟩
          | .ok (false, sock) =>
            (sendError sock (some name)
              (literal "failed to transmit CLOSE confirmation")).map
              (fun sock => ⟨sock, portsErase c.ports name⟩) := by
    have e1 : ¬ OPC_CLOSE = OPC_OPEN := by decide
    unfold dispatch
    rw [if_neg e1, if_pos rfl]
    unfold caseClose
    rw [hlen, if_neg h2]
    simp only [ru, hgt, if_false, rn]
  constructor
  · intro h hfind
    obtain ⟨bytes, hf, _⟩ := claimFrame_layout false name hn
    refine ⟨portsAt_erase_self _ _, bytes, ?_, ?_⟩
    · intro hsend
      rw [hd, hfind]
      simp only [sendClaimStatus_open c.socket false name _ hopen hf, hsend]
      rfl
    · intro hsend
      obtain ⟨bytes2, hf2⟩ := errorFrame_some name
        (literal "failed to transmit CLOSE confirmation") hn (by decide) (by decide)
      refine ⟨bytes2, ?_⟩
      rw [hd, hfind]
      simp only [sendClaimStatus_open c.socket false name _ hopen hf, hsend]
      rw [sendError_open ⟨true, c.socket.results.tail, c.socket.sent ++ [_]⟩ (some name) _ _
        rfl hf2]
      rfl
  · intro hfind
    obtain ⟨bytes, hf⟩ := errorFrame_some name (literal "port not claimed") hn
      (by decide) (by decide)
    refine ⟨bytes, ?_⟩
    rw [hd, hfind]
    simp only [sendError_open c.socket (some name) _ _ hopen hf]
    rfl

/-- C26 (amended) on the client with the port `A` claimed: CLOSE(`A`) removes the
entry and is answered with CLOSED(`A`); CLOSE(`B`) leaves the registry and is answered
with an ERROR frame that names `B`. -/
theorem close_frame_handled_witness :
    (∃ bytes,
      dispatch noPort clientA OPC_CLOSE (be16 1 ++ [65]) 3 3
        = .ok ⟨⟨true, [], [⟨OPC_CLOSED, be16 1 ++ [65], bytes⟩]⟩, []⟩) ∧
    (∃ bytes,
      dispatch noPort clientA OPC_CLOSE (be16 1 ++ [66]) 3 3
        = .ok ⟨⟨true, [],
                [⟨OPC_ERROR, be16 1 ++ [66] ++ (be16 16 ++ literal "port not claimed"),
                  bytes⟩]⟩,
               clientA.ports⟩) :=
  ⟨((close_frame_handled noPort clientA [65] rfl (by decide) (by decide)).1
      SOEPortHandler.init rfl).2.imp (fun _ h => h.1 rfl),
   (close_frame_handled noPort clientA [66] rfl (by decide) (by decide)).2 rfl⟩

end SOEClient

namespace SOEClient

end SOEClient

namespace SOEClient

end SOEClient

/-! ### Mutex ownership at the serial I/O calls -/

namespace SOEPortHandler

theorem ioUnlocked_append (a b : List SyncEvent) :
    ∀ held, ioUnlocked held (a ++ b) = (ioUnlocked held a).bind (fun h => ioUnlocked h b) := by
  induction a with
  | nil => intro held; simp [ioUnlocked]
  | cons x t ih =>
    intro held
    cases held <;> cases x <;> simp [ioUnlocked, ih]

theorem ioUnlocked_writes (n : Nat) :
    ioUnlocked false (List.replicate n SyncEvent.serialIO) = some false := by
  induction n with
  | zero => rfl
  | succ n ih => simpa [List.replicate_succ, ioUnlocked] using ih

theorem handlePortTX_sync_ok (waited openAfterWait : Bool) (writes : Nat) :
    ioUnlocked false (handlePortTX_sync waited openAfterWait writes) = some false := by
  unfold handlePortTX_sync
  cases waited <;> cases openAfterWait <;>
    simp [ioUnlocked, ioUnlocked_append, ioUnlocked_writes]

theorem handlePortRX_sync_ok (waitedRoom redoBefore redoAfter : Bool) :
    ioUnlocked false (handlePortRX_sync waitedRoom redoBefore redoAfter) = some false := by
  cases waitedRoom <;> cases redoBefore <;> cases redoAfter <;> rfl

theorem ioUnlocked_iterations (its : List (List SyncEvent))
    (h : ∀ t ∈ its, ioUnlocked false t = some false) :
    ioUnlocked false its.flatten = some false := by
  induction its with
  | nil => rfl
  | cons t rest ih =>
    rw [List.flatten_cons, ioUnlocked_append, h t (List.mem_cons_self _ _)]
    exact ih (fun u hu => h u (List.mem_cons_of_mem _ hu))

/-- C28: along every path through an iteration of the writer loop and of the reader
loop, and so along every sequence of iterations, each call of `writeBytes` and of
`readBytesConsecutive` is made while the thread does not hold the stack mutex, the
mutex is never locked twice or released without being held, and every iteration
ends with the mutex released. A sequence with a serial call under the mutex is
rejected by the same check. -/
theorem serial_io_outside_mutex :
    (∀ paths : List (Bool × Bool × Nat),
      ioUnlocked false
        (paths.map (fun p => handlePortTX_sync p.1 p.2.1 p.2.2)).flatten = some false) ∧
    (∀ paths : List (Bool × Bool × Bool),
      ioUnlocked false
        (paths.map (fun p => handlePortRX_sync p.1 p.2.1 p.2.2)).flatten = some false) ∧
    ioUnlocked false [SyncEvent.acquire, SyncEvent.serialIO, SyncEvent.release] = none := by
  refine ⟨?_, ?_, rfl⟩
  · intro paths
    apply ioUnlocked_iterations
    intro t ht
    obtain ⟨p, _, rfl⟩ := List.mem_map.mp ht
    exact handlePortTX_sync_ok _ _ _
  · intro paths
    apply ioUnlocked_iterations
    intro t ht
    obtain ⟨p, _, rfl⟩ := List.mem_map.mp ht
    exact handlePortRX_sync_ok _ _ _

end SOEPortHandler

/-! ### When `read` returns false -/

namespace SOEPortHandler

theorem scanResend_complete (m : List (Nat × rx_entry)) (now hi : Nat) :
    ∀ (fuel id : Nat), hi - id ≤ fuel → scanResend m now hi fuel id = none →
      ∀ i e1, id ≤ i → i < hi → StdMap.find m i = some e1 →
        e1.rx_confirmed = true ∨ e1.time_to_resend ≥ now := by
  intro fuel
  induction fuel with
  | zero =>
    intro id hf _ i e1 h1 h2 _
    omega
  | succ fuel ih =>
    intro id hf hscan i e1 h1 h2 hfind
    unfold scanResend at hscan
    by_cases hlt : id < hi
    · rw [if_pos hlt] at hscan
      by_cases hi1 : i = id
      · subst hi1
        rw [hfind] at hscan
        simp only at hscan
        by_cases hel : e1.rx_confirmed = true ∨ e1.time_to_resend ≥ now
        · exact hel
        · rw [if_neg hel] at hscan
          cases hscan
      · have hrest : scanResend m now hi fuel (id + 1) = none := by
          cases hf2 : StdMap.find m id with
          | none => rw [hf2] at hscan; exact hscan
          | some e2 =>
            rw [hf2] at hscan
            simp only at hscan
            by_cases hel : e2.rx_confirmed = true ∨ e2.time_to_resend ≥ now
            · rw [if_pos hel] at hscan; exact hscan
            · rw [if_neg hel] at hscan; cases hscan
        exact ih (id + 1) (by omega) hrest i e1 (by omega) h2 hfind
    · omega

theorem scanResend_none_iff (s : SOEPortHandler) (now : Nat) :
    scanResend s.rx_stack now s.next_transmit_rxid
        (s.next_transmit_rxid - s.last_transmitted_rxid) s.last_transmitted_rxid = none
      ↔ ∀ j, ¬ Eligible s now j := by
  constructor
  · intro hscan j hel
    obtain ⟨h1, h2, e, hf, hc, ht⟩ := hel
    have := scanResend_complete s.rx_stack now s.next_transmit_rxid _ _ (Nat.le_refl _) hscan
      j e h1 h2 hf
    rcases this with h | h
    · rw [hc] at h; cases h
    · omega
  · intro h
    exact scanResend_none _ _ _ _ _ (not_resendable_of_not_eligible s now h)

/-- C31: `read` returns false exactly when the port is closed, or when no
retransmission is eligible and the RX stack has no entry at `next_transmit_rxid` or
that entry has length 0; and a call that returns false leaves the whole handler, the
RX stack and the three rxid counters included, as it was. -/
theorem read_false_iff (s : SOEPortHandler) (now : Nat) :
    ((read s now).1 = none ↔
      (s.port_open = false ∨
        ((∀ j, ¬ Eligible s now j) ∧
          (StdMap.find s.rx_stack s.next_transmit_rxid = none ∨
            ∃ e, StdMap.find s.rx_stack s.next_transmit_rxid = some e ∧ e.length = 0)))) ∧
    ((read s now).1 = none → (read s now).2 = s) := by
  have hcases := read_cases s now
  constructor
  · constructor
    · intro hnone
      by_cases hopen : s.port_open = false
      · exact Or.inl hopen
      · right
        rcases hcases with h | ⟨j, e, _, _, h⟩ | ⟨e, hf, hl, _, hscan, h⟩
        · -- the result is none: look at the branches of read
          have hscan : scanResend s.rx_stack now s.next_transmit_rxid
              (s.next_transmit_rxid - s.last_transmitted_rxid) s.last_transmitted_rxid
              = none := by
            cases hsc : scanResend s.rx_stack now s.next_transmit_rxid
                (s.next_transmit_rxid - s.last_transmitted_rxid) s.last_transmitted_rxid with
            | none => rfl
            | some p =>
              obtain ⟨j, e⟩ := p
              have := read_resend s now j e (by simpa using hopen) hsc
              rw [this] at hnone
              cases hnone
          refine ⟨(scanResend_none_iff s now).mp hscan, ?_⟩
          cases hf : StdMap.find s.rx_stack s.next_transmit_rxid with
          | none => exact Or.inl rfl
          | some e =>
            right
            refine ⟨e, rfl, ?_⟩
            by_contra hl
            have := read_fresh s now e (by simpa using hopen) hscan hf (by omega)
            rw [this] at hnone
            cases hnone
        · rw [h] at hnone; cases hnone
        · rw [h] at hnone; cases hnone
    · intro h
      have : read s now = (none, s) := by
        apply read_nothing
        rcases h with h | ⟨h1, h2⟩
        · exact Or.inl h
        · exact Or.inr ⟨(scanResend_none_iff s now).mpr h1, h2⟩
      rw [this]
  · intro hnone
    rcases hcases with h | ⟨j, e, _, _, h⟩ | ⟨e, hf, hl, _, hscan, h⟩
    · rw [h]
    · rw [h] at hnone; cases hnone
    · rw [h] at hnone; cases hnone

end SOEPortHandler

/-! ### Which txids `send` absorbs -/

namespace SOEPortHandler

theorem sub32_of_lt (a b : Nat) (ha : a < UINT_MOD) (hb : b < a) : sub32 a b = a - b := by
  have hM : UINT_MOD = 4294967296 := rfl
  unfold sub32
  rw [hM] at ha ⊢
  rw [Nat.mod_eq_of_lt (by omega : b < 4294967296)]
  omega

theorem inThePast_ahead (s : SOEPortHandler) (d : Nat) (hn : s.next_txid < UINT_MOD)
    (hd : d < 2 ^ 31) : inThePast s ((s.next_txid + d) % UINT_MOD) = false := by
  have hM : UINT_MOD = 4294967296 := rfl
  unfold inThePast
  rw [hM] at hn ⊢
  simp only [decide_eq_false_iff_not, not_and, not_lt]
  intro hlt
  by_cases hw : s.next_txid + d < 4294967296
  · rw [Nat.mod_eq_of_lt hw] at hlt
    omega
  · have e : (s.next_txid + d) % 4294967296 = s.next_txid + d - 4294967296 := by
      omega
    rw [e]
    omega

/-- C33: when `send` returns true and the TX stack does not hold the payload at
`txid` afterwards, `txid` is behind `next_txid`: `(next_txid - txid) mod 2^32` lies in
`[1, 2^31 - 1)`. A txid equal to `next_txid` or ahead of it by less than `2^31` (modulo
`2^32`) is never taken as a duplicate: if `send` returns true the payload is on the
stack, and if it returns false the handler is unchanged; on an open port the payload
with `txid = next_txid` is always stored. -/
theorem send_absorbs_only_past (s : SOEPortHandler) (txid : Nat) (buffer : List Nat)
    (length : Nat) (ht : txid < UINT_MOD) (hn : s.next_txid < UINT_MOD) :
    ((send s txid buffer length).1 = true →
      StdMap.find (send s txid buffer length).2.tx_stack txid
        ≠ some ⟨length, buffer.take length⟩ →
      1 ≤ sub32 s.next_txid txid ∧ sub32 s.next_txid txid < 2 ^ 31 - 1 ∧
        (send s txid buffer length).2 = s) ∧
    (sub32 txid s.next_txid < 2 ^ 31 →
      inThePast s txid = false ∧
      ((send s txid buffer length).1 = true →
        StdMap.find (send s txid buffer length).2.tx_stack txid
          = some ⟨length, buffer.take length⟩) ∧
      ((send s txid buffer length).1 = false → (send s txid buffer length).2 = s)) ∧
    (s.port_open = true → txid = s.next_txid →
      (send s txid buffer length).1 = true ∧
      StdMap.find (send s txid buffer length).2.tx_stack txid
        = some ⟨length, buffer.take length⟩) := by
  have hM : UINT_MOD = 4294967296 := rfl
  have hstored : inThePast s txid = false → (send s txid buffer length).1 = true →
      StdMap.find (send s txid buffer length).2.tx_stack txid
        = some ⟨length, buffer.take length⟩ := by
    intro hp htrue
    by_cases hopen : s.port_open = true
    · by_cases hroom : StdMap.size s.tx_stack ≥ SERIAL_RX_STACK_LIMIT ∧ txid ≠ s.next_txid
      · rw [send_full s txid buffer length hopen hp hroom] at htrue
        cases htrue
      · rw [send_store s txid buffer length hopen hp hroom]
        exact StdMap.find_insert_self _ _ _
    · rw [send_closed s txid buffer length (by simpa using hopen)] at htrue
      cases htrue
  refine ⟨?_, ?_, ?_⟩
  · intro htrue hnot
    have hp : inThePast s txid = true := by
      by_contra hp
      exact hnot (hstored (by simpa using hp) htrue)
    have hopen : s.port_open = true := by
      by_contra hopen
      rw [send_closed s txid buffer length (by simpa using hopen)] at htrue
      cases htrue
    have hp2 := hp
    unfold inThePast at hp2
    simp only [decide_eq_true_eq] at hp2
    rw [sub32_of_lt _ _ hn hp2.1, send_past s txid buffer length hopen hp]
    refine ⟨by omega, by omega, rfl⟩
  · intro hd
    have hp : inThePast s txid = false := by
      have e : txid = (s.next_txid + sub32 txid s.next_txid) % UINT_MOD := by
        unfold sub32
        rw [hM] at ht hn ⊢
        rw [Nat.mod_eq_of_lt hn]
        omega
      rw [e]
      exact inThePast_ahead s _ hn hd
    exact ⟨hp, hstored hp, send_false_unchanged s txid buffer length⟩
  · intro hopen heq
    have hp : inThePast s txid = false := by
      unfold inThePast
      simp only [decide_eq_false_iff_not, not_and, not_lt]
      intro h
      omega
    have hroom : ¬ (StdMap.size s.tx_stack ≥ SERIAL_RX_STACK_LIMIT ∧ txid ≠ s.next_txid) :=
      fun h => h.2 heq
    rw [send_store s txid buffer length hopen hp hroom]
    exact ⟨rfl, StdMap.find_insert_self _ _ _⟩

/-- C33 at `next_txid = 8`: the txid 7 is absorbed and is one behind; the txids 8 and
9 are stored. -/
theorem send_absorbs_only_past_witness :
    ((send ⟨true, 8, [], 0, 0, 0, []⟩ 7 [1, 2, 3] 3).1 = true →
      StdMap.find (send ⟨true, 8, [], 0, 0, 0, []⟩ 7 [1, 2, 3] 3).2.tx_stack 7
        ≠ some ⟨3, [1, 2, 3].take 3⟩ →
      1 ≤ sub32 8 7 ∧ sub32 8 7 < 2 ^ 31 - 1 ∧
        (send ⟨true, 8, [], 0, 0, 0, []⟩ 7 [1, 2, 3] 3).2 = ⟨true, 8, [], 0, 0, 0, []⟩) ∧
    (send ⟨true, 8, [], 0, 0, 0, []⟩ 7 [1, 2, 3] 3).1 = true ∧
    StdMap.find (send ⟨true, 8, [], 0, 0, 0, []⟩ 7 [1, 2, 3] 3).2.tx_stack 7 = none ∧
    StdMap.find (send ⟨true, 8, [], 0, 0, 0, []⟩ 9 [1, 2, 3] 3).2.tx_stack 9
      = some ⟨3, [1, 2, 3]⟩ :=
  ⟨(send_absorbs_only_past ⟨true, 8, [], 0, 0, 0, []⟩ 7 [1, 2, 3] 3 (by decide) (by decide)).1,
   by decide, by decide, by decide⟩

end SOEPortHandler

/-! ### The payload of ERROR frames -/

namespace SOEClient

theorem errorPayload_swap (s : List Nat) :
    errorPayload (some s) [] = errorPayload none s := by
  unfold errorPayload
  by_cases h : 0 < (if s.length % UINT_MOD > 0xFFFF then 0xFFFF else s.length % UINT_MOD)
  · simp [h]
    generalize memcpy _ _ _ _ _ = o
    cases o <;> rfl
  · simp [h]

theorem sendError_swap (sock : Socket) (s : List Nat) :
    sendError sock (some s) [] = sendError sock none s := by
  unfold sendError
  rw [errorPayload_swap]

/-- C37: for a port name and a message of at most 65535 bytes each, the payload
`sendError` builds is the name behind its big-endian 16-bit length when the name is
not empty, followed by the message behind its big-endian 16-bit length when the
message is not empty. For every string `s`, the call with the port name `s` and no
message and the call with no port name and the message `s` build the same payload
and hand the same frame to the socket. -/
theorem errorPayload_fields (name msg : List Nat) (hn : name.length ≤ 0xFFFF)
    (hm : msg.length ≤ 0xFFFF) :
    (∃ len, errorPayload (some name) msg
      = .ok ((if name = [] then [] else be16 name.length ++ name) ++
             (if msg = [] then [] else be16 msg.length ++ msg), len)) ∧
    (∃ len, errorPayload none msg
      = .ok (if msg = [] then [] else be16 msg.length ++ msg, len)) ∧
    (∀ s : List Nat, errorPayload (some s) [] = errorPayload none s ∧
      ∀ sock : Socket, sendError sock (some s) [] = sendError sock none s) := by
  have hnone : ∀ m : List Nat, m.length ≤ 0xFFFF →
      ∃ len, errorPayload none m = .ok (if m = [] then [] else be16 m.length ++ m, len) := by
    intro m hml
    by_cases hme : m = []
    · subst hme
      exact ⟨0, by decide⟩
    · rw [if_neg hme]
      exact ⟨_, errorPayload_none m (List.length_pos.mpr hme) hml⟩
  refine ⟨?_, hnone msg hm, fun s => ⟨errorPayload_swap s, fun sock => sendError_swap sock s⟩⟩
  by_cases hne : name = []
  · subst hne
    rw [errorPayload_unnamed, if_pos rfl, List.nil_append]
    exact hnone msg hm
  · by_cases hme : msg = []
    · subst hme
      rw [errorPayload_swap, if_neg hne, if_pos rfl, List.append_nil]
      have := hnone name hn
      rwa [if_neg hne] at this
    · rw [if_neg hne, if_neg hme]
      exact ⟨_, errorPayload_named name msg (List.length_pos.mpr hne) hn
        (List.length_pos.mpr hme) hm⟩

/-- C37 at the name `A` and the message `HI`, and at the string `A` taken as a name
and as a message. -/
theorem errorPayload_fields_witness :
    (∃ len, errorPayload (some [65]) [72, 73]
      = .ok ((if [65] = ([] : List Nat) then [] else be16 [65].length ++ [65]) ++
             (if [72, 73] = ([] : List Nat) then [] else be16 [72, 73].length ++ [72, 73]),
             len)) ∧
    errorPayload (some [65]) [] = .ok ([0, 1, 65], 3) ∧
    errorPayload none [65] = .ok ([0, 1, 65], 3) :=
  ⟨(errorPayload_fields [65] [72, 73] (by decide) (by decide)).1, by decide, by decide⟩

end SOEClient

/-! ### Baud rates of the Linux serial driver -/

namespace SerialPort

theorem baud_table (c : SpeedConstants) (hc : (speeds c).Nodup) :
    baudOf c c.B0 = 0 ∧ baudOf c c.B50 = 50 ∧ baudOf c c.B75 = 75 ∧ baudOf c c.B110 = 110 ∧
    baudOf c c.B134 = 134 ∧ baudOf c c.B150 = 150 ∧ baudOf c c.B200 = 200 ∧
    baudOf c c.B300 = 300 ∧ baudOf c c.B600 = 600 ∧ baudOf c c.B1200 = 1200 ∧
    baudOf c c.B1800 = 1800 ∧ baudOf c c.B2400 = 2400 ∧ baudOf c c.B4800 = 4800 ∧
    baudOf c c.B9600 = 9600 ∧ baudOf c c.B19200 = 19200 ∧ baudOf c c.B38400 = 38400 := by
  simp only [speeds, List.nodup_cons, List.mem_cons, List.mem_singleton, not_or,
    List.not_mem_nil, not_false_eq_true, List.nodup_nil, and_true] at hc
  obtain ⟨h0, h1, h2, h3, h4, h5, h6, h7, h8, h9, h10, h11, h12, h13, h14⟩ := hc
  refine ⟨?_, ?_, ?_, ?_, ?_, ?_, ?_, ?_, ?_, ?_, ?_, ?_, ?_, ?_, ?_, ?_⟩ <;>
    simp [baudOf, *, eq_comm]

/-- C38: whatever distinct values the sixteen speed constants have, the `switch` of
`getBaud` applied to the selection of the `switch` of `setBaud` gives back every
supported baud rate, and every other requested rate selects `B9600` and reads back as
9600. On an open port whose `tcgetattr` and `tcsetattr` calls succeed, `getBaud`
after `setBaud(baud)` returns `baud` for a supported rate and 9600 otherwise. -/
theorem baud_roundtrip (c : SpeedConstants) (hc : (speeds c).Nodup) (baud : Int) :
    (baud ∈ supported → baudOf c (baudSelection c baud) = baud) ∧
    (baud ∉ supported →
      baudSelection c baud = c.B9600 ∧ baudOf c (baudSelection c baud) = 9600) ∧
    (∀ (p : SerialPort) (tty : termios), 0 ≤ p.comPortHandle →
      (getBaud c true (setBaud c true true p tty baud).1
          (setBaud c true true p tty baud).2).1
        = if baud ∈ supported then baud else 9600) := by
  obtain ⟨t0, t1, t2, t3, t4, t5, t6, t7, t8, t9, t10, t11, t12, t13, t14, t15⟩ :=
    baud_table c hc
  have hin : baud ∈ supported → baudOf c (baudSelection c baud) = baud := by
    intro h
    simp only [supported, List.mem_cons, List.mem_singleton, List.not_mem_nil, or_false] at h
    rcases h with h | h | h | h | h | h | h | h | h | h | h | h | h | h | h | h <;>
      subst h <;> simp [baudSelection, *]
  have hout : baud ∉ supported → baudSelection c baud = c.B9600 := by
    intro h
    simp only [supported, List.mem_cons, List.mem_singleton, List.not_mem_nil, or_false,
      not_or] at h
    obtain ⟨h0, h1, h2, h3, h4, h5, h6, h7, h8, h9, h10, h11, h12, h13, h14, h15⟩ := h
    simp [baudSelection, *]
  refine ⟨hin, fun h => ⟨hout h, by rw [hout h]; exact t13⟩, ?_⟩
  intro p tty hp
  have hneg : ¬ p.comPortHandle < 0 := by omega
  simp only [setBaud, getBaud, hneg, if_false, Bool.not_true, Bool.false_eq_true, if_true]
  by_cases h : baud ∈ supported
  · rw [if_pos h]; exact hin h
  · rw [if_neg h, hout h]; exact t13

/-- C38 with the values of the Linux headers, at the supported rate 19200 and at the
unsupported rate 115200. -/
theorem baud_roundtrip_witness :
    baudOf linuxSpeeds (baudSelection linuxSpeeds 19200) = 19200 ∧
    baudSelection linuxSpeeds 115200 = linuxSpeeds.B9600 ∧
    baudOf linuxSpeeds (baudSelection linuxSpeeds 115200) = 9600 :=
  ⟨(baud_roundtrip linuxSpeeds (by decide) 19200).1 (by decide),
   ((baud_roundtrip linuxSpeeds (by decide) 115200).2.1 (by decide)).1,
   ((baud_roundtrip linuxSpeeds (by decide) 115200).2.1 (by decide)).2⟩

end SerialPort

/-! ### The size of the TX stack -/

namespace StdMap

end StdMap

namespace SOEPortHandler

end SOEPortHandler

namespace SOEPortHandler

end SOEPortHandler

/-! ### Repeated `read` calls at one clock reading -/

namespace StdMap

theorem mem_of_find {α : Type} (k : Nat) (e : α) (m : List (Nat × α))
    (h : find m k = some e) : (k, e) ∈ m := by
  induction m with
  | nil => simp [find] at h
  | cons p t ih =>
    obtain ⟨k1, v1⟩ := p
    rw [find_cons] at h
    by_cases hk : k = k1
    · rw [if_pos hk] at h
      cases h
      subst hk
      exact List.mem_cons_self _ _
    · rw [if_neg hk] at h
      exact List.mem_cons_of_mem _ (ih h)

end StdMap

namespace SOEPortHandler

theorem countP_lt_of_imp {α : Type} (P Q : α → Bool) (l : List α)
    (himp : ∀ x ∈ l, Q x = true → P x = true) (x : α) (hx : x ∈ l) (hP : P x = true)
    (hQ : Q x = false) : l.countP Q < l.countP P := by
  induction l with
  | nil => cases hx
  | cons y t ih =>
    have hmono : t.countP Q ≤ t.countP P :=
      List.countP_mono_left (fun z hz => himp z (List.mem_cons_of_mem _ hz))
    rcases List.mem_cons.mp hx with h | h
    · subst h
      rw [List.countP_cons_of_pos _ _ hP, List.countP_cons_of_neg _ _ (by simp [hQ])]
      omega
    · have := ih (fun z hz => himp z (List.mem_cons_of_mem _ hz)) h
      by_cases hq : Q y = true
      · rw [List.countP_cons_of_pos _ _ hq,
          List.countP_cons_of_pos _ _ (himp y (List.mem_cons_self _ _) hq)]
        omega
      · rw [List.countP_cons_of_neg _ _ hq]
        by_cases hp : P y = true
        · rw [List.countP_cons_of_pos _ _ hp]; omega
        · rw [List.countP_cons_of_neg _ _ hp]; omega

theorem countP_update_lt (P Q : Nat × rx_entry → Bool) (k : Nat) (f : rx_entry → rx_entry)
    (m : List (Nat × rx_entry)) (e : rx_entry) (hf : StdMap.find m k = some e)
    (hP : P (k, e) = true)
    (hsame : ∀ p ∈ m, p.1 ≠ k → Q p = true → P p = true)
    (hupd : ∀ p ∈ m, p.1 = k → Q (p.1, f p.2) = false) :
    (StdMap.update k f m).countP Q < m.countP P := by
  unfold StdMap.update
  rw [List.countP_map]
  apply countP_lt_of_imp P _ m _ (k, e) (StdMap.mem_of_find k e m hf) hP
  · simp only [Function.comp, if_true]
    exact hupd (k, e) (StdMap.mem_of_find k e m hf) rfl
  · intro p hp hq
    simp only [Function.comp] at hq
    by_cases hk : p.1 = k
    · rw [if_pos hk, hupd p hp hk] at hq
      cases hq
    · rw [if_neg hk] at hq
      exact hsame p hp hk hq

theorem readsLeft_le (now : Nat) (s : SOEPortHandler) :
    readsLeft now s ≤ StdMap.size s.rx_stack := List.countP_le_length _

/-- What one call of `read` does to `readsLeft` and `NotDue`. -/
theorem read_step (s : SOEPortHandler) (now : Nat)
    (hw : s.next_transmit_rxid + readsLeft now s < UINT_MOD) :
    read s now = (none, s) ∨
    ∃ x s1, read s now = (some x, s1) ∧ readsLeft now s1 < readsLeft now s ∧
      s1.next_transmit_rxid + readsLeft now s1 < UINT_MOD ∧ NotDue now s1 x.rxid ∧
      ∀ id, NotDue now s id → NotDue now s1 id ∧ x.rxid ≠ id := by
  have hI : INET_TX_REP_INTERVAL = 100 := rfl
  rcases read_cases s now with h | ⟨j, e, hscan, hopen, h⟩ | ⟨e, hf, hl, hopen, hscan, h⟩
  · exact Or.inl h
  · right
    obtain ⟨h1, h2, hfind, hconf, htime⟩ := scanResend_some _ _ _ _ _ _ _ hscan
    refine ⟨_, _, h, ?_, ?_, ?_, ?_⟩
    · -- the measure falls
      show (StdMap.update j (setResend now) s.rx_stack).countP _ < _
      apply countP_update_lt _ _ j (setResend now) s.rx_stack e hfind
      · simp only [unsentOrDue, hconf, Bool.not_false, Bool.and_true, Bool.or_eq_true,
          decide_eq_true_eq, Bool.and_eq_true]
        exact Or.inr ⟨⟨h1, h2⟩, htime⟩
      · intro p _ _ hq
        exact hq
      · intro p _ hk
        simp only [unsentOrDue, setResend, hk, Bool.or_eq_false_iff, decide_eq_false_iff_not,
          Bool.and_eq_false_iff, not_le, not_and, not_lt, Bool.not_eq_false']
        refine ⟨h2, Or.inr ?_⟩
        omega
    · have hlt : (StdMap.update j (setResend now) s.rx_stack).countP
          (unsentOrDue now ⟨s.port_open, s.next_txid, s.tx_stack, s.next_free_rxid,
            s.next_transmit_rxid, s.last_transmitted_rxid,
            StdMap.update j (setResend now) s.rx_stack⟩) < readsLeft now s := by
        apply countP_update_lt _ _ j (setResend now) s.rx_stack e hfind
        · simp only [unsentOrDue, hconf, Bool.not_false, Bool.and_true, Bool.or_eq_true,
            decide_eq_true_eq, Bool.and_eq_true]
          exact Or.inr ⟨⟨h1, h2⟩, htime⟩
        · intro p _ _ hq
          exact hq
        · intro p _ hk
          simp only [unsentOrDue, setResend, hk, Bool.or_eq_false_iff, decide_eq_false_iff_not,
            Bool.and_eq_false_iff, not_le, not_and, not_lt, Bool.not_eq_false']
          refine ⟨h2, Or.inr ?_⟩
          omega
      show s.next_transmit_rxid + _ < UINT_MOD
      have : readsLeft now ⟨s.port_open, s.next_txid, s.tx_stack, s.next_free_rxid,
            s.next_transmit_rxid, s.last_transmitted_rxid,
            StdMap.update j (setResend now) s.rx_stack⟩ < readsLeft now s := hlt
      omega
    · refine ⟨h2, ?_⟩
      intro e1 he1
      have he1' : StdMap.find (StdMap.update j (setResend now) s.rx_stack) j = some e1 := he1
      rw [StdMap.find_update_self, hfind] at he1'
      cases he1'
      show now + INET_TX_REP_INTERVAL ≥ now
      omega
    · intro id hid
      refine ⟨⟨hid.1, ?_⟩, ?_⟩
      · intro e1 he1
        have he1' : StdMap.find (StdMap.update j (setResend now) s.rx_stack) id = some e1 := he1
        by_cases hij : id = j
        · subst hij
          rw [StdMap.find_update_self, hfind] at he1'
          cases he1'
          show now + INET_TX_REP_INTERVAL ≥ now
          omega
        · rw [StdMap.find_update_ne _ _ _ _ hij] at he1'
          exact hid.2 e1 he1'
      · intro hx
        have hx' : j = id := hx
        subst hx'
        have := hid.2 e hfind
        omega
  · right
    have hmem := StdMap.mem_of_find _ _ _ hf
    have hpos : 0 < readsLeft now s := by
      apply List.countP_pos_iff.mpr
      exact ⟨_, hmem, by simp [unsentOrDue]⟩
    have hM : UINT_MOD = 4294967296 := rfl
    have hnw : (s.next_transmit_rxid + 1) % UINT_MOD = s.next_transmit_rxid + 1 := by
      apply Nat.mod_eq_of_lt
      omega
    rw [hnw] at h
    have hlt : (StdMap.update s.next_transmit_rxid (setResend now) s.rx_stack).countP
        (unsentOrDue now ⟨s.port_open, s.next_txid, s.tx_stack,
          if s.next_free_rxid < s.next_transmit_rxid + 1
          then s.next_transmit_rxid + 1 else s.next_free_rxid,
          s.next_transmit_rxid + 1, s.last_transmitted_rxid,
          StdMap.update s.next_transmit_rxid (setResend now) s.rx_stack⟩)
        < readsLeft now s := by
      apply countP_update_lt _ _ s.next_transmit_rxid (setResend now) s.rx_stack e hf
      · simp [unsentOrDue]
      · intro p _ hk hq
        simp only [unsentOrDue, Bool.or_eq_true, decide_eq_true_eq, Bool.and_eq_true,
          Bool.not_eq_true'] at hq ⊢
        rcases hq with hq | ⟨⟨⟨hq1, hq2⟩, hq3⟩, hq4⟩
        · left; omega
        · right
          exact ⟨⟨⟨hq1, by omega⟩, hq3⟩, hq4⟩
      · intro p _ hk
        simp only [unsentOrDue, setResend, hk, Bool.or_eq_false_iff, decide_eq_false_iff_not,
          Bool.and_eq_false_iff, not_le, not_and, not_lt, Bool.not_eq_false']
        refine ⟨by omega, Or.inr ?_⟩
        omega
    refine ⟨_, _, h, hlt, ?_, ?_, ?_⟩
    · show s.next_transmit_rxid + 1 + _ < UINT_MOD
      have : readsLeft now ⟨s.port_open, s.next_txid, s.tx_stack,
          if s.next_free_rxid < s.next_transmit_rxid + 1
          then s.next_transmit_rxid + 1 else s.next_free_rxid,
          s.next_transmit_rxid + 1, s.last_transmitted_rxid,
          StdMap.update s.next_transmit_rxid (setResend now) s.rx_stack⟩
          < readsLeft now s := hlt
      omega
    · refine ⟨by show s.next_transmit_rxid < s.next_transmit_rxid + 1; omega, ?_⟩
      intro e1 he1
      have he1' : StdMap.find (StdMap.update s.next_transmit_rxid (setResend now) s.rx_stack)
          s.next_transmit_rxid = some e1 := he1
      rw [StdMap.find_update_self, hf] at he1'
      cases he1'
      show now + INET_TX_REP_INTERVAL ≥ now
      omega
    · intro id hid
      have hne : id ≠ s.next_transmit_rxid := by
        have := hid.1
        omega
      refine ⟨⟨by show id < s.next_transmit_rxid + 1; have := hid.1; omega, ?_⟩,
        fun hx => hne hx.symm⟩
      intro e1 he1
      have he1' : StdMap.find (StdMap.update s.next_transmit_rxid (setResend now) s.rx_stack)
          id = some e1 := he1
      rw [StdMap.find_update_ne _ _ _ _ hne] at he1'
      exact hid.2 e1 he1'

end SOEPortHandler

namespace SOEPortHandler

theorem readRepeat_none (now : Nat) (s : SOEPortHandler) (h : read s now = (none, s)) :
    ∀ n, readRepeat now n s = (List.replicate n none, s) := by
  intro n
  induction n with
  | zero => rfl
  | succ n ih =>
    simp only [readRepeat, h, ih, List.replicate_succ]

theorem readRepeat_main (now : Nat) :
    ∀ (n : Nat) (s : SOEPortHandler) (D : List Nat),
      s.next_transmit_rxid + readsLeft now s < UINT_MOD → (∀ id ∈ D, NotDue now s id) →
      ∃ k, k ≤ readsLeft now s ∧ k ≤ n ∧
        (∀ x ∈ (readRepeat now n s).1.take k, x.isSome = true) ∧
        (readRepeat now n s).1.drop k = List.replicate (n - k) none ∧
        (((readRepeat now n s).1.filterMap id).map (fun x => x.rxid)).Nodup ∧
        ∀ d ∈ D, d ∉ ((readRepeat now n s).1.filterMap id).map (fun x => x.rxid) := by
  intro n
  induction n with
  | zero =>
    intro s D _ _
    exact ⟨0, Nat.zero_le _, Nat.le_refl _, by simp [readRepeat], by simp [readRepeat],
      by simp [readRepeat], by simp [readRepeat]⟩
  | succ n ih =>
    intro s D hw hD
    rcases read_step s now hw with h | ⟨x, s1, h, hlt, hw1, hx, hkeep⟩
    · rw [readRepeat_none now s h]
      refine ⟨0, Nat.zero_le _, Nat.zero_le _, by simp, by simp, ?_, ?_⟩
      · have : (List.replicate (n + 1) (none : Option ReadResult)).filterMap id = [] := by
          rw [List.filterMap_eq_nil_iff]
          intro a ha
          rw [List.eq_of_mem_replicate ha]
          rfl
        rw [this]
        exact List.nodup_nil
      · intro d _
        have : (List.replicate (n + 1) (none : Option ReadResult)).filterMap id = [] := by
          rw [List.filterMap_eq_nil_iff]
          intro a ha
          rw [List.eq_of_mem_replicate ha]
          rfl
        rw [this]
        simp
    · have hD1 : ∀ d ∈ x.rxid :: D, NotDue now s1 d := by
        intro d hd
        rcases List.mem_cons.mp hd with h1 | h1
        · rw [h1]; exact hx
        · exact (hkeep d (hD d h1)).1
      obtain ⟨k, hk1, hk2, hk3, hk4, hk5, hk6⟩ := ih s1 (x.rxid :: D) hw1 hD1
      have hout : (readRepeat now (n + 1) s).1 = some x :: (readRepeat now n s1).1 := by
        simp only [readRepeat, h]
      have hfm : List.filterMap id (some x :: (readRepeat now n s1).1)
          = x :: List.filterMap id (readRepeat now n s1).1 := List.filterMap_cons_some rfl
      rw [hout]
      refine ⟨k + 1, by omega, by omega, ?_, ?_, ?_, ?_⟩
      · intro y hy
        rw [List.take_succ_cons] at hy
        rcases List.mem_cons.mp hy with h1 | h1
        · rw [h1]; rfl
        · exact hk3 y h1
      · rw [List.drop_succ_cons, hk4]
        congr 1
        omega
      · rw [hfm]
        simp only [List.map_cons, List.nodup_cons]
        exact ⟨hk6 x.rxid (List.mem_cons_self _ _), hk5⟩
      · intro d hd
        rw [hfm]
        simp only [List.map_cons, List.mem_cons, not_or]
        exact ⟨fun h1 => (hkeep d (hD d hd)).2 h1.symm, hk6 d (List.mem_cons_of_mem _ hd)⟩

theorem read_sets_resend (s : SOEPortHandler) (now : Nat) (x : ReadResult)
    (s1 : SOEPortHandler) (h : read s now = (some x, s1)) :
    ∃ e, StdMap.find s1.rx_stack x.rxid = some e ∧
      e.time_to_resend = now + INET_TX_REP_INTERVAL := by
  rcases read_cases s now with h1 | ⟨j, e, hscan, _, h1⟩ | ⟨e, hf, _, _, _, h1⟩
  · rw [h1] at h; cases h
  · rw [h1] at h
    cases h
    obtain ⟨_, _, hfind, _, _⟩ := scanResend_some _ _ _ _ _ _ _ hscan
    refine ⟨setResend now e, ?_, rfl⟩
    show StdMap.find (StdMap.update j (setResend now) s.rx_stack) j = _
    rw [StdMap.find_update_self, hfind]
    rfl
  · rw [h1] at h
    cases h
    refine ⟨setResend now e, ?_, rfl⟩
    show StdMap.find (StdMap.update s.next_transmit_rxid (setResend now) s.rx_stack)
      s.next_transmit_rxid = _
    rw [StdMap.find_update_self, hf]
    rfl

/-- Successive calls of `read` away from the wrap: `n` successive calls of `read` at
one clock reading, on a handler whose `next_transmit_rxid` cannot wrap during them,
return true `k` times and false from then on, where `k` is at most the number of
entries of the RX stack; the rxids handed out are pairwise different. The entry a call
has handed out has the resend time `now + INET_TX_REP_INTERVAL`, so it is not eligible
for retransmission at any clock reading up to that time. -/
theorem read_repeats_end (s : SOEPortHandler) (now n : Nat)
    (hwrap : s.next_transmit_rxid + StdMap.size s.rx_stack < UINT_MOD) :
    (∃ k, k ≤ StdMap.size s.rx_stack ∧ k ≤ n ∧
      (∀ x ∈ (readRepeat now n s).1.take k, x.isSome = true) ∧
      (readRepeat now n s).1.drop k = List.replicate (n - k) none ∧
      (((readRepeat now n s).1.filterMap id).map (fun x => x.rxid)).Nodup) ∧
    (∀ x s1, read s now = (some x, s1) →
      ∀ later, later ≤ now + INET_TX_REP_INTERVAL → ¬ Eligible s1 later x.rxid) := by
  constructor
  · have hle := readsLeft_le now s
    obtain ⟨k, h1, h2, h3, h4, h5, _⟩ := readRepeat_main now n s [] (by omega)
      (fun _ h => by cases h)
    exact ⟨k, by omega, h2, h3, h4, h5⟩
  · intro x s1 h later hlater hel
    obtain ⟨e, hf, ht⟩ := read_sets_resend s now x s1 h
    obtain ⟨_, _, e1, hf1, _, ht1⟩ := hel
    rw [hf] at hf1
    cases hf1
    omega

/-- Successive calls on the handler whose entries 0, 1 and 2 are due for
retransmission: five calls of `read` at the clock reading 500 hand out 0, 1 and 2 and
then return false. -/
theorem read_repeats_end_witness :
    ((readRepeat 500 5 stateThreeSent).1.map (fun x => x.map (fun y => y.rxid))
      = [some 0, some 1, some 2, none, none]) ∧
    (∃ k, k ≤ StdMap.size stateThreeSent.rx_stack ∧ k ≤ 5 ∧
      (∀ x ∈ (readRepeat 500 5 stateThreeSent).1.take k, x.isSome = true) ∧
      (readRepeat 500 5 stateThreeSent).1.drop k = List.replicate (5 - k) none ∧
      (((readRepeat 500 5 stateThreeSent).1.filterMap id).map (fun x => x.rxid)).Nodup) :=
  ⟨by decide, (read_repeats_end stateThreeSent 500 5 (by decide)).1⟩

end SOEPortHandler

/-! ### Where the serial reader writes -/

namespace StdMap

theorem mem_insert {α : Type} (k : Nat) (v : α) (m : List (Nat × α)) :
    ∀ p ∈ insert k v m, p = (k, v) ∨ p ∈ m := by
  induction m with
  | nil =>
    intro p hp
    simp [insert] at hp
    exact Or.inl hp
  | cons q t ih =>
    obtain ⟨k1, v1⟩ := q
    intro p hp
    unfold insert at hp
    by_cases h1 : k < k1
    · rw [if_pos h1] at hp
      rcases List.mem_cons.mp hp with h | h
      · exact Or.inl h
      · exact Or.inr h
    · rw [if_neg h1] at hp
      by_cases h2 : k = k1
      · rw [if_pos h2] at hp
        rcases List.mem_cons.mp hp with h | h
        · exact Or.inl h
        · exact Or.inr (List.mem_cons_of_mem _ h)
      · rw [if_neg h2] at hp
        rcases List.mem_cons.mp hp with h | h
        · exact Or.inr (h ▸ List.mem_cons_self _ _)
        · rcases ih p h with h3 | h3
          · exact Or.inl h3
          · exact Or.inr (List.mem_cons_of_mem _ h3)

theorem find_none_of_le {α : Type} (k f : Nat) (m : List (Nat × α))
    (h : ∀ p ∈ m, p.1 ≤ f) (hk : f < k) : find m k = none :=
  find_none_of_lt k m (fun p hp => Nat.lt_of_le_of_lt (h p hp) hk)

theorem find_update_none {α : Type} (k j : Nat) (f : α → α) (m : List (Nat × α)) :
    find (update k f m) j = none ↔ find m j = none := by
  rw [find_update]
  by_cases h : j = k
  · subst h
    simp
  · rw [if_neg h]

end StdMap

namespace SOEPortHandler

theorem mem_eraseLoop (n : Nat) :
    ∀ (m : List (Nat × rx_entry)) (i : Nat) (p : Nat × rx_entry),
      p ∈ eraseLoop m n i → p ∈ m := by
  induction n with
  | zero => intro m i p h; exact h
  | succ n ih =>
    intro m i p h
    unfold eraseLoop at h
    have := ih _ _ p h
    unfold StdMap.erase at this
    exact (List.mem_filter.mp this).1

theorem find_eraseLoop_none (n : Nat) (m : List (Nat × rx_entry)) (i k : Nat)
    (h : StdMap.find m k = none) : StdMap.find (eraseLoop m n i) k = none := by
  cases hf : StdMap.find (eraseLoop m n i) k with
  | none => rfl
  | some e =>
    rw [find_eraseLoop_some n m i k e hf] at h
    cases h

theorem readerFill_touch (s : SOEPortHandler) (r : RxReader) (s1 : SOEPortHandler)
    (r1 : RxReader) (h : readerFill s r = some (s1, r1)) :
    Touched s s1 s.next_free_rxid ∧ r1.receptionBuffer = r.receptionBuffer ∧
    (r1.inBuffer = r.inBuffer ∨ r1.inBuffer = 0) ∧
    (r1.pc = ReaderPc.top ∨
      ∃ e, StdMap.find s1.rx_stack s.next_free_rxid = some e ∧
        r1.pc = ReaderPc.reading s.next_free_rxid (capacity e.length)) := by
  unfold readerFill at h
  cases hf : StdMap.find s.rx_stack s.next_free_rxid with
  | none => simp [hf] at h
  | some e =>
    simp only [hf] at h
    by_cases hb : r.inBuffer > 0
    · simp only [hb, if_true] at h
      by_cases hc : capacity e.length % UINT_MOD < r.inBuffer
      · simp only [hc, if_true, Option.some.injEq, Prod.mk.injEq] at h
        obtain ⟨rfl, rfl⟩ := h
        exact ⟨Or.inl rfl, rfl, Or.inl rfl, Or.inl rfl⟩
      · simp only [hc, if_false] at h
        cases ha : appendData e r.receptionBuffer r.inBuffer with
        | none => simp [ha] at h
        | some e1 =>
          simp only [ha] at h
          have hfind : StdMap.find (StdMap.update s.next_free_rxid (fun _ => e1) s.rx_stack)
              s.next_free_rxid = some e1 := by
            rw [StdMap.find_update_self, hf]
            rfl
          by_cases hl : e1.length = SERIAL_RX_ENTRY_LEN
          · simp only [hl, if_true, Option.some.injEq, Prod.mk.injEq] at h
            obtain ⟨rfl, rfl⟩ := h
            exact ⟨Or.inr ⟨e, e1, _, _, hf, ha, rfl⟩, rfl, Or.inr rfl, Or.inl rfl⟩
          · simp only [hl, if_false, Option.some.injEq, Prod.mk.injEq] at h
            obtain ⟨rfl, rfl⟩ := h
            exact ⟨Or.inr ⟨e, e1, _, _, hf, ha, rfl⟩, rfl, Or.inr rfl,
              Or.inr ⟨e1, hfind, rfl⟩⟩
    · simp only [hb, if_false] at h
      by_cases hl : e.length = SERIAL_RX_ENTRY_LEN
      · simp only [hl, if_true, Option.some.injEq, Prod.mk.injEq] at h
        obtain ⟨rfl, rfl⟩ := h
        exact ⟨Or.inl rfl, rfl, Or.inl rfl, Or.inl rfl⟩
      · simp only [hl, if_false, Option.some.injEq, Prod.mk.injEq] at h
        obtain ⟨rfl, rfl⟩ := h
        exact ⟨Or.inl rfl, rfl, Or.inl rfl, Or.inr ⟨e, hf, rfl⟩⟩

theorem readerNewEntry_made (now : Nat) (s : SOEPortHandler) (r : RxReader)
    (s1 : SOEPortHandler) (r1 : RxReader) (h : readerNewEntry now s r = some (s1, r1)) :
    ∃ s0, Made now s s0 ∧ readerFill s0 r = some (s1, r1) :=
  ⟨_, Or.inr (Or.inr rfl), h⟩

theorem readerEnter_made (now : Nat) (s : SOEPortHandler) (r : RxReader)
    (s1 : SOEPortHandler) (r1 : RxReader) (h : readerEnter now s r = some (s1, r1)) :
    (s.port_open = false ∧ s1.rx_stack = [] ∧ s1.next_free_rxid = s.next_free_rxid ∧
      s1.next_transmit_rxid = s.next_transmit_rxid ∧
      r1.receptionBuffer = r.receptionBuffer ∧ r1.inBuffer = r.inBuffer ∧
      r1.pc = ReaderPc.exited) ∨
    (s1 = s ∧ r1.receptionBuffer = r.receptionBuffer ∧ r1.inBuffer = r.inBuffer ∧
      r1.pc = ReaderPc.waitRoom) ∨
    ∃ s0, Made now s s0 ∧ readerFill s0 r = some (s1, r1) := by
  unfold readerEnter at h
  by_cases hopen : s.port_open = true
  · simp only [hopen, Bool.not_true, Bool.false_eq_true, if_false] at h
    cases hf : StdMap.find s.rx_stack s.next_free_rxid with
    | none =>
      simp only [hf] at h
      exact Or.inr (Or.inr ⟨_, Or.inr (Or.inl ⟨hf, rfl⟩), by rw [hopen]; exact h⟩)
    | some e =>
      simp only [hf] at h
      by_cases hfull : e.length ≥ SERIAL_RX_ENTRY_LEN ∨
          r.inBuffer > SERIAL_RX_ENTRY_LEN - e.length
      · simp only [hfull, if_true] at h
        by_cases hlim : StdMap.size s.rx_stack ≥ SERIAL_RX_STACK_LIMIT
        · simp only [hlim, if_true, Option.some.injEq, Prod.mk.injEq] at h
          obtain ⟨rfl, rfl⟩ := h
          exact Or.inr (Or.inl ⟨rfl, rfl, rfl, rfl⟩)
        · simp only [hlim, if_false] at h
          exact Or.inr (Or.inr (readerNewEntry_made now s r s1 r1 h))
      · simp only [hfull, if_false] at h
        exact Or.inr (Or.inr ⟨s, Or.inl rfl, h⟩)
  · have hclosed : s.port_open = false := by simpa using hopen
    simp only [hclosed, Bool.not_false, if_true, Option.some.injEq, Prod.mk.injEq] at h
    obtain ⟨rfl, rfl⟩ := h
    exact Or.inl ⟨hclosed, rfl, rfl, rfl, rfl, rfl, rfl⟩

theorem readerWake_made (now : Nat) (s : SOEPortHandler) (r : RxReader)
    (s1 : SOEPortHandler) (r1 : RxReader) (h : readerWake now s r = some (s1, r1)) :
    ∃ s0, Made now s s0 ∧ readerFill s0 r = some (s1, r1) := by
  unfold readerWake at h
  by_cases hc : StdMap.size s.rx_stack < SERIAL_RX_STACK_LIMIT ∨ s.port_open = false
  · simp only [hc, if_true] at h
    exact readerNewEntry_made now s r s1 r1 h
  · simp [hc] at h

theorem readerReturn_touch (data : List Nat) (ret key : Nat) (s : SOEPortHandler)
    (r : RxReader) (s1 : SOEPortHandler) (r1 : RxReader)
    (h : readerReturn data ret key s r = some (s1, r1)) :
    r1.pc = ReaderPc.top ∧
    r1.receptionBuffer = data ++ r.receptionBuffer.drop data.length ∧
    (r1.inBuffer = ret % UINT_MOD ∨ r1.inBuffer = 0) ∧
    (s1 = s ∨ (StdMap.count s.rx_stack s.next_free_rxid = true ∧ Touched s s1 key)) := by
  unfold readerReturn at h
  by_cases hc : StdMap.count s.rx_stack s.next_free_rxid = true
  · simp only [hc, Bool.not_true, Bool.false_eq_true, if_false] at h
    cases hf : StdMap.find s.rx_stack key with
    | none => simp [hf] at h
    | some e =>
      simp only [hf] at h
      by_cases hcap : ret % UINT_MOD > capacity e.length
      · simp only [hcap, if_true, Option.some.injEq, Prod.mk.injEq] at h
        obtain ⟨rfl, rfl⟩ := h
        exact ⟨rfl, rfl, Or.inl rfl, Or.inl rfl⟩
      · simp only [hcap, if_false] at h
        cases ha : appendData e (data ++ List.drop data.length r.receptionBuffer)
            (ret % UINT_MOD) with
        | none => simp [ha] at h
        | some e1 =>
          simp only [ha, Option.some.injEq, Prod.mk.injEq] at h
          obtain ⟨rfl, rfl⟩ := h
          exact ⟨rfl, rfl, Or.inr rfl, Or.inr ⟨hc, Or.inr ⟨e, e1, _, _, hf, ha, rfl⟩⟩⟩
  · simp only [hc, Bool.not_false, if_true, Option.some.injEq, Prod.mk.injEq] at h
    obtain ⟨rfl, rfl⟩ := h
    exact ⟨rfl, rfl, Or.inl rfl, Or.inl rfl⟩

end SOEPortHandler

namespace SOEPortHandler

theorem Touched_facts {s s1 : SOEPortHandler} {k : Nat} (h : Touched s s1 k) :
    s1.next_free_rxid = s.next_free_rxid ∧ s1.next_transmit_rxid = s.next_transmit_rxid ∧
    (∀ p ∈ s1.rx_stack, ∃ q ∈ s.rx_stack, p.1 = q.1) ∧
    (∀ j, j ≠ k → StdMap.find s1.rx_stack j = StdMap.find s.rx_stack j) ∧
    (∀ j, StdMap.find s1.rx_stack j = none ↔ StdMap.find s.rx_stack j = none) ∧
    s1.port_open = s.port_open := by
  rcases h with rfl | ⟨e, e1, buf, n, _, _, rfl⟩
  · exact ⟨rfl, rfl, fun p hp => ⟨p, hp, rfl⟩, fun _ _ => rfl, fun _ => Iff.rfl, rfl⟩
  · refine ⟨rfl, rfl, ?_, ?_, ?_, rfl⟩
    · intro p hp
      obtain ⟨q, hq, h1, _⟩ := StdMap.mem_update k (fun _ => e1) s.rx_stack p hp
      exact ⟨q, hq, h1⟩
    · intro j hj
      exact StdMap.find_update_ne k j (fun _ => e1) s.rx_stack hj
    · intro j
      exact StdMap.find_update_none k j (fun _ => e1) s.rx_stack

theorem Made_facts {now : Nat} {s s0 : SOEPortHandler} {n : Nat} (h : Made now s s0)
    (hk : ∀ p ∈ s.rx_stack, p.1 ≤ s.next_free_rxid) (hfree : s.next_free_rxid ≤ n)
    (hn : n + 1 < UINT_MOD) :
    (∀ p ∈ s0.rx_stack, p.1 ≤ s0.next_free_rxid) ∧
    s0.next_transmit_rxid = s.next_transmit_rxid ∧
    s.next_free_rxid ≤ s0.next_free_rxid ∧ s0.next_free_rxid ≤ s.next_free_rxid + 1 ∧
    (∀ p ∈ s0.rx_stack, p = (s0.next_free_rxid, newEntry now) ∨ p ∈ s.rx_stack) ∧
    (∀ j, j < s.next_free_rxid → StdMap.find s0.rx_stack j = StdMap.find s.rx_stack j) ∧
    s0.port_open = s.port_open := by
  have hM : UINT_MOD = 4294967296 := rfl
  rcases h with rfl | ⟨hf, rfl⟩ | rfl
  · exact ⟨hk, rfl, Nat.le_refl _, Nat.le_succ _, fun p hp => Or.inr hp, fun _ _ => rfl, rfl⟩
  · refine ⟨?_, rfl, Nat.le_refl _, Nat.le_succ _, ?_, ?_, rfl⟩
    · intro p hp
      rcases StdMap.mem_insert _ _ _ p hp with h1 | h1
      · rw [h1]
      · exact hk p h1
    · intro p hp
      exact StdMap.mem_insert _ _ _ p hp
    · intro j hj
      exact StdMap.find_insert_ne _ _ _ _ (by omega)
  · have hnext : (s.next_free_rxid + 1) % UINT_MOD = s.next_free_rxid + 1 :=
      Nat.mod_eq_of_lt (by omega)
    refine ⟨?_, rfl, ?_, ?_, ?_, ?_, rfl⟩
    · intro p hp
      rcases StdMap.mem_insert _ _ _ p hp with h1 | h1
      · rw [h1]
      · show p.1 ≤ (s.next_free_rxid + 1) % UINT_MOD
        have := hk p h1
        omega
    · show s.next_free_rxid ≤ (s.next_free_rxid + 1) % UINT_MOD
      omega
    · show (s.next_free_rxid + 1) % UINT_MOD ≤ s.next_free_rxid + 1
      omega
    · intro p hp
      exact StdMap.mem_insert _ _ _ p hp
    · intro j hj
      exact StdMap.find_insert_ne _ _ _ _ (by omega)

/-- What a step of the reader thread does to the handler of an open port, given
`KeysInv`: the port stays open, `next_transmit_rxid` stays, no entry below the old
`next_free_rxid` changes, and the parts of `KeysInv` about keys and about the
reference of the reader hold again. -/
theorem reader_step_keys (s : SOEPortHandler) (r : RxReader) (a : RxAction)
    (s1 : SOEPortHandler) (r1 : RxReader) (res : Option ReadResult) (n : Nat)
    (hinv : KeysInv s r n) (hn : n + 1 < UINT_MOD) (hopen : s.port_open = true)
    (ha : (∃ now, a = RxAction.readerEnter now) ∨ (∃ now, a = RxAction.readerWake now) ∨
      (∃ data ret, a = RxAction.readerReturn data ret))
    (h : rxStep s r a = some (s1, r1, res)) :
    res = none ∧ (∀ p ∈ s1.rx_stack, p.1 ≤ s1.next_free_rxid) ∧
    (match r1.pc with
      | ReaderPc.reading key _ =>
        StdMap.find s1.rx_stack s1.next_free_rxid = none ∨ key = s1.next_free_rxid
      | _ => True) ∧
    s1.next_transmit_rxid = s.next_transmit_rxid ∧ s1.port_open = true ∧
    (∀ j, j < s.next_free_rxid → StdMap.find s1.rx_stack j = StdMap.find s.rx_stack j) := by
  obtain ⟨hk, hord, hfree, hpc⟩ := hinv
  -- the common part: an entry was made, then bytes were appended at `next_free_rxid`
  have hfill : ∀ now s0, Made now s s0 → readerFill s0 r = some (s1, r1) →
      (∀ p ∈ s1.rx_stack, p.1 ≤ s1.next_free_rxid) ∧
      (match r1.pc with
        | ReaderPc.reading key _ =>
          StdMap.find s1.rx_stack s1.next_free_rxid = none ∨ key = s1.next_free_rxid
        | _ => True) ∧
      s1.next_transmit_rxid = s.next_transmit_rxid ∧ s1.port_open = true ∧
      (∀ j, j < s.next_free_rxid →
        StdMap.find s1.rx_stack j = StdMap.find s.rx_stack j) := by
    intro now s0 hmade hf
    obtain ⟨m1, m2, m3, m4, _, m6, m7⟩ := Made_facts hmade hk hfree hn
    obtain ⟨ht, _, _, hp⟩ := readerFill_touch s0 r s1 r1 hf
    obtain ⟨t1, t2, t3, t4, _, t6⟩ := Touched_facts ht
    refine ⟨?_, ?_, by rw [t2, m2], by rw [t6, m7, hopen], ?_⟩
    · intro p hp1
      obtain ⟨q, hq, h1⟩ := t3 p hp1
      rw [h1, t1]
      exact m1 q hq
    · rcases hp with hp | ⟨e, _, hp⟩
      · rw [hp]
        trivial
      · rw [hp]
        exact Or.inr t1.symm
    · intro j hj
      rw [t4 j (by omega), m6 j hj]
  cases a with
  | readerEnter now =>
    simp only [rxStep] at h
    cases hpc0 : r.pc with
    | top =>
      rw [hpc0] at h
      simp only [Option.map_eq_some', Prod.mk.injEq] at h
      obtain ⟨⟨s2, r2⟩, hstep, rfl, rfl, rfl⟩ := h
      refine ⟨rfl, ?_⟩
      rcases readerEnter_made now s _ _ _ hstep with
        ⟨hclosed, _⟩ | ⟨rfl, _, _, h4⟩ | ⟨s0, hmade, hf⟩
      · rw [hopen] at hclosed
        cases hclosed
      · refine ⟨hk, ?_, rfl, hopen, fun _ _ => rfl⟩
        rw [h4]
        trivial
      · exact hfill now s0 hmade hf
    | waitRoom => rw [hpc0] at h; cases h
    | reading key req => rw [hpc0] at h; cases h
    | exited => rw [hpc0] at h; cases h
  | readerWake now =>
    simp only [rxStep] at h
    cases hpc0 : r.pc with
    | waitRoom =>
      rw [hpc0] at h
      simp only [Option.map_eq_some', Prod.mk.injEq] at h
      obtain ⟨⟨s2, r2⟩, hstep, rfl, rfl, rfl⟩ := h
      obtain ⟨s0, hmade, hf⟩ := readerWake_made now s _ _ _ hstep
      exact ⟨rfl, hfill now s0 hmade hf⟩
    | top => rw [hpc0] at h; cases h
    | reading key req => rw [hpc0] at h; cases h
    | exited => rw [hpc0] at h; cases h
  | readerReturn data ret =>
    simp only [rxStep] at h
    cases hpc0 : r.pc with
    | reading key req =>
      rw [hpc0] at h hpc
      simp only [Option.map_eq_some', Prod.mk.injEq] at h
      obtain ⟨⟨s2, r2⟩, hstep, rfl, rfl, rfl⟩ := h
      obtain ⟨h1, _, _, h4⟩ := readerReturn_touch data ret key s _ _ _ hstep
      refine ⟨rfl, ?_⟩
      rcases h4 with rfl | ⟨hc, ht⟩
      · refine ⟨hk, ?_, rfl, hopen, fun _ _ => rfl⟩
        rw [h1]
        trivial
      · obtain ⟨t1, t2, t3, t4, _, t6⟩ := Touched_facts ht
        have hkey : key = s.next_free_rxid := by
          rcases hpc with hp | hp
          · have e : StdMap.count s.rx_stack s.next_free_rxid
                = (StdMap.find s.rx_stack s.next_free_rxid).isSome := rfl
            rw [e, hp] at hc
            cases hc
          · exact hp
        refine ⟨?_, ?_, t2, by rw [t6, hopen], ?_⟩
        · intro p hp1
          obtain ⟨q, hq, h5⟩ := t3 p hp1
          rw [h5, t1]
          exact hk q hq
        · rw [h1]
          trivial
        · intro j hj
          exact t4 j (by omega)
    | top => rw [hpc0] at h; cases h
    | waitRoom => rw [hpc0] at h; cases h
    | exited => rw [hpc0] at h; cases h
  | read now => rcases ha with ⟨_, h1⟩ | ⟨_, h1⟩ | ⟨_, _, h1⟩ <;> cases h1
  | confirmReception rxid => rcases ha with ⟨_, h1⟩ | ⟨_, h1⟩ | ⟨_, _, h1⟩ <;> cases h1
  | confirmTransmission rxid => rcases ha with ⟨_, h1⟩ | ⟨_, h1⟩ | ⟨_, _, h1⟩ <;> cases h1

/-- What a call of `read`, `confirmReception` or `confirmTransmission` does to the
handler: the port stays open, `next_transmit_rxid` does not fall, every entry that is
on the stack afterwards was there before with the same payload and length, and
the parts of `KeysInv` about keys and about the reference of the reader hold again. -/
theorem call_step_keys (s : SOEPortHandler) (r : RxReader) (a : RxAction)
    (s1 : SOEPortHandler) (r1 : RxReader) (res : Option ReadResult) (n : Nat)
    (hinv : KeysInv s r n) (hn : n + 1 < UINT_MOD) (hopen : s.port_open = true)
    (ha : (∃ now, a = RxAction.read now) ∨ (∃ rxid, a = RxAction.confirmReception rxid) ∨
      (∃ rxid, a = RxAction.confirmTransmission rxid))
    (h : rxStep s r a = some (s1, r1, res)) :
    r1 = r ∧ (∀ p ∈ s1.rx_stack, p.1 ≤ s1.next_free_rxid) ∧
    (match r1.pc with
      | ReaderPc.reading key _ =>
        StdMap.find s1.rx_stack s1.next_free_rxid = none ∨ key = s1.next_free_rxid
      | _ => True) ∧
    s.next_transmit_rxid ≤ s1.next_transmit_rxid ∧ s1.port_open = true ∧
    (∀ j e, StdMap.find s1.rx_stack j = some e →
      ∃ e0, StdMap.find s.rx_stack j = some e0 ∧ e.payload = e0.payload ∧
        e.length = e0.length) ∧
    (∀ x, res = some x → ∃ e, StdMap.find s.rx_stack x.rxid = some e ∧
      x.buffer = e.payload ∧ x.length = e.length ∧ x.rxid < s1.next_transmit_rxid) ∧
    (∀ p ∈ s1.rx_stack, ∃ q ∈ s.rx_stack, p.1 = q.1 ∧ p.2.payload = q.2.payload ∧
      p.2.length = q.2.length) := by
  obtain ⟨hk, hord, hfree, hpc⟩ := hinv
  have hM : UINT_MOD = 4294967296 := rfl
  -- a stack whose entries are updated in place
  have hupd : ∀ (k : Nat) (f : rx_entry → rx_entry) (free : Nat),
      (∀ e, (f e).payload = e.payload ∧ (f e).length = e.length) →
      s.next_free_rxid ≤ free →
      (free = s.next_free_rxid ∨ ∀ p ∈ s.rx_stack, p.1 < free) →
      (∀ p ∈ StdMap.update k f s.rx_stack, p.1 ≤ free) ∧
      (match r.pc with
        | ReaderPc.reading key _ =>
          StdMap.find (StdMap.update k f s.rx_stack) free = none ∨ key = free
        | _ => True) ∧
      (∀ j e, StdMap.find (StdMap.update k f s.rx_stack) j = some e →
        ∃ e0, StdMap.find s.rx_stack j = some e0 ∧ e.payload = e0.payload ∧
          e.length = e0.length) ∧
      (∀ p ∈ StdMap.update k f s.rx_stack, ∃ q ∈ s.rx_stack, p.1 = q.1 ∧
        p.2.payload = q.2.payload ∧ p.2.length = q.2.length) := by
    intro k f free hf hle hfree2
    refine ⟨?_, ?_, ?_, ?_⟩
    · intro p hp
      obtain ⟨q, hq, h1, _⟩ := StdMap.mem_update k f s.rx_stack p hp
      rw [h1]
      exact Nat.le_trans (hk q hq) hle
    · cases hpc0 : r.pc with
      | reading key req =>
        rw [hpc0] at hpc
        simp only
        rcases hfree2 with h1 | h1
        · rw [h1, StdMap.find_update_none]
          exact hpc
        · left
          rw [StdMap.find_update_none]
          exact StdMap.find_none_of_lt free s.rx_stack h1
      | top => trivial
      | waitRoom => trivial
      | exited => trivial
    · intro j e he
      rw [StdMap.find_update] at he
      by_cases hj : j = k
      · rw [if_pos hj] at he
        subst hj
        cases hfj : StdMap.find s.rx_stack j with
        | none => rw [hfj] at he; cases he
        | some e0 =>
          rw [hfj] at he
          simp only [Option.map_some', Option.some.injEq] at he
          rw [← he]
          exact ⟨e0, rfl, (hf e0).1, (hf e0).2⟩
      · rw [if_neg hj] at he
        exact ⟨e, he, rfl, rfl⟩
    · intro p hp
      obtain ⟨q, hq, h1, h2⟩ := StdMap.mem_update k f s.rx_stack p hp
      refine ⟨q, hq, h1, ?_⟩
      rcases h2 with h2 | h2
      · rw [h2]
        exact ⟨rfl, rfl⟩
      · rw [h2]
        exact hf q.2
  have hsame : (∀ p ∈ s.rx_stack, p.1 ≤ s.next_free_rxid) ∧
      (match r.pc with
        | ReaderPc.reading key _ =>
          StdMap.find s.rx_stack s.next_free_rxid = none ∨ key = s.next_free_rxid
        | _ => True) ∧
      (∀ j e, StdMap.find s.rx_stack j = some e →
        ∃ e0, StdMap.find s.rx_stack j = some e0 ∧ e.payload = e0.payload ∧
          e.length = e0.length) ∧
      (∀ p ∈ s.rx_stack, ∃ q ∈ s.rx_stack, p.1 = q.1 ∧ p.2.payload = q.2.payload ∧
        p.2.length = q.2.length) :=
    ⟨hk, hpc, fun j e he => ⟨e, he, rfl, rfl⟩, fun p hp => ⟨p, hp, rfl, rfl, rfl⟩⟩
  cases a with
  | read now =>
    simp only [rxStep, Option.some.injEq, Prod.mk.injEq] at h
    obtain ⟨rfl, rfl, rfl⟩ := h
    refine ⟨rfl, ?_⟩
    rcases read_cases s now with h1 | ⟨j, e, hscan, _, h1⟩ | ⟨e, hf, hl, _, _, h1⟩
    · rw [h1]
      exact ⟨hsame.1, hsame.2.1, Nat.le_refl _, hopen, hsame.2.2.1,
        (fun x hx => by cases hx), hsame.2.2.2⟩
    · rw [h1]
      obtain ⟨_, h2, hfind, _, _⟩ := scanResend_some _ _ _ _ _ _ _ hscan
      obtain ⟨u1, u2, u3, u4⟩ := hupd j (setResend now) s.next_free_rxid
        (fun _ => ⟨rfl, rfl⟩) (Nat.le_refl _) (Or.inl rfl)
      refine ⟨u1, u2, Nat.le_refl _, hopen, u3, ?_, u4⟩
      intro x hx
      cases hx
      exact ⟨e, hfind, rfl, rfl, h2⟩
    · rw [h1]
      have hnw : (s.next_transmit_rxid + 1) % UINT_MOD = s.next_transmit_rxid + 1 :=
        Nat.mod_eq_of_lt (by omega)
      rw [hnw]
      obtain ⟨u1, u2, u3, u4⟩ := hupd s.next_transmit_rxid (setResend now)
        (if s.next_free_rxid < s.next_transmit_rxid + 1 then s.next_transmit_rxid + 1
          else s.next_free_rxid)
        (fun _ => ⟨rfl, rfl⟩) (by split <;> omega)
        (by
          by_cases hlt : s.next_free_rxid < s.next_transmit_rxid + 1
          · right
            rw [if_pos hlt]
            intro p hp
            have := hk p hp
            omega
          · left
            rw [if_neg hlt])
      refine ⟨u1, u2, by show s.next_transmit_rxid ≤ s.next_transmit_rxid + 1; omega, hopen,
        u3, ?_, u4⟩
      intro x hx
      cases hx
      exact ⟨e, hf, rfl, rfl, Nat.lt_succ_self _⟩
  | confirmReception rxid =>
    simp only [rxStep, Option.some.injEq, Prod.mk.injEq] at h
    obtain ⟨rfl, rfl, rfl⟩ := h
    refine ⟨rfl, ?_⟩
    rcases confirmReception_cases s rxid with h1 | h1
    · rw [h1]
      exact ⟨hsame.1, hsame.2.1, Nat.le_refl _, hopen, hsame.2.2.1,
        (fun x hx => by cases hx), hsame.2.2.2⟩
    · rw [h1]
      obtain ⟨u1, u2, u3, u4⟩ := hupd rxid setConfirmed s.next_free_rxid
        (fun _ => ⟨rfl, rfl⟩) (Nat.le_refl _) (Or.inl rfl)
      exact ⟨u1, u2, Nat.le_refl _, hopen, u3, (fun x hx => by cases hx), u4⟩
  | confirmTransmission rxid =>
    simp only [rxStep, Option.some.injEq, Prod.mk.injEq] at h
    obtain ⟨rfl, rfl, rfl⟩ := h
    refine ⟨rfl, ?_⟩
    rcases confirmTransmission_cases s rxid with ⟨_, _, h1⟩ | ⟨_, h1⟩
    · rw [h1]
      exact ⟨hsame.1, hsame.2.1, Nat.le_refl _, hopen, hsame.2.2.1,
        (fun x hx => by cases hx), hsame.2.2.2⟩
    · rw [h1]
      refine ⟨?_, ?_, Nat.le_refl _, hopen, ?_, (fun x hx => by cases hx), ?_⟩
      · intro p hp
        exact hk p (mem_eraseLoop _ _ _ p hp)
      · cases hpc0 : r.pc with
        | reading key req =>
          rw [hpc0] at hpc
          simp only
          rcases hpc with h2 | h2
          · exact Or.inl (find_eraseLoop_none _ _ _ _ h2)
          · exact Or.inr h2
        | top => trivial
        | waitRoom => trivial
        | exited => trivial
      · intro j e he
        exact ⟨e, find_eraseLoop_some _ _ _ _ e he, rfl, rfl⟩
      · intro p hp
        exact ⟨p, mem_eraseLoop _ _ _ p hp, rfl, rfl, rfl⟩
  | readerEnter now => rcases ha with ⟨_, h1⟩ | ⟨_, h1⟩ | ⟨_, h1⟩ <;> cases h1
  | readerWake now => rcases ha with ⟨_, h1⟩ | ⟨_, h1⟩ | ⟨_, h1⟩ <;> cases h1
  | readerReturn data ret => rcases ha with ⟨_, h1⟩ | ⟨_, h1⟩ | ⟨_, h1⟩ <;> cases h1

end SOEPortHandler

namespace SOEPortHandler

theorem action_kind (a : RxAction) :
    ((∃ now, a = RxAction.readerEnter now) ∨ (∃ now, a = RxAction.readerWake now) ∨
      (∃ data ret, a = RxAction.readerReturn data ret)) ∨
    ((∃ now, a = RxAction.read now) ∨ (∃ rxid, a = RxAction.confirmReception rxid) ∨
      (∃ rxid, a = RxAction.confirmTransmission rxid)) := by
  cases a with
  | readerEnter now => exact Or.inl (Or.inl ⟨now, rfl⟩)
  | readerWake now => exact Or.inl (Or.inr (Or.inl ⟨now, rfl⟩))
  | readerReturn data ret => exact Or.inl (Or.inr (Or.inr ⟨data, ret, rfl⟩))
  | read now => exact Or.inr (Or.inl ⟨now, rfl⟩)
  | confirmReception rxid => exact Or.inr (Or.inr (Or.inl ⟨rxid, rfl⟩))
  | confirmTransmission rxid => exact Or.inr (Or.inr (Or.inr ⟨rxid, rfl⟩))

theorem KeysInv_step (s : SOEPortHandler) (r : RxReader) (a : RxAction) (s1 : SOEPortHandler)
    (r1 : RxReader) (res : Option ReadResult) (n : Nat)
    (hinv : KeysInv s r n) (hn : n + 1 < UINT_MOD) (hopen : s.port_open = true)
    (h : rxStep s r a = some (s1, r1, res)) :
    KeysInv s1 r1 (n + 1) ∧ s1.port_open = true := by
  obtain ⟨b1, b2⟩ := free_bound_step s r a s1 r1 res n ⟨hinv.2.1, hinv.2.2.1⟩ hn h
  rcases action_kind a with ha | ha
  · obtain ⟨_, k1, k3, _, ho, _⟩ := reader_step_keys s r a s1 r1 res n hinv hn hopen ha h
    exact ⟨⟨k1, b1, b2, k3⟩, ho⟩
  · obtain ⟨_, k1, k3, _, ho, _⟩ := call_step_keys s r a s1 r1 res n hinv hn hopen ha h
    exact ⟨⟨k1, b1, b2, k3⟩, ho⟩

theorem KeysInv_init : KeysInv init readerInit 0 :=
  ⟨fun _ hp => (nomatch hp), Nat.le_refl _, Nat.le_refl _, trivial⟩

theorem KeysInv_run (g : SOEPortHandler → RxReader → RxAction → Bool) (acts : List RxAction)
    (n0 : Nat) (s0 : SOEPortHandler) (r0 : RxReader) (log0 : List ReadResult)
    (s : SOEPortHandler) (r : RxReader) (log : List ReadResult)
    (hinv : KeysInv s0 r0 n0) (hopen : s0.port_open = true)
    (hrun : rxRun g acts s0 r0 log0 = some (s, r, log))
    (hlen : n0 + acts.length < UINT_MOD) :
    KeysInv s r (n0 + acts.length) ∧ s.port_open = true := by
  have key := rxRun_invariant g
    (fun past s r _ => KeysInv s r (n0 + past.length) ∧ s.port_open = true) acts.length
    (by
      intro past s r log a s1 r1 res hi hb _ hs
      have := KeysInv_step s r a s1 r1 res (n0 + past.length) hi.1 (by omega) hi.2 hs
      simpa [Nat.add_assoc] using this)
    acts [] s0 r0 log0 s r log ⟨hinv, hopen⟩ (by simp) hrun
  simpa using key

/-- The invariant behind `transmitted_entry_frozen`: the id was handed out, the entry at it, if it is still
on the stack, has the payload and length that were handed out, and so has every
later result of `read` with that id. -/
theorem frozen_step (id : Nat) (b : List Nat) (l : Nat) (s : SOEPortHandler) (r : RxReader)
    (a : RxAction) (s1 : SOEPortHandler) (r1 : RxReader) (res : Option ReadResult) (n : Nat)
    (hinv : KeysInv s r n) (hn : n + 1 < UINT_MOD) (hopen : s.port_open = true)
    (hid : id < s.next_transmit_rxid)
    (hent : ∀ e, StdMap.find s.rx_stack id = some e → e.payload = b ∧ e.length = l)
    (h : rxStep s r a = some (s1, r1, res)) :
    id < s1.next_transmit_rxid ∧
    (∀ e, StdMap.find s1.rx_stack id = some e → e.payload = b ∧ e.length = l) ∧
    (∀ y, res = some y → y.rxid = id → y.buffer = b ∧ y.length = l) := by
  rcases action_kind a with ha | ha
  · obtain ⟨hres, _, _, h4, _, h6⟩ := reader_step_keys s r a s1 r1 res n hinv hn hopen ha h
    refine ⟨by rw [h4]; exact hid, ?_, ?_⟩
    · intro e he
      rw [h6 id (Nat.lt_of_lt_of_le hid hinv.2.1)] at he
      exact hent e he
    · intro y hy
      rw [hres] at hy
      cases hy
  · obtain ⟨_, _, _, h4, _, h6, h7, _⟩ := call_step_keys s r a s1 r1 res n hinv hn hopen ha h
    refine ⟨Nat.lt_of_lt_of_le hid h4, ?_, ?_⟩
    · intro e he
      obtain ⟨e0, he0, hp, hl⟩ := h6 id e he
      rw [hp, hl]
      exact hent e0 he0
    · intro y hy hyid
      obtain ⟨e, he, hp, hl, _⟩ := h7 y hy
      rw [hyid] at he
      rw [hp, hl]
      exact hent e he

/-- A transmitted entry in short executions: `read` hands out the entry `x` in a state
reached from the initial state, and the execution goes on, with fewer than `2^32 - 1`
steps in all. Then the entry at `x.rxid` has the payload and the length that were
handed out for as long as it is on the stack, every later result of `read` with that
rxid carries them, and no step of the reader thread changes or removes an entry with a
key below `next_transmit_rxid`. -/
theorem transmitted_entry_frozen (acts1 acts2 : List RxAction) (now : Nat)
    (s : SOEPortHandler) (r : RxReader) (log1 : List ReadResult) (x : ReadResult)
    (s2 : SOEPortHandler) (r2 : RxReader) (log2 : List ReadResult)
    (hrun1 : rxRun anyStep acts1 init readerInit [] = some (s, r, log1))
    (hread : (read s now).1 = some x)
    (hrun2 : rxRun anyStep acts2 (read s now).2 r [] = some (s2, r2, log2))
    (hlen : acts1.length + acts2.length + 1 < 2 ^ 32 - 1) :
    (∀ e, StdMap.find s2.rx_stack x.rxid = some e →
      e.payload = x.buffer ∧ e.length = x.length) ∧
    (∀ y ∈ log2, y.rxid = x.rxid → y.buffer = x.buffer ∧ y.length = x.length) ∧
    (∀ a s3 r3 res,
      ((∃ t, a = RxAction.readerEnter t) ∨ (∃ t, a = RxAction.readerWake t) ∨
        (∃ data ret, a = RxAction.readerReturn data ret)) →
      rxStep s2 r2 a = some (s3, r3, res) →
      ∀ k, k < s2.next_transmit_rxid →
        StdMap.find s3.rx_stack k = StdMap.find s2.rx_stack k) := by
  have hM : UINT_MOD = 4294967296 := rfl
  have hpow : (2 : Nat) ^ 32 - 1 = 4294967295 := by norm_num
  rw [hpow] at hlen
  -- the state in which `read` is called
  obtain ⟨hk, hopen⟩ := KeysInv_run anyStep acts1 0 init readerInit [] s r log1 KeysInv_init rfl
    hrun1 (by omega)
  rw [Nat.zero_add] at hk
  -- the call of `read`
  have hstep : rxStep s r (RxAction.read now) = some ((read s now).2, r, some x) := by
    simp only [rxStep, hread]
  obtain ⟨hk1, hopen1⟩ := KeysInv_step s r _ _ _ _ acts1.length hk (by omega) hopen hstep
  obtain ⟨_, _, _, _, _, c6, c7, _⟩ := call_step_keys s r _ _ _ _ acts1.length hk (by omega)
    hopen (Or.inl ⟨now, rfl⟩) hstep
  obtain ⟨e0, he0, hb0, hl0, hlt0⟩ := c7 x rfl
  have hent0 : ∀ e, StdMap.find (read s now).2.rx_stack x.rxid = some e →
      e.payload = x.buffer ∧ e.length = x.length := by
    intro e he
    obtain ⟨e1, he1, hp, hl⟩ := c6 x.rxid e he
    rw [he0] at he1
    cases he1
    exact ⟨by rw [hp, hb0], by rw [hl, hl0]⟩
  -- the rest of the execution
  have key := rxRun_invariant anyStep
    (fun past s r log => (KeysInv s r (acts1.length + 1 + past.length) ∧ s.port_open = true) ∧
      x.rxid < s.next_transmit_rxid ∧
      (∀ e, StdMap.find s.rx_stack x.rxid = some e →
        e.payload = x.buffer ∧ e.length = x.length) ∧
      ∀ y ∈ log, y.rxid = x.rxid → y.buffer = x.buffer ∧ y.length = x.length)
    acts2.length
    (by
      intro past s r log a s1 r1 res hi hb _ hs
      obtain ⟨⟨i1, i2⟩, i3, i4, i5⟩ := hi
      have k1 := KeysInv_step s r a s1 r1 res _ i1 (by omega) i2 hs
      obtain ⟨f1, f2, f3⟩ := frozen_step x.rxid x.buffer x.length s r a s1 r1 res _ i1
        (by omega) i2 i3 i4 hs
      refine ⟨by simpa [Nat.add_assoc] using k1, f1, f2, ?_⟩
      intro y hy
      rcases List.mem_append.mp hy with h1 | h1
      · exact i5 y h1
      · cases res with
        | none => cases h1
        | some z =>
          simp only [Option.toList, List.mem_singleton] at h1
          rw [h1]
          exact f3 z rfl)
    acts2 [] (read s now).2 r [] s2 r2 log2
    ⟨⟨by simpa using hk1, hopen1⟩, hlt0, hent0, fun _ hy => (nomatch hy)⟩ (by simp) hrun2
  obtain ⟨⟨i1, i2⟩, _, i4, i5⟩ := key
  simp only [List.nil_append, List.length_nil, Nat.add_zero] at i1 i4 i5
  refine ⟨i4, i5, ?_⟩
  intro a s3 r3 res ha hs k hk2
  obtain ⟨_, _, _, _, _, h6⟩ := reader_step_keys s2 r2 a s3 r3 res _ i1 (by omega) i2 ha hs
  exact h6 k (Nat.lt_of_lt_of_le hk2 i1.2.1)

end SOEPortHandler

namespace SOEPortHandler

/-- An execution in which `read` hands out entry 0 while the reader is inside
`readBytesConsecutive` for it: the bytes the driver returns afterwards go to entry 1,
and the retransmission of entry 0 carries the two bytes of its first transmission. -/
theorem transmitted_entry_frozen_witness :
    rxRun anyStep beforeRead init readerInit []
      = some (stateBeforeRead, readerBeforeRead, []) ∧
    (read stateBeforeRead 2).1 = some firstSent ∧
    rxRun anyStep afterRead (read stateBeforeRead 2).2 readerBeforeRead []
      = some (stateResent, readerInterleaved, [firstSent]) ∧
    (∀ y ∈ [firstSent], y.rxid = firstSent.rxid →
      y.buffer = firstSent.buffer ∧ y.length = firstSent.length) :=
  ⟨by decide, by decide, by decide,
   (transmitted_entry_frozen beforeRead afterRead 2 stateBeforeRead readerBeforeRead []
      firstSent stateResent readerInterleaved [firstSent] (by decide) (by decide) (by decide)
      (by decide)).2.1⟩

end SOEPortHandler

/-! ### The lengths of the RX entries -/

namespace SOEPortHandler

theorem appendData_fits (e : rx_entry) (buf : List Nat) (n : Nat) (he : EntryOk e)
    (hn : n ≤ SERIAL_RX_ENTRY_LEN - e.length) (hbuf : n ≤ buf.length) :
    ∃ e1, appendData e buf n = some e1 := by
  obtain ⟨he1, he2⟩ := he
  unfold appendData memcpy
  have hc : e.length + n ≤ e.payload.length ∧ 0 + n ≤ buf.length := by
    constructor <;> omega
  rw [if_pos hc]
  exact ⟨_, rfl⟩

theorem capacity_mod (l : Nat) (h : l ≤ SERIAL_RX_ENTRY_LEN) :
    capacity l % UINT_MOD = SERIAL_RX_ENTRY_LEN - l := by
  have hM : UINT_MOD = 4294967296 := rfl
  have hL : SERIAL_RX_ENTRY_LEN = 1024 := rfl
  rw [capacity_eq l h, hM]
  omega

theorem readerFill_progress (s : SOEPortHandler) (r : RxReader) (e : rx_entry)
    (hf : StdMap.find s.rx_stack s.next_free_rxid = some e) (he : EntryOk e)
    (hb : BufferOk r) : ∃ x, readerFill s r = some x := by
  unfold readerFill
  simp only [hf]
  by_cases hin : r.inBuffer > 0
  · simp only [hin, if_true]
    by_cases hc : capacity e.length % UINT_MOD < r.inBuffer
    · simp only [hc, if_true]
      exact ⟨_, rfl⟩
    · simp only [hc, if_false]
      rw [capacity_mod e.length he.2] at hc
      obtain ⟨e1, h1⟩ := appendData_fits e r.receptionBuffer r.inBuffer he (by omega)
        (by rw [hb.1]; exact hb.2)
      rw [h1]
      simp only
      split <;> exact ⟨_, rfl⟩
  · simp only [hin, if_false]
    split <;> exact ⟨_, rfl⟩

theorem readerNewEntry_progress (now : Nat) (s : SOEPortHandler) (r : RxReader)
    (hb : BufferOk r) : ∃ x, readerNewEntry now s r = some x := by
  unfold readerNewEntry
  exact readerFill_progress _ r (newEntry now) (StdMap.find_insert_self _ _ _)
    (newEntry_ok now) hb

theorem mem_EntryOk (s : SOEPortHandler) (k : Nat) (e : rx_entry)
    (h : ∀ p ∈ s.rx_stack, EntryOk p.2) (hf : StdMap.find s.rx_stack k = some e) : EntryOk e :=
  h (k, e) (StdMap.mem_of_find k e s.rx_stack hf)

/-- Every step that is `enabled` in a state with `KeysInv` and `SafeInv` is carried
out: no copy of the reader leaves a buffer and its reference `stackEntry` is valid
where it is used. -/
theorem enabled_progress (s : SOEPortHandler) (r : RxReader) (a : RxAction) (n : Nat)
    (hk : KeysInv s r n) (hs : SafeInv s r) (hen : enabled s r a = true) :
    ∃ x, rxStep s r a = some x := by
  obtain ⟨hE, hB, hreq⟩ := hs
  cases a with
  | readerEnter now =>
    simp only [enabled, decide_eq_true_eq] at hen
    simp only [rxStep, hen]
    suffices h : ∃ y, readerEnter now s r = some y by
      obtain ⟨y, hy⟩ := h
      exact ⟨_, by rw [hy]; rfl⟩
    unfold readerEnter
    by_cases hopen : s.port_open = true
    · simp only [hopen, Bool.not_true, Bool.false_eq_true, if_false]
      cases hf : StdMap.find s.rx_stack s.next_free_rxid with
      | none =>
        simp only
        exact readerFill_progress _ r (newEntry now) (StdMap.find_insert_self _ _ _)
          (newEntry_ok now) hB
      | some e =>
        simp only
        by_cases hfull : e.length ≥ SERIAL_RX_ENTRY_LEN ∨
            r.inBuffer > SERIAL_RX_ENTRY_LEN - e.length
        · simp only [hfull, if_true]
          by_cases hlim : StdMap.size s.rx_stack ≥ SERIAL_RX_STACK_LIMIT
          · simp only [hlim, if_true]
            exact ⟨_, rfl⟩
          · simp only [hlim, if_false]
            exact readerNewEntry_progress now s r hB
        · simp only [hfull, if_false]
          exact readerFill_progress s r e hf (mem_EntryOk s _ e hE hf) hB
    · have hclosed : s.port_open = false := by simpa using hopen
      simp only [hclosed, Bool.not_false, if_true]
      exact ⟨_, rfl⟩
  | readerWake now =>
    simp only [enabled, decide_eq_true_eq] at hen
    simp only [rxStep, hen.1]
    suffices h : ∃ y, readerWake now s r = some y by
      obtain ⟨y, hy⟩ := h
      exact ⟨_, by rw [hy]; rfl⟩
    unfold readerWake
    rw [if_pos hen.2]
    exact readerNewEntry_progress now s r hB
  | readerReturn data ret =>
    cases hpc0 : r.pc with
    | reading key req =>
      rw [hpc0] at hreq
      simp only at hreq
      simp only [enabled, hpc0, decide_eq_true_eq] at hen
      simp only [rxStep, hpc0]
      suffices h : ∃ y, readerReturn data ret key s r = some y by
        obtain ⟨y, hy⟩ := h
        exact ⟨_, by rw [hy]; rfl⟩
      have hM : UINT_MOD = 4294967296 := rfl
      have hL : SERIAL_RX_ENTRY_LEN = 1024 := rfl
      have hret : ret % UINT_MOD = ret := Nat.mod_eq_of_lt (by omega)
      unfold readerReturn
      by_cases hc : StdMap.count s.rx_stack s.next_free_rxid = true
      · simp only [hc, Bool.not_true, Bool.false_eq_true, if_false]
        have hkey : key = s.next_free_rxid := by
          have h3 := hk.2.2.2
          rw [hpc0] at h3
          rcases h3 with hp | hp
          · have e : StdMap.count s.rx_stack s.next_free_rxid
                = (StdMap.find s.rx_stack s.next_free_rxid).isSome := rfl
            rw [e, hp] at hc
            cases hc
          · exact hp
        have hsome : ∃ e, StdMap.find s.rx_stack key = some e := by
          rw [hkey]
          exact Option.isSome_iff_exists.mp hc
        obtain ⟨e, hf⟩ := hsome
        have he := mem_EntryOk s key e hE hf
        simp only [hf]
        by_cases hcap : ret % UINT_MOD > capacity e.length
        · simp only [hcap, if_true]
          exact ⟨_, rfl⟩
        · simp only [hcap, if_false]
          rw [capacity_eq e.length he.2, hret] at hcap
          obtain ⟨e1, h1⟩ := appendData_fits e (data ++ List.drop data.length r.receptionBuffer)
            (ret % UINT_MOD) he (by rw [hret]; omega)
            (by
              rw [hret, List.length_append, List.length_drop, hB.1]
              omega)
          rw [h1]
          exact ⟨_, rfl⟩
      · simp only [hc, Bool.not_false, if_true]
        exact ⟨_, rfl⟩
    | top => simp [enabled, hpc0] at hen
    | waitRoom => simp [enabled, hpc0] at hen
    | exited => simp [enabled, hpc0] at hen
  | read now => exact ⟨_, rfl⟩
  | confirmReception rxid => exact ⟨_, rfl⟩
  | confirmTransmission rxid => exact ⟨_, rfl⟩

end SOEPortHandler

namespace SOEPortHandler

theorem Touched_entries {s s1 : SOEPortHandler} {k : Nat} (h : Touched s s1 k)
    (hE : ∀ p ∈ s.rx_stack, EntryOk p.2) : ∀ p ∈ s1.rx_stack, EntryOk p.2 := by
  rcases h with rfl | ⟨e, e1, buf, n, hf, ha, rfl⟩
  · exact hE
  · intro p hp
    obtain ⟨q, hq, _, h2⟩ := StdMap.mem_update k (fun _ => e1) s.rx_stack p hp
    rcases h2 with h2 | h2
    · rw [h2]
      exact hE q hq
    · rw [h2]
      exact (appendData_spec e e1 buf n ha (mem_EntryOk s k e hE hf)).1

theorem Made_entries {now : Nat} {s s0 : SOEPortHandler} (h : Made now s s0)
    (hE : ∀ p ∈ s.rx_stack, EntryOk p.2) : ∀ p ∈ s0.rx_stack, EntryOk p.2 := by
  rcases h with rfl | ⟨_, rfl⟩ | rfl
  · exact hE
  · intro p hp
    rcases StdMap.mem_insert _ _ _ p hp with h1 | h1
    · rw [h1]
      exact newEntry_ok now
    · exact hE p h1
  · intro p hp
    rcases StdMap.mem_insert _ _ _ p hp with h1 | h1
    · rw [h1]
      exact newEntry_ok now
    · exact hE p h1

theorem SafeInv_step (s : SOEPortHandler) (r : RxReader) (a : RxAction) (s1 : SOEPortHandler)
    (r1 : RxReader) (res : Option ReadResult) (n : Nat)
    (hk : KeysInv s r n) (hn : n + 1 < UINT_MOD) (hopen : s.port_open = true)
    (hs : SafeInv s r) (hen : enabled s r a = true)
    (h : rxStep s r a = some (s1, r1, res)) : SafeInv s1 r1 := by
  obtain ⟨hE, hB, hreq⟩ := hs
  have hL : SERIAL_RX_ENTRY_LEN = 1024 := rfl
  -- the common part: an entry was made, then bytes were appended at `next_free_rxid`
  have hfill : ∀ now s0, Made now s s0 → readerFill s0 r = some (s1, r1) →
      SafeInv s1 r1 := by
    intro now s0 hmade hf
    obtain ⟨ht, hb1, hb2, hp⟩ := readerFill_touch s0 r s1 r1 hf
    have hE1 := Touched_entries ht (Made_entries hmade hE)
    refine ⟨hE1, ⟨by rw [hb1]; exact hB.1, ?_⟩, ?_⟩
    · rcases hb2 with h2 | h2
      · rw [h2]; exact hB.2
      · rw [h2]; exact Nat.zero_le _
    · rcases hp with hp | ⟨e, he, hp⟩
      · rw [hp]
        trivial
      · rw [hp]
        simp only
        have := mem_EntryOk s1 _ e hE1 he
        rw [capacity_eq e.length this.2]
        omega
  cases a with
  | readerEnter now =>
    simp only [rxStep] at h
    cases hpc0 : r.pc with
    | top =>
      rw [hpc0] at h
      simp only [Option.map_eq_some', Prod.mk.injEq] at h
      obtain ⟨⟨s2, r2⟩, hstep, rfl, rfl, rfl⟩ := h
      rcases readerEnter_made now s _ _ _ hstep with
        ⟨hclosed, _⟩ | ⟨rfl, b1, b2, h4⟩ | ⟨s0, hmade, hf⟩
      · rw [hopen] at hclosed
        cases hclosed
      · refine ⟨hE, ⟨by rw [b1]; exact hB.1, by rw [b2]; exact hB.2⟩, ?_⟩
        rw [h4]
        trivial
      · exact hfill now s0 hmade hf
    | waitRoom => rw [hpc0] at h; cases h
    | reading key req => rw [hpc0] at h; cases h
    | exited => rw [hpc0] at h; cases h
  | readerWake now =>
    simp only [rxStep] at h
    cases hpc0 : r.pc with
    | waitRoom =>
      rw [hpc0] at h
      simp only [Option.map_eq_some', Prod.mk.injEq] at h
      obtain ⟨⟨s2, r2⟩, hstep, rfl, rfl, rfl⟩ := h
      obtain ⟨s0, hmade, hf⟩ := readerWake_made now s _ _ _ hstep
      exact hfill now s0 hmade hf
    | top => rw [hpc0] at h; cases h
    | reading key req => rw [hpc0] at h; cases h
    | exited => rw [hpc0] at h; cases h
  | readerReturn data ret =>
    simp only [rxStep] at h
    cases hpc0 : r.pc with
    | reading key req =>
      rw [hpc0] at h hreq
      simp only at hreq
      simp only [enabled, hpc0, decide_eq_true_eq] at hen
      simp only [Option.map_eq_some', Prod.mk.injEq] at h
      obtain ⟨⟨s2, r2⟩, hstep, rfl, rfl, rfl⟩ := h
      obtain ⟨h1, h2, h3, h4⟩ := readerReturn_touch data ret key s _ _ _ hstep
      have hM : UINT_MOD = 4294967296 := rfl
      have hret : ret % UINT_MOD = ret := Nat.mod_eq_of_lt (by omega)
      have hbuf : BufferOk r2 := by
        constructor
        · rw [h2, List.length_append, List.length_drop, hB.1]
          omega
        · rcases h3 with h3 | h3
          · rw [h3, hret]
            omega
          · rw [h3]
            exact Nat.zero_le _
      refine ⟨?_, hbuf, by rw [h1]; trivial⟩
      rcases h4 with rfl | ⟨_, ht⟩
      · exact hE
      · exact Touched_entries ht hE
    | top => rw [hpc0] at h; cases h
    | waitRoom => rw [hpc0] at h; cases h
    | exited => rw [hpc0] at h; cases h
  | read now =>
    obtain ⟨hr, _, _, _, _, _, _, h8⟩ := call_step_keys s r _ s1 r1 res n hk hn hopen
      (Or.inl ⟨now, rfl⟩) h
    rw [hr]
    refine ⟨?_, hB, hreq⟩
    intro p hp
    obtain ⟨q, hq, _, e1, e2⟩ := h8 p hp
    exact ⟨by rw [e1]; exact (hE q hq).1, by rw [e2]; exact (hE q hq).2⟩
  | confirmReception rxid =>
    obtain ⟨hr, _, _, _, _, _, _, h8⟩ := call_step_keys s r _ s1 r1 res n hk hn hopen
      (Or.inr (Or.inl ⟨rxid, rfl⟩)) h
    rw [hr]
    refine ⟨?_, hB, hreq⟩
    intro p hp
    obtain ⟨q, hq, _, e1, e2⟩ := h8 p hp
    exact ⟨by rw [e1]; exact (hE q hq).1, by rw [e2]; exact (hE q hq).2⟩
  | confirmTransmission rxid =>
    obtain ⟨hr, _, _, _, _, _, _, h8⟩ := call_step_keys s r _ s1 r1 res n hk hn hopen
      (Or.inr (Or.inr ⟨rxid, rfl⟩)) h
    rw [hr]
    refine ⟨?_, hB, hreq⟩
    intro p hp
    obtain ⟨q, hq, _, e1, e2⟩ := h8 p hp
    exact ⟨by rw [e1]; exact (hE q hq).1, by rw [e2]; exact (hE q hq).2⟩

theorem SafeInv_init : SafeInv init readerInit :=
  ⟨fun _ hp => (nomatch hp), ⟨by simp [readerInit], Nat.zero_le _⟩, trivial⟩

/-- The entries in short executions: in every state reached from the initial state of
an open port by fewer than `2^32 - 1` steps, each a step of the reader thread with the
serial driver storing and returning at most the number of bytes requested, or a call
of `read`, `confirmReception` or `confirmTransmission` with any argument, every entry
of the RX stack has a length of at most `SERIAL_RX_ENTRY_LEN` and a payload buffer of
`SERIAL_RX_ENTRY_LEN` bytes; and every such step that can be taken next is carried out
by the code without a copy that leaves a buffer, and leads to such a state again. -/
theorem rx_entries_within_capacity (acts : List RxAction) (s : SOEPortHandler) (r : RxReader)
    (log : List ReadResult)
    (hrun : rxRun enabled acts init readerInit [] = some (s, r, log))
    (hlen : acts.length < 2 ^ 32 - 1) :
    (∀ p ∈ s.rx_stack,
      p.2.length ≤ SERIAL_RX_ENTRY_LEN ∧ p.2.payload.length = SERIAL_RX_ENTRY_LEN) ∧
    (∀ a, enabled s r a = true →
      ∃ s1 r1 res, rxStep s r a = some (s1, r1, res) ∧
        ∀ p ∈ s1.rx_stack,
          p.2.length ≤ SERIAL_RX_ENTRY_LEN ∧ p.2.payload.length = SERIAL_RX_ENTRY_LEN) := by
  have hM : UINT_MOD = 4294967296 := rfl
  have hpow : (2 : Nat) ^ 32 - 1 = 4294967295 := by norm_num
  rw [hpow] at hlen
  have key := rxRun_invariant enabled
    (fun past s r _ => (KeysInv s r past.length ∧ s.port_open = true) ∧ SafeInv s r)
    acts.length
    (by
      intro past s r log a s1 r1 res hi hb hg hs
      obtain ⟨⟨i1, i2⟩, i3⟩ := hi
      have k1 := KeysInv_step s r a s1 r1 res _ i1 (by omega) i2 hs
      exact ⟨by simpa using k1, SafeInv_step s r a s1 r1 res _ i1 (by omega) i2 i3 hg hs⟩)
    acts [] init readerInit [] s r log ⟨⟨KeysInv_init, rfl⟩, SafeInv_init⟩ (by simp) hrun
  obtain ⟨⟨i1, i2⟩, i3⟩ := key
  simp only [List.nil_append] at i1
  refine ⟨fun p hp => ⟨(i3.1 p hp).2, (i3.1 p hp).1⟩, ?_⟩
  intro a hen
  obtain ⟨⟨s1, r1, res⟩, hx⟩ := enabled_progress s r a _ i1 i3 hen
  have hs1 := SafeInv_step s r a s1 r1 res _ i1 (by omega) i2 i3 hen hx
  exact ⟨s1, r1, res, hx, fun p hp => ⟨(hs1.1 p hp).2, (hs1.1 p hp).1⟩⟩

/-- The entries after the execution `interleaved`, in which `read` hands out entry 0
while the reader is inside `readBytesConsecutive`: both entries hold two bytes in
buffers of 1024 bytes. -/
theorem rx_entries_within_capacity_witness :
    rxRun enabled interleaved init readerInit []
      = some (stateInterleaved, readerInterleaved,
          [⟨0, 1 :: 2 :: List.replicate 1022 0, 2⟩]) ∧
    (∀ p ∈ stateInterleaved.rx_stack,
      p.2.length ≤ SERIAL_RX_ENTRY_LEN ∧ p.2.payload.length = SERIAL_RX_ENTRY_LEN) :=
  ⟨by decide,
   (rx_entries_within_capacity interleaved stateInterleaved readerInterleaved
      [⟨0, 1 :: 2 :: List.replicate 1022 0, 2⟩] (by decide) (by decide)).1⟩

end SOEPortHandler

/-! ### Executions up to the wrap of the rxid counters -/

namespace SOEPortHandler

theorem rxRun_anyStep (g : SOEPortHandler → RxReader → RxAction → Bool)
    (acts : List RxAction) :
    ∀ (s : SOEPortHandler) (r : RxReader) (log : List ReadResult)
      (x : SOEPortHandler × RxReader × List ReadResult),
      rxRun g acts s r log = some x → rxRun anyStep acts s r log = some x := by
  induction acts with
  | nil => intro s r log x h; exact h
  | cons a rest ih =>
    intro s r log x h
    simp only [rxRun] at h ⊢
    by_cases hg : g s r a = true
    · simp only [hg, if_true] at h
      simp only [anyStep, if_true]
      cases hs : rxStep s r a with
      | none => simp [hs] at h
      | some y =>
        obtain ⟨s1, r1, res⟩ := y
        simp only [hs] at h ⊢
        exact ih s1 r1 _ x h
    · simp [hg] at h

theorem rxRun_log (g : SOEPortHandler → RxReader → RxAction → Bool)
    (acts : List RxAction) :
    ∀ (s : SOEPortHandler) (r : RxReader) (log : List ReadResult)
      (s1 : SOEPortHandler) (r1 : RxReader) (log1 : List ReadResult),
      rxRun g acts s r [] = some (s1, r1, log1) →
      rxRun g acts s r log = some (s1, r1, log ++ log1) := by
  induction acts using List.reverseRecOn with
  | nil =>
    intro s r log s1 r1 log1 h
    simp only [rxRun, Option.some.injEq, Prod.mk.injEq] at h
    obtain ⟨rfl, rfl, rfl⟩ := h
    simp [rxRun]
  | append_singleton rest a ih =>
    intro s r log s1 r1 log1 h
    rw [rxRun_append] at h ⊢
    cases h0 : rxRun g rest s r [] with
    | none => simp [h0] at h
    | some y =>
      obtain ⟨s0, r0, log0⟩ := y
      rw [ih s r log s0 r0 log0 h0]
      simp only [h0, Option.some_bind, rxRun] at h ⊢
      by_cases hg : g s0 r0 a = true
      · simp only [hg, if_true] at h ⊢
        cases hs : rxStep s0 r0 a with
        | none => simp [hs] at h
        | some z =>
          obtain ⟨s2, r2, res⟩ := z
          simp only [hs, Option.some.injEq, Prod.mk.injEq] at h ⊢
          obtain ⟨rfl, rfl, rfl⟩ := h
          exact ⟨rfl, rfl, by rw [List.append_assoc]⟩
      · simp [hg] at h

theorem drain_round (n b : Nat) (log : List ReadResult) (hn : n + 1 < UINT_MOD) :
    rxRun enabled (drainRound n) (drained n)
      ⟨b :: List.replicate 1023 0, 0, ReaderPc.top⟩ log
      = some (drained (n + 1), readerDrained,
          log ++ [⟨n, 7 :: List.replicate 1023 0, 1⟩]) := by
  have hM : UINT_MOD = 4294967296 := rfl
  have hcap : capacity 0 = 1024 := by decide
  have hA : rxStep (drained n) ⟨b :: List.replicate 1023 0, 0, ReaderPc.top⟩
      (RxAction.readerEnter 0)
      = some (⟨true, 0, [], n, n, n, [(n, newEntry 0)]⟩,
          ⟨b :: List.replicate 1023 0, 0, ReaderPc.reading n 1024⟩, none) := by
    simp [rxStep, readerEnter, drained, StdMap.find, StdMap.insert, readerFill, newEntry,
      SERIAL_RX_ENTRY_LEN, hcap]
  have hB := flood_return ⟨true, 0, [], n, n, n, [(n, newEntry 0)]⟩
    ⟨b :: List.replicate 1023 0, 0, ReaderPc.reading n 1024⟩ rfl
    (by simp [StdMap.find])
  have hu : StdMap.update n (fun _ => (⟨1, 7 :: List.replicate 1023 0, 0, false⟩ : rx_entry))
      [(n, newEntry 0)] = [(n, ⟨1, 7 :: List.replicate 1023 0, 0, false⟩)] := by
    simp only [StdMap.update, List.map_cons, List.map_nil, if_true]
  have hC := flood_read
    ⟨true, 0, [], n, n, n, [(n, ⟨1, 7 :: List.replicate 1023 0, 0, false⟩)]⟩
    ⟨1, 7 :: List.replicate 1023 0, 0, false⟩ rfl (by simp [StdMap.find])
    (Nat.succ_pos 0) rfl hn readerDrained
  have hu2 : StdMap.update n (setResend 0)
      [(n, (⟨1, 7 :: List.replicate 1023 0, 0, false⟩ : rx_entry))]
      = [(n, ⟨1, 7 :: List.replicate 1023 0, 100, false⟩)] := by
    simp only [StdMap.update, List.map_cons, List.map_nil, if_true]
    rfl
  have e2 : sub32 (n + 1) n = 1 := by
    unfold sub32
    rw [hM]
    omega
  have hD : rxStep
      ⟨true, 0, [], n + 1, n + 1, n, [(n, ⟨1, 7 :: List.replicate 1023 0, 100, false⟩)]⟩
      readerDrained (RxAction.confirmTransmission n)
      = some (drained (n + 1), readerDrained, none) := by
    have e3 : (n + 1) % UINT_MOD = n + 1 := Nat.mod_eq_of_lt hn
    simp only [rxStep, confirmTransmission, gt_iff_lt, lt_self_iff_false, false_and, if_false,
      e2, eraseLoop, StdMap.erase, e3, drained]
    simp
  dsimp only at hB hC
  rw [hu] at hB
  rw [hu2] at hC
  have hdrop : (7 :: List.drop 1 (b :: List.replicate 1023 0)) = 7 :: List.replicate 1023 0 :=
    rfl
  rw [hdrop] at hB
  have hE1 : enabled (drained n) ⟨b :: List.replicate 1023 0, 0, ReaderPc.top⟩
      (RxAction.readerEnter 0) = true := by
    simp [enabled]
  have hE2 : enabled ⟨true, 0, [], n, n, n, [(n, newEntry 0)]⟩
      ⟨b :: List.replicate 1023 0, 0, ReaderPc.reading n 1024⟩
      (RxAction.readerReturn [7] 1) = true := by
    simp [enabled]
  have hR : readerDrained = ⟨7 :: List.replicate 1023 0, 0, ReaderPc.top⟩ := rfl
  rw [← hR] at hB
  simp only [drainRound, rxRun, hE1, hE2, hA, hB, hC, hD, enabled, if_true,
    Option.toList, List.append_nil]
  simp

theorem drain_run (a : Nat) (n : Nat) :
    ∀ (b : Nat), 0 < n → a + n < UINT_MOD →
      ∃ log, rxRun enabled (drainFrom a n) (drained a)
        ⟨b :: List.replicate 1023 0, 0, ReaderPc.top⟩ []
        = some (drained (a + n), readerDrained, log) := by
  induction n with
  | zero => intro b h; omega
  | succ n ih =>
    intro b _ hlt
    rcases Nat.eq_zero_or_pos n with h0 | h0
    · subst h0
      exact ⟨_, by
        show rxRun enabled ([] ++ drainRound (a + 0)) _ _ _ = _
        exact drain_round a b [] (by omega)⟩
    · obtain ⟨log, h⟩ := ih b h0 (by omega)
      refine ⟨log ++ [⟨a + n, 7 :: List.replicate 1023 0, 1⟩], ?_⟩
      show rxRun enabled (drainFrom a n ++ drainRound (a + n)) _ _ _ = _
      rw [rxRun_append, h]
      exact drain_round (a + n) 7 log (by omega)

theorem rxRun_append_some (g : SOEPortHandler → RxReader → RxAction → Bool)
    (a b : List RxAction) (s : SOEPortHandler) (r : RxReader) (log : List ReadResult)
    (s1 : SOEPortHandler) (r1 : RxReader) (log1 : List ReadResult)
    (h : rxRun g a s r log = some (s1, r1, log1)) :
    rxRun g (a ++ b) s r log = rxRun g b s1 r1 log1 := by
  rw [rxRun_append, h]
  rfl

theorem drain_from (a n m b : Nat) (h0 : 0 < n) (hm : a + n = m) (hlt : m < UINT_MOD) :
    ∃ log, rxRun anyStep (drainFrom a n) (drained a)
      ⟨b :: List.replicate 1023 0, 0, ReaderPc.top⟩ []
      = some (drained m, readerDrained, log) := by
  subst hm
  obtain ⟨log, h⟩ := drain_run a n b h0 hlt
  exact ⟨log, rxRun_anyStep enabled _ _ _ _ _ h⟩

end SOEPortHandler

/-! ### The entry handed out at the wrap of `next_transmit_rxid` -/

namespace SOEPortHandler

theorem drain_reaches (n : Nat) (h0 : 0 < n) (hn : n < UINT_MOD) :
    ∃ log, rxRun enabled (drainFrom 0 n) init readerInit []
      = some (drained n, readerDrained, log) := by
  obtain ⟨log, h⟩ := drain_run 0 n 0 h0 (by omega)
  rw [Nat.zero_add] at h
  exact ⟨log, h⟩

/-- C36 (defect in the code): after `2^32 - 1` rounds in which one byte is received,
transmitted and confirmed, the three rxid counters are `0xFFFFFFFF` and the RX stack
is empty. The reader stores the byte 01 in the entry `0xFFFFFFFF` and `read` hands
this entry out with length 1: `next_transmit_rxid` wraps to 0 and, since
`0xFFFFFFFF < 0` is false, `next_free_rxid` stays `0xFFFFFFFF`. The next iteration
of the reader appends the byte 02 to the entry that was handed out: its length is
now 2. In the state reached `read` returns false at every clock reading, so the
byte 02 is not handed out. -/
theorem transmitted_entry_grows_at_wrap :
    (∃ log, rxRun anyStep (drainFrom 0 4294967295) init readerInit []
      = some (drained 4294967295, readerDrained, log)) ∧
    rxRun anyStep storeOne (drained 4294967295) readerDrained []
      = some (stateLastId, ⟨1 :: List.replicate 1023 0, 0, ReaderPc.top⟩, []) ∧
    read stateLastId 0 = (some ⟨4294967295, 1 :: List.replicate 1023 0, 1⟩, stateLastSent) ∧
    stateLastSent.next_transmit_rxid = 0 ∧ stateLastSent.next_free_rxid = 4294967295 ∧
    rxRun anyStep storeTwo stateLastSent ⟨1 :: List.replicate 1023 0, 0, ReaderPc.top⟩ []
      = some (stateLastGrown, ⟨2 :: List.replicate 1023 0, 0, ReaderPc.top⟩, []) ∧
    StdMap.find stateLastGrown.rx_stack 4294967295
      = some ⟨2, 1 :: 2 :: List.replicate 1022 0, 100, false⟩ ∧
    ∀ now, read stateLastGrown now = (none, stateLastGrown) := by
  refine ⟨?_, by decide, by decide, rfl, rfl, by decide, by decide, ?_⟩
  · obtain ⟨log, h⟩ := drain_reaches 4294967295 (by decide) (by decide)
    exact ⟨log, rxRun_anyStep enabled _ _ _ _ _ h⟩
  · intro now
    exact read_nothing stateLastGrown now (Or.inr ⟨rfl, Or.inl rfl⟩)

end SOEPortHandler

/-! ### The reference `stackEntry` at the wrap of `next_free_rxid` -/

namespace SOEPortHandler

/-- C35 (defect in the code): after `2^32 - 3` rounds in which one byte is received,
transmitted and confirmed, the execution `wrapErase` is one in which the driver
always keeps to its request and every entry has at most 1024 bytes. At its end the
reader is inside `readBytesConsecutive` with `stackEntry` referring to the entry 0,
`read` has set `next_free_rxid` from 0 back to `0xFFFFFFFE`, where an entry stands,
and the entry 0 is erased. When `readBytesConsecutive` returns one byte, the test of
line 251 lets the reader go on and lines 254-261 read and write through `stackEntry`,
which refers to no entry of the RX stack any more: the step cannot be carried out. -/
theorem reader_writes_through_erased_entry :
    (∃ log, rxRun enabled (drainFrom 0 4294967293) init readerInit []
      = some (drained 4294967293, readerDrained, log)) ∧
    rxRun enabled wrapErase (drained 4294967293) readerDrained []
      = some (stateErased, readerStale, [⟨4294967293, List.replicate 1024 7, 1024⟩]) ∧
    (∀ p ∈ stateErased.rx_stack, p.2.length ≤ SERIAL_RX_ENTRY_LEN) ∧
    StdMap.count stateErased.rx_stack stateErased.next_free_rxid = true ∧
    StdMap.find stateErased.rx_stack 0 = none ∧
    enabled stateErased readerStale (RxAction.readerReturn [9] 1) = true ∧
    rxStep stateErased readerStale (RxAction.readerReturn [9] 1) = none := by
  refine ⟨drain_reaches 4294967293 (by decide) (by decide), by decide!, by decide, by decide,
    by decide, by decide, by decide⟩

end SOEPortHandler

/-! ### Successive calls of `read` at the wrap of `next_transmit_rxid` -/

namespace SOEPortHandler

theorem readRepeat_succ (now n : Nat) (s s1 : SOEPortHandler) (x : Option ReadResult)
    (h : read s now = (x, s1)) :
    (readRepeat now (n + 1) s).1 = x :: (readRepeat now n s1).1 := by
  simp only [readRepeat, h]

/-- C32 (defect in the code): after `2^32 - 2` rounds in which one byte is received,
transmitted and confirmed, the execution `wrapUnsent` leaves three entries on the RX
stack, at the rxids `0xFFFFFFFE`, `0xFFFFFFFF` and 0, with `last_transmitted_rxid = 0`
and `next_transmit_rxid = 0xFFFFFFFE`. Five calls of `read` at the clock reading 50,
with nothing in between, return true four times: the scan of lines 77-90 hands out
the entry 0, the new-data branch hands out `0xFFFFFFFE` and `0xFFFFFFFF`, and when
`next_transmit_rxid` has wrapped to 0 the new-data branch hands out the entry 0 a
second time, before `INET_TX_REP_INTERVAL` has elapsed and with no false return in
between. -/
theorem read_hands_out_entry_twice_at_wrap :
    (∃ log, rxRun anyStep (drainFrom 0 4294967294) init readerInit []
      = some (drained 4294967294, readerDrained, log)) ∧
    rxRun anyStep wrapUnsent (drained 4294967294) readerDrained []
      = some (stateAcrossWrap, ⟨5 :: List.replicate 1023 7, 0, ReaderPc.top⟩, []) ∧
    StdMap.size stateAcrossWrap.rx_stack = 3 ∧
    (readRepeat 50 5 stateAcrossWrap).1
      = [some ⟨0, 5 :: List.replicate 1023 0, 1⟩,
         some ⟨4294967294, List.replicate 1024 7, 1024⟩,
         some ⟨4294967295, List.replicate 1024 7, 1024⟩,
         some ⟨0, 5 :: List.replicate 1023 0, 1⟩, none] := by
  refine ⟨?_, by decide!, rfl, ?_⟩
  · obtain ⟨log, h⟩ := drain_reaches 4294967294 (by decide) (by decide)
    exact ⟨log, rxRun_anyStep enabled _ _ _ _ _ h⟩
  · have h1 : read stateAcrossWrap 50 = (some ⟨0, 5 :: List.replicate 1023 0, 1⟩,
        ⟨true, 0, [], 0, 4294967294, 0,
          [(0, ⟨1, 5 :: List.replicate 1023 0, 150, false⟩),
           (4294967294, ⟨1024, List.replicate 1024 7, 0, false⟩),
           (4294967295, ⟨1024, List.replicate 1024 7, 0, false⟩)]⟩) :=
      read_resend stateAcrossWrap 50 0 ⟨1, 5 :: List.replicate 1023 0, 0, false⟩ rfl
        (scanResend_first stateAcrossWrap.rx_stack 50 4294967294 0
          ⟨1, 5 :: List.replicate 1023 0, 0, false⟩ (by decide) rfl (by decide) _ _ (Nat.le_refl _)
          (Nat.le_refl _) (fun i e1 a b _ => by omega))
    have h2 : read ⟨true, 0, [], 0, 4294967294, 0,
          [(0, ⟨1, 5 :: List.replicate 1023 0, 150, false⟩),
           (4294967294, ⟨1024, List.replicate 1024 7, 0, false⟩),
           (4294967295, ⟨1024, List.replicate 1024 7, 0, false⟩)]⟩ 50
        = (some ⟨4294967294, List.replicate 1024 7, 1024⟩,
        ⟨true, 0, [], 4294967295, 4294967295, 0,
          [(0, ⟨1, 5 :: List.replicate 1023 0, 150, false⟩),
           (4294967294, ⟨1024, List.replicate 1024 7, 150, false⟩),
           (4294967295, ⟨1024, List.replicate 1024 7, 0, false⟩)]⟩) :=
      read_fresh _ 50 ⟨1024, List.replicate 1024 7, 0, false⟩ rfl
        (scanResend_none _ 50 _ _ _ (fun i e1 _ hi hf => by
          have hm := StdMap.mem_of_find _ _ _ hf
          simp only [List.mem_cons, Prod.mk.injEq, List.mem_nil_iff, or_false] at hm
          rcases hm with ⟨_, rfl⟩ | ⟨h, _⟩ | ⟨h, _⟩
          · exact Or.inr (by decide)
          · exact absurd hi (by rw [h]; decide)
          · exact absurd hi (by rw [h]; decide)))
        rfl (by decide)
    have h3 : read ⟨true, 0, [], 4294967295, 4294967295, 0,
          [(0, ⟨1, 5 :: List.replicate 1023 0, 150, false⟩),
           (4294967294, ⟨1024, List.replicate 1024 7, 150, false⟩),
           (4294967295, ⟨1024, List.replicate 1024 7, 0, false⟩)]⟩ 50
        = (some ⟨4294967295, List.replicate 1024 7, 1024⟩,
        ⟨true, 0, [], 4294967295, 0, 0,
          [(0, ⟨1, 5 :: List.replicate 1023 0, 150, false⟩),
           (4294967294, ⟨1024, List.replicate 1024 7, 150, false⟩),
           (4294967295, ⟨1024, List.replicate 1024 7, 150, false⟩)]⟩) :=
      read_fresh _ 50 ⟨1024, List.replicate 1024 7, 0, false⟩ rfl
        (scanResend_none _ 50 _ _ _ (fun i e1 _ hi hf => by
          have hm := StdMap.mem_of_find _ _ _ hf
          simp only [List.mem_cons, Prod.mk.injEq, List.mem_nil_iff, or_false] at hm
          rcases hm with ⟨_, rfl⟩ | ⟨_, rfl⟩ | ⟨h, _⟩
          · exact Or.inr (by decide)
          · exact Or.inr (by decide)
          · exact absurd hi (by rw [h]; decide)))
        rfl (by decide)
    have h4 : read ⟨true, 0, [], 4294967295, 0, 0,
          [(0, ⟨1, 5 :: List.replicate 1023 0, 150, false⟩),
           (4294967294, ⟨1024, List.replicate 1024 7, 150, false⟩),
           (4294967295, ⟨1024, List.replicate 1024 7, 150, false⟩)]⟩ 50
        = (some ⟨0, 5 :: List.replicate 1023 0, 1⟩,
        ⟨true, 0, [], 4294967295, 1, 0,
          [(0, ⟨1, 5 :: List.replicate 1023 0, 150, false⟩),
           (4294967294, ⟨1024, List.replicate 1024 7, 150, false⟩),
           (4294967295, ⟨1024, List.replicate 1024 7, 150, false⟩)]⟩) :=
      read_fresh _ 50 ⟨1, 5 :: List.replicate 1023 0, 150, false⟩ rfl rfl rfl (by decide)
    have h5 : read ⟨true, 0, [], 4294967295, 1, 0,
          [(0, ⟨1, 5 :: List.replicate 1023 0, 150, false⟩),
           (4294967294, ⟨1024, List.replicate 1024 7, 150, false⟩),
           (4294967295, ⟨1024, List.replicate 1024 7, 150, false⟩)]⟩ 50
        = (none, ⟨true, 0, [], 4294967295, 1, 0,
          [(0, ⟨1, 5 :: List.replicate 1023 0, 150, false⟩),
           (4294967294, ⟨1024, List.replicate 1024 7, 150, false⟩),
           (4294967295, ⟨1024, List.replicate 1024 7, 150, false⟩)]⟩) :=
      read_nothing _ 50 (Or.inr ⟨rfl, Or.inl rfl⟩)
    rw [readRepeat_succ 50 4 _ _ _ h1, readRepeat_succ 50 3 _ _ _ h2,
      readRepeat_succ 50 2 _ _ _ h3, readRepeat_succ 50 1 _ _ _ h4,
      readRepeat_succ 50 0 _ _ _ h5]
    rfl

end SOEPortHandler

/-! ### A confirmed rxid across the wrap of the counters -/

namespace SOEPortHandler

theorem confirmedOne_run :
    rxRun anyStep confirmedOne init readerInit []
      = some (stateConfirmed, readerAfterOne, [⟨0, 1 :: List.replicate 1023 0, 1⟩]) ∧
    rxRun anyStep [RxAction.confirmTransmission 0] stateConfirmed readerAfterOne []
      = some (drained 1, readerAfterOne, []) := by
  decide

theorem wrapReuse_run :
    rxRun anyStep wrapReuse (drained 4294967295) readerDrained []
      = some (stateReused, ⟨5 :: List.replicate 1023 7, 0, ReaderPc.top⟩, logReused) := by
  decide!

/-- C16 fails on the code: the entry 0 is handed out and confirmed (`confirmedOne`).
In the continuation the transmission of 0 is confirmed, `2^32 - 2` rounds follow in
which one byte is received, transmitted and confirmed, and then the reader fills the
entry `0xFFFFFFFF` and stores a byte in the entry after it, which has the rxid 0
again. The second of two calls of `read` returns the rxid 0. -/
theorem confirmed_rxid_handed_out_after_wrap :
    rxRun anyStep confirmedOne init readerInit []
      = some (stateConfirmed, readerAfterOne, [⟨0, 1 :: List.replicate 1023 0, 1⟩]) ∧
    0 < stateConfirmed.next_transmit_rxid ∧
    StdMap.find stateConfirmed.rx_stack 0
      = some ⟨1, 1 :: List.replicate 1023 0, 101, true⟩ ∧
    ∃ log,
      rxRun anyStep ([RxAction.confirmTransmission 0] ++ drainFrom 1 4294967294 ++ wrapReuse)
        stateConfirmed readerAfterOne []
        = some (stateReused, ⟨5 :: List.replicate 1023 7, 0, ReaderPc.top⟩, log ++ logReused) ∧
      ∃ res ∈ log ++ logReused, res.rxid = 0 := by
  refine ⟨confirmedOne_run.1, Nat.succ_pos 0, rfl, ?_⟩
  obtain ⟨log, h1⟩ := drain_from 1 4294967294 4294967295 1 (by decide) rfl (by decide)
  refine ⟨log, ?_, ⟨0, 5 :: List.replicate 1023 0, 1⟩, ?_, rfl⟩
  · have h2 : rxRun anyStep (drainFrom 1 4294967294) (drained 1) readerAfterOne []
        = some (drained 4294967295, readerDrained, log) := h1
    have hA := rxRun_append_some anyStep [RxAction.confirmTransmission 0]
      (drainFrom 1 4294967294) stateConfirmed readerAfterOne [] _ _ _ confirmedOne_run.2
    have hB := rxRun_append_some anyStep
      ([RxAction.confirmTransmission 0] ++ drainFrom 1 4294967294) wrapReuse
      stateConfirmed readerAfterOne [] _ _ _ (hA.trans h2)
    exact hB.trans (rxRun_log anyStep wrapReuse _ _ log _ _ _ wrapReuse_run)
  · exact List.mem_append_right _ (List.mem_cons_of_mem _ (List.mem_singleton.mpr rfl))

/-- C16 as amended: take any state reached from the initial state in which an entry
`id` that `read` has handed out (`id < next_transmit_rxid`) is confirmed. In every
continuation by reader steps and calls of `read` (at any clock readings),
`confirmReception` and `confirmTransmission` (with any arguments), no call of `read`
returns `id`, as long as the steps are taken while `next_free_rxid` is below
`2^32 - 1`. -/
theorem confirmed_entry_not_resent_before_wrap (acts1 acts2 : List RxAction) (id : Nat)
    (e : rx_entry) (s : SOEPortHandler) (r : RxReader) (log1 : List ReadResult)
    (s2 : SOEPortHandler) (r2 : RxReader) (log2 : List ReadResult)
    (hrun1 : rxRun beforeWrap acts1 init readerInit [] = some (s, r, log1))
    (hsent : id < s.next_transmit_rxid)
    (hfind : StdMap.find s.rx_stack id = some e) (hconf : e.rx_confirmed = true)
    (hrun2 : rxRun beforeWrap acts2 s r [] = some (s2, r2, log2)) :
    ∀ res ∈ log2, res.rxid ≠ id := by
  have h1 := rxRun_invariant beforeWrap
    (fun _ s _ _ => s.next_transmit_rxid ≤ s.next_free_rxid) acts1.length
    (fun past s r log a s1 r1 res hinv _ hg hs => by
      simp only [beforeWrap, decide_eq_true_eq] at hg
      exact (free_bound_step s r a s1 r1 res s.next_free_rxid ⟨hinv, Nat.le_refl _⟩ hg hs).1)
    acts1 [] init readerInit [] s r log1 (Nat.le_refl _) (by simp) hrun1
  have h := rxRun_invariant beforeWrap
    (fun _ s _ log => ConfirmedInv id s s.next_free_rxid ∧ ∀ res ∈ log, res.rxid ≠ id)
    acts2.length
    (fun past s r log a s1 r1 res hinv _ hg hs => by
      simp only [beforeWrap, decide_eq_true_eq] at hg
      obtain ⟨⟨k1, k2, _, k4⟩, k5⟩ :=
        ConfirmedInv_step id s r a s1 r1 res s.next_free_rxid hinv.1 hg hs
      refine ⟨⟨k1, k2, Nat.le_refl _, k4⟩, ?_⟩
      intro x hx
      rw [List.mem_append] at hx
      rcases hx with hx | hx
      · exact hinv.2 x hx
      · cases res with
        | none => simp at hx
        | some y =>
          simp only [Option.toList, List.mem_singleton] at hx
          subst hx
          exact k5 x rfl)
    acts2 [] s r [] s2 r2 log2
    ⟨⟨hsent, h1, Nat.le_refl _, fun e1 he1 => by
        rw [hfind] at he1
        cases he1
        exact hconf⟩, by simp⟩
    (by simp) hrun2
  exact h.2

/-- C16 as amended, on an execution: entry 0 is transmitted and confirmed; `read` is
then called at the clock readings 1000, 2000 and 3000, far past the resend time 101
of entry 0, and hands out entry 1 twice but never entry 0. -/
theorem confirmed_entry_not_resent_before_wrap_witness :
    rxRun beforeWrap confirmedOne init readerInit []
      = some (stateConfirmed, readerAfterOne, [⟨0, 1 :: List.replicate 1023 0, 1⟩]) ∧
    rxRun beforeWrap laterReads stateConfirmed readerAfterOne []
      = some (stateLater, ⟨2 :: List.replicate 1023 0, 0, ReaderPc.top⟩, logLater) ∧
    ∀ res ∈ logLater, res.rxid ≠ 0 :=
  ⟨by decide, by decide,
   confirmed_entry_not_resent_before_wrap confirmedOne laterReads 0
     ⟨1, 1 :: List.replicate 1023 0, 101, true⟩ stateConfirmed readerAfterOne
     [⟨0, 1 :: List.replicate 1023 0, 1⟩] stateLater
     ⟨2 :: List.replicate 1023 0, 0, ReaderPc.top⟩ logLater
     (by decide) (by decide) (by decide) rfl (by decide)⟩

end SOEPortHandler

/-! ### The rxid the reader steps over after it waited for room -/

namespace SOEPortHandler

theorem floodStack_succ (n : Nat) :
    floodStack (n + 1)
      = floodStack n ++ [(n, ⟨1, 7 :: List.replicate 1023 0, 100, false⟩)] := by
  simp only [floodStack, List.range_succ, List.map_append, List.map_cons, List.map_nil]

theorem floodStack_lt (n : Nat) : ∀ p ∈ floodStack n, p.1 < n := by
  intro p hp
  simp only [floodStack, List.mem_map, List.mem_range] at hp
  obtain ⟨k, hk, rfl⟩ := hp
  exact hk

theorem flooded_round (n b : Nat) (log : List ReadResult) (hn : n + 1 < UINT_MOD) :
    rxRun anyStep floodRound (flooded n) ⟨b :: List.replicate 1023 0, 0, ReaderPc.top⟩ log
      = some (flooded (n + 1), readerDrained,
          log ++ [⟨n, 7 :: List.replicate 1023 0, 1⟩]) := by
  have hinv : FloodInv (flooded n) ⟨b :: List.replicate 1023 0, 0, ReaderPc.top⟩ := by
    refine ⟨rfl, rfl, rfl, ?_, rfl, ?_, ?_⟩
    · show (b :: List.replicate 1023 0).length = SERIAL_RX_ENTRY_LEN
      rw [List.length_cons, List.length_replicate]
      rfl
    · intro k hk
      exact StdMap.find_none_of_lt k _ (fun p hp => Nat.lt_of_lt_of_le (floodStack_lt n p hp) hk)
    · show n = (floodStack n).length
      simp only [floodStack, List.length_map, List.length_range]
  have hA := flood_enter (flooded n) ⟨b :: List.replicate 1023 0, 0, ReaderPc.top⟩ hinv
  have e1 : StdMap.insert n (newEntry 0) (floodStack n) = floodStack n ++ [(n, newEntry 0)] :=
    StdMap.insert_last n _ _ (floodStack_lt n)
  have hB := flood_return ⟨true, 0, [], n, n, 0, floodStack n ++ [(n, newEntry 0)]⟩
    ⟨b :: List.replicate 1023 0, 0, ReaderPc.reading n 1024⟩ rfl
    (by
      show StdMap.find (floodStack n ++ [(n, newEntry 0)]) n = some (newEntry 0)
      rw [← e1]
      exact StdMap.find_insert_self _ _ _)
  have e2 : StdMap.update n (fun _ => (⟨1, 7 :: List.replicate 1023 0, 0, false⟩ : rx_entry))
      (floodStack n ++ [(n, newEntry 0)])
      = floodStack n ++ [(n, ⟨1, 7 :: List.replicate 1023 0, 0, false⟩)] :=
    StdMap.update_last n _ _ _ (floodStack_lt n)
  have e3 : StdMap.update n (setResend 0)
      (floodStack n ++ [(n, (⟨1, 7 :: List.replicate 1023 0, 0, false⟩ : rx_entry))])
      = floodStack (n + 1) := by
    rw [StdMap.update_last n _ _ _ (floodStack_lt n), floodStack_succ]
    rfl
  have hC := flood_read
    ⟨true, 0, [], n, n, 0, floodStack n ++ [(n, ⟨1, 7 :: List.replicate 1023 0, 0, false⟩)]⟩
    ⟨1, 7 :: List.replicate 1023 0, 0, false⟩ rfl
    (by
      show StdMap.find (floodStack n ++ [(n, _)]) n = some _
      rw [← e2, StdMap.find_update_self, ← e1, StdMap.find_insert_self]
      rfl)
    (Nat.succ_pos 0) rfl hn readerDrained
  dsimp only [flooded] at hA
  dsimp only at hB hC
  rw [e1] at hA
  rw [e2] at hB
  rw [e3] at hC
  have hdrop : (7 :: List.drop 1 (b :: List.replicate 1023 0)) = 7 :: List.replicate 1023 0 :=
    rfl
  have hR : readerDrained = ⟨7 :: List.replicate 1023 0, 0, ReaderPc.top⟩ := rfl
  rw [hdrop, ← hR] at hB
  simp only [floodRound, rxRun, anyStep, if_true, flooded, hA, hB, hC, Option.toList,
    List.append_nil]

theorem flooded_run (n : Nat) :
    ∀ (k b : Nat) (log : List ReadResult), 0 < n → k + n < UINT_MOD →
      ∃ log1, rxRun anyStep (flood n) (flooded k)
        ⟨b :: List.replicate 1023 0, 0, ReaderPc.top⟩ log
        = some (flooded (k + n), readerDrained, log1) := by
  induction n with
  | zero => intro k b log h; omega
  | succ n ih =>
    intro k b log _ hlt
    have hf : flood (n + 1) = floodRound ++ flood n := by
      simp [flood, List.replicate_succ]
    rw [hf, rxRun_append_some anyStep floodRound (flood n) _ _ _ _ _ _
      (flooded_round k b log (by omega))]
    rcases Nat.eq_zero_or_pos n with h0 | h0
    · subst h0
      exact ⟨_, rfl⟩
    · obtain ⟨log1, h⟩ := ih (k + 1) 7 (log ++ [⟨k, 7 :: List.replicate 1023 0, 1⟩]) h0
        (by omega)
      have e : k + 1 + n = k + (n + 1) := by omega
      rw [e] at h
      exact ⟨log1, h⟩

theorem flooded_reaches (n : Nat) (h0 : 0 < n) (hn : n < UINT_MOD) :
    ∃ log, rxRun anyStep (flood n) init readerInit []
      = some (flooded n, readerDrained, log) := by
  obtain ⟨log, h⟩ := flooded_run n 0 0 [] h0 (by omega)
  rw [Nat.zero_add] at h
  exact ⟨log, h⟩

theorem waitForRoom_waits :
    (rxRun anyStep (waitForRoom.take 3) (flooded 127) readerDrained []).map
      (fun x => (StdMap.size x.1.rx_stack, x.1.next_free_rxid, x.2.1.pc))
      = some (128, 127, ReaderPc.waitRoom) := by
  decide!

theorem waitForRoom_run :
    rxRun anyStep waitForRoom (flooded 127) readerDrained []
      = some (stateSkipped, ⟨9 :: List.replicate 1023 7, 0, ReaderPc.top⟩,
          [⟨127, List.replicate 1024 7, 1024⟩]) := by
  decide!

/-- C18 (defect in the code): after 127 rounds in which one byte is received and
transmitted and no TX_CONFIRM arrives, the reader fills the entry 127 and has to wait
for room on the stack of 128 entries (line 220). While it waits, `read` hands out
the entry 127 and raises `next_free_rxid` to 128 (lines 103-104), and a TX_CONFIRM
for rxid 0 makes room. The reader wakes up and line 222 increments `next_free_rxid`
once more: the new entry gets the rxid 129. The keys of the stack are 1, ..., 127 and
129; the rxid 128, which lies between `last_transmitted_rxid = 1` and
`next_free_rxid = 129`, is not a key. `next_transmit_rxid` is 128, so the new-data
branch of `read` finds no entry: the byte stored in the entry 129 is not handed
out. -/
theorem reader_skips_rxid_after_wait :
    (∃ log, rxRun anyStep (flood 127) init readerInit []
      = some (flooded 127, readerDrained, log)) ∧
    (rxRun anyStep (waitForRoom.take 3) (flooded 127) readerDrained []).map
      (fun x => (StdMap.size x.1.rx_stack, x.1.next_free_rxid, x.2.1.pc))
      = some (SERIAL_RX_STACK_LIMIT, 127, ReaderPc.waitRoom) ∧
    rxRun anyStep waitForRoom (flooded 127) readerDrained []
      = some (stateSkipped, ⟨9 :: List.replicate 1023 7, 0, ReaderPc.top⟩,
          [⟨127, List.replicate 1024 7, 1024⟩]) ∧
    StdMap.keys stateSkipped.rx_stack = List.range' 1 127 ++ [129] ∧
    stateSkipped.last_transmitted_rxid = 1 ∧ stateSkipped.next_transmit_rxid = 128 ∧
    stateSkipped.next_free_rxid = 129 ∧
    StdMap.count stateSkipped.rx_stack 128 = false ∧
    StdMap.find stateSkipped.rx_stack 129 = some ⟨1, 9 :: List.replicate 1023 0, 0, false⟩ ∧
    read stateSkipped 100 = (none, stateSkipped) := by
  refine ⟨flooded_reaches 127 (by decide) (by decide), waitForRoom_waits, waitForRoom_run,
    by decide, rfl, rfl, rfl, by decide, by decide, by decide!⟩

end SOEPortHandler
